import Mathlib

/-!
# NanoCBOR decoder (with packed CBOR support): a shallow embedding of `src/decoder.c`

Conventions of the embedding.

* Memory is one flat byte-addressed space `Mem := Nat → Nat`; a pointer is a natural number,
  `NULL` is `0`, and a byte is read as `mem a % 256`.  Buffers are address ranges of that space.
* Result codes are integers, exactly as in C (`int`).
* `uint64_t` / `uint32_t` / `uint8_t` arithmetic is arithmetic on `Nat` with an explicit
  reduction modulo `2^64` / `2^32` / `2^8` at every place where the C code can wrap or narrow.
  Pointer arithmetic does not wrap.
* A C function that writes through pointer arguments returns the new contents of the objects
  it may have written, next to its `int` result.
* The mutually recursive part of the decoder is defined by structural recursion on an
  additional `fuel` argument; `none` means that the fuel ran out, which corresponds to no
  behaviour of the C code.  Results are always stated as `some _` for enough fuel.
* The decoder is the build with `NANOCBOR_DECODE_PACKED_ENABLED` set.
-/

namespace NanoCBOR

/-! ## Constants of `nanocbor/nanocbor.h` and `nanocbor/config.h` -/

/-- Flat byte-addressed memory. -/
abbrev Mem := Nat → Nat

/-- The byte stored at address `a`. -/
def byteAt (mem : Mem) (a : Nat) : Nat := mem a % 256

/-- Modelled from the spec: result code `OK(0)` of the missing header `nanocbor.h`. -/
def NANOCBOR_OK : Int := 0
/-- Modelled from the spec: result code `NOT_FOUND(-1)` of the missing header. -/
def NANOCBOR_NOT_FOUND : Int := -1
/-- Modelled from the spec: result code `INVALID_TYPE(-2)` of the missing header. -/
def NANOCBOR_ERR_INVALID_TYPE : Int := -2
/-- Modelled from the spec: result code `END(-3)` of the missing header. -/
def NANOCBOR_ERR_END : Int := -3
/-- Modelled from the spec: result code `OVERFLOW(-4)` of the missing header. -/
def NANOCBOR_ERR_OVERFLOW : Int := -4
/-- Modelled from the spec: result code `RECURSION(-5)` of the missing header. -/
def NANOCBOR_ERR_RECURSION : Int := -5
/-- Modelled from the spec: result code `PACKED_FORMAT(-6)` of the missing header. -/
def NANOCBOR_ERR_PACKED_FORMAT : Int := -6
/-- Modelled from the spec: result code `PACKED_MEMORY(-7)` of the missing header. -/
def NANOCBOR_ERR_PACKED_MEMORY : Int := -7
/-- Modelled from the spec: result code `PACKED_UNDEFINED_REFERENCE(-8)` of the missing header. -/
def NANOCBOR_ERR_PACKED_UNDEFINED_REFERENCE : Int := -8

/-- Modelled from the spec: major type 0 (unsigned integer); the header is missing. -/
def NANOCBOR_TYPE_UINT : Int := 0
/-- Modelled from the spec: major type 1 (negative integer). -/
def NANOCBOR_TYPE_NINT : Int := 1
/-- Modelled from the spec: major type 2 (byte string). -/
def NANOCBOR_TYPE_BSTR : Int := 2
/-- Modelled from the spec: major type 3 (text string). -/
def NANOCBOR_TYPE_TSTR : Int := 3
/-- Modelled from the spec: major type 4 (array). -/
def NANOCBOR_TYPE_ARR : Int := 4
/-- Modelled from the spec: major type 5 (map). -/
def NANOCBOR_TYPE_MAP : Int := 5
/-- Modelled from the spec: major type 6 (tag). -/
def NANOCBOR_TYPE_TAG : Int := 6
/-- Modelled from the spec: major type 7 (simple values and floats). -/
def NANOCBOR_TYPE_FLOAT : Int := 7

/-- Modelled from the spec: `major = byte >> 5`, so the type offset is 5. -/
def NANOCBOR_TYPE_OFFSET : Nat := 5
/-- Modelled from the spec: mask of the three major-type bits. -/
def NANOCBOR_TYPE_MASK : Nat := 0xE0
/-- Modelled from the spec: `info = byte & 0x1F`. -/
def NANOCBOR_VALUE_MASK : Nat := 0x1F

/-- Modelled from the spec: info 24 announces a 1-byte argument. -/
def NANOCBOR_SIZE_BYTE : Nat := 24
/-- Modelled from the spec: info 25 announces a 2-byte argument. -/
def NANOCBOR_SIZE_SHORT : Nat := 25
/-- Modelled from the spec: info 26 announces a 4-byte argument. -/
def NANOCBOR_SIZE_WORD : Nat := 26
/-- Modelled from the spec: info 27 announces an 8-byte argument. -/
def NANOCBOR_SIZE_LONG : Nat := 27
/-- Modelled from the spec: info 31 marks an indefinite-length item. -/
def NANOCBOR_SIZE_INDEFINITE : Nat := 31

/-- Modelled from the spec: the `IN_CONTAINER` bit of the flag set (header missing). -/
def NANOCBOR_DECODER_FLAG_CONTAINER : Nat := 0x01
/-- Modelled from the spec: the `INDEFINITE` bit of the flag set. -/
def NANOCBOR_DECODER_FLAG_INDEFINITE : Nat := 0x02
/-- Modelled from the spec: the `PACKED_ENABLED` bit of the flag set. -/
def NANOCBOR_DECODER_FLAG_PACKED_SUPPORT : Nat := 0x04
/-- Modelled from the spec: the `SHARED_ORIGIN` bit of the flag set. -/
def NANOCBOR_DECODER_FLAG_SHARED : Nat := 0x08

/-- Modelled from the spec: `MASK_FLOAT` is major type 7 in the top three bits. -/
def NANOCBOR_MASK_FLOAT : Nat := 0xE0
/-- Modelled from the spec: simple value `false` (byte 0xF4). -/
def NANOCBOR_SIMPLE_FALSE : Nat := 20
/-- Modelled from the spec: simple value `true` (byte 0xF5). -/
def NANOCBOR_SIMPLE_TRUE : Nat := 21
/-- Modelled from the spec: simple value `null` (byte 0xF6). -/
def NANOCBOR_SIMPLE_NULL : Nat := 22
/-- Modelled from the spec: simple value `undefined` (byte 0xF7). -/
def NANOCBOR_SIMPLE_UNDEF : Nat := 23
/-- Modelled from the spec: the decimal-fraction tag (tag 4). -/
def NANOCBOR_TAG_DEC_FRAC : Nat := 4

/-- Build-time configuration of `nanocbor/config.h`, which is not part of the sources at hand;
the decoder is parametric in it. -/
structure Config where
  /-- The compile-time recursion bound. -/
  NANOCBOR_RECURSION_MAX : Nat
  /-- The capacity of the inline set of packing tables. -/
  NANOCBOR_DECODE_PACKED_NESTED_TABLES_MAX : Nat
  /-- The tag that introduces `[table, rump]`. -/
  NANOCBOR_TAG_PACKED_TABLE : Nat
  /-- The tag of a long-form shared-item reference. -/
  NANOCBOR_TAG_PACKED_REF_SHARED : Nat
  /-- The widest argument a `size_t` can hold (`NANOCBOR_SIZE_LONG` on a 64-bit target). -/
  NANOCBOR_SIZE_SIZET : Nat
deriving DecidableEq

/-- A customary configuration: recursion bound 10, four nested tables, table tag 113 (the number
named in the source comments), shared-reference tag 6, 64-bit `size_t`. -/
def defaultConfig : Config := ⟨10, 4, 113, 6, 27⟩

/-- Conversion of an `int` to `uint8_t`. -/
def u8 (x : Int) : Nat := (x % 256).toNat

/-- The C expression `limit - 1` passed to a `uint8_t` parameter. -/
def dec8 (limit : Nat) : Nat := u8 ((limit : Int) - 1)

/-- The C statement `x--` on a `uint64_t`. -/
def dec64 (x : Nat) : Nat := (x + (2 ^ 64 - 1)) % 2 ^ 64

/-! ## The decoder context -/

/-- A `struct nanocbor_packed_table`: start address and byte length of a table literal. -/
structure nanocbor_packed_table where
  /-- Address of the first byte of the array literal (`0` is `NULL`). -/
  start : Nat
  /-- Length in bytes. -/
  len : Nat
deriving DecidableEq

/-- The decoder context `nanocbor_value_t`. -/
structure nanocbor_value_t where
  /-- Current position. -/
  cur : Nat
  /-- One past the last byte (the C field `end`). -/
  end_ : Nat
  /-- Items left in the container (`uint64_t`). -/
  remaining : Nat
  /-- Flag bits (`uint8_t`). -/
  flags : Nat
  /-- The inline array of packing tables. -/
  shared_item_tables : List nanocbor_packed_table
  /-- Number of active tables (`uint8_t`). -/
  num_active_tables : Nat
deriving DecidableEq

/-- The all-zero array of packing tables written by `memset`. -/
def zero_tables (cfg : Config) : List nanocbor_packed_table :=
  List.replicate cfg.NANOCBOR_DECODE_PACKED_NESTED_TABLES_MAX ⟨0, 0⟩

/-- Stand-in for the indeterminate contents of a freshly declared local `nanocbor_value_t`. -/
def stack_value (cfg : Config) : nanocbor_value_t :=
  ⟨0, 0, 0, 0, zero_tables cfg, 0⟩

/-- Modelled from the spec: header function `nanocbor_in_container`, which is missing:
the `IN_CONTAINER` bit is set. -/
def nanocbor_in_container (container : nanocbor_value_t) : Bool :=
  container.flags &&& NANOCBOR_DECODER_FLAG_CONTAINER != 0

/-- Modelled from the spec: header function `nanocbor_container_indefinite`, which is missing:
the `INDEFINITE` bit is set. -/
def nanocbor_container_indefinite (container : nanocbor_value_t) : Bool :=
  container.flags &&& NANOCBOR_DECODER_FLAG_INDEFINITE != 0

/-- Modelled from the spec: header function `nanocbor_array_items_remaining`, which is missing:
the items left to read. -/
def nanocbor_array_items_remaining (value : nanocbor_value_t) : Nat :=
  value.remaining

/-- Modelled from the spec: header function `nanocbor_map_items_remaining`, which is missing:
the pairs left to read, `remaining` being twice the pair count. -/
def nanocbor_map_items_remaining (value : nanocbor_value_t) : Nat :=
  value.remaining / 2

/-- `nanocbor_decoder_init`: writes `cur`, `end`, `flags` and clears the tables; `remaining` and
`num_active_tables` keep whatever the object held. -/
def nanocbor_decoder_init (cfg : Config) (value : nanocbor_value_t) (buf len : Nat) :
    nanocbor_value_t :=
  { value with cur := buf, end_ := buf + len, flags := 0, shared_item_tables := zero_tables cfg }

/-- `nanocbor_decoder_init_packed`. -/
def nanocbor_decoder_init_packed (cfg : Config) (value : nanocbor_value_t) (buf len : Nat) :
    nanocbor_value_t :=
  { nanocbor_decoder_init cfg value buf len with
    flags := NANOCBOR_DECODER_FLAG_PACKED_SUPPORT, num_active_tables := 0 }

/-- `nanocbor_decoder_init_packed_table`. -/
def nanocbor_decoder_init_packed_table (cfg : Config) (value : nanocbor_value_t)
    (buf len table_buf table_len : Nat) : nanocbor_value_t :=
  let v := nanocbor_decoder_init_packed cfg value buf len
  let v := if table_buf ≠ 0 ∧ table_len > 0 then
      { v with shared_item_tables := v.shared_item_tables.set 0 ⟨table_buf, table_len⟩ }
    else v
  { v with num_active_tables := 1 }

/-- `_advance`: move `cur` by `res` bytes and count one item off `remaining`. -/
def _advance (cvalue : nanocbor_value_t) (res : Nat) : nanocbor_value_t :=
  { cvalue with cur := cvalue.cur + res, remaining := dec64 cvalue.remaining }

/-- `_advance_if`: advance when `res > 0`; the returned `int` is `res` itself. -/
def _advance_if (cvalue : nanocbor_value_t) (res : Int) : nanocbor_value_t :=
  if res > 0 then _advance cvalue res.toNat else cvalue

/-- `_over_end`. -/
def _over_end (it : nanocbor_value_t) : Bool := decide (it.cur ≥ it.end_)

/-- `_value_match_exact`. -/
def _value_match_exact (mem : Mem) (cvalue : nanocbor_value_t) (val : Nat) :
    Int × nanocbor_value_t :=
  if _over_end cvalue then (NANOCBOR_ERR_END, cvalue)
  else if byteAt mem cvalue.cur = val then (NANOCBOR_OK, _advance cvalue 1)
  else (NANOCBOR_ERR_INVALID_TYPE, cvalue)

/-- `nanocbor_at_end`. -/
def nanocbor_at_end (mem : Mem) (it : nanocbor_value_t) : Bool :=
  _over_end it ||
    (nanocbor_container_indefinite it &&
      byteAt mem it.cur ==
        (NANOCBOR_TYPE_FLOAT.toNat <<< NANOCBOR_TYPE_OFFSET ||| NANOCBOR_VALUE_MASK)) ||
    (!nanocbor_container_indefinite it && nanocbor_in_container it && it.remaining == 0)

/-- `__get_type`: the major type at the cursor, or `END`. -/
def __get_type (mem : Mem) (value : nanocbor_value_t) : Int :=
  if nanocbor_at_end mem value then NANOCBOR_ERR_END
  else (((byteAt mem value.cur &&& NANOCBOR_TYPE_MASK) >>> NANOCBOR_TYPE_OFFSET : Nat) : Int)

/-- The big-endian unsigned integer held in the `n` bytes from address `a` on.
Modelled from the spec: the byte-order helper `NANOCBOR_BE64TOH_FUNC` is configured in a missing
header; with the `memcpy` into the least significant bytes it assembles this value. -/
def be_uint (mem : Mem) (a : Nat) : Nat → Nat
  | 0 => 0
  | n + 1 => byteAt mem a * 256 ^ n + be_uint mem (a + 1) n

/-- `_get_uint64`: the primitive reader.  `value` is the prior content of `*value`; the result is
the returned `int` and the new content of `*value`.  The final `memcpy(value, &tmp, bytes)` keeps
the `bytes` low-order bytes of `tmp` (little-endian host). -/
def _get_uint64 (mem : Mem) (cvalue : nanocbor_value_t) (value : Nat) (max : Nat) (type : Int) :
    Int × Nat :=
  let ctype := __get_type mem cvalue
  if ctype < 0 then (ctype, value)
  else if type ≠ ctype then (NANOCBOR_ERR_INVALID_TYPE, value)
  else
    let bytelen := byteAt mem cvalue.cur &&& NANOCBOR_VALUE_MASK
    if bytelen < NANOCBOR_SIZE_BYTE then (1, bytelen)
    else if bytelen > max then (NANOCBOR_ERR_OVERFLOW, value)
    else
      let bytes := 1 <<< (bytelen - NANOCBOR_SIZE_BYTE)
      if cvalue.cur + bytes ≥ cvalue.end_ then (NANOCBOR_ERR_END, value)
      else
        let tmp := be_uint mem (cvalue.cur + 1) bytes
        ((1 + bytes : Nat), tmp % 2 ^ (8 * bytes))

/-- `_packed_enabled`. -/
def _packed_enabled (value : nanocbor_value_t) : Bool :=
  value.flags &&& NANOCBOR_DECODER_FLAG_PACKED_SUPPORT != 0

/-- `_packed_copy_tables`: overwrite the table set of `dest` by that of `src`. -/
def _packed_copy_tables (dest src : nanocbor_value_t) : nanocbor_value_t :=
  { dest with shared_item_tables := src.shared_item_tables,
              num_active_tables := src.num_active_tables }

/-- Outcome of the `_PACKED_HANDLE` statement sequence inside an enclosing function. -/
structure HandleOut where
  /-- The code the enclosing function returns at once, if any. -/
  ret : Option Int
  /-- Whether the pointer `cvalue` now designates the object `followed`. -/
  redirected : Bool
  /-- The object `cvalue` designated on entry. -/
  cvalue : nanocbor_value_t
  /-- The object `followed`. -/
  followed : nanocbor_value_t
deriving DecidableEq

/-- The object the pointer `cvalue` designates after `_PACKED_HANDLE`. -/
def HandleOut.it (h : HandleOut) : nanocbor_value_t :=
  if h.redirected then h.followed else h.cvalue

/-- Store `t` in entry `i` of the table array of `v`. -/
def set_table (v : nanocbor_value_t) (i : Nat) (t : nanocbor_packed_table) : nanocbor_value_t :=
  { v with shared_item_tables := v.shared_item_tables.set i t }

/-- Entry `i` of the table array of `v`. -/
def get_table (v : nanocbor_value_t) (i : Nat) : nanocbor_packed_table :=
  v.shared_item_tables.getD i ⟨0, 0⟩

/-- The error mapping `ret == NANOCBOR_ERR_RECURSION ? ret : NANOCBOR_ERR_PACKED_FORMAT`. -/
def recursion_or_format (ret : Int) : Int :=
  if ret = NANOCBOR_ERR_RECURSION then ret else NANOCBOR_ERR_PACKED_FORMAT

/-!
## The mutually recursive core

Where a C function receives two pointers that may designate the same object (`cvalue` and
`target` of the packed engine), the embedding carries a flag `same`; with `same = true` there is
one object, passed and returned in both positions.
-/

/-- The expression `16 + (ctype == NANOCBOR_TYPE_UINT ? 2*n : 2*n+1)` that `_packed_handle`
stores in `uint64_t idx`. -/
def _packed_handle_idx (ctype : Int) (n : Nat) : Nat :=
  (16 + (if ctype = NANOCBOR_TYPE_UINT then 2 * n else 2 * n + 1)) % 2 ^ 64

mutual

/-- The statement sequence of the `_PACKED_HANDLE(cvalue, followed, limit)` define. -/
def _PACKED_HANDLE (cfg : Config) (mem : Mem) :
    Nat → Bool → nanocbor_value_t → nanocbor_value_t → Nat → Option HandleOut
  | 0, _, _, _, _ => none
  | fuel + 1, same, cvalue, followed, limit =>
    if limit = 0 then some ⟨some NANOCBOR_ERR_RECURSION, false, cvalue, followed⟩
    else
      match _packed_handle cfg mem fuel same cvalue followed (dec8 limit) with
      | none => none
      | some (res, c, t) =>
        if res = NANOCBOR_OK then some ⟨none, true, c, t⟩
        else if res ≠ NANOCBOR_NOT_FOUND then some ⟨some res, false, c, t⟩
        else some ⟨none, false, c, t⟩
termination_by structural fuel => fuel

/-- `_packed_consume_table`; returns the `int` and the objects `*cvalue` and `*target`. -/
def _packed_consume_table (cfg : Config) (mem : Mem) :
    Nat → Bool → nanocbor_value_t → nanocbor_value_t → Nat →
      Option (Int × nanocbor_value_t × nanocbor_value_t)
  | 0, _, _, _, _ => none
  | fuel + 1, same, cvalue, target, limit =>
    match _enter_container cfg mem fuel cvalue (stack_value cfg) NANOCBOR_TYPE_ARR
        (dec8 limit) with
    | none => none
    | some (ret, cvalue, arr) =>
      let target := if same then cvalue else target
      if ret < 0 then some (recursion_or_format ret, cvalue, target)
      else
        let target := nanocbor_decoder_init_packed cfg target arr.cur (arr.end_ - arr.cur)
        let target := _packed_copy_tables target arr
        if target.num_active_tables ≥ cfg.NANOCBOR_DECODE_PACKED_NESTED_TABLES_MAX then
          some (NANOCBOR_ERR_PACKED_MEMORY, if same then target else cvalue, target)
        else
          let t := target.num_active_tables
          let ret := __get_type mem arr
          if ret ≠ NANOCBOR_TYPE_ARR then
            some (recursion_or_format ret, if same then target else cvalue, target)
          else
            let target := set_table target t ⟨arr.cur, (get_table target t).len⟩
            match _skip_limited cfg mem fuel arr (dec8 limit) with
            | none => none
            | some (ret, arr) =>
              if ret ≠ NANOCBOR_OK then some (ret, if same then target else cvalue, target)
              else
                let target :=
                  set_table target t ⟨(get_table target t).start,
                    arr.cur - (get_table target t).start⟩
                let target := { target with cur := arr.cur }
                match _skip_limited cfg mem fuel arr (dec8 limit) with
                | none => none
                | some (ret, arr) =>
                  if ret ≠ NANOCBOR_OK then
                    some (ret, if same then target else cvalue, target)
                  else
                    let target := { target with end_ := arr.cur }
                    if same then
                      let target :=
                        { target with num_active_tables := (target.num_active_tables + 1) % 256 }
                      some (NANOCBOR_OK, target, target)
                    else
                      match _leave_container cfg mem fuel cvalue arr (dec8 limit) with
                      | none => none
                      | some (ret, cvalue) =>
                        if ret ≠ NANOCBOR_OK then some (recursion_or_format ret, cvalue, target)
                        else
                          let target :=
                            { target with
                              num_active_tables := (target.num_active_tables + 1) % 256 }
                          some (NANOCBOR_OK, cvalue, target)
termination_by structural fuel => fuel

/-- The `while (j<idx && !nanocbor_at_end(target))` loop of `_packed_follow_reference`;
returns the `int` of the last skip, the object `*target` and `j`. -/
def _packed_follow_reference_skip (cfg : Config) (mem : Mem) :
    Nat → nanocbor_value_t → Nat → Nat → Nat → Option (Int × nanocbor_value_t × Nat)
  | 0, _, _, _, _ => none
  | fuel + 1, target, idx, limit, j =>
    if j < idx ∧ ¬ nanocbor_at_end mem target then
      match _skip_limited cfg mem fuel target limit with
      | none => none
      | some (res, target) =>
        if res < 0 then some (res, target, j)
        else _packed_follow_reference_skip cfg mem fuel target idx limit ((j + 1) % 2 ^ 64)
    else some (NANOCBOR_OK, target, j)
termination_by structural fuel => fuel

/-- The `for (size_t i=0; i<num; i++)` loop of `_packed_follow_reference`, from iteration `i`
on; returns the `int` and the objects `*cvalue` and `*target`. -/
def _packed_follow_reference_loop (cfg : Config) (mem : Mem) :
    Nat → Bool → nanocbor_value_t → nanocbor_value_t → Nat → Nat → Nat → Nat →
      Option (Int × nanocbor_value_t × nanocbor_value_t)
  | 0, _, _, _, _, _, _, _ => none
  | fuel + 1, same, cvalue, target, idx, limit, num, i =>
    if i < num then
      let t := get_table cvalue (num - 1 - i)
      if t.start = 0 then some (NANOCBOR_ERR_PACKED_FORMAT, cvalue, target)
      else
        let table := nanocbor_decoder_init_packed cfg (stack_value cfg) t.start t.len
        let table := _packed_copy_tables table cvalue
        match _enter_container cfg mem fuel table target NANOCBOR_TYPE_ARR (dec8 limit) with
        | none => none
        | some (res, _, target) =>
          let cvalue := if same then target else cvalue
          if res < 0 then some (recursion_or_format res, cvalue, target)
          else
            let table_size :=
              if nanocbor_container_indefinite target then 2 ^ 32 - 1
              else nanocbor_array_items_remaining target % 2 ^ 32
            if idx < table_size then
              match _packed_follow_reference_skip cfg mem fuel target idx limit 0 with
              | none => none
              | some (res, target, j) =>
                let cvalue := if same then target else cvalue
                if res < 0 then some (res, cvalue, target)
                else if nanocbor_at_end mem target then
                  _packed_follow_reference_loop cfg mem fuel same cvalue target
                    (idx - j % 2 ^ 32) limit num (i + 1)
                else
                  let target := _packed_copy_tables target cvalue
                  let target := { target with num_active_tables := (num - i) % 256 }
                  some (NANOCBOR_OK, if same then target else cvalue, target)
            else
              _packed_follow_reference_loop cfg mem fuel same cvalue target
                (idx - table_size) limit num (i + 1)
    else some (NANOCBOR_ERR_PACKED_UNDEFINED_REFERENCE, cvalue, target)
termination_by structural fuel => fuel

/-- `_packed_follow_reference`; returns the `int` and the objects `*cvalue` and `*target`. -/
def _packed_follow_reference (cfg : Config) (mem : Mem) :
    Nat → Bool → nanocbor_value_t → nanocbor_value_t → Nat → Nat →
      Option (Int × nanocbor_value_t × nanocbor_value_t)
  | 0, _, _, _, _, _ => none
  | fuel + 1, same, cvalue, target, idx, limit =>
    _packed_follow_reference_loop cfg mem fuel same cvalue target idx limit
      cvalue.num_active_tables 0
termination_by structural fuel => fuel

/-- `_packed_handle`; returns the `int` and the objects `*cvalue` and `*target`. -/
def _packed_handle (cfg : Config) (mem : Mem) :
    Nat → Bool → nanocbor_value_t → nanocbor_value_t → Nat →
      Option (Int × nanocbor_value_t × nanocbor_value_t)
  | 0, _, _, _, _ => none
  | fuel + 1, same, cvalue, target, limit =>
    if ¬ _packed_enabled cvalue then some (NANOCBOR_NOT_FOUND, cvalue, target)
    else if limit = 0 then some (NANOCBOR_ERR_RECURSION, cvalue, target)
    else
      let ctype := __get_type mem cvalue
      -- `step` is `(returned, ret, *cvalue, *target)` before the closing `if (ret == OK)`
      let step : Option (Bool × Int × nanocbor_value_t × nanocbor_value_t) :=
        if ctype = NANOCBOR_TYPE_TAG then
          let r := _get_uint64 mem cvalue 0 NANOCBOR_SIZE_WORD NANOCBOR_TYPE_TAG
          let ret := r.1
          let tag := r.2
          if ret < 0 then some (true, NANOCBOR_NOT_FOUND, cvalue, target)
          else if tag = cfg.NANOCBOR_TAG_PACKED_TABLE then
            let cvalue := { cvalue with cur := cvalue.cur + ret.toNat }
            let target := if same then cvalue else target
            match _packed_consume_table cfg mem fuel same cvalue target limit with
            | none => none
            | some (ret, cvalue, target) => some (false, ret, cvalue, target)
          else if tag = cfg.NANOCBOR_TAG_PACKED_REF_SHARED then
            let cvalue := { cvalue with cur := cvalue.cur + ret.toNat }
            let target := if same then cvalue else target
            match _PACKED_HANDLE cfg mem fuel same cvalue target limit with
            | none => none
            | some h =>
              match h.ret with
              | some res => some (true, res, h.cvalue, h.followed)
              | none =>
                -- from here on the pointer `cvalue` may designate `*target`
                let same2 := same || h.redirected
                let ctype := __get_type mem h.it
                if ctype ≠ NANOCBOR_TYPE_UINT ∧ ctype ≠ NANOCBOR_TYPE_NINT then
                  some (true, NANOCBOR_ERR_PACKED_FORMAT, h.cvalue, h.followed)
                else
                  let r := _get_uint64 mem h.it 0 NANOCBOR_SIZE_LONG ctype
                  let ret := r.1
                  let n := r.2
                  if ret < 0 then some (true, NANOCBOR_ERR_PACKED_FORMAT, h.cvalue, h.followed)
                  else
                    let it := _advance h.it ret.toNat
                    let idx := _packed_handle_idx ctype n
                    -- the caller's object and the target object after the advance
                    let cobj := if same2 then (if same then it else h.cvalue) else it
                    let tobj := if same2 then it else h.followed
                    match _packed_follow_reference cfg mem fuel same2 it tobj idx limit with
                    | none => none
                    | some (ret, c2, t2) =>
                      some (false, ret, if same2 then (if same then t2 else cobj) else c2, t2)
          else some (true, NANOCBOR_NOT_FOUND, cvalue, target)
        else if ctype = NANOCBOR_TYPE_FLOAT then
          let simple := byteAt mem cvalue.cur &&& NANOCBOR_VALUE_MASK
          if simple < 16 then
            let cvalue := _advance cvalue 1
            let target := if same then cvalue else target
            match _packed_follow_reference cfg mem fuel same cvalue target simple limit with
            | none => none
            | some (ret, cvalue, target) => some (false, ret, cvalue, target)
          else some (true, NANOCBOR_NOT_FOUND, cvalue, target)
        else some (false, NANOCBOR_NOT_FOUND, cvalue, target)
      match step with
      | none => none
      | some (true, ret, cvalue, target) => some (ret, cvalue, target)
      | some (false, ret, cvalue, target) =>
        if ret = NANOCBOR_OK then
          match _packed_handle cfg mem fuel true target target (dec8 limit) with
          | none => none
          | some (ret, _, target) =>
            some (if ret < 0 ∧ ret ≠ NANOCBOR_NOT_FOUND then ret else NANOCBOR_OK,
              if same then target else cvalue, target)
        else some (ret, cvalue, target)
termination_by structural fuel => fuel

/-- `_enter_container`; returns the `int` and the objects `*it` and `*container`. -/
def _enter_container (cfg : Config) (mem : Mem) :
    Nat → nanocbor_value_t → nanocbor_value_t → Int → Nat →
      Option (Int × nanocbor_value_t × nanocbor_value_t)
  | 0, _, _, _, _ => none
  | fuel + 1, it, container, type, limit =>
    let handled : Option HandleOut :=
      if _packed_enabled it then _PACKED_HANDLE cfg mem fuel false it (stack_value cfg) limit
      else some ⟨none, false, it, stack_value cfg⟩
    match handled with
    | none => none
    | some h =>
      match h.ret with
      | some res => some (res, h.cvalue, container)
      | none =>
        let container :=
          if _packed_enabled it then
            { _packed_copy_tables container h.it with
              flags := NANOCBOR_DECODER_FLAG_PACKED_SUPPORT |||
                (if h.redirected then NANOCBOR_DECODER_FLAG_SHARED else 0) }
          else { container with flags := 0 }
        let it := h.it
        let container := { container with end_ := it.end_, remaining := 0 }
        let value_match := (type.toNat <<< NANOCBOR_TYPE_OFFSET ||| NANOCBOR_SIZE_INDEFINITE) % 256
        if ¬ _over_end it ∧ byteAt mem it.cur = value_match then
          some (NANOCBOR_OK, h.cvalue,
            { container with
              flags := container.flags |||
                (NANOCBOR_DECODER_FLAG_INDEFINITE ||| NANOCBOR_DECODER_FLAG_CONTAINER),
              cur := it.cur + 1 })
        else
          let r := _get_uint64 mem it container.remaining NANOCBOR_SIZE_LONG type
          let container := { container with remaining := r.2 }
          if r.1 < 0 then some (r.1, h.cvalue, container)
          else
            some (NANOCBOR_OK, h.cvalue,
              { container with
                flags := container.flags ||| NANOCBOR_DECODER_FLAG_CONTAINER,
                cur := it.cur + r.1.toNat })
termination_by structural fuel => fuel

/-- `nanocbor_enter_array`; returns the `int` and the object `*array`. -/
def nanocbor_enter_array (cfg : Config) (mem : Mem) :
    Nat → nanocbor_value_t → nanocbor_value_t → Option (Int × nanocbor_value_t)
  | 0, _, _ => none
  | fuel + 1, it, array =>
    match _enter_container cfg mem fuel it array NANOCBOR_TYPE_ARR
        (u8 ((cfg.NANOCBOR_RECURSION_MAX : Int) - 1)) with
    | none => none
    | some (res, _, array) => some (res, array)
termination_by structural fuel => fuel

/-- `nanocbor_enter_map`; returns the `int` and the object `*map`. -/
def nanocbor_enter_map (cfg : Config) (mem : Mem) :
    Nat → nanocbor_value_t → nanocbor_value_t → Option (Int × nanocbor_value_t)
  | 0, _, _ => none
  | fuel + 1, it, map =>
    match _enter_container cfg mem fuel it map NANOCBOR_TYPE_MAP
        (u8 ((cfg.NANOCBOR_RECURSION_MAX : Int) - 1)) with
    | none => none
    | some (res, _, map) =>
      if map.remaining > (2 ^ 64 - 1) / 2 then some (NANOCBOR_ERR_OVERFLOW, map)
      else some (res, { map with remaining := map.remaining * 2 })
termination_by structural fuel => fuel

/-- `_leave_container`; returns the `int` and the object `*it`. -/
def _leave_container (cfg : Config) (mem : Mem) :
    Nat → nanocbor_value_t → nanocbor_value_t → Nat → Option (Int × nanocbor_value_t)
  | 0, _, _, _ => none
  | fuel + 1, it, container, limit =>
    if ¬ nanocbor_in_container container ∨ ¬ nanocbor_at_end mem container then
      some (NANOCBOR_ERR_INVALID_TYPE, it)
    else if container.flags &&& NANOCBOR_DECODER_FLAG_SHARED ≠ 0 then
      _skip_limited cfg mem fuel it limit
    else if container.cur ≤ it.cur ∨ container.cur > it.end_ then
      some (NANOCBOR_ERR_INVALID_TYPE, it)
    else
      let it := if it.remaining ≠ 0 then { it with remaining := dec64 it.remaining } else it
      if nanocbor_container_indefinite container then
        some (NANOCBOR_OK, { it with cur := container.cur + 1 })
      else some (NANOCBOR_OK, { it with cur := container.cur })
termination_by structural fuel => fuel

/-- `nanocbor_leave_container`; returns the `int` and the object `*it`. -/
def nanocbor_leave_container (cfg : Config) (mem : Mem) :
    Nat → nanocbor_value_t → nanocbor_value_t → Option (Int × nanocbor_value_t)
  | 0, _, _ => none
  | fuel + 1, it, container =>
    _leave_container cfg mem fuel it container (cfg.NANOCBOR_RECURSION_MAX % 256)
termination_by structural fuel => fuel

/-- `_get_str`; `buf` and `len` are the prior contents of `*buf` and `*len`; returns the `int`
and the objects `*cvalue`, `*buf` and `*len`. -/
def _get_str (cfg : Config) (mem : Mem) :
    Nat → nanocbor_value_t → Nat → Nat → Int → Option (Int × nanocbor_value_t × Nat × Nat)
  | 0, _, _, _, _ => none
  | fuel + 1, cvalue, buf, len, type =>
    match _PACKED_HANDLE cfg mem fuel false cvalue (stack_value cfg)
        (cfg.NANOCBOR_RECURSION_MAX % 256) with
    | none => none
    | some h =>
      match h.ret with
      | some res => some (res, h.cvalue, buf, len)
      | none =>
        let it := h.it
        let r := _get_uint64 mem it 0 cfg.NANOCBOR_SIZE_SIZET type
        let res := r.1
        let len := r.2
        if it.end_ < it.cur ∨ it.end_ - it.cur < len then
          some (NANOCBOR_ERR_END, h.cvalue, buf, len)
        else if res ≥ 0 then
          let it := _advance it ((res.toNat + len) % 2 ^ 32)
          some (NANOCBOR_OK, if h.redirected then h.cvalue else it, h.it.cur + res.toNat, len)
        else some (res, h.cvalue, buf, len)
termination_by structural fuel => fuel

/-- `_skip_simple`; returns the `int` and the object `*it`. -/
def _skip_simple (cfg : Config) (mem : Mem) :
    Nat → nanocbor_value_t → Option (Int × nanocbor_value_t)
  | 0, _ => none
  | fuel + 1, it =>
    let type := __get_type mem it
    if type = NANOCBOR_TYPE_BSTR ∨ type = NANOCBOR_TYPE_TSTR then
      match _get_str cfg mem fuel it 0 0 ((u8 type : Nat) : Int) with
      | none => none
      | some (res, it, _, _) => some (res, it)
    else
      let r := _get_uint64 mem it 0 NANOCBOR_SIZE_LONG type
      let it := _advance_if it r.1
      some (if r.1 > 0 then NANOCBOR_OK else r.1, it)
termination_by structural fuel => fuel

/-- The `while (!nanocbor_at_end(&recurse))` loop of `_skip_limited`; `limit` is the limit of
the enclosing call, `res` the value of `res` on entry; returns `res` and the object `recurse`. -/
def _skip_limited_loop (cfg : Config) (mem : Mem) :
    Nat → nanocbor_value_t → Nat → Int → Option (Int × nanocbor_value_t)
  | 0, _, _, _ => none
  | fuel + 1, recurse, limit, res =>
    if ¬ nanocbor_at_end mem recurse then
      match _skip_limited cfg mem fuel recurse (dec8 limit) with
      | none => none
      | some (res, recurse) =>
        if res < 0 then some (res, recurse)
        else _skip_limited_loop cfg mem fuel recurse limit res
    else some (res, recurse)
termination_by structural fuel => fuel

/-- `_skip_limited`; returns the `int` and the object `*it`. -/
def _skip_limited (cfg : Config) (mem : Mem) :
    Nat → nanocbor_value_t → Nat → Option (Int × nanocbor_value_t)
  | 0, _, _ => none
  | fuel + 1, it, limit =>
    if limit = 0 then some (NANOCBOR_ERR_RECURSION, it)
    else
      let type := __get_type mem it
      if type = NANOCBOR_TYPE_ARR ∨ type = NANOCBOR_TYPE_MAP then
        let entered :=
          if type = NANOCBOR_TYPE_MAP then nanocbor_enter_map cfg mem fuel it (stack_value cfg)
          else nanocbor_enter_array cfg mem fuel it (stack_value cfg)
        match entered with
        | none => none
        | some (res, recurse) =>
          if res = NANOCBOR_OK then
            match _skip_limited_loop cfg mem fuel recurse limit res with
            | none => none
            | some (res, recurse) =>
              match nanocbor_leave_container cfg mem fuel it recurse with
              | none => none
              | some (_, it) => some (if res < 0 then res else NANOCBOR_OK, it)
          else some (if res < 0 then res else NANOCBOR_OK, it)
      else if type = NANOCBOR_TYPE_TAG then
        -- the inner `int res` shadows the outer one, which keeps the value `type`
        let r := _get_uint64 mem it 0 NANOCBOR_SIZE_WORD NANOCBOR_TYPE_TAG
        if r.1 ≥ 0 then
          match _skip_limited cfg mem fuel { it with cur := it.cur + r.1.toNat } (dec8 limit) with
          | none => none
          | some (_, it) => some (if type < 0 then type else NANOCBOR_OK, it)
        else some (if type < 0 then type else NANOCBOR_OK, it)
      else if type ≥ 0 then
        match _skip_simple cfg mem fuel it with
        | none => none
        | some (res, it) => some (if res < 0 then res else NANOCBOR_OK, it)
      else some (if type < 0 then type else NANOCBOR_OK, it)
termination_by structural fuel => fuel

end

/-- The closing statements of `_packed_handle`, `if (ret == NANOCBOR_OK) { ret =
_packed_handle(target, target, limit-1); return ...; } return ret;`, applied to the `ret` and the
objects `*cvalue`, `*target` that the call of `_packed_follow_reference` left behind; `fuel` is
the fuel of that call. -/
def _packed_handle_tail (cfg : Config) (mem : Mem) (fuel : Nat) (same : Bool) (limit : Nat)
    (ret : Int) (cvalue target : nanocbor_value_t) :
    Option (Int × nanocbor_value_t × nanocbor_value_t) :=
  if ret = NANOCBOR_OK then
    match _packed_handle cfg mem fuel true target target (dec8 limit) with
    | none => none
    | some (ret, _, target) =>
      some (if ret < 0 ∧ ret ≠ NANOCBOR_NOT_FOUND then ret else NANOCBOR_OK,
        if same then target else cvalue, target)
  else some (ret, cvalue, target)

/-! ## Accessors built on the core -/

/-- The statement sequence `_PACKED_HANDLE_LIMITED(cvalue)`: `limit` is
`NANOCBOR_RECURSION_MAX` and `followed` a fresh local. -/
def _PACKED_HANDLE_LIMITED (cfg : Config) (mem : Mem) (fuel : Nat) (cvalue : nanocbor_value_t) :
    Option HandleOut :=
  _PACKED_HANDLE cfg mem fuel false cvalue (stack_value cfg) (cfg.NANOCBOR_RECURSION_MAX % 256)

/-- `_get_type`; returns the `int` and the object `*cvalue`. -/
def _get_type (cfg : Config) (mem : Mem) (fuel : Nat) (cvalue : nanocbor_value_t) (limit : Nat) :
    Option (Int × nanocbor_value_t) :=
  match _PACKED_HANDLE cfg mem fuel false cvalue (stack_value cfg) limit with
  | none => none
  | some h =>
    match h.ret with
    | some res => some (res, h.cvalue)
    | none => some (__get_type mem h.it, h.cvalue)

/-- `nanocbor_get_type`: works on a copy, the argument is `const`. -/
def nanocbor_get_type (cfg : Config) (mem : Mem) (fuel : Nat) (value : nanocbor_value_t) :
    Option Int :=
  match _get_type cfg mem fuel value (u8 ((cfg.NANOCBOR_RECURSION_MAX : Int) - 1)) with
  | none => none
  | some (res, _) => some res

/-- `_get_and_advance_uint8`; `value` is the prior content of `*value`; returns the `int` and
the objects `*cvalue` and `*value`. -/
def _get_and_advance_uint8 (cfg : Config) (mem : Mem) (fuel : Nat) (cvalue : nanocbor_value_t)
    (value : Nat) (type : Int) : Option (Int × nanocbor_value_t × Nat) :=
  match _PACKED_HANDLE_LIMITED cfg mem fuel cvalue with
  | none => none
  | some h =>
    match h.ret with
    | some res => some (res, h.cvalue, value)
    | none =>
      let r := _get_uint64 mem h.it 0 NANOCBOR_SIZE_BYTE type
      let it := _advance_if h.it r.1
      some (r.1, if h.redirected then h.cvalue else it, r.2 % 256)

/-- `nanocbor_get_uint8`. -/
def nanocbor_get_uint8 (cfg : Config) (mem : Mem) (fuel : Nat) (cvalue : nanocbor_value_t)
    (value : Nat) : Option (Int × nanocbor_value_t × Nat) :=
  _get_and_advance_uint8 cfg mem fuel cvalue value NANOCBOR_TYPE_UINT

/-- `_get_and_advance_uint64`; returns the `int` and the objects `*cvalue` and `*value`. -/
def _get_and_advance_uint64 (cfg : Config) (mem : Mem) (fuel : Nat) (cvalue : nanocbor_value_t)
    (value : Nat) (max : Nat) : Option (Int × nanocbor_value_t × Nat) :=
  match _PACKED_HANDLE_LIMITED cfg mem fuel cvalue with
  | none => none
  | some h =>
    match h.ret with
    | some res => some (res, h.cvalue, value)
    | none =>
      let r := _get_uint64 mem h.it value max NANOCBOR_TYPE_UINT
      let it := _advance_if h.it r.1
      some (r.1, if h.redirected then h.cvalue else it, r.2)

/-- `nanocbor_get_uint16`: the result is stored through a cast to `uint8_t`. -/
def nanocbor_get_uint16 (cfg : Config) (mem : Mem) (fuel : Nat) (cvalue : nanocbor_value_t) :
    Option (Int × nanocbor_value_t × Nat) :=
  match _get_and_advance_uint64 cfg mem fuel cvalue 0 NANOCBOR_SIZE_SHORT with
  | none => none
  | some (res, cvalue, tmp) => some (res, cvalue, tmp % 256)

/-- `nanocbor_get_uint32`: the result is stored through a cast to `uint8_t`. -/
def nanocbor_get_uint32 (cfg : Config) (mem : Mem) (fuel : Nat) (cvalue : nanocbor_value_t) :
    Option (Int × nanocbor_value_t × Nat) :=
  match _get_and_advance_uint64 cfg mem fuel cvalue 0 NANOCBOR_SIZE_WORD with
  | none => none
  | some (res, cvalue, tmp) => some (res, cvalue, tmp % 256)

/-- `nanocbor_get_uint64`: the result is stored through a cast to `uint8_t`. -/
def nanocbor_get_uint64 (cfg : Config) (mem : Mem) (fuel : Nat) (cvalue : nanocbor_value_t) :
    Option (Int × nanocbor_value_t × Nat) :=
  match _get_and_advance_uint64 cfg mem fuel cvalue 0 NANOCBOR_SIZE_LONG with
  | none => none
  | some (res, cvalue, tmp) => some (res, cvalue, tmp % 256)

/-- Conversion to a signed integer type of `w` bits (two-complement wrap). -/
def to_signed (w : Nat) (x : Int) : Int := (x + 2 ^ (w - 1)) % 2 ^ w - 2 ^ (w - 1)

/-- `_get_and_advance_int64`; `value` is the prior content of `*value`; returns the `int` and
the objects `*cvalue` and `*value`. -/
def _get_and_advance_int64 (cfg : Config) (mem : Mem) (fuel : Nat) (cvalue : nanocbor_value_t)
    (value : Int) (max : Nat) (bound : Nat) : Option (Int × nanocbor_value_t × Int) :=
  match _PACKED_HANDLE_LIMITED cfg mem fuel cvalue with
  | none => none
  | some h =>
    match h.ret with
    | some res => some (res, h.cvalue, value)
    | none =>
      let type := __get_type mem h.it
      if type < 0 then some (type, h.cvalue, value)
      else if type = NANOCBOR_TYPE_NINT ∨ type = NANOCBOR_TYPE_UINT then
        let r := _get_uint64 mem h.it 0 max type
        let intermediate := r.2
        let res := if intermediate > bound then NANOCBOR_ERR_OVERFLOW else r.1
        let value :=
          if type = NANOCBOR_TYPE_NINT then
            to_signed 64 (to_signed 64 (-(to_signed 64 intermediate)) - 1)
          else to_signed 64 intermediate
        let it := _advance_if h.it res
        some (res, if h.redirected then h.cvalue else it, value)
      else
        some (NANOCBOR_ERR_INVALID_TYPE, h.cvalue, value)

/-- `nanocbor_get_int8`. -/
def nanocbor_get_int8 (cfg : Config) (mem : Mem) (fuel : Nat) (cvalue : nanocbor_value_t) :
    Option (Int × nanocbor_value_t × Int) :=
  match _get_and_advance_int64 cfg mem fuel cvalue 0 NANOCBOR_SIZE_BYTE (2 ^ 7 - 1) with
  | none => none
  | some (res, cvalue, tmp) => some (res, cvalue, to_signed 8 tmp)

/-- `nanocbor_get_int16`. -/
def nanocbor_get_int16 (cfg : Config) (mem : Mem) (fuel : Nat) (cvalue : nanocbor_value_t) :
    Option (Int × nanocbor_value_t × Int) :=
  match _get_and_advance_int64 cfg mem fuel cvalue 0 NANOCBOR_SIZE_SHORT (2 ^ 15 - 1) with
  | none => none
  | some (res, cvalue, tmp) => some (res, cvalue, to_signed 16 tmp)

/-- `nanocbor_get_int32`. -/
def nanocbor_get_int32 (cfg : Config) (mem : Mem) (fuel : Nat) (cvalue : nanocbor_value_t) :
    Option (Int × nanocbor_value_t × Int) :=
  match _get_and_advance_int64 cfg mem fuel cvalue 0 NANOCBOR_SIZE_WORD (2 ^ 31 - 1) with
  | none => none
  | some (res, cvalue, tmp) => some (res, cvalue, to_signed 32 tmp)

/-- `nanocbor_get_int64`; `value` is the prior content of `*value`. -/
def nanocbor_get_int64 (cfg : Config) (mem : Mem) (fuel : Nat) (cvalue : nanocbor_value_t)
    (value : Int) : Option (Int × nanocbor_value_t × Int) :=
  _get_and_advance_int64 cfg mem fuel cvalue value NANOCBOR_SIZE_LONG (2 ^ 63 - 1)

/-- `nanocbor_get_tag`; returns the `int` and the objects `*cvalue` and `*tag`. -/
def nanocbor_get_tag (cfg : Config) (mem : Mem) (fuel : Nat) (cvalue : nanocbor_value_t)
    (tag : Nat) : Option (Int × nanocbor_value_t × Nat) :=
  match _PACKED_HANDLE_LIMITED cfg mem fuel cvalue with
  | none => none
  | some h =>
    match h.ret with
    | some res => some (res, h.cvalue, tag)
    | none =>
      let r := _get_uint64 mem h.it 0 NANOCBOR_SIZE_WORD NANOCBOR_TYPE_TAG
      if r.1 ≥ 0 then
        let it := { h.it with cur := h.it.cur + r.1.toNat }
        some (NANOCBOR_OK, if h.redirected then h.cvalue else it, r.2 % 2 ^ 32)
      else some (r.1, h.cvalue, r.2 % 2 ^ 32)

/-- `nanocbor_get_bstr`; returns the `int` and the objects `*cvalue`, `*buf` and `*len`. -/
def nanocbor_get_bstr (cfg : Config) (mem : Mem) (fuel : Nat) (cvalue : nanocbor_value_t)
    (buf len : Nat) : Option (Int × nanocbor_value_t × Nat × Nat) :=
  _get_str cfg mem fuel cvalue buf len NANOCBOR_TYPE_BSTR

/-- `nanocbor_get_tstr`; returns the `int` and the objects `*cvalue`, `*buf` and `*len`. -/
def nanocbor_get_tstr (cfg : Config) (mem : Mem) (fuel : Nat) (cvalue : nanocbor_value_t)
    (buf len : Nat) : Option (Int × nanocbor_value_t × Nat × Nat) :=
  _get_str cfg mem fuel cvalue buf len NANOCBOR_TYPE_TSTR

/-- `_get_simple_exact`; returns the `int` and the object `*cvalue`. -/
def _get_simple_exact (cfg : Config) (mem : Mem) (fuel : Nat) (cvalue : nanocbor_value_t)
    (val : Nat) : Option (Int × nanocbor_value_t) :=
  match _PACKED_HANDLE_LIMITED cfg mem fuel cvalue with
  | none => none
  | some h =>
    match h.ret with
    | some res => some (res, h.cvalue)
    | none =>
      let r := _value_match_exact mem h.it val
      some (r.1, if h.redirected then h.cvalue else r.2)

/-- `nanocbor_get_null`. -/
def nanocbor_get_null (cfg : Config) (mem : Mem) (fuel : Nat) (cvalue : nanocbor_value_t) :
    Option (Int × nanocbor_value_t) :=
  _get_simple_exact cfg mem fuel cvalue (NANOCBOR_MASK_FLOAT ||| NANOCBOR_SIMPLE_NULL)

/-- `nanocbor_get_undefined`. -/
def nanocbor_get_undefined (cfg : Config) (mem : Mem) (fuel : Nat) (cvalue : nanocbor_value_t) :
    Option (Int × nanocbor_value_t) :=
  _get_simple_exact cfg mem fuel cvalue (NANOCBOR_MASK_FLOAT ||| NANOCBOR_SIMPLE_UNDEF)

/-- `nanocbor_get_bool`; `value` is the prior content of `*value`; returns the `int` and the
objects `*cvalue` and `*value`. -/
def nanocbor_get_bool (cfg : Config) (mem : Mem) (fuel : Nat) (cvalue : nanocbor_value_t)
    (value : Bool) : Option (Int × nanocbor_value_t × Bool) :=
  match _PACKED_HANDLE_LIMITED cfg mem fuel cvalue with
  | none => none
  | some h =>
    match h.ret with
    | some res => some (res, h.cvalue, value)
    | none =>
      let r := _value_match_exact mem h.it (NANOCBOR_MASK_FLOAT ||| NANOCBOR_SIMPLE_FALSE)
      if r.1 ≥ NANOCBOR_OK then some (r.1, if h.redirected then h.cvalue else r.2, false)
      else
        let r2 := _value_match_exact mem r.2 (NANOCBOR_MASK_FLOAT ||| NANOCBOR_SIMPLE_TRUE)
        some (r2.1, if h.redirected then h.cvalue else r2.2,
          if r2.1 ≥ NANOCBOR_OK then true else value)

/-- `nanocbor_get_simple`; returns the `int` and the objects `*cvalue` and `*value`. -/
def nanocbor_get_simple (cfg : Config) (mem : Mem) (fuel : Nat) (cvalue : nanocbor_value_t)
    (value : Nat) : Option (Int × nanocbor_value_t × Nat) :=
  match _get_and_advance_uint8 cfg mem fuel cvalue value NANOCBOR_TYPE_FLOAT with
  | none => none
  | some (res, cvalue, value) =>
    let res := if res = NANOCBOR_ERR_OVERFLOW then NANOCBOR_ERR_INVALID_TYPE else res
    some (if res > 0 then NANOCBOR_OK else res, cvalue, value)

/-- `nanocbor_skip`. -/
def nanocbor_skip (cfg : Config) (mem : Mem) (fuel : Nat) (it : nanocbor_value_t) :
    Option (Int × nanocbor_value_t) :=
  _skip_limited cfg mem fuel it (cfg.NANOCBOR_RECURSION_MAX % 256)

/-- `nanocbor_skip_simple`. -/
def nanocbor_skip_simple (cfg : Config) (mem : Mem) (fuel : Nat) (it : nanocbor_value_t) :
    Option (Int × nanocbor_value_t) :=
  _skip_simple cfg mem fuel it

/-- `nanocbor_get_subcbor`; returns the `int` and the objects `*it`, `*start` and `*len`. -/
def nanocbor_get_subcbor (cfg : Config) (mem : Mem) (fuel : Nat) (it : nanocbor_value_t) :
    Option (Int × nanocbor_value_t × Nat × Nat) :=
  match nanocbor_skip cfg mem fuel it with
  | none => none
  | some (res, it2) => some (res, it2, it.cur, it2.cur - it.cur)

/-! ## Example buffers -/

/-- Memory holding the bytes `bs` from address `base` on, and zero elsewhere. -/
def mem_of (base : Nat) (bs : List Nat) : Mem :=
  fun a => if a < base then 0 else bs.getD (a - base) 0

/-! ## Specification-side vocabulary for item heads -/

/-- Length in bytes of an item head whose additional information is `info` (`info <= 27`). -/
def head_len (info : Nat) : Nat := if info < 24 then 1 else 1 + 2 ^ (info - 24)

/-- The argument of the item head found at address `a`. -/
def head_arg (mem : Mem) (a : Nat) : Nat :=
  if byteAt mem a % 32 < 24 then byteAt mem a % 32
  else be_uint mem (a + 1) (2 ^ (byteAt mem a % 32 - 24))

/-- The head found at `it.cur` is a definite head of major type `major` that lies inside the
buffer. -/
def DefiniteHead (mem : Mem) (it : nanocbor_value_t) (major : Nat) : Prop :=
  byteAt mem it.cur / 32 = major ∧ byteAt mem it.cur % 32 ≤ 27 ∧
    it.cur + head_len (byteAt mem it.cur % 32) ≤ it.end_


/-- The packed document `113([[v], [simple(0)]])` of the specification, the table entry `v`
being given by its encoded bytes `e`: table tag `D8 71`, the two-element array, the table
`[v]`, and the rump `[simple(0)]`. -/
def table_document (e : List Nat) : List Nat :=
  [0xD8, 0x71, 0x82, 0x81] ++ e ++ [0x81, 0xE0]

/-- Decoding `table_document e` at address 16 with a cursor from `nanocbor_decoder_init_packed`
proceeds as the document `[v]` would: `nanocbor_enter_array` returns `OK` with a child holding
one item, `nanocbor_get_uint8` on the child stores `v` (returning the head length of the entry),
the child is then at its end, and `nanocbor_leave_container` returns `OK` with the parent at the
end of the buffer. -/
def DecodesAsSingleton (e : List Nat) (v : Nat) : Prop :=
  let mem := mem_of 16 (table_document e)
  let it := nanocbor_decoder_init_packed defaultConfig (stack_value defaultConfig) 16
    (table_document e).length
  let child : nanocbor_value_t :=
    ⟨21 + e.length, 22 + e.length, 1, 13, [⟨19, 1 + e.length⟩, ⟨0, 0⟩, ⟨0, 0⟩, ⟨0, 0⟩], 1⟩
  let child2 : nanocbor_value_t := { child with cur := 22 + e.length, remaining := 0 }
  nanocbor_enter_array defaultConfig mem 12 it (stack_value defaultConfig) =
      some (NANOCBOR_OK, child) ∧
    nanocbor_in_container child = true ∧ nanocbor_container_indefinite child = false ∧
    nanocbor_array_items_remaining child = 1 ∧
    nanocbor_get_uint8 defaultConfig mem 12 child 0 = some ((e.length : Int), child2, v) ∧
    nanocbor_at_end mem child2 = true ∧
    nanocbor_leave_container defaultConfig mem 12 it child2 =
      some (NANOCBOR_OK, { it with cur := it.end_ }) ∧
    it.end_ = 16 + (table_document e).length

instance (e : List Nat) (v : Nat) : Decidable (DecodesAsSingleton e v) := by
  unfold DecodesAsSingleton
  infer_instance

/-! ## Specification-side grammar of well-formed items in memory -/

/-- Items of the lengths `ls` laid out one after the other from address `a` on, each satisfying
`P address length`. -/
def ItemsAt (P : Nat → Nat → Prop) : Nat → List Nat → Prop
  | _, [] => True
  | a, l :: ls => P a l ∧ ItemsAt P (a + l) ls

/-- An item without nested items occupies the `len` bytes from address `a` on: an integer, a
simple value or a float (major type 0, 1 or 7: the head alone), or a definite-length string
(major type 2 or 3: head and payload) whose length argument has a width that `size_t` holds
and whose encoding is shorter than `2^32` bytes. -/
def SimpleItemAt (cfg : Config) (mem : Mem) (a len : Nat) : Prop :=
  byteAt mem a % 32 ≤ 27 ∧
    (((byteAt mem a / 32 = 0 ∨ byteAt mem a / 32 = 1 ∨ byteAt mem a / 32 = 7) ∧
        len = head_len (byteAt mem a % 32)) ∨
      ((byteAt mem a / 32 = 2 ∨ byteAt mem a / 32 = 3) ∧
        byteAt mem a % 32 ≤ cfg.NANOCBOR_SIZE_SIZET ∧
        len = head_len (byteAt mem a % 32) + head_arg mem a ∧ len < 2 ^ 32))

/-- A well-formed item of nesting depth at most `d` (arrays, maps and tags each count one
level) occupies the `len` bytes from address `a` on: an item without nested items; a tag whose
number has at most four bytes, followed by its content; a definite array of `n` items or map of
`n < 2^63` pairs; or an indefinite array or map closed by the byte `FF`. -/
def ItemAt (cfg : Config) (mem : Mem) : Nat → Nat → Nat → Prop
  | 0 => fun a len => SimpleItemAt cfg mem a len
  | d + 1 => fun a len =>
    SimpleItemAt cfg mem a len ∨
    (byteAt mem a / 32 = 6 ∧ byteAt mem a % 32 ≤ 26 ∧
      ∃ l, ItemAt cfg mem d (a + head_len (byteAt mem a % 32)) l ∧
        len = head_len (byteAt mem a % 32) + l) ∨
    (byteAt mem a / 32 = 4 ∧ byteAt mem a % 32 ≤ 27 ∧
      ∃ ls : List Nat, ls.length = head_arg mem a ∧
        ItemsAt (ItemAt cfg mem d) (a + head_len (byteAt mem a % 32)) ls ∧
        len = head_len (byteAt mem a % 32) + ls.sum) ∨
    (byteAt mem a / 32 = 5 ∧ byteAt mem a % 32 ≤ 27 ∧ head_arg mem a < 2 ^ 63 ∧
      ∃ ls : List Nat, ls.length = 2 * head_arg mem a ∧
        ItemsAt (ItemAt cfg mem d) (a + head_len (byteAt mem a % 32)) ls ∧
        len = head_len (byteAt mem a % 32) + ls.sum) ∨
    ((byteAt mem a = 0x9F ∨ byteAt mem a = 0xBF) ∧
      ∃ ls : List Nat, (byteAt mem a = 0xBF → ls.length % 2 = 0) ∧
        ItemsAt (ItemAt cfg mem d) (a + 1) ls ∧ byteAt mem (a + 1 + ls.sum) = 0xFF ∧
        len = 1 + ls.sum + 1)

/-- The call `_skip_limited(it, limit)` on a cursor without packed support steps over the `len`
bytes at `a`: for every such cursor that is not at its end, whose buffer holds the `len` bytes
and whose `limit` exceeds `d`, the call returns `OK` (given enough fuel) and changes the cursor
only in `cur`, which becomes `a + len`, and in `remaining`, which is decremented when it was
not zero. -/
def SkipsOver (cfg : Config) (mem : Mem) (d a len : Nat) : Prop :=
  ∀ (it : nanocbor_value_t) (limit : Nat), d < limit → limit < 256 → it.cur = a →
    _packed_enabled it = false → nanocbor_at_end mem it = false → a + len ≤ it.end_ →
    ∃ r, (it.remaining ≠ 0 → r = dec64 it.remaining) ∧
      ∃ N, ∀ fuel, N ≤ fuel →
        _skip_limited cfg mem fuel it limit =
          some (NANOCBOR_OK, { it with cur := a + len, remaining := r })

/-- The accessor `nanocbor_get_intN` for `N = 8, 16, 32, 64` (no accessor for other `N`). -/
def nanocbor_get_int (N : Nat) (cfg : Config) (mem : Mem) (fuel : Nat)
    (cvalue : nanocbor_value_t) : Option (Int × nanocbor_value_t × Int) :=
  if N = 8 then nanocbor_get_int8 cfg mem fuel cvalue
  else if N = 16 then nanocbor_get_int16 cfg mem fuel cvalue
  else if N = 32 then nanocbor_get_int32 cfg mem fuel cvalue
  else if N = 64 then nanocbor_get_int64 cfg mem fuel cvalue 0
  else none

/-- The condition under which C13 lets `nanocbor_get_intN` succeed: the cursor is not at its end,
the item there has major type 0 or 1, its argument is encoded in at most `N / 8` argument bytes,
the head lies inside the buffer, and the argument is at most `INTN_MAX = 2^(N-1) - 1`. -/
def IntAccepted (N : Nat) (mem : Mem) (it : nanocbor_value_t) : Prop :=
  nanocbor_at_end mem it = false ∧ byteAt mem it.cur / 32 ≤ 1 ∧
    (24 ≤ byteAt mem it.cur % 32 → 2 ^ (byteAt mem it.cur % 32 - 24) ≤ N / 8) ∧
    it.cur + head_len (byteAt mem it.cur % 32) ≤ it.end_ ∧
    head_arg mem it.cur ≤ 2 ^ (N - 1) - 1


/-! ## Accessors that search or combine -/

/-- The C library function `strlen` on the character array `key`, a list of bytes followed by
a terminating NUL: the number of bytes before the first NUL. -/
def strlen (key : List Nat) : Nat := (key.takeWhile (fun c => c ≠ 0)).length

/-- The test `strncmp(key, s, n) == 0` of the C library: the first `n` characters of `key`
(NUL beyond the list) and of the bytes at address `s` agree, the comparison stopping at a
NUL. -/
def strncmp_eq (mem : Mem) : List Nat → Nat → Nat → Bool
  | _, _, 0 => true
  | key, s, n + 1 =>
    if key.headD 0 ≠ byteAt mem s then false
    else if key.headD 0 = 0 then true
    else strncmp_eq mem key.tail (s + 1) n

/-- The `while (!nanocbor_at_end(value))` loop of `nanocbor_get_key_tstr`; `res` is the value
of `res` on entry; returns `res` and the object `*value`. -/
def nanocbor_get_key_tstr_loop (cfg : Config) (mem : Mem) (key : List Nat) (len : Nat) :
    Nat → nanocbor_value_t → Int → Option (Int × nanocbor_value_t)
  | 0, _, _ => none
  | fuel + 1, value, res =>
    if ¬ nanocbor_at_end mem value then
      match nanocbor_get_tstr cfg mem fuel value 0 0 with
      | none => none
      | some (res, value, s, s_len) =>
        if res < 0 then some (res, value)
        else if s_len = len ∧ strncmp_eq mem key s len then some (NANOCBOR_OK, value)
        else
          match nanocbor_skip cfg mem fuel value with
          | none => none
          | some (res, value) =>
            if res < 0 then some (res, value)
            else nanocbor_get_key_tstr_loop cfg mem key len fuel value res
    else some (res, value)

/-- `nanocbor_get_key_tstr`; `*start` is only read; returns the `int` and the object
`*value`. -/
def nanocbor_get_key_tstr (cfg : Config) (mem : Mem) (fuel : Nat) (start : nanocbor_value_t)
    (key : List Nat) : Option (Int × nanocbor_value_t) :=
  nanocbor_get_key_tstr_loop cfg mem key (strlen key) fuel start NANOCBOR_NOT_FOUND

/-- `nanocbor_get_decimal_frac`; `e` and `m` are the prior contents of `*e` and `*m`; returns
the `int` and the objects `*cvalue`, `*e` and `*m`. -/
def nanocbor_get_decimal_frac (cfg : Config) (mem : Mem) (fuel : Nat)
    (cvalue : nanocbor_value_t) (e m : Int) : Option (Int × nanocbor_value_t × Int × Int) :=
  match nanocbor_get_tag cfg mem fuel cvalue (2 ^ 32 - 1) with
  | none => none
  | some (r, cvalue, tag) =>
    if r = NANOCBOR_OK ∧ tag = NANOCBOR_TAG_DEC_FRAC then
      match nanocbor_enter_array cfg mem fuel cvalue (stack_value cfg) with
      | none => none
      | some (r, arr) =>
        if r = NANOCBOR_OK then
          match nanocbor_get_int32 cfg mem fuel arr with
          | none => none
          | some (res, arr, e) =>
            let second : Option (Int × nanocbor_value_t × Int) :=
              if res ≥ 0 then
                match nanocbor_get_int32 cfg mem fuel arr with
                | none => none
                | some (res, arr, m) => some (if res ≥ 0 then NANOCBOR_OK else res, arr, m)
              else some (res, arr, m)
            match second with
            | none => none
            | some (res, arr, m) =>
              match nanocbor_leave_container cfg mem fuel cvalue arr with
              | none => none
              | some (_, cvalue) => some (res, cvalue, e, m)
        else some (NANOCBOR_NOT_FOUND, cvalue, e, m)
    else some (NANOCBOR_NOT_FOUND, cvalue, e, m)


/-- The array cursor that `nanocbor_get_decimal_frac` enters behind the tag head at `it.cur`:
indefinite when the byte behind the tag head is `9F`, definite otherwise. -/
def dec_frac_array (cfg : Config) (mem : Mem) (it : nanocbor_value_t) : nanocbor_value_t :=
  if byteAt mem (it.cur + head_len (byteAt mem it.cur % 32)) = 0x9F then
    { stack_value cfg with
      flags := 3, end_ := it.end_, remaining := 0,
      cur := it.cur + head_len (byteAt mem it.cur % 32) + 1 }
  else
    { stack_value cfg with
      flags := 1, end_ := it.end_,
      remaining := head_arg mem (it.cur + head_len (byteAt mem it.cur % 32)),
      cur := it.cur + head_len (byteAt mem it.cur % 32) +
        head_len (byteAt mem (it.cur + head_len (byteAt mem it.cur % 32)) % 32) }

/-- The integer item at `c.cur`: the argument for major type 0, `-a-1` for major type 1. -/
def int_item_value (mem : Mem) (c : nanocbor_value_t) : Int :=
  if byteAt mem c.cur / 32 = 1 then -(head_arg mem c.cur : Int) - 1
  else (head_arg mem c.cur : Int)

/-- The item at the cursor is a tag 4, its number encoded in at most four bytes, wrapping an
array (definite or indefinite) whose first two elements are integers that
`nanocbor_get_int32` accepts. -/
def DecFracAccepted (cfg : Config) (mem : Mem) (it : nanocbor_value_t) : Prop :=
  nanocbor_at_end mem it = false ∧ byteAt mem it.cur / 32 = 6 ∧ byteAt mem it.cur % 32 ≤ 26 ∧
    it.cur + head_len (byteAt mem it.cur % 32) < it.end_ ∧ head_arg mem it.cur = 4 ∧
    (byteAt mem (it.cur + head_len (byteAt mem it.cur % 32)) = 0x9F ∨
      (byteAt mem (it.cur + head_len (byteAt mem it.cur % 32)) / 32 = 4 ∧
        byteAt mem (it.cur + head_len (byteAt mem it.cur % 32)) % 32 ≤ 27 ∧
        it.cur + head_len (byteAt mem it.cur % 32) +
          head_len (byteAt mem (it.cur + head_len (byteAt mem it.cur % 32)) % 32) ≤ it.end_)) ∧
    IntAccepted 32 mem (dec_frac_array cfg mem it) ∧
    IntAccepted 32 mem (_advance (dec_frac_array cfg mem it)
      (head_len (byteAt mem (dec_frac_array cfg mem it).cur % 32)))

/-- The array of `DecFracAccepted` holds exactly its two integers: a definite array has count 2,
an indefinite one has its `FF` right behind the second integer, inside the buffer. -/
def DecFracExact (cfg : Config) (mem : Mem) (it : nanocbor_value_t) : Prop :=
  ((dec_frac_array cfg mem it).flags = 1 → (dec_frac_array cfg mem it).remaining = 2) ∧
  ((dec_frac_array cfg mem it).flags = 3 →
    byteAt mem ((dec_frac_array cfg mem it).cur +
      head_len (byteAt mem (dec_frac_array cfg mem it).cur % 32) +
      head_len (byteAt mem ((dec_frac_array cfg mem it).cur +
        head_len (byteAt mem (dec_frac_array cfg mem it).cur % 32)) % 32)) = 0xFF ∧
    (dec_frac_array cfg mem it).cur +
      head_len (byteAt mem (dec_frac_array cfg mem it).cur % 32) +
      head_len (byteAt mem ((dec_frac_array cfg mem it).cur +
        head_len (byteAt mem (dec_frac_array cfg mem it).cur % 32)) % 32) < it.end_)


/-- The bytes at address `a` encode an empty container of major type `major` (4 for an array,
5 for a map): a definite head with count 0, or the indefinite head followed at once by the
break byte `FF`. -/
def EmptyContainerAt (mem : Mem) (a major : Nat) : Prop :=
  (byteAt mem a / 32 = major ∧ byteAt mem a % 32 ≤ 27 ∧ head_arg mem a = 0) ∨
    (byteAt mem a = major * 32 + 31 ∧ byteAt mem (a + 1) = 0xFF)

instance (mem : Mem) (a major : Nat) : Decidable (EmptyContainerAt mem a major) := by
  unfold EmptyContainerAt
  infer_instance


/-! ## Float accessors, as far as the cursor and the returned code go -/

/-- `_decode_half_float`: the returned `int` and the object `*cvalue`; the `float` written to
`*value` is not modelled. -/
def _decode_half_float (mem : Mem) (cvalue : nanocbor_value_t) : Int × nanocbor_value_t :=
  let r := _get_uint64 mem cvalue 0 NANOCBOR_SIZE_SHORT NANOCBOR_TYPE_FLOAT
  if r.1 = 1 + 2 then (r.1, _advance_if cvalue r.1)
  else (if r.1 > 0 then NANOCBOR_ERR_INVALID_TYPE else r.1, cvalue)

/-- `_decode_float`: the returned `int` and the object `*cvalue`; the `float` written to
`*value` is not modelled. -/
def _decode_float (mem : Mem) (cvalue : nanocbor_value_t) : Int × nanocbor_value_t :=
  let r := _get_uint64 mem cvalue 0 NANOCBOR_SIZE_WORD NANOCBOR_TYPE_FLOAT
  if r.1 = 1 + 4 then (r.1, _advance_if cvalue r.1)
  else (if r.1 > 0 then NANOCBOR_ERR_INVALID_TYPE else r.1, cvalue)

/-- `nanocbor_get_float`: the returned `int` and the object `*cvalue`. -/
def nanocbor_get_float (cfg : Config) (mem : Mem) (fuel : Nat) (cvalue : nanocbor_value_t) :
    Option (Int × nanocbor_value_t) :=
  match _PACKED_HANDLE_LIMITED cfg mem fuel cvalue with
  | none => none
  | some h =>
    match h.ret with
    | some res => some (res, h.cvalue)
    | none =>
      let r := _decode_half_float mem h.it
      let r := if r.1 < 0 then _decode_float mem r.2 else r
      some (r.1, if h.redirected then h.cvalue else r.2)

/-- The item at the cursor is one that the packed engine resolves: a tag whose number, read
with at most four bytes, is the table tag or the shared-reference tag, or a simple value
`0..15` (a short-form reference). -/
def PackedItemAt (cfg : Config) (mem : Mem) (it : nanocbor_value_t) : Prop :=
  (__get_type mem it = NANOCBOR_TYPE_TAG ∧
      (_get_uint64 mem it 0 NANOCBOR_SIZE_WORD NANOCBOR_TYPE_TAG).1 ≥ 0 ∧
      ((_get_uint64 mem it 0 NANOCBOR_SIZE_WORD NANOCBOR_TYPE_TAG).2 =
          cfg.NANOCBOR_TAG_PACKED_TABLE ∨
        (_get_uint64 mem it 0 NANOCBOR_SIZE_WORD NANOCBOR_TYPE_TAG).2 =
          cfg.NANOCBOR_TAG_PACKED_REF_SHARED)) ∨
    (__get_type mem it = NANOCBOR_TYPE_FLOAT ∧
      byteAt mem it.cur &&& NANOCBOR_VALUE_MASK < 16)

instance (cfg : Config) (mem : Mem) (it : nanocbor_value_t) :
    Decidable (PackedItemAt cfg mem it) := by
  unfold PackedItemAt
  infer_instance


/-- The call `_skip_limited(it, limit)` steps over the `len` bytes at `a`, on a cursor with or
without packed support: for every cursor that is not at its end, whose buffer holds the `len`
bytes and whose `limit` exceeds `d`, the call returns `OK` (given enough fuel) and changes the
cursor only in `cur`, which becomes `a + len`, and in `remaining`, which is decremented when it
was not zero. -/
def SkipsOverAny (cfg : Config) (mem : Mem) (d a len : Nat) : Prop :=
  ∀ (it : nanocbor_value_t) (limit : Nat), d < limit → limit < 256 → it.cur = a →
    nanocbor_at_end mem it = false → a + len ≤ it.end_ →
    ∃ r, (it.remaining ≠ 0 → r = dec64 it.remaining) ∧
      ∃ N, ∀ fuel, N ≤ fuel →
        _skip_limited cfg mem fuel it limit =
          some (NANOCBOR_OK, { it with cur := a + len, remaining := r })


/-! ## Specification-side vocabulary for map bodies -/

/-- The `n` bytes found from address `s` on. -/
def bytes_at (mem : Mem) : Nat → Nat → List Nat
  | _, 0 => []
  | s, n + 1 => byteAt mem s :: bytes_at mem (s + 1) n

/-- The item at address `a` is a definite-length text string whose payload is `key`, byte for
byte. -/
def KeyIs (mem : Mem) (a : Nat) (key : List Nat) : Prop :=
  bytes_at mem (a + head_len (byteAt mem a % 32)) (head_arg mem a) = key

/-- Key/value pairs laid out one after the other from address `a` on; a pair `(kl, vl)` is a
definite-length text string of `kl` encoded bytes whose start address satisfies `K`, followed
by a well-formed item of `vl` bytes and nesting depth at most `d`. -/
def PairsAt (cfg : Config) (mem : Mem) (d : Nat) (K : Nat → Prop) :
    Nat → List (Nat × Nat) → Prop
  | _, [] => True
  | a, p :: ps =>
    byteAt mem a / 32 = 3 ∧ SimpleItemAt cfg mem a p.1 ∧ K a ∧
      ItemAt cfg mem d (a + p.1) p.2 ∧ PairsAt cfg mem d K (a + p.1 + p.2) ps

/-- Total encoded length of a list of pairs. -/
def pairs_len (ps : List (Nat × Nat)) : Nat := (ps.map fun p => p.1 + p.2).sum

/-- The cursor `v` is the body of a map that holds `n` more pairs in the next `total` bytes: a
container cursor, either definite with `remaining = 2n` and the bytes inside the buffer, or
indefinite with the break byte `FF` right behind them. -/
def MapBody (mem : Mem) (v : nanocbor_value_t) (n total : Nat) : Prop :=
  nanocbor_in_container v = true ∧
    ((nanocbor_container_indefinite v = false ∧ v.remaining = 2 * n ∧ 2 * n < 2 ^ 64 ∧
        v.cur + total ≤ v.end_) ∨
      (nanocbor_container_indefinite v = true ∧ v.cur + total < v.end_ ∧
        byteAt mem (v.cur + total) = 0xFF))


/-! ## Specification-side vocabulary for packing tables -/

/-- The table `t` is a well-formed definite-length array literal whose entries have the encoded
lengths `ls`: its start is not `NULL`, the head is a definite array head with count
`ls.length < 2^32`, the entries are well-formed items of nesting depth at most `d`, and `t.len`
is the byte span of the literal. -/
def TableAt (cfg : Config) (mem : Mem) (d : Nat) (t : nanocbor_packed_table) (ls : List Nat) :
    Prop :=
  t.start ≠ 0 ∧ byteAt mem t.start / 32 = 4 ∧ byteAt mem t.start % 32 ≤ 27 ∧
    head_arg mem t.start = ls.length ∧ ls.length < 2 ^ 32 ∧
    ItemsAt (ItemAt cfg mem d) (t.start + head_len (byteAt mem t.start % 32)) ls ∧
    t.len = head_len (byteAt mem t.start % 32) + ls.sum

/-- Entry `r` of the concatenation of the tables `ts`, given innermost first, each with the
encoded lengths of its entries: the position in `ts` of the table that holds the entry, and
the address of the first byte of the entry; `none` when `r` is not below the total number of
entries. -/
def entry_pos (mem : Mem) : List (nanocbor_packed_table × List Nat) → Nat → Option (Nat × Nat)
  | [], _ => none
  | x :: rest, r =>
    if r < x.2.length then
      some (0, x.1.start + head_len (byteAt mem x.1.start % 32) + (x.2.take r).sum)
    else (entry_pos mem rest (r - x.2.length)).map fun p => (p.1 + 1, p.2)

/-- The tables `ts`, given innermost first, are the active tables of a cursor whose table array
is `tb` and whose count of active tables is `num`, from loop index `i` on: the table at list
position `j` is `tb[num - 1 - (i + j)]`, and it is well formed. -/
def TablesFrom (cfg : Config) (mem : Mem) (d : Nat) (tb : List nanocbor_packed_table)
    (num i : Nat) (ts : List (nanocbor_packed_table × List Nat)) : Prop :=
  i + ts.length = num ∧
    ∀ j x, ts.get? j = some x →
      tb.getD (num - 1 - (i + j)) ⟨0, 0⟩ = x.1 ∧ TableAt cfg mem d x.1 x.2


/-- The cursor `c` is the body of an array entered from a cursor with packed support, with the
items of the encoded lengths `ls` still to come: definite (`flags = 5`) with `remaining` the
number of items and the bytes inside the buffer, or indefinite (`flags = 7`) with the break
byte `FF` right behind them. -/
def ArrayBody (mem : Mem) (c : nanocbor_value_t) (ls : List Nat) : Prop :=
  (c.flags = 5 ∧ c.remaining = ls.length ∧ ls.length < 2 ^ 64 ∧ c.cur + ls.sum ≤ c.end_) ∨
    (c.flags = 7 ∧ c.cur + ls.sum < c.end_ ∧ byteAt mem (c.cur + ls.sum) = 0xFF)

/-- The address of the first item of the array found at `c.cur`: behind the one-byte
indefinite head `9F`, or behind the definite head. -/
def content_start (mem : Mem) (c : nanocbor_value_t) : Nat :=
  c.cur + (if byteAt mem c.cur = 0x9F then 1 else head_len (byteAt mem c.cur % 32))

/-- The item at `c.cur` is an array literal, definite or indefinite, inside the buffer of `c`,
whose items are well-formed items of nesting depth at most `d` with the encoded lengths
`ls`. -/
def ContentArray (cfg : Config) (mem : Mem) (d : Nat) (c : nanocbor_value_t) (ls : List Nat) :
    Prop :=
  nanocbor_at_end mem c = false ∧ ItemsAt (ItemAt cfg mem d) (content_start mem c) ls ∧
    ((byteAt mem c.cur / 32 = 4 ∧ byteAt mem c.cur % 32 ≤ 27 ∧
        head_arg mem c.cur = ls.length ∧ content_start mem c + ls.sum ≤ c.end_) ∨
      (byteAt mem c.cur = 0x9F ∧ content_start mem c + ls.sum < c.end_ ∧
        byteAt mem (content_start mem c + ls.sum) = 0xFF))

/-- The cursor `it` stands on a tag whose number, encoded in at most four bytes and lying
inside the buffer, is the table tag. -/
def TableTagAt (cfg : Config) (mem : Mem) (it : nanocbor_value_t) : Prop :=
  nanocbor_at_end mem it = false ∧ byteAt mem it.cur / 32 = 6 ∧ byteAt mem it.cur % 32 ≤ 26 ∧
    it.cur + head_len (byteAt mem it.cur % 32) ≤ it.end_ ∧
    head_arg mem it.cur = cfg.NANOCBOR_TAG_PACKED_TABLE

/-- Every value accessor, called on `it` with the given fuel, returns the code `res`. -/
def AccessorsReturn (cfg : Config) (mem : Mem) (fuel : Nat) (it : nanocbor_value_t)
    (res : Int) : Prop :=
  (nanocbor_get_uint8 cfg mem fuel it 0).map Prod.fst = some res ∧
  (nanocbor_get_uint16 cfg mem fuel it).map Prod.fst = some res ∧
  (nanocbor_get_uint32 cfg mem fuel it).map Prod.fst = some res ∧
  (nanocbor_get_uint64 cfg mem fuel it).map Prod.fst = some res ∧
  (nanocbor_get_int8 cfg mem fuel it).map Prod.fst = some res ∧
  (nanocbor_get_int16 cfg mem fuel it).map Prod.fst = some res ∧
  (nanocbor_get_int32 cfg mem fuel it).map Prod.fst = some res ∧
  (nanocbor_get_int64 cfg mem fuel it 0).map Prod.fst = some res ∧
  (nanocbor_get_bstr cfg mem fuel it 0 0).map Prod.fst = some res ∧
  (nanocbor_get_tstr cfg mem fuel it 0 0).map Prod.fst = some res ∧
  (nanocbor_get_tag cfg mem fuel it 0).map Prod.fst = some res ∧
  (nanocbor_get_null cfg mem fuel it).map Prod.fst = some res ∧
  (nanocbor_get_undefined cfg mem fuel it).map Prod.fst = some res ∧
  (nanocbor_get_bool cfg mem fuel it false).map Prod.fst = some res ∧
  (nanocbor_get_simple cfg mem fuel it 0).map Prod.fst = some res ∧
  (nanocbor_get_float cfg mem fuel it).map Prod.fst = some res


/-- None of the value accessors, called on `it` with the given fuel, returns. -/
def AccessorsStuck (cfg : Config) (mem : Mem) (fuel : Nat) (it : nanocbor_value_t) : Prop :=
  nanocbor_get_uint8 cfg mem fuel it 0 = none ∧
  nanocbor_get_uint16 cfg mem fuel it = none ∧
  nanocbor_get_uint32 cfg mem fuel it = none ∧
  nanocbor_get_uint64 cfg mem fuel it = none ∧
  nanocbor_get_int8 cfg mem fuel it = none ∧
  nanocbor_get_int16 cfg mem fuel it = none ∧
  nanocbor_get_int32 cfg mem fuel it = none ∧
  nanocbor_get_int64 cfg mem fuel it 0 = none ∧
  nanocbor_get_bstr cfg mem fuel it 0 0 = none ∧
  nanocbor_get_tstr cfg mem fuel it 0 0 = none ∧
  nanocbor_get_tag cfg mem fuel it 0 = none ∧
  nanocbor_get_null cfg mem fuel it = none ∧
  nanocbor_get_undefined cfg mem fuel it = none ∧
  nanocbor_get_bool cfg mem fuel it false = none ∧
  nanocbor_get_simple cfg mem fuel it 0 = none ∧
  nanocbor_get_float cfg mem fuel it = none

/-- The sixteen bytes of `113([[4294967296(0), simple(1)], simple(1)])` at address 16: a table
whose entry 0 carries a tag number of eight bytes and whose entry 1 is a reference to
entry 1. -/
def cyclic_doc : Mem :=
  mem_of 16 [0xD8, 0x71, 0x82, 0x82, 0xDB, 0, 0, 0, 1, 0, 0, 0, 0, 0x00, 0xE1, 0xE1]


/-! ## The `float` object written by the float accessors

A `float` object is modelled by its 32 bits (IEEE 754 binary32, as the casts between `float *`
and `uint32_t *` in the source assume). -/

/-- `FLOAT_EXP_OFFSET`. -/
def FLOAT_EXP_OFFSET : Nat := 127
/-- `FLOAT_EXP_POS`. -/
def FLOAT_EXP_POS : Nat := 23
/-- `FLOAT_EXP_MASK`. -/
def FLOAT_EXP_MASK : Nat := 0xFF
/-- `FLOAT_SIGN_POS`. -/
def FLOAT_SIGN_POS : Nat := 31
/-- `HALF_EXP_OFFSET`. -/
def HALF_EXP_OFFSET : Nat := 15
/-- `HALF_EXP_POS`. -/
def HALF_EXP_POS : Nat := 10
/-- `HALF_EXP_MASK`. -/
def HALF_EXP_MASK : Nat := 0x1F
/-- `HALF_SIGN_POS`. -/
def HALF_SIGN_POS : Nat := 15
/-- `HALF_FRAC_MASK`. -/
def HALF_FRAC_MASK : Nat := 0x3FF
/-- `HALF_SIGN_MASK`, a `uint16_t`. -/
def HALF_SIGN_MASK : Nat := (1 <<< HALF_SIGN_POS) % 2 ^ 16
/-- `HALF_FLOAT_EXP_DIFF`, a `uint16_t`. -/
def HALF_FLOAT_EXP_DIFF : Nat := (FLOAT_EXP_OFFSET - HALF_EXP_OFFSET) % 2 ^ 16
/-- `HALF_FLOAT_EXP_POS_DIFF`, a `uint16_t`. -/
def HALF_FLOAT_EXP_POS_DIFF : Nat := (FLOAT_EXP_POS - HALF_EXP_POS) % 2 ^ 16
/-- `HALF_EXP_TO_FLOAT`. -/
def HALF_EXP_TO_FLOAT : Nat := HALF_FLOAT_EXP_DIFF <<< HALF_EXP_POS

/-- The statements `*ifloat = magic + significant; *value -= *fmagic;` of
`_decode_half_float`, for `significant < 1024`: the bits of the `float` they leave in `*value`.
With `magic = (FLOAT_EXP_OFFSET - 1) << FLOAT_EXP_POS` the `float` of the bits
`magic + significant` is `1/2 + significant * 2^(-24)` and `*fmagic` is `1/2`; the IEEE 754
subtraction is exact, so the result is `significant * 2^(-24)`: zero, or the normalised number
whose leading bit is the highest set bit of `significant`. -/
def half_subnormal (significant : Nat) : Nat :=
  if significant = 0 then 0
  else
    ((FLOAT_EXP_OFFSET - 1 - FLOAT_EXP_POS + Nat.log2 significant) <<< FLOAT_EXP_POS) |||
      ((significant - 2 ^ Nat.log2 significant) <<< (FLOAT_EXP_POS - Nat.log2 significant))

/-- The body of the `if (res == 1 + sizeof(uint16_t))` block of `_decode_half_float`: the bits
left in `*value` for the argument `tmp` of the head; the arithmetic is that of `uint32_t`. -/
def half_to_float (tmp : Nat) : Nat :=
  let ifloat := ((tmp &&& HALF_SIGN_MASK) <<< (FLOAT_SIGN_POS - HALF_SIGN_POS)) % 2 ^ 32
  let significant := (tmp &&& HALF_FRAC_MASK) % 2 ^ 32
  let exponent := (tmp &&& (HALF_EXP_MASK <<< HALF_EXP_POS)) % 2 ^ 32
  if exponent = 0 then half_subnormal significant
  else
    let exponent :=
      if exponent = HALF_EXP_MASK <<< HALF_EXP_POS then
        ((FLOAT_EXP_MASK - HALF_FLOAT_EXP_DIFF) <<< HALF_EXP_POS) % 2 ^ 32
      else exponent
    ifloat ||| ((((exponent + HALF_EXP_TO_FLOAT) % 2 ^ 32) <<< HALF_FLOAT_EXP_POS_DIFF) % 2 ^ 32 |||
      (significant <<< HALF_FLOAT_EXP_POS_DIFF) % 2 ^ 32)

/-- `_decode_half_float`: the object `*value` after the call (the returned `int` and `*cvalue`
are given by `_decode_half_float`); `value` is its prior content. -/
def _decode_half_float_value (mem : Mem) (cvalue : nanocbor_value_t) (value : Nat) : Nat :=
  let r := _get_uint64 mem cvalue 0 NANOCBOR_SIZE_SHORT NANOCBOR_TYPE_FLOAT
  if r.1 = 1 + 2 then half_to_float r.2 else value

/-- `_decode_float`: the object `*value` after the call; `value` is its prior content. -/
def _decode_float_value (mem : Mem) (cvalue : nanocbor_value_t) (value : Nat) : Nat :=
  let r := _get_uint64 mem cvalue 0 NANOCBOR_SIZE_WORD NANOCBOR_TYPE_FLOAT
  if r.1 = 1 + 4 then r.2 % 2 ^ 32 else value

/-- `nanocbor_get_float`: the object `*value` after the call; `value` is its prior content. -/
def nanocbor_get_float_value (cfg : Config) (mem : Mem) (fuel : Nat) (cvalue : nanocbor_value_t)
    (value : Nat) : Option Nat :=
  match _PACKED_HANDLE_LIMITED cfg mem fuel cvalue with
  | none => none
  | some h =>
    match h.ret with
    | some _ => some value
    | none =>
      let r := _decode_half_float mem h.it
      let v := _decode_half_float_value mem h.it value
      some (if r.1 < 0 then _decode_float_value mem r.2 v else v)


/-! # Theorems -/

/-! ## Elementary facts about bytes and heads -/

theorem byteAt_lt (mem : Mem) (a : Nat) : byteAt mem a < 256 :=
  Nat.mod_lt _ (by norm_num)

theorem and_value_mask (b : Nat) : b &&& NANOCBOR_VALUE_MASK = b % 32 := by
  have := Nat.and_pow_two_sub_one_eq_mod b 5
  simpa [NANOCBOR_VALUE_MASK] using this

theorem type_of_byte (b : Nat) (hb : b < 256) :
    (b &&& NANOCBOR_TYPE_MASK) >>> NANOCBOR_TYPE_OFFSET = b / 32 := by
  simp only [NANOCBOR_TYPE_MASK, NANOCBOR_TYPE_OFFSET]
  interval_cases b <;> rfl

theorem get_type_of_not_at_end (mem : Mem) (c : nanocbor_value_t)
    (h : nanocbor_at_end mem c = false) :
    __get_type mem c = ((byteAt mem c.cur / 32 : Nat) : Int) := by
  simp [__get_type, h, type_of_byte _ (byteAt_lt mem c.cur)]

theorem be_uint_lt (mem : Mem) (a n : Nat) : be_uint mem a n < 256 ^ n := by
  induction n generalizing a with
  | zero => simp [be_uint]
  | succ n ih =>
    have h1 := byteAt_lt mem a
    have h2 := ih (a + 1)
    simp only [be_uint]
    calc byteAt mem a * 256 ^ n + be_uint mem (a + 1) n
        < byteAt mem a * 256 ^ n + 256 ^ n := by omega
      _ = (byteAt mem a + 1) * 256 ^ n := by ring
      _ ≤ 256 * 256 ^ n := Nat.mul_le_mul_right _ (by omega)
      _ = 256 ^ (n + 1) := by ring

theorem be_uint_eq_sum (mem : Mem) (a n : Nat) :
    be_uint mem a n = ∑ i in Finset.range n, byteAt mem (a + i) * 256 ^ (n - 1 - i) := by
  induction n generalizing a with
  | zero => simp [be_uint]
  | succ n ih =>
    rw [be_uint, Finset.sum_range_succ', ih (a + 1)]
    simp only [Nat.add_zero, Nat.add_sub_cancel, Nat.sub_zero]
    rw [Nat.add_comm]
    congr 1
    apply Finset.sum_congr rfl
    intro i hi
    have : i < n := Finset.mem_range.mp hi
    congr 2
    · omega
    · omega

theorem get_uint64_short (mem : Mem) (c : nanocbor_value_t) (v max : Nat) (type : Int)
    (hne : nanocbor_at_end mem c = false) (hty : type = ((byteAt mem c.cur / 32 : Nat) : Int))
    (hi : byteAt mem c.cur % 32 < 24) :
    _get_uint64 mem c v max type = (1, byteAt mem c.cur % 32) := by
  have hg := get_type_of_not_at_end mem c hne
  have h1 : ¬ (((byteAt mem c.cur / 32 : Nat) : Int) < 0) := by omega
  simp only [_get_uint64, hg, and_value_mask, NANOCBOR_SIZE_BYTE, h1, hty, hi, if_false,
    if_true, ne_eq, not_true_eq_false]

theorem get_uint64_long (mem : Mem) (c : nanocbor_value_t) (v max : Nat) (type : Int)
    (hne : nanocbor_at_end mem c = false) (hty : type = ((byteAt mem c.cur / 32 : Nat) : Int))
    (h24 : 24 ≤ byteAt mem c.cur % 32) (hmax : byteAt mem c.cur % 32 ≤ max) :
    _get_uint64 mem c v max type =
      if c.cur + 2 ^ (byteAt mem c.cur % 32 - 24) ≥ c.end_ then (NANOCBOR_ERR_END, v)
      else (((1 + 2 ^ (byteAt mem c.cur % 32 - 24) : Nat) : Int),
        be_uint mem (c.cur + 1) (2 ^ (byteAt mem c.cur % 32 - 24))) := by
  have hg := get_type_of_not_at_end mem c hne
  simp only [_get_uint64, hg, and_value_mask, NANOCBOR_SIZE_BYTE, Nat.one_shiftLeft]
  have h1 : ¬ (((byteAt mem c.cur / 32 : Nat) : Int) < 0) := by omega
  have h2 : ¬ (byteAt mem c.cur % 32 < 24) := by omega
  have h3 : ¬ (byteAt mem c.cur % 32 > max) := by omega
  simp only [h1, h2, h3, hty, if_false, ne_eq, not_true_eq_false]
  split
  · rfl
  · congr 1
    apply Nat.mod_eq_of_lt
    have := be_uint_lt mem (c.cur + 1) (2 ^ (byteAt mem c.cur % 32 - 24))
    calc _ < 256 ^ (2 ^ (byteAt mem c.cur % 32 - 24)) := this
      _ = 2 ^ (8 * 2 ^ (byteAt mem c.cur % 32 - 24)) := by
        rw [show (256 : Nat) = 2 ^ 8 by norm_num, ← pow_mul]
/-! ## The packed hook on a cursor without packed support -/

theorem packed_handle_disabled (cfg : Config) (mem : Mem) (fuel : Nat) (same : Bool)
    (c t : nanocbor_value_t) (limit : Nat) (hd : _packed_enabled c = false) :
    _packed_handle cfg mem (fuel + 1) same c t limit = some (NANOCBOR_NOT_FOUND, c, t) := by
  rw [_packed_handle]
  simp [hd]

theorem PACKED_HANDLE_disabled (cfg : Config) (mem : Mem) (fuel : Nat) (same : Bool)
    (c t : nanocbor_value_t) (limit : Nat) (hd : _packed_enabled c = false) (hl : limit ≠ 0) :
    _PACKED_HANDLE cfg mem (fuel + 2) same c t limit = some ⟨none, false, c, t⟩ := by
  rw [_PACKED_HANDLE]
  simp [hl, packed_handle_disabled cfg mem fuel same c t _ hd, NANOCBOR_NOT_FOUND, NANOCBOR_OK]

/-! ## C8: end of container -/

/-- C8. For a container cursor, `nanocbor_at_end` holds exactly when `cur >= end`, or the
container is indefinite and the byte at `cur` is `0xFF`, or it is definite and `remaining` is
zero; for a cursor produced by `nanocbor_decoder_init`, whatever the prior content of the object
(in particular whatever `remaining` holds), it holds exactly when `cur >= end`. -/
theorem C8_at_end (cfg : Config) (mem : Mem) (it value : nanocbor_value_t) (buf len : Nat)
    (hc : nanocbor_in_container it = true) :
    (nanocbor_at_end mem it = true ↔
      (it.cur ≥ it.end_ ∨
        (nanocbor_container_indefinite it = true ∧ byteAt mem it.cur = 0xFF) ∨
        (nanocbor_container_indefinite it = false ∧ it.remaining = 0))) ∧
    (nanocbor_at_end mem (nanocbor_decoder_init cfg value buf len) = true ↔
      (nanocbor_decoder_init cfg value buf len).cur ≥
        (nanocbor_decoder_init cfg value buf len).end_) := by
  constructor
  · simp only [nanocbor_at_end, _over_end, hc, NANOCBOR_TYPE_FLOAT, NANOCBOR_TYPE_OFFSET,
      NANOCBOR_VALUE_MASK]
    have e : (Int.toNat 7 <<< 5 ||| 31) = 255 := by decide
    rw [e]
    cases nanocbor_container_indefinite it <;> simp
  · simp [nanocbor_at_end, _over_end, nanocbor_decoder_init, nanocbor_container_indefinite,
      nanocbor_in_container]

/-- Witness of C8: an exhausted definite container of two bytes left in the buffer. -/
theorem C8_at_end_witness :
    nanocbor_in_container ⟨16, 18, 0, 1, [], 0⟩ = true ∧
    (nanocbor_at_end (mem_of 16 [1, 2]) ⟨16, 18, 0, 1, [], 0⟩ = true ↔
      ((16 : Nat) ≥ 18 ∨
        (nanocbor_container_indefinite ⟨16, 18, 0, 1, [], 0⟩ = true ∧
          byteAt (mem_of 16 [1, 2]) 16 = 0xFF) ∨
        (nanocbor_container_indefinite ⟨16, 18, 0, 1, [], 0⟩ = false ∧ (0 : Nat) = 0))) :=
  ⟨by decide,
    (C8_at_end defaultConfig (mem_of 16 [1, 2]) ⟨16, 18, 0, 1, [], 0⟩ (stack_value defaultConfig)
      16 2 (by decide)).1⟩

/-! ## C9, C10: the primitive reader -/

/-- C9. On a cursor that is not at its end and whose initial byte carries the expected major
type, `_get_uint64` returns head length 1 and argument `info` when `info < 24`; when `info` is
24..27, within the caller's maximum, and the `2^(info-24)` argument bytes lie inside the buffer,
it returns head length `1 + 2^(info-24)` and the big-endian value of those bytes.  The cursor is
an input only (`const` in C): the reader returns nothing but the `int` and `*value`. -/
theorem C9_get_uint64 (mem : Mem) (c : nanocbor_value_t) (v max : Nat) (type : Int)
    (hne : nanocbor_at_end mem c = false)
    (hty : type = ((byteAt mem c.cur / 32 : Nat) : Int)) :
    (byteAt mem c.cur % 32 < 24 →
      _get_uint64 mem c v max type = (1, byteAt mem c.cur % 32)) ∧
    (24 ≤ byteAt mem c.cur % 32 → byteAt mem c.cur % 32 ≤ 27 → byteAt mem c.cur % 32 ≤ max →
      c.cur + 1 + 2 ^ (byteAt mem c.cur % 32 - 24) ≤ c.end_ →
      _get_uint64 mem c v max type =
        (((1 + 2 ^ (byteAt mem c.cur % 32 - 24) : Nat) : Int),
          ∑ i in Finset.range (2 ^ (byteAt mem c.cur % 32 - 24)),
            byteAt mem (c.cur + 1 + i) * 256 ^ (2 ^ (byteAt mem c.cur % 32 - 24) - 1 - i))) := by
  constructor
  · exact get_uint64_short mem c v max type hne hty
  · intro h24 _ hmax hin
    rw [get_uint64_long mem c v max type hne hty h24 hmax, if_neg (by omega), be_uint_eq_sum]

/-- Witness of C9: the two-byte item `18 2A` read as an unsigned integer. -/
theorem C9_get_uint64_witness :
    nanocbor_at_end (mem_of 16 [0x18, 0x2A]) ⟨16, 18, 0, 0, [], 0⟩ = false ∧
    _get_uint64 (mem_of 16 [0x18, 0x2A]) ⟨16, 18, 0, 0, [], 0⟩ 0 27 0 = (2, 42) := by
  refine ⟨by decide, ?_⟩
  have h := (C9_get_uint64 (mem_of 16 [0x18, 0x2A]) ⟨16, 18, 0, 0, [], 0⟩ 0 27 0 (by decide)
    (by decide)).2 (by decide) (by decide) (by decide) (by decide)
  rw [h]
  decide

/-- C10. On a cursor that is not at its end, whose initial byte carries the expected major type
and an `info` in 24..27 within the caller's maximum, `_get_uint64` returns `END` exactly when
`cur + head_len > end` with `head_len = 1 + 2^(info-24)`; an item whose head ends exactly at
`end` is accepted: `nanocbor_get_uint8` on the buffer `18 2A` yields 42. -/
theorem C10_end_boundary (mem : Mem) (c : nanocbor_value_t) (v max : Nat) (type : Int)
    (hne : nanocbor_at_end mem c = false)
    (hty : type = ((byteAt mem c.cur / 32 : Nat) : Int))
    (h24 : 24 ≤ byteAt mem c.cur % 32) (hmax : byteAt mem c.cur % 32 ≤ max) :
    ((_get_uint64 mem c v max type).1 = NANOCBOR_ERR_END ↔
      c.cur + (1 + 2 ^ (byteAt mem c.cur % 32 - 24)) > c.end_) ∧
    (∀ (cfg : Config) (value : nanocbor_value_t) (base fuel : Nat),
      cfg.NANOCBOR_RECURSION_MAX % 256 ≠ 0 → 2 ≤ fuel →
      nanocbor_get_uint8 cfg (mem_of base [0x18, 0x2A]) fuel
          (nanocbor_decoder_init cfg value base 2) 0 =
        some (2, _advance (nanocbor_decoder_init cfg value base 2) 2, 42)) := by
  constructor
  · rw [get_uint64_long mem c v max type hne hty h24 hmax]
    split
    · simp; omega
    · simp only [NANOCBOR_ERR_END]
      constructor
      · intro h; exfalso; have : (0:Int) ≤ ((1 + 2 ^ (byteAt mem c.cur % 32 - 24) : Nat) : Int) :=
          Int.natCast_nonneg _
        omega
      · intro h; omega
  · intro cfg value base fuel hmaxr hfuel
    obtain ⟨k, rfl⟩ : ∃ k, fuel = k + 2 := ⟨fuel - 2, by omega⟩
    have hd : _packed_enabled (nanocbor_decoder_init cfg value base 2) = false := by
      simp [_packed_enabled, nanocbor_decoder_init]
    have hb0 : byteAt (mem_of base [0x18, 0x2A]) base = 0x18 := by
      simp [byteAt, mem_of]
    have hb1 : byteAt (mem_of base [0x18, 0x2A]) (base + 1) = 0x2A := by
      simp [byteAt, mem_of]
    have hne2 : nanocbor_at_end (mem_of base [0x18, 0x2A])
        (nanocbor_decoder_init cfg value base 2) = false := by
      simp [nanocbor_at_end, _over_end, nanocbor_decoder_init, nanocbor_container_indefinite,
        nanocbor_in_container]
    have hcur : (nanocbor_decoder_init cfg value base 2).cur = base := rfl
    have hend : (nanocbor_decoder_init cfg value base 2).end_ = base + 2 := rfl
    have hgu : _get_uint64 (mem_of base [0x18, 0x2A]) (nanocbor_decoder_init cfg value base 2) 0
        NANOCBOR_SIZE_BYTE NANOCBOR_TYPE_UINT = (2, 42) := by
      rw [get_uint64_long _ _ _ _ _ hne2 (by rw [hcur, hb0]; rfl)
        (by simp [hcur, hb0]) (by simp [hcur, hb0, NANOCBOR_SIZE_BYTE])]
      rw [hcur, hb0, hend]
      simp [be_uint, hb1]
    simp only [nanocbor_get_uint8, _get_and_advance_uint8, _PACKED_HANDLE_LIMITED,
      PACKED_HANDLE_disabled cfg _ k false _ _ _ hd hmaxr, HandleOut.it]
    simp [hgu, _advance_if]

/-- Witness of C10: `18 2A` in a two-byte buffer ends exactly at `end` and is not rejected. -/
theorem C10_end_boundary_witness :
    nanocbor_at_end (mem_of 16 [0x18, 0x2A]) ⟨16, 18, 0, 0, [], 0⟩ = false ∧
    ¬ ((_get_uint64 (mem_of 16 [0x18, 0x2A]) ⟨16, 18, 0, 0, [], 0⟩ 0 24 0).1 =
      NANOCBOR_ERR_END) := by
  refine ⟨by decide, ?_⟩
  rw [(C10_end_boundary (mem_of 16 [0x18, 0x2A]) ⟨16, 18, 0, 0, [], 0⟩ 0 24 0 (by decide)
    (by decide) (by decide) (by decide)).1]
  decide

/-! ## C6: leaving a container -/

/-- C6. For a child not marked as shared-origin, `nanocbor_leave_container` returns
`INVALID_TYPE` and leaves the parent unchanged when the child is not a container, is not at its
end, or its `cur` is not in `(parent.cur, parent.end]`; otherwise it returns `OK` and the parent
takes `child.cur` (plus one for an indefinite child); `end`, `flags` and the tables stay as they
were, `remaining` is counted down when it is not zero. -/
theorem C6_leave_container (cfg : Config) (mem : Mem) (fuel : Nat)
    (it container : nanocbor_value_t)
    (hns : container.flags &&& NANOCBOR_DECODER_FLAG_SHARED = 0) (hf : 2 ≤ fuel) :
    nanocbor_leave_container cfg mem fuel it container =
      if nanocbor_in_container container = false ∨ nanocbor_at_end mem container = false ∨
          container.cur ≤ it.cur ∨ container.cur > it.end_ then
        some (NANOCBOR_ERR_INVALID_TYPE, it)
      else
        some (NANOCBOR_OK,
          { it with
            cur := if nanocbor_container_indefinite container then container.cur + 1
              else container.cur,
            remaining := if it.remaining ≠ 0 then dec64 it.remaining else it.remaining }) := by
  obtain ⟨k, rfl⟩ : ∃ k, fuel = k + 2 := ⟨fuel - 2, by omega⟩
  rw [nanocbor_leave_container, _leave_container]
  by_cases h1 : nanocbor_in_container container = true
  · by_cases h2 : nanocbor_at_end mem container = true
    · by_cases h3 : container.cur ≤ it.cur
      · simp [h1, h2, h3, hns]
      · by_cases h4 : container.cur > it.end_
        · simp [h1, h2, h3, h4, hns]
        · simp only [h1, h2, h3, h4, hns]
          cases nanocbor_container_indefinite container <;> by_cases h5 : it.remaining = 0 <;>
            simp [h5]
    · simp [h1, h2]
  · simp [h1]

/-- Witness of C6: leaving the exhausted one-element array `81 01`. -/
theorem C6_leave_container_witness :
    (⟨18, 18, 0, 1, [], 0⟩ : nanocbor_value_t).flags &&& NANOCBOR_DECODER_FLAG_SHARED = 0 ∧
    nanocbor_leave_container defaultConfig (mem_of 16 [0x81, 0x01]) 2 ⟨16, 18, 0, 0, [], 0⟩
      ⟨18, 18, 0, 1, [], 0⟩ = some (NANOCBOR_OK, ⟨18, 18, 0, 0, [], 0⟩) := by
  refine ⟨by decide, ?_⟩
  rw [C6_leave_container defaultConfig (mem_of 16 [0x81, 0x01]) 2 ⟨16, 18, 0, 0, [], 0⟩
    ⟨18, 18, 0, 1, [], 0⟩ (by decide) (by decide)]
  decide

/-! ## C7: entering a container without packed support -/

theorem enter_container_disabled (cfg : Config) (mem : Mem) (fuel : Nat)
    (it container : nanocbor_value_t) (type : Int) (limit : Nat)
    (hd : _packed_enabled it = false) :
    _enter_container cfg mem (fuel + 1) it container type limit =
      if ¬ _over_end it ∧
          byteAt mem it.cur =
            (type.toNat <<< NANOCBOR_TYPE_OFFSET ||| NANOCBOR_SIZE_INDEFINITE) % 256 then
        some (NANOCBOR_OK, it,
          { container with flags := 3, end_ := it.end_, remaining := 0, cur := it.cur + 1 })
      else if (_get_uint64 mem it 0 NANOCBOR_SIZE_LONG type).1 < 0 then
        some ((_get_uint64 mem it 0 NANOCBOR_SIZE_LONG type).1, it,
          { container with
            flags := 0, end_ := it.end_,
            remaining := (_get_uint64 mem it 0 NANOCBOR_SIZE_LONG type).2 })
      else
        some (NANOCBOR_OK, it,
          { container with
            flags := 1, end_ := it.end_,
            remaining := (_get_uint64 mem it 0 NANOCBOR_SIZE_LONG type).2,
            cur := it.cur + (_get_uint64 mem it 0 NANOCBOR_SIZE_LONG type).1.toNat }) := by
  rw [_enter_container]
  simp only [hd, Bool.false_eq_true, if_false, HandleOut.it]
  split <;> [skip; split] <;>
    simp [NANOCBOR_DECODER_FLAG_INDEFINITE, NANOCBOR_DECODER_FLAG_CONTAINER, *]

theorem get_uint64_definite (mem : Mem) (it : nanocbor_value_t) (major : Nat)
    (hne : nanocbor_at_end mem it = false) (hh : DefiniteHead mem it major) :
    _get_uint64 mem it 0 NANOCBOR_SIZE_LONG (major : Int) =
      (((head_len (byteAt mem it.cur % 32) : Nat) : Int), head_arg mem it.cur) := by
  obtain ⟨h1, h2, h3⟩ := hh
  by_cases hi : byteAt mem it.cur % 32 < 24
  · rw [get_uint64_short mem it 0 _ _ hne (by rw [h1]) hi]
    simp [head_len, head_arg, hi]
  · rw [get_uint64_long mem it 0 _ _ hne (by rw [h1]) (by omega) (by simpa [NANOCBOR_SIZE_LONG])]
    simp only [head_len, hi, if_false] at h3
    rw [if_neg (by omega)]
    simp [head_len, head_arg, hi]

theorem not_over_end_of_not_at_end (mem : Mem) (it : nanocbor_value_t)
    (hne : nanocbor_at_end mem it = false) : _over_end it = false := by
  simp only [nanocbor_at_end, Bool.or_eq_false_iff] at hne
  exact hne.1.1

theorem get_uint64_wrong_type (mem : Mem) (it : nanocbor_value_t) (v max : Nat) (type : Int)
    (hne : nanocbor_at_end mem it = false)
    (hty : type ≠ ((byteAt mem it.cur / 32 : Nat) : Int)) :
    _get_uint64 mem it v max type = (NANOCBOR_ERR_INVALID_TYPE, v) := by
  have hg := get_type_of_not_at_end mem it hne
  have h1 : ¬ (((byteAt mem it.cur / 32 : Nat) : Int) < 0) := by omega
  simp only [_get_uint64, hg, h1, if_false, ne_eq, hty, not_false_eq_true, if_true]

/-- C7 (amended). On a cursor without packed support that is not at its end: an initial byte
`9F` (`BF`) makes `nanocbor_enter_array` (`nanocbor_enter_map`) return `OK` with a child flagged
`IN_CONTAINER | INDEFINITE` at `cur + 1`; a definite head of length `h` and count `n` inside the
buffer gives `OK` with a child flagged `IN_CONTAINER` only, at `cur + h`, with `remaining = n`
for an array and `2n` for a map whose count is below `2^63`, while a map count of `2^63` or more
gives `OVERFLOW`; the child's `end` is the parent's; any other major type gives
`INVALID_TYPE`. -/
theorem C7_enter_container (cfg : Config) (mem : Mem) (fuel : Nat)
    (it child : nanocbor_value_t) (hd : _packed_enabled it = false)
    (hne : nanocbor_at_end mem it = false) (hf : 3 ≤ fuel) :
    (byteAt mem it.cur = 0x9F →
      nanocbor_enter_array cfg mem fuel it child = some (NANOCBOR_OK,
        { child with flags := 3, end_ := it.end_, remaining := 0, cur := it.cur + 1 })) ∧
    (byteAt mem it.cur = 0xBF →
      nanocbor_enter_map cfg mem fuel it child = some (NANOCBOR_OK,
        { child with flags := 3, end_ := it.end_, remaining := 0, cur := it.cur + 1 })) ∧
    (DefiniteHead mem it 4 →
      nanocbor_enter_array cfg mem fuel it child = some (NANOCBOR_OK,
        { child with
          flags := 1, end_ := it.end_, remaining := head_arg mem it.cur,
          cur := it.cur + head_len (byteAt mem it.cur % 32) })) ∧
    (DefiniteHead mem it 5 → head_arg mem it.cur < 2 ^ 63 →
      nanocbor_enter_map cfg mem fuel it child = some (NANOCBOR_OK,
        { child with
          flags := 1, end_ := it.end_, remaining := 2 * head_arg mem it.cur,
          cur := it.cur + head_len (byteAt mem it.cur % 32) })) ∧
    (DefiniteHead mem it 5 → 2 ^ 63 ≤ head_arg mem it.cur →
      (nanocbor_enter_map cfg mem fuel it child).map Prod.fst = some NANOCBOR_ERR_OVERFLOW) ∧
    (byteAt mem it.cur / 32 ≠ 4 →
      (nanocbor_enter_array cfg mem fuel it child).map Prod.fst =
        some NANOCBOR_ERR_INVALID_TYPE) ∧
    (byteAt mem it.cur / 32 ≠ 5 →
      (nanocbor_enter_map cfg mem fuel it child).map Prod.fst =
        some NANOCBOR_ERR_INVALID_TYPE) := by
  obtain ⟨k, rfl⟩ : ∃ k, fuel = k + 2 := ⟨fuel - 2, by omega⟩
  have hoe := not_over_end_of_not_at_end mem it hne
  have e4 : (NANOCBOR_TYPE_ARR.toNat <<< NANOCBOR_TYPE_OFFSET ||| NANOCBOR_SIZE_INDEFINITE) % 256
      = 0x9F := by decide
  have e5 : (NANOCBOR_TYPE_MAP.toNat <<< NANOCBOR_TYPE_OFFSET ||| NANOCBOR_SIZE_INDEFINITE) % 256
      = 0xBF := by decide
  have hb := byteAt_lt mem it.cur
  have hl : ¬ (((head_len (byteAt mem it.cur % 32) : Nat) : Int) < 0) := by omega
  rw [nanocbor_enter_array, nanocbor_enter_map,
    enter_container_disabled cfg mem k it child _ _ hd,
    enter_container_disabled cfg mem k it child _ _ hd, e4, e5]
  refine ⟨?_, ?_, ?_, ?_, ?_, ?_, ?_⟩
  · intro h
    simp [hoe, h]
  · intro h
    simp [hoe, h]
  · intro h
    have h9 : byteAt mem it.cur ≠ 0x9F := by
      obtain ⟨h1, h2, _⟩ := h; omega
    have hg := get_uint64_definite mem it 4 hne h
    simp only [Nat.cast_ofNat] at hg
    simp [hoe, h9, NANOCBOR_TYPE_ARR, hg, hl]
  · intro h hn
    have h9 : byteAt mem it.cur ≠ 0xBF := by
      obtain ⟨h1, h2, _⟩ := h; omega
    have hg := get_uint64_definite mem it 5 hne h
    simp only [Nat.cast_ofNat] at hg
    have : ¬ 9223372036854775807 < head_arg mem it.cur := by omega
    simp [hoe, h9, NANOCBOR_TYPE_MAP, hg, hl, this, Nat.mul_comm]
  · intro h hn
    have h9 : byteAt mem it.cur ≠ 0xBF := by
      obtain ⟨h1, h2, _⟩ := h; omega
    have hg := get_uint64_definite mem it 5 hne h
    simp only [Nat.cast_ofNat] at hg
    have : 9223372036854775807 < head_arg mem it.cur := by omega
    simp [hoe, h9, NANOCBOR_TYPE_MAP, hg, hl, this]
  · intro h
    have h9 : byteAt mem it.cur ≠ 0x9F := by omega
    have hg := get_uint64_wrong_type mem it 0 NANOCBOR_SIZE_LONG NANOCBOR_TYPE_ARR hne
      (by simp only [NANOCBOR_TYPE_ARR]; omega)
    simp [hoe, h9, hg, NANOCBOR_ERR_INVALID_TYPE]
  · intro h
    have h9 : byteAt mem it.cur ≠ 0xBF := by omega
    have hg := get_uint64_wrong_type mem it 0 NANOCBOR_SIZE_LONG NANOCBOR_TYPE_MAP hne
      (by simp only [NANOCBOR_TYPE_MAP]; omega)
    simp [hoe, h9, hg, NANOCBOR_ERR_INVALID_TYPE]

/-- Witness of C7: entering the two-pair map `A2 01 02 03 04`. -/
theorem C7_enter_container_witness :
    _packed_enabled ⟨16, 21, 0, 0, [], 0⟩ = false ∧
    nanocbor_at_end (mem_of 16 [0xA2, 1, 2, 3, 4]) ⟨16, 21, 0, 0, [], 0⟩ = false ∧
    DefiniteHead (mem_of 16 [0xA2, 1, 2, 3, 4]) ⟨16, 21, 0, 0, [], 0⟩ 5 ∧
    nanocbor_enter_map defaultConfig (mem_of 16 [0xA2, 1, 2, 3, 4]) 3 ⟨16, 21, 0, 0, [], 0⟩
      ⟨0, 0, 0, 0, [], 0⟩ = some (NANOCBOR_OK, ⟨17, 21, 4, 1, [], 0⟩) := by
  have hD : DefiniteHead (mem_of 16 [0xA2, 1, 2, 3, 4]) ⟨16, 21, 0, 0, [], 0⟩ 5 := by
    unfold DefiniteHead; decide
  refine ⟨by decide, by decide, hD, ?_⟩
  rw [(C7_enter_container defaultConfig (mem_of 16 [0xA2, 1, 2, 3, 4]) 3 ⟨16, 21, 0, 0, [], 0⟩
    ⟨0, 0, 0, 0, [], 0⟩ (by decide) (by decide) (by decide)).2.2.2.1 hD (by decide)]
  decide

/-- Counterexample to C7 as stated: the nine bytes `BB 80 00 00 00 00 00 00 00` are a complete
definite map head with count `2^63`, lying inside the buffer of a cursor from
`nanocbor_decoder_init`; `nanocbor_enter_map` returns `OVERFLOW`, not `OK`. -/
theorem C7_counterexample :
    DefiniteHead (mem_of 16 [0xBB, 0x80, 0, 0, 0, 0, 0, 0, 0])
      (nanocbor_decoder_init defaultConfig (stack_value defaultConfig) 16 9) 5 ∧
    head_arg (mem_of 16 [0xBB, 0x80, 0, 0, 0, 0, 0, 0, 0]) 16 = 2 ^ 63 ∧
    (nanocbor_enter_map defaultConfig (mem_of 16 [0xBB, 0x80, 0, 0, 0, 0, 0, 0, 0]) 3
      (nanocbor_decoder_init defaultConfig (stack_value defaultConfig) 16 9)
      (stack_value defaultConfig)).map Prod.fst = some NANOCBOR_ERR_OVERFLOW ∧
    NANOCBOR_ERR_OVERFLOW ≠ NANOCBOR_OK := by
  refine ⟨by unfold DefiniteHead; decide, by decide, by decide!, by decide⟩


/-! ## C3: the index handed to `_packed_follow_reference` -/

theorem packed_handle_idx_uint (n : Nat) (h : 16 + 2 * n < 2 ^ 64) :
    _packed_handle_idx NANOCBOR_TYPE_UINT n = 16 + 2 * n := by
  simp only [_packed_handle_idx, if_true]
  exact Nat.mod_eq_of_lt h

theorem packed_handle_idx_nint (a : Nat) (h : 16 + 2 * a + 1 < 2 ^ 64) :
    _packed_handle_idx NANOCBOR_TYPE_NINT a = 16 + 2 * a + 1 := by
  have : NANOCBOR_TYPE_NINT ≠ NANOCBOR_TYPE_UINT := by decide
  simp only [_packed_handle_idx, this, if_false]
  rw [← Nat.add_assoc]
  exact Nat.mod_eq_of_lt h

/-- C3. In `_packed_handle` on a packed-enabled cursor (with `limit ≠ 0`): (1) for a major-7
initial byte with `info < 16` the call is `_packed_follow_reference(cvalue, target, info,
limit)` on the cursor advanced by one byte; (2) for the shared-reference tag whose argument,
after packed handling `h`, is an integer head of major type `ctype` (0 or 1) with raw argument
`n`, the call is made with index `_packed_handle_idx ctype n`; (3) that index is `16 + 2n` for
an unsigned integer and `16 + 2a + 1` for a negative integer `-a-1` whenever it fits in 64
bits, and every even index `i >= 16` (odd index `i >= 17`) below `2^64` arises from exactly
the unsigned argument `(i - 16) / 2` (the negative raw argument `(i - 17) / 2`). -/
theorem C3_reference_index (cfg : Config) (mem : Mem) (fuel : Nat) (same : Bool)
    (cvalue target : nanocbor_value_t) (limit : Nat)
    (hen : _packed_enabled cvalue = true) (hl : limit ≠ 0) :
    (__get_type mem cvalue = NANOCBOR_TYPE_FLOAT → byteAt mem cvalue.cur % 32 < 16 →
      _packed_handle cfg mem (fuel + 1) same cvalue target limit =
        match _packed_follow_reference cfg mem fuel same (_advance cvalue 1)
            (if same then _advance cvalue 1 else target) (byteAt mem cvalue.cur % 32) limit with
        | none => none
        | some (ret, c, t) => _packed_handle_tail cfg mem fuel same limit ret c t) ∧
    (∀ (len len2 : Int) (n : Nat) (ctype : Int) (h : HandleOut),
      __get_type mem cvalue = NANOCBOR_TYPE_TAG →
      _get_uint64 mem cvalue 0 NANOCBOR_SIZE_WORD NANOCBOR_TYPE_TAG =
        (len, cfg.NANOCBOR_TAG_PACKED_REF_SHARED) → 0 ≤ len →
      cfg.NANOCBOR_TAG_PACKED_REF_SHARED ≠ cfg.NANOCBOR_TAG_PACKED_TABLE →
      _PACKED_HANDLE cfg mem fuel same { cvalue with cur := cvalue.cur + len.toNat }
        (if same then { cvalue with cur := cvalue.cur + len.toNat } else target) limit = some h →
      h.ret = none → __get_type mem h.it = ctype →
      (ctype = NANOCBOR_TYPE_UINT ∨ ctype = NANOCBOR_TYPE_NINT) →
      _get_uint64 mem h.it 0 NANOCBOR_SIZE_LONG ctype = (len2, n) → 0 ≤ len2 →
      _packed_handle cfg mem (fuel + 1) same cvalue target limit =
        match _packed_follow_reference cfg mem fuel (same || h.redirected)
            (_advance h.it len2.toNat)
            (if (same || h.redirected) then _advance h.it len2.toNat else h.followed)
            (_packed_handle_idx ctype n) limit with
        | none => none
        | some (ret, c, t) =>
          _packed_handle_tail cfg mem fuel same limit ret
            (if (same || h.redirected) then (if same then t else h.cvalue) else c) t) ∧
    (∀ n, 16 + 2 * n < 2 ^ 64 →
      _packed_handle_idx NANOCBOR_TYPE_UINT n = 16 + 2 * n ∧
      _packed_handle_idx NANOCBOR_TYPE_UINT n % 2 = 0 ∧
      16 ≤ _packed_handle_idx NANOCBOR_TYPE_UINT n) ∧
    (∀ a, 16 + 2 * a + 1 < 2 ^ 64 →
      _packed_handle_idx NANOCBOR_TYPE_NINT a = 16 + 2 * a + 1 ∧
      _packed_handle_idx NANOCBOR_TYPE_NINT a % 2 = 1 ∧
      17 ≤ _packed_handle_idx NANOCBOR_TYPE_NINT a) ∧
    (∀ i, 16 ≤ i → i < 2 ^ 64 → i % 2 = 0 →
      ∀ n, 16 + 2 * n < 2 ^ 64 →
        (_packed_handle_idx NANOCBOR_TYPE_UINT n = i ↔ n = (i - 16) / 2)) ∧
    (∀ i, 17 ≤ i → i < 2 ^ 64 → i % 2 = 1 →
      ∀ a, 16 + 2 * a + 1 < 2 ^ 64 →
        (_packed_handle_idx NANOCBOR_TYPE_NINT a = i ↔ a = (i - 17) / 2)) := by
  have hen2 : ¬ (¬ _packed_enabled cvalue = true) := by simp [hen]
  refine ⟨?_, ?_, ?_, ?_, ?_, ?_⟩
  · intro hty hinfo
    have hne : NANOCBOR_TYPE_FLOAT ≠ NANOCBOR_TYPE_TAG := by decide
    have hm : byteAt mem cvalue.cur &&& NANOCBOR_VALUE_MASK = byteAt mem cvalue.cur % 32 :=
      and_value_mask _
    rw [_packed_handle]
    simp only [hen, hl, hty, hne, hm, hinfo, if_true, if_false, not_true_eq_false]
    cases hfr : _packed_follow_reference cfg mem fuel same (_advance cvalue 1)
      (if same then _advance cvalue 1 else target) (byteAt mem cvalue.cur % 32) limit with
    | none => simp [hfr]
    | some r =>
      obtain ⟨ret, c, t⟩ := r
      simp only [hfr, _packed_handle_tail]
  · intro len len2 n ctype h hty htag hlen hne hh hret hct hc hn hlen2
    have hret0 : ¬ len < 0 := by omega
    have hret2 : ¬ len2 < 0 := by omega
    have hc2 : ¬ (ctype ≠ NANOCBOR_TYPE_UINT ∧ ctype ≠ NANOCBOR_TYPE_NINT) := by
      rcases hc with hc | hc <;> simp [hc]
    rw [_packed_handle]
    simp only [hen, hl, hty, htag, hret0, hne, hh, hret, hct, hc2, hn, hret2, if_true, if_false,
      not_true_eq_false]
    cases hfr : _packed_follow_reference cfg mem fuel (same || h.redirected)
      (_advance h.it len2.toNat)
      (if (same || h.redirected) = true then _advance h.it len2.toNat else h.followed)
      (_packed_handle_idx ctype n) limit with
    | none => simp [hfr]
    | some r =>
      obtain ⟨ret, c, t⟩ := r
      simp only [hfr, _packed_handle_tail]
      cases same <;> cases h.redirected <;> rfl
  · intro n hn
    rw [packed_handle_idx_uint n hn]
    omega
  · intro a ha
    rw [packed_handle_idx_nint a ha]
    omega
  · intro i h1 h2 h3 n hn
    rw [packed_handle_idx_uint n hn]
    omega
  · intro i h1 h2 h3 a ha
    rw [packed_handle_idx_nint a ha]
    omega

/-- Witness of C3: with the 18-entry table `92 00 01 .. 11` active, the short-form reference
`E3` is followed with index 3 to the entry at offset 4 of the table, and the tag-form reference
`C6 20` (tag 6 around the negative integer -1, raw argument 0) with index 17 to its last
entry. -/
theorem C3_reference_index_witness :
    _packed_enabled (nanocbor_decoder_init_packed_table defaultConfig (stack_value defaultConfig)
      37 1 16 19) = true ∧
    __get_type (mem_of 16 [0x92, 0, 1, 2, 3, 4, 5, 6, 7, 8, 9, 10, 11, 12, 13, 14, 15, 16, 17,
      0xC6, 0x20, 0xE3]) (nanocbor_decoder_init_packed_table defaultConfig
        (stack_value defaultConfig) 37 1 16 19) = NANOCBOR_TYPE_FLOAT ∧
    (_packed_handle defaultConfig (mem_of 16 [0x92, 0, 1, 2, 3, 4, 5, 6, 7, 8, 9, 10, 11, 12, 13,
      14, 15, 16, 17, 0xC6, 0x20, 0xE3]) (7 + 1) false
      (nanocbor_decoder_init_packed_table defaultConfig (stack_value defaultConfig) 37 1 16 19)
      (stack_value defaultConfig) 9).map (fun r => (r.1, r.2.2.cur)) = some (NANOCBOR_OK, 20) ∧
    _packed_enabled (nanocbor_decoder_init_packed_table defaultConfig (stack_value defaultConfig)
      35 2 16 19) = true ∧
    (_packed_handle defaultConfig (mem_of 16 [0x92, 0, 1, 2, 3, 4, 5, 6, 7, 8, 9, 10, 11, 12, 13,
      14, 15, 16, 17, 0xC6, 0x20, 0xE3]) (21 + 1) false
      (nanocbor_decoder_init_packed_table defaultConfig (stack_value defaultConfig) 35 2 16 19)
      (stack_value defaultConfig) 9).map (fun r => (r.1, r.2.2.cur)) = some (NANOCBOR_OK, 34) := by
  refine ⟨by decide, by decide, ?_, by decide, ?_⟩
  · rw [(C3_reference_index defaultConfig _ 7 false _ (stack_value defaultConfig) 9 (by decide)
      (by decide)).1 (by decide) (by decide)]
    decide!
  · rw [(C3_reference_index defaultConfig _ 21 false _ (stack_value defaultConfig) 9 (by decide)
      (by decide)).2.1 1 1 0 NANOCBOR_TYPE_NINT
      ⟨none, false, ⟨36, 37, 0, 4, [⟨16, 19⟩, ⟨0, 0⟩, ⟨0, 0⟩, ⟨0, 0⟩], 1⟩, stack_value defaultConfig⟩
      (by decide) (by decide) (by decide) (by decide) (by decide!) rfl (by decide) (by decide)
      (by decide) (by decide)]
    decide!


/-! ## C4: the table-tag document of the specification -/

theorem decodes_short : ∀ v, v < 24 → DecodesAsSingleton [v] v := by
  decide!

theorem decodes_byte : ∀ v, v < 256 → DecodesAsSingleton [0x18, v] v := by
  decide!

/-- C4. For every unsigned integer `v < 256`, encoded either in one byte (`v < 24`) or as
`18 v`, the document `D8 71 82 81 <v> 81 E0` (the packed-table tag wrapping `[[v],
[simple(0)]]`), decoded with a cursor from `nanocbor_decoder_init_packed`, decodes as `[v]`:
`nanocbor_enter_array` returns `OK` with a definite child holding one item,
`nanocbor_get_uint8` on the child yields `v`, the child is then at its end, and
`nanocbor_leave_container` returns `OK` leaving the parent at the end of the buffer. -/
theorem C4_table_document (v : Nat) (e : List Nat)
    (h : (v < 24 ∧ e = [v]) ∨ (v < 256 ∧ e = [0x18, v])) :
    DecodesAsSingleton e v := by
  rcases h with ⟨hv, rfl⟩ | ⟨hv, rfl⟩
  · exact decodes_short v hv
  · exact decodes_byte v hv

/-- Witness of C4: the document `D8 71 82 81 18 2A 81 E0` of the specification decodes as
`[42]`. -/
theorem C4_table_document_witness :
    ((42 < 24 ∧ [0x18, 0x2A] = [42]) ∨ (42 < 256 ∧ [0x18, 0x2A] = [0x18, 42])) ∧
    table_document [0x18, 0x2A] = [0xD8, 0x71, 0x82, 0x81, 0x18, 0x2A, 0x81, 0xE0] ∧
    nanocbor_enter_array defaultConfig
      (mem_of 16 [0xD8, 0x71, 0x82, 0x81, 0x18, 0x2A, 0x81, 0xE0]) 12
      (nanocbor_decoder_init_packed defaultConfig (stack_value defaultConfig) 16 8)
      (stack_value defaultConfig) =
        some (NANOCBOR_OK, ⟨23, 24, 1, 13, [⟨19, 3⟩, ⟨0, 0⟩, ⟨0, 0⟩, ⟨0, 0⟩], 1⟩) ∧
    nanocbor_get_uint8 defaultConfig
      (mem_of 16 [0xD8, 0x71, 0x82, 0x81, 0x18, 0x2A, 0x81, 0xE0]) 12
      ⟨23, 24, 1, 13, [⟨19, 3⟩, ⟨0, 0⟩, ⟨0, 0⟩, ⟨0, 0⟩], 1⟩ 0 =
        some (2, ⟨24, 24, 0, 13, [⟨19, 3⟩, ⟨0, 0⟩, ⟨0, 0⟩, ⟨0, 0⟩], 1⟩, 42) ∧
    nanocbor_at_end (mem_of 16 [0xD8, 0x71, 0x82, 0x81, 0x18, 0x2A, 0x81, 0xE0])
      ⟨24, 24, 0, 13, [⟨19, 3⟩, ⟨0, 0⟩, ⟨0, 0⟩, ⟨0, 0⟩], 1⟩ = true ∧
    nanocbor_leave_container defaultConfig
      (mem_of 16 [0xD8, 0x71, 0x82, 0x81, 0x18, 0x2A, 0x81, 0xE0]) 12
      (nanocbor_decoder_init_packed defaultConfig (stack_value defaultConfig) 16 8)
      ⟨24, 24, 0, 13, [⟨19, 3⟩, ⟨0, 0⟩, ⟨0, 0⟩, ⟨0, 0⟩], 1⟩ =
        some (NANOCBOR_OK, ⟨24, 24, 0, 4, [⟨0, 0⟩, ⟨0, 0⟩, ⟨0, 0⟩, ⟨0, 0⟩], 0⟩) := by
  have h := C4_table_document 42 [0x18, 0x2A] (Or.inr ⟨by decide, rfl⟩)
  exact ⟨Or.inr ⟨by decide, rfl⟩, rfl, h.1, h.2.2.2.2.1, h.2.2.2.2.2.1, h.2.2.2.2.2.2.1⟩


/-! ## C5: skipping a well-formed item -/

theorem head_len_pos (info : Nat) : 1 ≤ head_len info := by
  unfold head_len
  split
  · exact Nat.le_refl 1
  · exact Nat.le_add_right 1 _

theorem get_uint64_head (mem : Mem) (it : nanocbor_value_t) (v max major : Nat)
    (hne : nanocbor_at_end mem it = false) (hm : byteAt mem it.cur / 32 = major)
    (hi : byteAt mem it.cur % 32 ≤ 27) (hmax : 24 ≤ byteAt mem it.cur % 32 →
      byteAt mem it.cur % 32 ≤ max)
    (hend : it.cur + head_len (byteAt mem it.cur % 32) ≤ it.end_) :
    _get_uint64 mem it v max (major : Int) =
      (((head_len (byteAt mem it.cur % 32) : Nat) : Int), head_arg mem it.cur) := by
  by_cases h24 : byteAt mem it.cur % 32 < 24
  · rw [get_uint64_short mem it v _ _ hne (by rw [hm]) h24]
    simp [head_len, head_arg, h24]
  · rw [get_uint64_long mem it v _ _ hne (by rw [hm]) (by omega) (hmax (by omega))]
    simp only [head_len, h24, if_false] at hend
    rw [if_neg (by omega)]
    simp [head_len, head_arg, h24]

theorem cur_lt_end_of_not_at_end (mem : Mem) (it : nanocbor_value_t)
    (hne : nanocbor_at_end mem it = false) : it.cur < it.end_ := by
  have := not_over_end_of_not_at_end mem it hne
  simpa [_over_end] using this

theorem skip_simple_prim (cfg : Config) (mem : Mem) (fuel : Nat) (it : nanocbor_value_t)
    (hne : nanocbor_at_end mem it = false)
    (hm : byteAt mem it.cur / 32 = 0 ∨ byteAt mem it.cur / 32 = 1 ∨ byteAt mem it.cur / 32 = 7)
    (hi : byteAt mem it.cur % 32 ≤ 27)
    (hend : it.cur + head_len (byteAt mem it.cur % 32) ≤ it.end_) :
    _skip_simple cfg mem (fuel + 1) it =
      some (NANOCBOR_OK, _advance it (head_len (byteAt mem it.cur % 32))) := by
  have hg := get_type_of_not_at_end mem it hne
  have hu := get_uint64_head mem it 0 NANOCBOR_SIZE_LONG (byteAt mem it.cur / 32) hne rfl hi
    (fun _ => by simpa [NANOCBOR_SIZE_LONG] using hi) hend
  have hp := head_len_pos (byteAt mem it.cur % 32)
  have hpos : ((head_len (byteAt mem it.cur % 32) : Nat) : Int) > 0 := by omega
  rw [_skip_simple]
  simp only [hg, hu]
  have hns : ¬ ((((byteAt mem it.cur / 32 : Nat) : Int) = NANOCBOR_TYPE_BSTR) ∨
      (((byteAt mem it.cur / 32 : Nat) : Int) = NANOCBOR_TYPE_TSTR)) := by
    simp only [NANOCBOR_TYPE_BSTR, NANOCBOR_TYPE_TSTR]
    omega
  simp only [hns, if_false, _advance_if, hpos, if_true, Int.toNat_ofNat]

theorem skip_limited_prim (cfg : Config) (mem : Mem) (fuel : Nat) (it : nanocbor_value_t)
    (limit : Nat) (hl : limit ≠ 0) (hne : nanocbor_at_end mem it = false)
    (hm : byteAt mem it.cur / 32 = 0 ∨ byteAt mem it.cur / 32 = 1 ∨ byteAt mem it.cur / 32 = 7)
    (hi : byteAt mem it.cur % 32 ≤ 27)
    (hend : it.cur + head_len (byteAt mem it.cur % 32) ≤ it.end_) :
    _skip_limited cfg mem (fuel + 2) it limit =
      some (NANOCBOR_OK, _advance it (head_len (byteAt mem it.cur % 32))) := by
  have hg := get_type_of_not_at_end mem it hne
  have h1 : ¬ ((((byteAt mem it.cur / 32 : Nat) : Int) = NANOCBOR_TYPE_ARR) ∨
      (((byteAt mem it.cur / 32 : Nat) : Int) = NANOCBOR_TYPE_MAP)) := by
    simp only [NANOCBOR_TYPE_ARR, NANOCBOR_TYPE_MAP]
    omega
  have h2 : ¬ (((byteAt mem it.cur / 32 : Nat) : Int) = NANOCBOR_TYPE_TAG) := by
    simp only [NANOCBOR_TYPE_TAG]
    omega
  have h3 : (((byteAt mem it.cur / 32 : Nat) : Int) ≥ 0) := by omega
  rw [_skip_limited]
  simp only [hl, hg, h1, h2, h3, if_false, if_true,
    skip_simple_prim cfg mem fuel it hne hm hi hend]
  simp [NANOCBOR_OK]

theorem skip_limited_str (cfg : Config) (mem : Mem) (fuel : Nat) (it : nanocbor_value_t)
    (limit : Nat) (hl : limit ≠ 0) (hr : cfg.NANOCBOR_RECURSION_MAX % 256 ≠ 0)
    (hd : _packed_enabled it = false) (hne : nanocbor_at_end mem it = false)
    (hm : byteAt mem it.cur / 32 = 2 ∨ byteAt mem it.cur / 32 = 3)
    (hi : byteAt mem it.cur % 32 ≤ 27)
    (hs : byteAt mem it.cur % 32 ≤ cfg.NANOCBOR_SIZE_SIZET)
    (h32 : head_len (byteAt mem it.cur % 32) + head_arg mem it.cur < 2 ^ 32)
    (hend : it.cur + (head_len (byteAt mem it.cur % 32) + head_arg mem it.cur) ≤ it.end_) :
    _skip_limited cfg mem (fuel + 5) it limit =
      some (NANOCBOR_OK,
        _advance it (head_len (byteAt mem it.cur % 32) + head_arg mem it.cur)) := by
  have hg := get_type_of_not_at_end mem it hne
  have hb := byteAt_lt mem it.cur
  have hu := get_uint64_head mem it 0 cfg.NANOCBOR_SIZE_SIZET (byteAt mem it.cur / 32) hne rfl hi
    (fun _ => hs) (by omega)
  have h1 : ¬ ((((byteAt mem it.cur / 32 : Nat) : Int) = NANOCBOR_TYPE_ARR) ∨
      (((byteAt mem it.cur / 32 : Nat) : Int) = NANOCBOR_TYPE_MAP)) := by
    simp only [NANOCBOR_TYPE_ARR, NANOCBOR_TYPE_MAP]
    omega
  have h2 : ¬ (((byteAt mem it.cur / 32 : Nat) : Int) = NANOCBOR_TYPE_TAG) := by
    simp only [NANOCBOR_TYPE_TAG]
    omega
  have h3 : (((byteAt mem it.cur / 32 : Nat) : Int) ≥ 0) := by omega
  have hs1 : ((((byteAt mem it.cur / 32 : Nat) : Int) = NANOCBOR_TYPE_BSTR) ∨
      (((byteAt mem it.cur / 32 : Nat) : Int) = NANOCBOR_TYPE_TSTR)) := by
    simp only [NANOCBOR_TYPE_BSTR, NANOCBOR_TYPE_TSTR]
    omega
  have hu8 : ((u8 ((byteAt mem it.cur / 32 : Nat) : Int) : Nat) : Int) =
      ((byteAt mem it.cur / 32 : Nat) : Int) := by
    unfold u8
    omega
  have hge : ((head_len (byteAt mem it.cur % 32) : Nat) : Int) ≥ 0 := by omega
  have hno : ¬ (it.end_ < it.cur ∨ it.end_ - it.cur < head_arg mem it.cur) := by omega
  rw [_skip_limited]
  simp only [hl, hg, h1, h2, h3, if_false, if_true]
  rw [_skip_simple]
  simp only [hg, hs1, if_true, hu8]
  rw [_get_str, PACKED_HANDLE_disabled cfg mem fuel false it _ _ hd hr]
  simp only [HandleOut.it, Bool.false_eq_true, if_false, hu, hno, hge, if_true, Int.toNat_ofNat,
    Nat.mod_eq_of_lt h32]
  simp [NANOCBOR_OK]

theorem simple_item_facts (cfg : Config) (mem : Mem) (a len : Nat)
    (h : SimpleItemAt cfg mem a len) : 1 ≤ len ∧ byteAt mem a ≠ 0xFF := by
  obtain ⟨hi, h⟩ := h
  have hp := head_len_pos (byteAt mem a % 32)
  refine ⟨?_, by omega⟩
  rcases h with ⟨_, rfl⟩ | ⟨_, _, rfl, _⟩ <;> omega

theorem skips_simple (cfg : Config) (mem : Mem) (d a len : Nat)
    (hr : cfg.NANOCBOR_RECURSION_MAX % 256 ≠ 0) (h : SimpleItemAt cfg mem a len) :
    SkipsOver cfg mem d a len := by
  intro it limit hdl _ hcur hd hne hend
  subst hcur
  refine ⟨dec64 it.remaining, fun _ => rfl, 5, fun fuel hf => ?_⟩
  obtain ⟨k, rfl⟩ : ∃ k, fuel = k + 5 := ⟨fuel - 5, by omega⟩
  obtain ⟨hi, h⟩ := h
  rcases h with ⟨hm, rfl⟩ | ⟨hm, hs, rfl, h32⟩
  · rw [skip_limited_prim cfg mem (k + 3) it limit (by omega) hne hm hi hend]
    rfl
  · rw [skip_limited_str cfg mem k it limit (by omega) hr hd hne hm hi hs h32 hend]
    rfl

theorem at_end_move (mem : Mem) (it : nanocbor_value_t) (c : Nat)
    (hne : nanocbor_at_end mem it = false) (hc : c < it.end_) (hb : byteAt mem c ≠ 0xFF) :
    nanocbor_at_end mem { it with cur := c } = false := by
  have hff : (NANOCBOR_TYPE_FLOAT.toNat <<< NANOCBOR_TYPE_OFFSET ||| NANOCBOR_VALUE_MASK) = 0xFF := by
    decide
  simp only [nanocbor_at_end, hff, Bool.or_eq_false_iff, Bool.and_eq_false_iff] at hne ⊢
  refine ⟨⟨?_, ?_⟩, ?_⟩
  · simp [_over_end, hc]
  · right
    simpa using hb
  · exact hne.2

theorem dec8_eq (limit : Nat) (h1 : limit ≠ 0) (h2 : limit < 256) : dec8 limit = limit - 1 := by
  unfold dec8 u8
  omega

theorem skips_tag (cfg : Config) (mem : Mem) (d a l : Nat)
    (hm : byteAt mem a / 32 = 6) (hi : byteAt mem a % 32 ≤ 26)
    (hl1 : 1 ≤ l) (hff : byteAt mem (a + head_len (byteAt mem a % 32)) ≠ 0xFF)
    (hs : SkipsOver cfg mem d (a + head_len (byteAt mem a % 32)) l) :
    SkipsOver cfg mem (d + 1) a (head_len (byteAt mem a % 32) + l) := by
  intro it limit hdl hl256 hcur hd hne hend
  subst hcur
  have hne1 : nanocbor_at_end mem { it with cur := it.cur + head_len (byteAt mem it.cur % 32) }
      = false := at_end_move mem it _ hne (by omega) hff
  obtain ⟨r, hr, N, hN⟩ := hs { it with cur := it.cur + head_len (byteAt mem it.cur % 32) }
    (dec8 limit) (by rw [dec8_eq limit (by omega) hl256]; omega)
    (by rw [dec8_eq limit (by omega) hl256]; omega) rfl hd hne1 (by simp only; omega)
  dsimp only at hr hN
  refine ⟨r, hr, N + 1, fun fuel hf => ?_⟩
  obtain ⟨k, rfl⟩ : ∃ k, fuel = k + 1 := ⟨fuel - 1, by omega⟩
  have hg := get_type_of_not_at_end mem it hne
  have hu := get_uint64_head mem it 0 NANOCBOR_SIZE_WORD 6 hne hm (by omega)
    (fun _ => by simpa [NANOCBOR_SIZE_WORD] using hi) (by omega)
  have h1 : ¬ ((((byteAt mem it.cur / 32 : Nat) : Int) = NANOCBOR_TYPE_ARR) ∨
      (((byteAt mem it.cur / 32 : Nat) : Int) = NANOCBOR_TYPE_MAP)) := by
    simp only [NANOCBOR_TYPE_ARR, NANOCBOR_TYPE_MAP]
    omega
  have h2 : (((byteAt mem it.cur / 32 : Nat) : Int) = NANOCBOR_TYPE_TAG) := by
    simp only [NANOCBOR_TYPE_TAG]
    omega
  have hge : ((head_len (byteAt mem it.cur % 32) : Nat) : Int) ≥ 0 := by omega
  have hnn : ¬ (((byteAt mem it.cur / 32 : Nat) : Int) < 0) := by omega
  rw [_skip_limited]
  simp only [show limit ≠ 0 by omega, hg, h1, hnn, if_false, if_true]
  rw [if_pos h2]
  simp only [Nat.cast_ofNat] at hu
  simp only [NANOCBOR_TYPE_TAG, Nat.cast_ofNat, hu, hge, if_true, Int.toNat_ofNat,
    hN k (by omega)]
  simp [Nat.add_assoc]

theorem enter_disabled (cfg : Config) (mem : Mem) (k : Nat)
    (it child : nanocbor_value_t) (hd : _packed_enabled it = false)
    (hne : nanocbor_at_end mem it = false) :
    (byteAt mem it.cur = 0x9F →
      nanocbor_enter_array cfg mem (k + 2) it child = some (NANOCBOR_OK,
        { child with flags := 3, end_ := it.end_, remaining := 0, cur := it.cur + 1 })) ∧
    (byteAt mem it.cur = 0xBF →
      nanocbor_enter_map cfg mem (k + 2) it child = some (NANOCBOR_OK,
        { child with flags := 3, end_ := it.end_, remaining := 0, cur := it.cur + 1 })) ∧
    (DefiniteHead mem it 4 →
      nanocbor_enter_array cfg mem (k + 2) it child = some (NANOCBOR_OK,
        { child with
          flags := 1, end_ := it.end_, remaining := head_arg mem it.cur,
          cur := it.cur + head_len (byteAt mem it.cur % 32) })) ∧
    (DefiniteHead mem it 5 → head_arg mem it.cur < 2 ^ 63 →
      nanocbor_enter_map cfg mem (k + 2) it child = some (NANOCBOR_OK,
        { child with
          flags := 1, end_ := it.end_, remaining := 2 * head_arg mem it.cur,
          cur := it.cur + head_len (byteAt mem it.cur % 32) })) := by
  have hoe := not_over_end_of_not_at_end mem it hne
  have e4 : (NANOCBOR_TYPE_ARR.toNat <<< NANOCBOR_TYPE_OFFSET ||| NANOCBOR_SIZE_INDEFINITE) % 256
      = 0x9F := by decide
  have e5 : (NANOCBOR_TYPE_MAP.toNat <<< NANOCBOR_TYPE_OFFSET ||| NANOCBOR_SIZE_INDEFINITE) % 256
      = 0xBF := by decide
  have hb := byteAt_lt mem it.cur
  have hl : ¬ (((head_len (byteAt mem it.cur % 32) : Nat) : Int) < 0) := by omega
  rw [nanocbor_enter_array, nanocbor_enter_map,
    enter_container_disabled cfg mem k it child _ _ hd,
    enter_container_disabled cfg mem k it child _ _ hd, e4, e5]
  refine ⟨fun h => by simp [hoe, h], fun h => by simp [hoe, h], ?_, ?_⟩
  · intro h
    have h9 : byteAt mem it.cur ≠ 0x9F := by
      obtain ⟨h1, h2, _⟩ := h; omega
    have hg := get_uint64_definite mem it 4 hne h
    simp only [Nat.cast_ofNat] at hg
    simp [hoe, h9, NANOCBOR_TYPE_ARR, hg, hl]
  · intro h hn
    have h9 : byteAt mem it.cur ≠ 0xBF := by
      obtain ⟨h1, h2, _⟩ := h; omega
    have hg := get_uint64_definite mem it 5 hne h
    simp only [Nat.cast_ofNat] at hg
    have : ¬ 9223372036854775807 < head_arg mem it.cur := by omega
    simp [hoe, h9, NANOCBOR_TYPE_MAP, hg, hl, this, Nat.mul_comm]

theorem leave_after_skip (cfg : Config) (mem : Mem) (k : Nat) (it c : nanocbor_value_t)
    (hf : c.flags = 1 ∨ c.flags = 3) (he : nanocbor_at_end mem c = true)
    (h1 : it.cur < c.cur) (h2 : c.cur + (if c.flags = 3 then 1 else 0) ≤ it.end_) :
    nanocbor_leave_container cfg mem (k + 2) it c =
      some (NANOCBOR_OK,
        { it with
          cur := c.cur + (if c.flags = 3 then 1 else 0),
          remaining := if it.remaining ≠ 0 then dec64 it.remaining else it.remaining }) := by
  have hc : nanocbor_in_container c = true := by
    rcases hf with h | h <;> simp [nanocbor_in_container, h, NANOCBOR_DECODER_FLAG_CONTAINER]
  have hs : ¬ (c.flags &&& NANOCBOR_DECODER_FLAG_SHARED ≠ 0) := by
    rcases hf with h | h <;> rw [h] <;> decide
  have hr : ¬ (c.cur ≤ it.cur ∨ c.cur > it.end_) := by
    split at h2 <;> omega
  rw [nanocbor_leave_container, _leave_container]
  simp only [hc, he, hs, hr, not_true_eq_false, or_self, if_false]
  by_cases hrem : it.remaining = 0 <;> rcases hf with h | h <;>
    simp [nanocbor_container_indefinite, h, NANOCBOR_DECODER_FLAG_INDEFINITE, hrem]

theorem at_end_definite (mem : Mem) (c : nanocbor_value_t) (hf : c.flags = 1) :
    nanocbor_at_end mem c = true ↔ (c.end_ ≤ c.cur ∨ c.remaining = 0) := by
  have e1 : (1 : Nat) &&& 2 = 0 := by decide
  have e2 : (1 : Nat) &&& 1 = 1 := by decide
  simp [nanocbor_at_end, nanocbor_container_indefinite, nanocbor_in_container, hf, _over_end,
    NANOCBOR_DECODER_FLAG_INDEFINITE, NANOCBOR_DECODER_FLAG_CONTAINER, e1, e2]

theorem at_end_indefinite (mem : Mem) (c : nanocbor_value_t) (hf : c.flags = 3) :
    nanocbor_at_end mem c = true ↔ (c.end_ ≤ c.cur ∨ byteAt mem c.cur = 0xFF) := by
  have hff : (NANOCBOR_TYPE_FLOAT.toNat <<< NANOCBOR_TYPE_OFFSET ||| NANOCBOR_VALUE_MASK) = 0xFF := by
    decide
  have e1 : (3 : Nat) &&& 2 = 2 := by decide
  simp [nanocbor_at_end, nanocbor_container_indefinite, nanocbor_in_container, hf, _over_end,
    NANOCBOR_DECODER_FLAG_INDEFINITE, NANOCBOR_DECODER_FLAG_CONTAINER, hff, e1]

theorem packed_disabled_of_flags (c : nanocbor_value_t) (hf : c.flags = 1 ∨ c.flags = 3) :
    _packed_enabled c = false := by
  have e1 : (1 : Nat) &&& 4 = 0 := by decide
  have e3 : (3 : Nat) &&& 4 = 0 := by decide
  rcases hf with h | h <;> simp [_packed_enabled, h, NANOCBOR_DECODER_FLAG_PACKED_SUPPORT, e1, e3]

theorem dec64_succ (n : Nat) (h : n + 1 < 2 ^ 64) : dec64 (n + 1) = n := by
  unfold dec64
  omega

theorem skip_loop (cfg : Config) (mem : Mem) (d limit : Nat) (hdl : d + 1 < limit)
    (hl2 : limit < 256)
    (ih : ∀ a l, ItemAt cfg mem d a l → 1 ≤ l ∧ byteAt mem a ≠ 0xFF ∧ SkipsOver cfg mem d a l) :
    ∀ (ls : List Nat) (c : nanocbor_value_t) (res : Int),
      ItemsAt (ItemAt cfg mem d) c.cur ls →
      ((c.flags = 1 ∧ c.remaining = ls.length ∧ ls.length < 2 ^ 64 ∧ c.cur + ls.sum ≤ c.end_) ∨
        (c.flags = 3 ∧ c.cur + ls.sum < c.end_ ∧ byteAt mem (c.cur + ls.sum) = 0xFF)) →
      0 ≤ res →
      ∃ (r : Nat) (res2 : Int), 0 ≤ res2 ∧ (c.flags = 1 → r = 0) ∧ ∃ N, ∀ fuel, N ≤ fuel →
        _skip_limited_loop cfg mem fuel c limit res =
          some (res2, { c with cur := c.cur + ls.sum, remaining := r }) := by
  intro ls
  induction ls with
  | nil =>
    intro c res _ hc hres
    have he : nanocbor_at_end mem c = true := by
      rcases hc with ⟨hf, hr, _, _⟩ | ⟨hf, _, hb⟩
      · rw [at_end_definite mem c hf]
        right
        simpa using hr
      · rw [at_end_indefinite mem c hf]
        right
        simpa using hb
    refine ⟨c.remaining, res, hres, ?_, 1, fun fuel hf => ?_⟩
    · intro hf
      rcases hc with ⟨_, hr, _, _⟩ | ⟨hf3, _, _⟩
      · simpa using hr
      · omega
    · obtain ⟨k, rfl⟩ : ∃ k, fuel = k + 1 := ⟨fuel - 1, by omega⟩
      rw [_skip_limited_loop]
      simp [he]
  | cons l ls ihl =>
    intro c res hitems hc hres
    obtain ⟨hitem, hrest⟩ := hitems
    obtain ⟨hl1, hff, hskip⟩ := ih c.cur l hitem
    have hflags : c.flags = 1 ∨ c.flags = 3 := by
      rcases hc with h | h
      · exact Or.inl h.1
      · exact Or.inr h.1
    simp only [List.sum_cons, List.length_cons] at hc
    have hne : nanocbor_at_end mem c = false := by
      rw [Bool.eq_false_iff]
      rcases hc with ⟨hf, hr, hlen, hend⟩ | ⟨hf, hend, hb⟩
      · rw [Ne, at_end_definite mem c hf]
        omega
      · rw [Ne, at_end_indefinite mem c hf]
        omega
    have hdec := dec8_eq limit (by omega) hl2
    obtain ⟨r1, hr1, N1, hN1⟩ := hskip c (dec8 limit) (by omega) (by omega) rfl
      (packed_disabled_of_flags c hflags) hne (by rcases hc with h | h <;> omega)
    obtain ⟨r, res2, hres2, hr0, N2, hN2⟩ :=
      ihl { c with cur := c.cur + l, remaining := r1 } NANOCBOR_OK hrest
        (by
          rcases hc with ⟨hf, hr, hlen, hend⟩ | ⟨hf, hend, hb⟩
          · left
            refine ⟨hf, ?_, by omega, by simp only; omega⟩
            simp only
            rw [hr1 (by omega), hr, dec64_succ _ hlen]
          · right
            exact ⟨hf, by simp only; omega, by simpa [Nat.add_assoc] using hb⟩)
        (by decide)
    refine ⟨r, res2, hres2, hr0, max N1 N2 + 1, fun fuel hf => ?_⟩
    obtain ⟨k, rfl⟩ : ∃ k, fuel = k + 1 := ⟨fuel - 1, by omega⟩
    have hk1 : N1 ≤ k := by omega
    have hk2 : N2 ≤ k := by omega
    have hnn : ¬ (NANOCBOR_OK < 0) := by decide
    rw [_skip_limited_loop]
    simp only [hne, Bool.false_eq_true, not_false_eq_true, if_true, hN1 k hk1, hnn, if_false,
      hN2 k hk2, List.sum_cons, Nat.add_assoc]

theorem skip_limited_container (cfg : Config) (mem : Mem) (d limit : Nat)
    (it child : nanocbor_value_t) (ls : List Nat) (hdl : d + 1 < limit) (hl2 : limit < 256)
    (ih : ∀ a l, ItemAt cfg mem d a l → 1 ≤ l ∧ byteAt mem a ≠ 0xFF ∧ SkipsOver cfg mem d a l)
    (hne : nanocbor_at_end mem it = false)
    (hmaj : byteAt mem it.cur / 32 = 4 ∨ byteAt mem it.cur / 32 = 5)
    (hent : ∀ k,
      (if ((byteAt mem it.cur / 32 : Nat) : Int) = NANOCBOR_TYPE_MAP then
        nanocbor_enter_map cfg mem (k + 2) it (stack_value cfg)
      else nanocbor_enter_array cfg mem (k + 2) it (stack_value cfg)) =
        some (NANOCBOR_OK, child))
    (hcur : it.cur < child.cur) (hitems : ItemsAt (ItemAt cfg mem d) child.cur ls)
    (hc : (child.flags = 1 ∧ child.remaining = ls.length ∧ ls.length < 2 ^ 64 ∧
        child.cur + ls.sum ≤ child.end_) ∨
      (child.flags = 3 ∧ child.cur + ls.sum < child.end_ ∧
        byteAt mem (child.cur + ls.sum) = 0xFF))
    (hend : child.end_ = it.end_) :
    ∃ N, ∀ fuel, N ≤ fuel →
      _skip_limited cfg mem fuel it limit =
        some (NANOCBOR_OK,
          { it with
            cur := child.cur + ls.sum + (if child.flags = 3 then 1 else 0),
            remaining := if it.remaining ≠ 0 then dec64 it.remaining else it.remaining }) := by
  obtain ⟨r, res2, hres2, hr0, N, hN⟩ :=
    skip_loop cfg mem d limit hdl hl2 ih ls child NANOCBOR_OK hitems hc (by decide)
  have hflags : child.flags = 1 ∨ child.flags = 3 := by
    rcases hc with h | h
    · exact Or.inl h.1
    · exact Or.inr h.1
  have he : nanocbor_at_end mem { child with cur := child.cur + ls.sum, remaining := r } = true := by
    rcases hc with ⟨hf, _, _, _⟩ | ⟨hf, _, hb⟩
    · rw [at_end_definite mem { child with cur := child.cur + ls.sum, remaining := r } hf]
      right
      exact hr0 hf
    · rw [at_end_indefinite mem { child with cur := child.cur + ls.sum, remaining := r } hf]
      right
      exact hb
  refine ⟨N + 3, fun fuel hf => ?_⟩
  obtain ⟨j, rfl⟩ : ∃ j, fuel = j + 2 + 1 := ⟨fuel - 3, by omega⟩
  have hg := get_type_of_not_at_end mem it hne
  have h1 : ((((byteAt mem it.cur / 32 : Nat) : Int) = NANOCBOR_TYPE_ARR) ∨
      (((byteAt mem it.cur / 32 : Nat) : Int) = NANOCBOR_TYPE_MAP)) := by
    simp only [NANOCBOR_TYPE_ARR, NANOCBOR_TYPE_MAP]
    omega
  have hleave := leave_after_skip cfg mem j it
    { child with cur := child.cur + ls.sum, remaining := r } hflags he
    (by simp only; omega)
    (by
      simp only
      rcases hc with ⟨hf, _, _, h⟩ | ⟨hf, h, _⟩
      · rw [hf]
        simp only [show ¬ ((1 : Nat) = 3) by decide, if_false]
        omega
      · rw [hf]
        simp only [if_true]
        omega)
  have hnn : ¬ (res2 < 0) := by omega
  rw [_skip_limited]
  simp only [show limit ≠ 0 by omega, hg, h1, if_false, if_true, hent j, hN (j + 2) (by omega),
    hleave, hnn]

theorem head_arg_lt (mem : Mem) (a : Nat) (hi : byteAt mem a % 32 ≤ 27) :
    head_arg mem a < 2 ^ 64 := by
  unfold head_arg
  split
  · omega
  · have hlt := be_uint_lt mem (a + 1) (2 ^ (byteAt mem a % 32 - 24))
    have hk : byteAt mem a % 32 - 24 ≤ 3 := by omega
    have hp : 256 ^ (2 ^ (byteAt mem a % 32 - 24)) ≤ 2 ^ 64 := by
      generalize byteAt mem a % 32 - 24 = k at hk
      interval_cases k <;> norm_num
    omega

theorem item_skips (cfg : Config) (mem : Mem) (hr : cfg.NANOCBOR_RECURSION_MAX % 256 ≠ 0) :
    ∀ d a len, ItemAt cfg mem d a len →
      1 ≤ len ∧ byteAt mem a ≠ 0xFF ∧ SkipsOver cfg mem d a len := by
  intro d
  induction d with
  | zero =>
    intro a len h
    have h : SimpleItemAt cfg mem a len := h
    exact ⟨(simple_item_facts cfg mem a len h).1, (simple_item_facts cfg mem a len h).2,
      skips_simple cfg mem 0 a len hr h⟩
  | succ d ih =>
    intro a len h
    have hb := byteAt_lt mem a
    have hp := head_len_pos (byteAt mem a % 32)
    rw [ItemAt] at h
    rcases h with h | ⟨hm, hi, l, hl, rfl⟩ | ⟨hm, hi, ls, hlen, hitems, rfl⟩ |
      ⟨hm, hi, hn, ls, hlen, hitems, rfl⟩ | ⟨hm, ls, _, hitems, hff, rfl⟩
    · exact ⟨(simple_item_facts cfg mem a len h).1, (simple_item_facts cfg mem a len h).2,
        skips_simple cfg mem (d + 1) a len hr h⟩
    · obtain ⟨hl1, hff, hs⟩ := ih _ l hl
      exact ⟨by omega, by omega, skips_tag cfg mem d a l hm hi hl1 hff hs⟩
    · refine ⟨by omega, by omega, ?_⟩
      intro it limit hdl hl256 hcur hd hne hend
      subst hcur
      have hD : DefiniteHead mem it 4 := ⟨hm, hi, by omega⟩
      have hnm : ¬ (((byteAt mem it.cur / 32 : Nat) : Int) = NANOCBOR_TYPE_MAP) := by
        simp only [NANOCBOR_TYPE_MAP]
        omega
      obtain ⟨N, hN⟩ := skip_limited_container cfg mem d limit it
        { stack_value cfg with
          flags := 1, end_ := it.end_, remaining := head_arg mem it.cur,
          cur := it.cur + head_len (byteAt mem it.cur % 32) } ls hdl hl256 ih hne (Or.inl hm)
        (fun k => by
          rw [if_neg hnm]
          exact (enter_disabled cfg mem k it _ hd hne).2.2.1 hD)
        (by simp only; omega) hitems
        (Or.inl ⟨rfl, hlen.symm, by rw [hlen]; exact head_arg_lt mem it.cur hi,
          by simp only; omega⟩) rfl
      refine ⟨if it.remaining ≠ 0 then dec64 it.remaining else it.remaining,
        fun h => by simp [h], N, fun fuel hf => ?_⟩
      rw [hN fuel hf]
      simp [Nat.add_assoc]
    · refine ⟨by omega, by omega, ?_⟩
      intro it limit hdl hl256 hcur hd hne hend
      subst hcur
      have hD : DefiniteHead mem it 5 := ⟨hm, hi, by omega⟩
      have hnm : (((byteAt mem it.cur / 32 : Nat) : Int) = NANOCBOR_TYPE_MAP) := by
        simp only [NANOCBOR_TYPE_MAP]
        omega
      obtain ⟨N, hN⟩ := skip_limited_container cfg mem d limit it
        { stack_value cfg with
          flags := 1, end_ := it.end_, remaining := 2 * head_arg mem it.cur,
          cur := it.cur + head_len (byteAt mem it.cur % 32) } ls hdl hl256 ih hne (Or.inr hm)
        (fun k => by
          rw [if_pos hnm]
          exact (enter_disabled cfg mem k it _ hd hne).2.2.2 hD hn)
        (by simp only; omega) hitems
        (Or.inl ⟨rfl, hlen.symm, by rw [hlen]; omega, by simp only; omega⟩) rfl
      refine ⟨if it.remaining ≠ 0 then dec64 it.remaining else it.remaining,
        fun h => by simp [h], N, fun fuel hf => ?_⟩
      rw [hN fuel hf]
      simp [Nat.add_assoc]
    · refine ⟨by omega, by omega, ?_⟩
      intro it limit hdl hl256 hcur hd hne hend
      subst hcur
      have hmaj : byteAt mem it.cur / 32 = 4 ∨ byteAt mem it.cur / 32 = 5 := by omega
      obtain ⟨N, hN⟩ := skip_limited_container cfg mem d limit it
        { stack_value cfg with flags := 3, end_ := it.end_, remaining := 0, cur := it.cur + 1 }
        ls hdl hl256 ih hne hmaj
        (fun k => by
          rcases hm with h | h
          · rw [if_neg (by simp only [NANOCBOR_TYPE_MAP]; omega)]
            exact (enter_disabled cfg mem k it _ hd hne).1 h
          · rw [if_pos (by simp only [NANOCBOR_TYPE_MAP]; omega)]
            exact (enter_disabled cfg mem k it _ hd hne).2.1 h)
        (by simp only; omega) hitems
        (Or.inr ⟨rfl, by simp only; omega, hff⟩) rfl
      refine ⟨if it.remaining ≠ 0 then dec64 it.remaining else it.remaining,
        fun h => by simp [h], N, fun fuel hf => ?_⟩
      rw [hN fuel hf]
      simp [Nat.add_assoc]

/-- C5 (amended). On a cursor without packed support that is not at its end, for every
well-formed item (`ItemAt`: integers, simple values and floats, definite-length strings shorter
than `2^32` bytes whose length argument fits `size_t`, tags with a number of at most four bytes,
definite or indefinite arrays and maps) of nesting depth `d < NANOCBOR_RECURSION_MAX < 256`
(arrays, maps and tags each counting one level) that starts at `cur` and lies inside
`[cur, end)`: `nanocbor_skip` returns `OK`, given enough fuel, and advances `cur` by exactly
the encoded length `len` of the item; apart from `cur` only `remaining` changes, and it is
decremented when it was not zero. -/
theorem C5_skip (cfg : Config) (mem : Mem) (it : nanocbor_value_t) (d len : Nat)
    (hmax : cfg.NANOCBOR_RECURSION_MAX < 256) (hd : d < cfg.NANOCBOR_RECURSION_MAX)
    (hp : _packed_enabled it = false) (hne : nanocbor_at_end mem it = false)
    (hitem : ItemAt cfg mem d it.cur len) (hend : it.cur + len ≤ it.end_) :
    ∃ r, (it.remaining ≠ 0 → r = dec64 it.remaining) ∧
      ∃ N, ∀ fuel, N ≤ fuel →
        nanocbor_skip cfg mem fuel it =
          some (NANOCBOR_OK, { it with cur := it.cur + len, remaining := r }) := by
  have hmod : cfg.NANOCBOR_RECURSION_MAX % 256 = cfg.NANOCBOR_RECURSION_MAX :=
    Nat.mod_eq_of_lt hmax
  obtain ⟨_, _, hs⟩ := item_skips cfg mem (by omega) d it.cur len hitem
  obtain ⟨r, hr, N, hN⟩ := hs it (cfg.NANOCBOR_RECURSION_MAX % 256) (by omega) (by omega) rfl hp
    hne hend
  exact ⟨r, hr, N, fun fuel hf => by rw [nanocbor_skip, hN fuel hf]⟩

/-- Witness of C5: on `9F 01 02 03 FF` the skip advances by 5 bytes, to the position that
`nanocbor_enter_array`, three reads and `nanocbor_leave_container` reach. -/
theorem C5_skip_witness :
    ItemAt defaultConfig (mem_of 16 [0x9F, 1, 2, 3, 0xFF]) 1 16 5 ∧
    (∃ r, ((0 : Nat) ≠ 0 → r = dec64 0) ∧ ∃ N, ∀ fuel, N ≤ fuel →
      nanocbor_skip defaultConfig (mem_of 16 [0x9F, 1, 2, 3, 0xFF]) fuel
          (nanocbor_decoder_init defaultConfig (stack_value defaultConfig) 16 5) =
        some (NANOCBOR_OK,
          { nanocbor_decoder_init defaultConfig (stack_value defaultConfig) 16 5 with
            cur := 16 + 5, remaining := r })) ∧
    (nanocbor_skip defaultConfig (mem_of 16 [0x9F, 1, 2, 3, 0xFF]) 8
      (nanocbor_decoder_init defaultConfig (stack_value defaultConfig) 16 5)).map
        (fun r => (r.1, r.2.cur)) = some (NANOCBOR_OK, 21) ∧
    (((nanocbor_enter_array defaultConfig (mem_of 16 [0x9F, 1, 2, 3, 0xFF]) 8
      (nanocbor_decoder_init defaultConfig (stack_value defaultConfig) 16 5)
      (stack_value defaultConfig)).bind fun a =>
      (nanocbor_get_uint8 defaultConfig (mem_of 16 [0x9F, 1, 2, 3, 0xFF]) 8 a.2 0).bind fun b =>
      (nanocbor_get_uint8 defaultConfig (mem_of 16 [0x9F, 1, 2, 3, 0xFF]) 8 b.2.1 0).bind fun c =>
      (nanocbor_get_uint8 defaultConfig (mem_of 16 [0x9F, 1, 2, 3, 0xFF]) 8 c.2.1 0).bind fun e =>
      (nanocbor_leave_container defaultConfig (mem_of 16 [0x9F, 1, 2, 3, 0xFF]) 8
        (nanocbor_decoder_init defaultConfig (stack_value defaultConfig) 16 5) e.2.1).map
        fun p => (b.2.2, c.2.2, e.2.2, nanocbor_at_end (mem_of 16 [0x9F, 1, 2, 3, 0xFF]) e.2.1,
          p.1, p.2.cur)) = some (1, 2, 3, true, NANOCBOR_OK, 21)) := by
  have hitem : ItemAt defaultConfig (mem_of 16 [0x9F, 1, 2, 3, 0xFF]) 1 16 5 := by
    rw [ItemAt]
    refine Or.inr (Or.inr (Or.inr (Or.inr ⟨Or.inl (by decide), [1, 1, 1], fun h => absurd h (by decide),
      ⟨?_, ?_, ?_, trivial⟩, by decide, by decide⟩)))
    · exact ⟨by decide, Or.inl ⟨Or.inl (by decide), by decide⟩⟩
    · exact ⟨by decide, Or.inl ⟨Or.inl (by decide), by decide⟩⟩
    · exact ⟨by decide, Or.inl ⟨Or.inl (by decide), by decide⟩⟩
  exact ⟨hitem,
    C5_skip defaultConfig (mem_of 16 [0x9F, 1, 2, 3, 0xFF])
      (nanocbor_decoder_init defaultConfig (stack_value defaultConfig) 16 5) 1 5 (by decide)
      (by decide) (by decide) (by decide) hitem (by decide),
    by decide!, by decide!⟩

/-- Counterexample to C5 as stated, on cursors without packed support.  (1) The ten bytes
`DB 00 00 00 01 00 00 00 00 00` are the well-formed item `4294967296(0)`, a tag with an
eight-byte number: `nanocbor_skip` returns `OK`, whatever the fuel, and leaves `cur` where it
was instead of advancing by 10.  (2) In `81 01 02`, after `nanocbor_enter_array` and one read
the child cursor has `remaining = 0` and the item `02` lies inside its `[cur, end)`:
`nanocbor_skip` on it returns `END`.  (3) A byte string of `2^32 - 1` bytes (head
`5A FF FF FF FF`) inside a buffer of `2^32 + 4` bytes: `nanocbor_skip` returns `OK` having
advanced `cur` by 4 bytes only. -/
theorem C5_counterexample :
    (∀ fuel, (nanocbor_skip defaultConfig (mem_of 16 [0xDB, 0, 0, 0, 1, 0, 0, 0, 0, 0])
      (fuel + 1) (nanocbor_decoder_init defaultConfig (stack_value defaultConfig) 16 10)).map
        (fun r => (r.1, r.2.cur)) = some (NANOCBOR_OK, 16)) ∧
    (((nanocbor_enter_array defaultConfig (mem_of 16 [0x81, 1, 2]) 10
      (nanocbor_decoder_init defaultConfig (stack_value defaultConfig) 16 3)
      (stack_value defaultConfig)).bind fun a =>
      (nanocbor_get_uint8 defaultConfig (mem_of 16 [0x81, 1, 2]) 10 a.2 0).bind fun b =>
      (nanocbor_skip defaultConfig (mem_of 16 [0x81, 1, 2]) 10 b.2.1).map
        fun r => (b.2.2, _packed_enabled b.2.1, b.2.1.cur, b.2.1.end_, r.1, r.2.cur)) =
      some (1, false, 18, 19, NANOCBOR_ERR_END, 18)) ∧
    ((nanocbor_skip defaultConfig
      (fun a => if a = 16 then 0x5A else if a ≤ 20 then 0xFF else 0) 10
      (nanocbor_decoder_init defaultConfig (stack_value defaultConfig) 16 (2 ^ 32 + 4))).map
        (fun r => (r.1, r.2.cur)) = some (NANOCBOR_OK, 20)) := by
  refine ⟨fun fuel => ?_, by decide!, by decide!⟩
  have ht : __get_type (mem_of 16 [0xDB, 0, 0, 0, 1, 0, 0, 0, 0, 0])
      (nanocbor_decoder_init defaultConfig (stack_value defaultConfig) 16 10) =
      NANOCBOR_TYPE_TAG := by decide
  have hu : _get_uint64 (mem_of 16 [0xDB, 0, 0, 0, 1, 0, 0, 0, 0, 0])
      (nanocbor_decoder_init defaultConfig (stack_value defaultConfig) 16 10) 0
      NANOCBOR_SIZE_WORD NANOCBOR_TYPE_TAG = (NANOCBOR_ERR_OVERFLOW, 0) := by decide
  have hl : defaultConfig.NANOCBOR_RECURSION_MAX % 256 ≠ 0 := by decide
  have h1 : ¬ (NANOCBOR_TYPE_TAG = NANOCBOR_TYPE_ARR ∨ NANOCBOR_TYPE_TAG = NANOCBOR_TYPE_MAP) := by
    decide
  have h2 : ¬ (NANOCBOR_ERR_OVERFLOW ≥ 0) := by decide
  have h3 : ¬ (NANOCBOR_TYPE_TAG < 0) := by decide
  rw [nanocbor_skip, _skip_limited]
  simp only [hl, ht, hu, h1, h2, h3, if_false, if_true, Option.map_some']
  rfl


/-! ## C1: a tagged item behind a reference -/

/-- C1 (divergence). The packed document `D8 71 82 81 C1 18 2A 81 E0`, that is
`113([[1(42)], [simple(0)]])`, unpacks to `81 C1 18 2A`, that is `[1(42)]`.  Walking the
unpacked document with a cursor from `nanocbor_decoder_init`: `nanocbor_enter_array`, then
`nanocbor_get_type` reports a tag, `nanocbor_get_tag` returns `OK` with tag 1, the child is not
at its end and `nanocbor_get_uint8` reads the tagged 42.  Walking the packed document with a
cursor from `nanocbor_decoder_init_packed`: `nanocbor_get_type` reports a tag and
`nanocbor_get_tag` returns `OK` with tag 1 as well, but the child is then at its end and
`nanocbor_get_uint8` returns `END`: the tagged item is never delivered. -/
theorem C1_tag_behind_reference :
    (((nanocbor_enter_array defaultConfig (mem_of 16 [0x81, 0xC1, 0x18, 0x2A]) 14
      (nanocbor_decoder_init defaultConfig (stack_value defaultConfig) 16 4)
      (stack_value defaultConfig)).bind fun a =>
      (nanocbor_get_type defaultConfig (mem_of 16 [0x81, 0xC1, 0x18, 0x2A]) 14 a.2).bind fun ty =>
      (nanocbor_get_tag defaultConfig (mem_of 16 [0x81, 0xC1, 0x18, 0x2A]) 14 a.2 0).bind fun t =>
      (nanocbor_get_uint8 defaultConfig (mem_of 16 [0x81, 0xC1, 0x18, 0x2A]) 14 t.2.1 0).map
        fun u => (ty, t.1, t.2.2, nanocbor_at_end (mem_of 16 [0x81, 0xC1, 0x18, 0x2A]) t.2.1,
          u.1, u.2.2)) =
      some (NANOCBOR_TYPE_TAG, NANOCBOR_OK, 1, false, 2, 42)) ∧
    (((nanocbor_enter_array defaultConfig
      (mem_of 16 [0xD8, 0x71, 0x82, 0x81, 0xC1, 0x18, 0x2A, 0x81, 0xE0]) 14
      (nanocbor_decoder_init_packed defaultConfig (stack_value defaultConfig) 16 9)
      (stack_value defaultConfig)).bind fun a =>
      (nanocbor_get_type defaultConfig
        (mem_of 16 [0xD8, 0x71, 0x82, 0x81, 0xC1, 0x18, 0x2A, 0x81, 0xE0]) 14 a.2).bind fun ty =>
      (nanocbor_get_tag defaultConfig
        (mem_of 16 [0xD8, 0x71, 0x82, 0x81, 0xC1, 0x18, 0x2A, 0x81, 0xE0]) 14 a.2 0).bind fun t =>
      (nanocbor_get_uint8 defaultConfig
        (mem_of 16 [0xD8, 0x71, 0x82, 0x81, 0xC1, 0x18, 0x2A, 0x81, 0xE0]) 14 t.2.1 0).map
        fun u => (ty, t.1, t.2.2,
          nanocbor_at_end (mem_of 16 [0xD8, 0x71, 0x82, 0x81, 0xC1, 0x18, 0x2A, 0x81, 0xE0]) t.2.1,
          u.1, u.2.2)) =
      some (NANOCBOR_TYPE_TAG, NANOCBOR_OK, 1, true, NANOCBOR_ERR_END, 0)) := by
  exact ⟨by decide!, by decide!⟩


/-! ## C11: classification of a bad head -/

/-- C11 (amended). For a cursor that is not at its end whose initial byte has the expected major
type, an additional information `info >= 24` above the caller's maximum makes `_get_uint64`
return `OVERFLOW` and leave `*value` alone.  This covers an argument wider than the maximum
(`info` in 24..27) and, since every caller passes a maximum of at most 27, the reserved values
28, 29 and 30 as well. -/
theorem C11_bad_head (mem : Mem) (it : nanocbor_value_t) (v max : Nat) (type : Int)
    (hne : nanocbor_at_end mem it = false)
    (hty : type = ((byteAt mem it.cur / 32 : Nat) : Int)) :
    (24 ≤ byteAt mem it.cur % 32 → max < byteAt mem it.cur % 32 →
      _get_uint64 mem it v max type = (NANOCBOR_ERR_OVERFLOW, v)) ∧
    (max ≤ 27 → (byteAt mem it.cur % 32 = 28 ∨ byteAt mem it.cur % 32 = 29 ∨
        byteAt mem it.cur % 32 = 30) →
      _get_uint64 mem it v max type = (NANOCBOR_ERR_OVERFLOW, v)) := by
  have hg := get_type_of_not_at_end mem it hne
  have h1 : ¬ (((byteAt mem it.cur / 32 : Nat) : Int) < 0) := by omega
  have key : 24 ≤ byteAt mem it.cur % 32 → max < byteAt mem it.cur % 32 →
      _get_uint64 mem it v max type = (NANOCBOR_ERR_OVERFLOW, v) := by
    intro h24 hmax
    have h2 : ¬ (byteAt mem it.cur % 32 < 24) := by omega
    simp only [_get_uint64, hg, and_value_mask, NANOCBOR_SIZE_BYTE, h1, hty, h2, if_false,
      ne_eq, not_true_eq_false, gt_iff_lt, hmax, if_true]
  exact ⟨key, fun hm hi => key (by omega) (by omega)⟩

/-- Witness of C11: `nanocbor_get_uint8` on `19 01 00` returns `OVERFLOW`. -/
theorem C11_bad_head_witness :
    nanocbor_at_end (mem_of 16 [0x19, 0x01, 0x00]) ⟨16, 19, 0, 0, [], 0⟩ = false ∧
    _get_uint64 (mem_of 16 [0x19, 0x01, 0x00]) ⟨16, 19, 0, 0, [], 0⟩ 0 NANOCBOR_SIZE_BYTE
      NANOCBOR_TYPE_UINT = (NANOCBOR_ERR_OVERFLOW, 0) ∧
    (nanocbor_get_uint8 defaultConfig (mem_of 16 [0x19, 0x01, 0x00]) 4
      (nanocbor_decoder_init defaultConfig (stack_value defaultConfig) 16 3) 0).map
        (fun r => (r.1, r.2.1.cur)) = some (NANOCBOR_ERR_OVERFLOW, 16) := by
  exact ⟨by decide,
    (C11_bad_head (mem_of 16 [0x19, 0x01, 0x00]) ⟨16, 19, 0, 0, [], 0⟩ 0 NANOCBOR_SIZE_BYTE
      NANOCBOR_TYPE_UINT (by decide) (by decide)).1 (by decide) (by decide),
    by decide!⟩

/-- Counterexample to C11 as stated: on the reserved heads `1C`, `1D` and `1E` the primitive
reader, called with the largest maximum (`NANOCBOR_SIZE_LONG`), returns `OVERFLOW`, not
`INVALID_TYPE`; so does `nanocbor_get_uint64`. -/
theorem C11_counterexample :
    _get_uint64 (mem_of 16 [0x1C]) ⟨16, 17, 0, 0, [], 0⟩ 0 NANOCBOR_SIZE_LONG
      NANOCBOR_TYPE_UINT = (NANOCBOR_ERR_OVERFLOW, 0) ∧
    _get_uint64 (mem_of 16 [0x1D]) ⟨16, 17, 0, 0, [], 0⟩ 0 NANOCBOR_SIZE_LONG
      NANOCBOR_TYPE_UINT = (NANOCBOR_ERR_OVERFLOW, 0) ∧
    _get_uint64 (mem_of 16 [0x1E]) ⟨16, 17, 0, 0, [], 0⟩ 0 NANOCBOR_SIZE_LONG
      NANOCBOR_TYPE_UINT = (NANOCBOR_ERR_OVERFLOW, 0) ∧
    (nanocbor_get_uint64 defaultConfig (mem_of 16 [0x1C]) 4
      (nanocbor_decoder_init defaultConfig (stack_value defaultConfig) 16 1)).map
        (fun r => r.1) = some NANOCBOR_ERR_OVERFLOW ∧
    NANOCBOR_ERR_OVERFLOW ≠ NANOCBOR_ERR_INVALID_TYPE := by
  exact ⟨by decide, by decide, by decide, by decide!, by decide⟩


/-! ## C12: the wide unsigned accessors -/

/-- C12 (divergence). `nanocbor_get_uint16` on `19 01 00` (the integer 256) succeeds and
advances past the three-byte head, but stores 0: the value goes through a cast to `uint8_t`.
In the same way `nanocbor_get_uint32` on `1A 00 01 00 00` (65536) and `nanocbor_get_uint64` on
`1B 00 00 00 01 00 00 00 2A` (2^32 + 42) store 0 and 42; only values below 256, such as `18 2A`,
come out whole. -/
theorem C12_uint_narrowing :
    nanocbor_get_uint16 defaultConfig (mem_of 16 [0x19, 0x01, 0x00]) 4
      (nanocbor_decoder_init defaultConfig (stack_value defaultConfig) 16 3) =
        some (3, _advance (nanocbor_decoder_init defaultConfig (stack_value defaultConfig) 16 3) 3,
          0) ∧
    (nanocbor_get_uint32 defaultConfig (mem_of 16 [0x1A, 0x00, 0x01, 0x00, 0x00]) 4
      (nanocbor_decoder_init defaultConfig (stack_value defaultConfig) 16 5)).map
        (fun r => (r.1, r.2.1.cur, r.2.2)) = some (5, 21, 0) ∧
    (nanocbor_get_uint64 defaultConfig
      (mem_of 16 [0x1B, 0x00, 0x00, 0x00, 0x01, 0x00, 0x00, 0x00, 0x2A]) 4
      (nanocbor_decoder_init defaultConfig (stack_value defaultConfig) 16 9)).map
        (fun r => (r.1, r.2.1.cur, r.2.2)) = some (9, 25, 42) ∧
    (nanocbor_get_uint16 defaultConfig (mem_of 16 [0x18, 0x2A]) 4
      (nanocbor_decoder_init defaultConfig (stack_value defaultConfig) 16 2)).map
        (fun r => (r.1, r.2.1.cur, r.2.2)) = some (2, 18, 42) := by
  exact ⟨by decide!, by decide!, by decide!, by decide!⟩


/-! ## C13: the signed accessors -/

theorem PACKED_HANDLE_LIMITED_disabled (cfg : Config) (mem : Mem) (k : Nat)
    (it : nanocbor_value_t) (hd : _packed_enabled it = false)
    (hr : cfg.NANOCBOR_RECURSION_MAX % 256 ≠ 0) :
    _PACKED_HANDLE_LIMITED cfg mem (k + 2) it = some ⟨none, false, it, stack_value cfg⟩ := by
  rw [_PACKED_HANDLE_LIMITED, PACKED_HANDLE_disabled cfg mem k false it _ _ hd hr]

theorem get_and_advance_int64_disabled (cfg : Config) (mem : Mem) (k : Nat)
    (it : nanocbor_value_t) (value : Int) (max bound : Nat)
    (hd : _packed_enabled it = false) (hr : cfg.NANOCBOR_RECURSION_MAX % 256 ≠ 0)
    (hne : nanocbor_at_end mem it = false) :
    _get_and_advance_int64 cfg mem (k + 2) it value max bound =
      if byteAt mem it.cur / 32 ≤ 1 then
        some (
          (if (_get_uint64 mem it 0 max ((byteAt mem it.cur / 32 : Nat) : Int)).2 > bound then
            NANOCBOR_ERR_OVERFLOW
          else (_get_uint64 mem it 0 max ((byteAt mem it.cur / 32 : Nat) : Int)).1),
          _advance_if it
            (if (_get_uint64 mem it 0 max ((byteAt mem it.cur / 32 : Nat) : Int)).2 > bound then
              NANOCBOR_ERR_OVERFLOW
            else (_get_uint64 mem it 0 max ((byteAt mem it.cur / 32 : Nat) : Int)).1),
          if byteAt mem it.cur / 32 = 1 then
            to_signed 64 (to_signed 64
              (-(to_signed 64
                (_get_uint64 mem it 0 max ((byteAt mem it.cur / 32 : Nat) : Int)).2)) - 1)
          else
            to_signed 64 (_get_uint64 mem it 0 max ((byteAt mem it.cur / 32 : Nat) : Int)).2)
      else some (NANOCBOR_ERR_INVALID_TYPE, it, value) := by
  have hg := get_type_of_not_at_end mem it hne
  have h1 : ¬ (((byteAt mem it.cur / 32 : Nat) : Int) < 0) := by omega
  rw [_get_and_advance_int64, PACKED_HANDLE_LIMITED_disabled cfg mem k it hd hr]
  simp only [HandleOut.it, Bool.false_eq_true, if_false, hg, h1, NANOCBOR_TYPE_NINT,
    NANOCBOR_TYPE_UINT]
  by_cases hm : byteAt mem it.cur / 32 ≤ 1
  · rcases Nat.le_one_iff_eq_zero_or_eq_one.mp hm with h0 | h0 <;> rw [h0] <;> simp
  · have hm2 : ¬ (((byteAt mem it.cur / 32 : Nat) : Int) = 1 ∨
        ((byteAt mem it.cur / 32 : Nat) : Int) = 0) := by omega
    simp only [hm, hm2, if_false]

theorem get_uint64_head_overflow (mem : Mem) (it : nanocbor_value_t) (v max : Nat) (type : Int)
    (hne : nanocbor_at_end mem it = false)
    (hty : type = ((byteAt mem it.cur / 32 : Nat) : Int))
    (h24 : 24 ≤ byteAt mem it.cur % 32) (hmax : max < byteAt mem it.cur % 32) :
    _get_uint64 mem it v max type = (NANOCBOR_ERR_OVERFLOW, v) := by
  have hg := get_type_of_not_at_end mem it hne
  have h1 : ¬ (((byteAt mem it.cur / 32 : Nat) : Int) < 0) := by omega
  have h2 : ¬ (byteAt mem it.cur % 32 < 24) := by omega
  simp only [_get_uint64, hg, and_value_mask, NANOCBOR_SIZE_BYTE, h1, hty, h2, if_false,
    ne_eq, not_true_eq_false, gt_iff_lt, hmax, if_true]

theorem to_signed_64_id (x : Int) (h1 : -9223372036854775808 ≤ x)
    (h2 : x < 9223372036854775808) : to_signed 64 x = x := by
  unfold to_signed
  norm_num
  omega

theorem to_signed_64_nat (a : Nat) (h : a < 2 ^ 63) : to_signed 64 (a : Int) = (a : Int) :=
  to_signed_64_id _ (by omega) (by omega)

theorem to_signed_64_neg (a : Nat) (h : a < 2 ^ 63) :
    to_signed 64 (-(a : Int)) = -(a : Int) :=
  to_signed_64_id _ (by omega) (by omega)

theorem to_signed_64_neg_pred (a : Nat) (h : a < 2 ^ 63) :
    to_signed 64 (-(a : Int) - 1) = -(a : Int) - 1 :=
  to_signed_64_id _ (by omega) (by omega)

theorem get_int_generic (cfg : Config) (mem : Mem) (k : Nat) (it : nanocbor_value_t)
    (value : Int) (max bound : Nat) (hd : _packed_enabled it = false)
    (hr : cfg.NANOCBOR_RECURSION_MAX % 256 ≠ 0) (hmax : max ≤ 27) (hb : bound < 2 ^ 63) :
    (nanocbor_at_end mem it = true →
      _get_and_advance_int64 cfg mem (k + 2) it value max bound =
        some (NANOCBOR_ERR_END, it, value)) ∧
    (nanocbor_at_end mem it = false → 2 ≤ byteAt mem it.cur / 32 →
      _get_and_advance_int64 cfg mem (k + 2) it value max bound =
        some (NANOCBOR_ERR_INVALID_TYPE, it, value)) ∧
    (nanocbor_at_end mem it = false → byteAt mem it.cur / 32 ≤ 1 →
      24 ≤ byteAt mem it.cur % 32 → max < byteAt mem it.cur % 32 →
      (_get_and_advance_int64 cfg mem (k + 2) it value max bound).map (fun r => (r.1, r.2.1)) =
        some (NANOCBOR_ERR_OVERFLOW, it)) ∧
    (nanocbor_at_end mem it = false → byteAt mem it.cur / 32 ≤ 1 →
      24 ≤ byteAt mem it.cur % 32 → byteAt mem it.cur % 32 ≤ max →
      it.end_ < it.cur + head_len (byteAt mem it.cur % 32) →
      (_get_and_advance_int64 cfg mem (k + 2) it value max bound).map (fun r => (r.1, r.2.1)) =
        some (NANOCBOR_ERR_END, it)) ∧
    (nanocbor_at_end mem it = false → byteAt mem it.cur / 32 ≤ 1 →
      (24 ≤ byteAt mem it.cur % 32 → byteAt mem it.cur % 32 ≤ max) →
      it.cur + head_len (byteAt mem it.cur % 32) ≤ it.end_ →
      bound < head_arg mem it.cur →
      (_get_and_advance_int64 cfg mem (k + 2) it value max bound).map (fun r => (r.1, r.2.1)) =
        some (NANOCBOR_ERR_OVERFLOW, it)) ∧
    (nanocbor_at_end mem it = false → byteAt mem it.cur / 32 ≤ 1 →
      (24 ≤ byteAt mem it.cur % 32 → byteAt mem it.cur % 32 ≤ max) →
      it.cur + head_len (byteAt mem it.cur % 32) ≤ it.end_ →
      head_arg mem it.cur ≤ bound →
      _get_and_advance_int64 cfg mem (k + 2) it value max bound =
        some (((head_len (byteAt mem it.cur % 32) : Nat) : Int),
          _advance it (head_len (byteAt mem it.cur % 32)),
          if byteAt mem it.cur / 32 = 1 then -(head_arg mem it.cur : Int) - 1
          else (head_arg mem it.cur : Int))) := by
  have hOF : ¬ (NANOCBOR_ERR_OVERFLOW > 0) := by decide
  have hEN : ¬ (NANOCBOR_ERR_END > 0) := by decide
  refine ⟨?_, ?_, ?_, ?_, ?_, ?_⟩
  · intro he
    have hg : __get_type mem it = NANOCBOR_ERR_END := by simp [__get_type, he]
    have hlt : NANOCBOR_ERR_END < 0 := by decide
    rw [_get_and_advance_int64, PACKED_HANDLE_LIMITED_disabled cfg mem k it hd hr]
    simp only [HandleOut.it, Bool.false_eq_true, if_false, hg, hlt, if_true]
  · intro hne hm
    rw [get_and_advance_int64_disabled cfg mem k it value max bound hd hr hne,
      if_neg (by omega)]
  · intro hne hm h24 hgt
    have hu := get_uint64_head_overflow mem it 0 max _ hne rfl h24 hgt
    rw [get_and_advance_int64_disabled cfg mem k it value max bound hd hr hne, if_pos hm, hu]
    simp [_advance_if, hOF]
  · intro hne hm h24 hle hend
    have hu : _get_uint64 mem it 0 max ((byteAt mem it.cur / 32 : Nat) : Int) =
        (NANOCBOR_ERR_END, 0) := by
      rw [get_uint64_long mem it 0 max _ hne rfl h24 hle]
      have hh : head_len (byteAt mem it.cur % 32) = 1 + 2 ^ (byteAt mem it.cur % 32 - 24) := by
        simp [head_len, show ¬ (byteAt mem it.cur % 32 < 24) by omega]
      rw [if_pos (by omega)]
    rw [get_and_advance_int64_disabled cfg mem k it value max bound hd hr hne, if_pos hm, hu]
    simp [_advance_if, hEN]
  · intro hne hm hw hend hgt
    have hu := get_uint64_head mem it 0 max (byteAt mem it.cur / 32) hne rfl
      (by by_cases h : 24 ≤ byteAt mem it.cur % 32 <;> [exact le_trans (hw h) hmax; omega]) hw hend
    rw [get_and_advance_int64_disabled cfg mem k it value max bound hd hr hne, if_pos hm, hu]
    simp [hgt, _advance_if, hOF]
  · intro hne hm hw hend hle
    have hi : byteAt mem it.cur % 32 ≤ 27 := by
      by_cases h : 24 ≤ byteAt mem it.cur % 32 <;> [exact le_trans (hw h) hmax; omega]
    have hu := get_uint64_head mem it 0 max (byteAt mem it.cur / 32) hne rfl hi hw hend
    have hp := head_len_pos (byteAt mem it.cur % 32)
    have hpos : ((head_len (byteAt mem it.cur % 32) : Nat) : Int) > 0 := by omega
    have hng : ¬ (head_arg mem it.cur > bound) := by omega
    have hlt : head_arg mem it.cur < 2 ^ 63 := lt_of_le_of_lt hle hb
    rw [get_and_advance_int64_disabled cfg mem k it value max bound hd hr hne, if_pos hm, hu]
    simp only [hng, if_false, _advance_if, hpos, if_true, Int.toNat_ofNat]
    rw [to_signed_64_nat _ hlt, to_signed_64_neg _ hlt, to_signed_64_neg_pred _ hlt]

theorem to_signed_id (w : Nat) (x : Int) (p : Nat) (hp : 2 ^ (w - 1) = p) (hw : 2 ^ w = 2 * p)
    (h1 : -(p : Int) ≤ x) (h2 : x < (p : Int)) : to_signed w x = x := by
  have e1 : (2 : Int) ^ (w - 1) = (p : Int) := by exact_mod_cast hp
  have e2 : (2 : Int) ^ w = 2 * (p : Int) := by exact_mod_cast hw
  unfold to_signed
  rw [e1, e2, Int.emod_eq_of_lt (by omega) (by omega)]
  omega

theorem get_int_ok (cfg : Config) (mem : Mem) (k : Nat) (it : nanocbor_value_t)
    (max bound w : Nat) (hd : _packed_enabled it = false)
    (hr : cfg.NANOCBOR_RECURSION_MAX % 256 ≠ 0) (hmax : max ≤ 27) (hb : bound < 2 ^ 63)
    (hp : 2 ^ (w - 1) = bound + 1) (hw : 2 ^ w = 2 * (bound + 1))
    (hok : nanocbor_at_end mem it = false ∧ byteAt mem it.cur / 32 ≤ 1 ∧
        (24 ≤ byteAt mem it.cur % 32 → byteAt mem it.cur % 32 ≤ max) ∧
        it.cur + head_len (byteAt mem it.cur % 32) ≤ it.end_ ∧ head_arg mem it.cur ≤ bound) :
    (_get_and_advance_int64 cfg mem (k + 2) it 0 max bound).map
        (fun r => (r.1, r.2.1, to_signed w r.2.2)) =
      some (((head_len (byteAt mem it.cur % 32) : Nat) : Int),
        _advance it (head_len (byteAt mem it.cur % 32)),
        if byteAt mem it.cur / 32 = 1 then -(head_arg mem it.cur : Int) - 1
        else (head_arg mem it.cur : Int)) := by
  obtain ⟨_, _, _, _, _, hA⟩ := get_int_generic cfg mem k it 0 max bound hd hr hmax hb
  obtain ⟨hne, hm, hwd, hend, hle⟩ := hok
  rw [hA hne hm hwd hend hle]
  simp only [Option.map_some']
  congr 3
  by_cases h1 : byteAt mem it.cur / 32 = 1
  · simp only [h1, if_true]
    exact to_signed_id w _ (bound + 1) hp hw (by push_cast; omega) (by push_cast; omega)
  · simp only [h1, if_false]
    exact to_signed_id w _ (bound + 1) hp hw (by push_cast; omega) (by push_cast; omega)

theorem get_int_fail (cfg : Config) (mem : Mem) (k : Nat) (it : nanocbor_value_t)
    (max bound : Nat) (hd : _packed_enabled it = false)
    (hr : cfg.NANOCBOR_RECURSION_MAX % 256 ≠ 0) (hmax : max ≤ 27) (hb : bound < 2 ^ 63)
    (hno : ¬ (nanocbor_at_end mem it = false ∧ byteAt mem it.cur / 32 ≤ 1 ∧
        (24 ≤ byteAt mem it.cur % 32 → byteAt mem it.cur % 32 ≤ max) ∧
        it.cur + head_len (byteAt mem it.cur % 32) ≤ it.end_ ∧ head_arg mem it.cur ≤ bound)) :
    ∃ res, res < 0 ∧
      (_get_and_advance_int64 cfg mem (k + 2) it 0 max bound).map (fun r => (r.1, r.2.1)) =
        some (res, it) := by
  obtain ⟨hE, hD, hB2, hC, hB, _⟩ := get_int_generic cfg mem k it 0 max bound hd hr hmax hb
  by_cases hne : nanocbor_at_end mem it = false
  · by_cases hm : byteAt mem it.cur / 32 ≤ 1
    · by_cases hwd : 24 ≤ byteAt mem it.cur % 32 → byteAt mem it.cur % 32 ≤ max
      · by_cases hend : it.cur + head_len (byteAt mem it.cur % 32) ≤ it.end_
        · have hgt : bound < head_arg mem it.cur := by
            by_contra hc
            exact hno ⟨hne, hm, hwd, hend, by omega⟩
          exact ⟨NANOCBOR_ERR_OVERFLOW, by decide, hB hne hm hwd hend hgt⟩
        · have hlt := cur_lt_end_of_not_at_end mem it hne
          have h24 : 24 ≤ byteAt mem it.cur % 32 := by
            by_contra hc
            have : head_len (byteAt mem it.cur % 32) = 1 := by
              simp [head_len, show byteAt mem it.cur % 32 < 24 by omega]
            omega
          exact ⟨NANOCBOR_ERR_END, by decide, hC hne hm h24 (hwd h24) (by omega)⟩
      · have h24 : 24 ≤ byteAt mem it.cur % 32 := by
          by_contra hc
          exact hwd (fun h => absurd h hc)
        have hgt : max < byteAt mem it.cur % 32 := by
          by_contra hc
          exact hwd (fun _ => by omega)
        exact ⟨NANOCBOR_ERR_OVERFLOW, by decide, hB2 hne hm h24 hgt⟩
    · refine ⟨NANOCBOR_ERR_INVALID_TYPE, by decide, ?_⟩
      rw [hD hne (by omega)]
      rfl
  · have he : nanocbor_at_end mem it = true := by simpa using hne
    refine ⟨NANOCBOR_ERR_END, by decide, ?_⟩
    rw [hE he]
    rfl

theorem get_int_claim (cfg : Config) (mem : Mem) (k : Nat) (it : nanocbor_value_t)
    (max bound : Nat) (F : Option (Int × nanocbor_value_t × Int))
    (hd : _packed_enabled it = false) (hr : cfg.NANOCBOR_RECURSION_MAX % 256 ≠ 0)
    (hmax : max ≤ 27) (hb : bound < 2 ^ 63)
    (hM : F.map (fun r => (r.1, r.2.1)) =
      (_get_and_advance_int64 cfg mem (k + 2) it 0 max bound).map (fun r => (r.1, r.2.1))) :
    (¬ (nanocbor_at_end mem it = false ∧ byteAt mem it.cur / 32 ≤ 1 ∧
        (24 ≤ byteAt mem it.cur % 32 → byteAt mem it.cur % 32 ≤ max) ∧
        it.cur + head_len (byteAt mem it.cur % 32) ≤ it.end_ ∧ head_arg mem it.cur ≤ bound) →
      ∃ res, res < 0 ∧ F.map (fun r => (r.1, r.2.1)) = some (res, it)) ∧
    (nanocbor_at_end mem it = false → byteAt mem it.cur / 32 ≤ 1 →
      (24 ≤ byteAt mem it.cur % 32 → byteAt mem it.cur % 32 ≤ max) →
      it.cur + head_len (byteAt mem it.cur % 32) ≤ it.end_ → bound < head_arg mem it.cur →
      F.map (fun r => (r.1, r.2.1)) = some (NANOCBOR_ERR_OVERFLOW, it)) ∧
    (nanocbor_at_end mem it = false → 2 ≤ byteAt mem it.cur / 32 →
      F.map (fun r => (r.1, r.2.1)) = some (NANOCBOR_ERR_INVALID_TYPE, it)) := by
  obtain ⟨_, hD, _, _, hB, _⟩ := get_int_generic cfg mem k it 0 max bound hd hr hmax hb
  refine ⟨fun hno => ?_, fun hne hm hwd hend hgt => ?_, fun hne hm => ?_⟩
  · rw [hM]
    exact get_int_fail cfg mem k it max bound hd hr hmax hb hno
  · rw [hM]
    exact hB hne hm hwd hend hgt
  · rw [hM, hD hne hm]
    rfl

theorem width_iff (N max i : Nat)
    (hN : (N = 8 ∧ max = 24) ∨ (N = 16 ∧ max = 25) ∨ (N = 32 ∧ max = 26) ∨ (N = 64 ∧ max = 27))
    (hi : i < 32) : (24 ≤ i → 2 ^ (i - 24) ≤ N / 8) ↔ (24 ≤ i → i ≤ max) := by
  rcases hN with ⟨rfl, rfl⟩ | ⟨rfl, rfl⟩ | ⟨rfl, rfl⟩ | ⟨rfl, rfl⟩ <;>
    interval_cases i <;> simp

theorem int_accepted_iff (N max : Nat) (mem : Mem) (it : nanocbor_value_t)
    (hN : (N = 8 ∧ max = 24) ∨ (N = 16 ∧ max = 25) ∨ (N = 32 ∧ max = 26) ∨ (N = 64 ∧ max = 27)) :
    IntAccepted N mem it ↔
      (nanocbor_at_end mem it = false ∧ byteAt mem it.cur / 32 ≤ 1 ∧
        (24 ≤ byteAt mem it.cur % 32 → byteAt mem it.cur % 32 ≤ max) ∧
        it.cur + head_len (byteAt mem it.cur % 32) ≤ it.end_ ∧
        head_arg mem it.cur ≤ 2 ^ (N - 1) - 1) := by
  unfold IntAccepted
  rw [width_iff N max _ hN (Nat.mod_lt _ (by decide))]

theorem get_int_map (cfg : Config) (mem : Mem) (fuel : Nat) (it : nanocbor_value_t) :
    nanocbor_get_int 8 cfg mem fuel it =
      (_get_and_advance_int64 cfg mem fuel it 0 24 (2 ^ 7 - 1)).map
        (fun r => (r.1, r.2.1, to_signed 8 r.2.2)) ∧
    nanocbor_get_int 16 cfg mem fuel it =
      (_get_and_advance_int64 cfg mem fuel it 0 25 (2 ^ 15 - 1)).map
        (fun r => (r.1, r.2.1, to_signed 16 r.2.2)) ∧
    nanocbor_get_int 32 cfg mem fuel it =
      (_get_and_advance_int64 cfg mem fuel it 0 26 (2 ^ 31 - 1)).map
        (fun r => (r.1, r.2.1, to_signed 32 r.2.2)) ∧
    nanocbor_get_int 64 cfg mem fuel it =
      _get_and_advance_int64 cfg mem fuel it 0 27 (2 ^ 63 - 1) := by
  refine ⟨?_, ?_, ?_, ?_⟩
  · simp only [nanocbor_get_int, if_true, nanocbor_get_int8, NANOCBOR_SIZE_BYTE]
    cases _get_and_advance_int64 cfg mem fuel it 0 24 (2 ^ 7 - 1) <;> rfl
  · simp only [nanocbor_get_int, show ¬ ((16 : Nat) = 8) by decide, if_false, if_true,
      nanocbor_get_int16, NANOCBOR_SIZE_SHORT]
    cases _get_and_advance_int64 cfg mem fuel it 0 25 (2 ^ 15 - 1) <;> rfl
  · simp only [nanocbor_get_int, show ¬ ((32 : Nat) = 8) by decide,
      show ¬ ((32 : Nat) = 16) by decide, if_false, if_true, nanocbor_get_int32,
      NANOCBOR_SIZE_WORD]
    cases _get_and_advance_int64 cfg mem fuel it 0 26 (2 ^ 31 - 1) <;> rfl
  · simp only [nanocbor_get_int, show ¬ ((64 : Nat) = 8) by decide,
      show ¬ ((64 : Nat) = 16) by decide, show ¬ ((64 : Nat) = 32) by decide, if_false, if_true,
      nanocbor_get_int64, NANOCBOR_SIZE_LONG]

theorem int_value_range (p a : Nat) (m : Nat) (hp : 1 ≤ p) (h : a ≤ p - 1) :
    -(p : Int) ≤ (if m = 1 then -(a : Int) - 1 else (a : Int)) ∧
      (if m = 1 then -(a : Int) - 1 else (a : Int)) ≤ (p : Int) - 1 := by
  split <;> omega

/-- C13. For `N` in 8, 16, 32, 64 and a cursor without packed support: `nanocbor_get_intN`
succeeds exactly when the cursor is not at its end, the item there has major type 0 or 1, its
argument `a` is encoded in at most `N/8` argument bytes, the head lies inside the buffer and
`a <= INTN_MAX` (`IntAccepted`); it then returns the head length, stores `a` for major type 0
and `-a-1` for major type 1, a value between `-2^(N-1)` and `2^(N-1) - 1`, and advances the
cursor past the head.  In every other case it returns a negative code and leaves the cursor
alone: `OVERFLOW` if `a > INTN_MAX`, `INVALID_TYPE` for any other major type. -/
theorem C13_get_int (cfg : Config) (mem : Mem) (fuel : Nat) (it : nanocbor_value_t) (N : Nat)
    (hN : N = 8 ∨ N = 16 ∨ N = 32 ∨ N = 64) (hd : _packed_enabled it = false)
    (hr : cfg.NANOCBOR_RECURSION_MAX % 256 ≠ 0) (hf : 2 ≤ fuel) :
    (IntAccepted N mem it →
      nanocbor_get_int N cfg mem fuel it =
        some (((head_len (byteAt mem it.cur % 32) : Nat) : Int),
          _advance it (head_len (byteAt mem it.cur % 32)),
          if byteAt mem it.cur / 32 = 1 then -(head_arg mem it.cur : Int) - 1
          else (head_arg mem it.cur : Int)) ∧
      -((2 ^ (N - 1) : Nat) : Int) ≤
        (if byteAt mem it.cur / 32 = 1 then -(head_arg mem it.cur : Int) - 1
          else (head_arg mem it.cur : Int)) ∧
      (if byteAt mem it.cur / 32 = 1 then -(head_arg mem it.cur : Int) - 1
          else (head_arg mem it.cur : Int)) ≤ ((2 ^ (N - 1) : Nat) : Int) - 1) ∧
    (¬ IntAccepted N mem it →
      ∃ res, res < 0 ∧
        (nanocbor_get_int N cfg mem fuel it).map (fun r => (r.1, r.2.1)) = some (res, it)) ∧
    (nanocbor_at_end mem it = false → byteAt mem it.cur / 32 ≤ 1 →
      (24 ≤ byteAt mem it.cur % 32 → 2 ^ (byteAt mem it.cur % 32 - 24) ≤ N / 8) →
      it.cur + head_len (byteAt mem it.cur % 32) ≤ it.end_ →
      2 ^ (N - 1) - 1 < head_arg mem it.cur →
      (nanocbor_get_int N cfg mem fuel it).map (fun r => (r.1, r.2.1)) =
        some (NANOCBOR_ERR_OVERFLOW, it)) ∧
    (nanocbor_at_end mem it = false → 2 ≤ byteAt mem it.cur / 32 →
      (nanocbor_get_int N cfg mem fuel it).map (fun r => (r.1, r.2.1)) =
        some (NANOCBOR_ERR_INVALID_TYPE, it)) := by
  obtain ⟨k, rfl⟩ : ∃ k, fuel = k + 2 := ⟨fuel - 2, by omega⟩
  obtain ⟨h8, h16, h32, h64⟩ := get_int_map cfg mem (k + 2) it
  have hi32 : byteAt mem it.cur % 32 < 32 := Nat.mod_lt _ (by decide)
  have hp1 : 1 ≤ 2 ^ (N - 1) := Nat.one_le_two_pow
  obtain ⟨max, bound, hpair, hbd, hb, hmax, hM, hS⟩ : ∃ max bound : Nat,
      ((N = 8 ∧ max = 24) ∨ (N = 16 ∧ max = 25) ∨ (N = 32 ∧ max = 26) ∨ (N = 64 ∧ max = 27)) ∧
      bound = 2 ^ (N - 1) - 1 ∧ bound < 2 ^ 63 ∧ max ≤ 27 ∧
      (nanocbor_get_int N cfg mem (k + 2) it).map (fun r => (r.1, r.2.1)) =
        (_get_and_advance_int64 cfg mem (k + 2) it 0 max bound).map (fun r => (r.1, r.2.1)) ∧
      ((nanocbor_at_end mem it = false ∧ byteAt mem it.cur / 32 ≤ 1 ∧
          (24 ≤ byteAt mem it.cur % 32 → byteAt mem it.cur % 32 ≤ max) ∧
          it.cur + head_len (byteAt mem it.cur % 32) ≤ it.end_ ∧
          head_arg mem it.cur ≤ bound) →
        nanocbor_get_int N cfg mem (k + 2) it =
          some (((head_len (byteAt mem it.cur % 32) : Nat) : Int),
            _advance it (head_len (byteAt mem it.cur % 32)),
            if byteAt mem it.cur / 32 = 1 then -(head_arg mem it.cur : Int) - 1
            else (head_arg mem it.cur : Int))) := by
    rcases hN with rfl | rfl | rfl | rfl
    · exact ⟨24, 2 ^ 7 - 1, Or.inl ⟨rfl, rfl⟩, by norm_num, by norm_num, by norm_num,
        by rw [h8, Option.map_map]; rfl, fun hok => by
          rw [h8]
          exact get_int_ok cfg mem k it 24 (2 ^ 7 - 1) 8 hd hr (by norm_num) (by norm_num)
            (by norm_num) (by norm_num) hok⟩
    · exact ⟨25, 2 ^ 15 - 1, Or.inr (Or.inl ⟨rfl, rfl⟩), by norm_num, by norm_num, by norm_num,
        by rw [h16, Option.map_map]; rfl, fun hok => by
          rw [h16]
          exact get_int_ok cfg mem k it 25 (2 ^ 15 - 1) 16 hd hr (by norm_num) (by norm_num)
            (by norm_num) (by norm_num) hok⟩
    · exact ⟨26, 2 ^ 31 - 1, Or.inr (Or.inr (Or.inl ⟨rfl, rfl⟩)), by norm_num, by norm_num,
        by norm_num, by rw [h32, Option.map_map]; rfl, fun hok => by
          rw [h32]
          exact get_int_ok cfg mem k it 26 (2 ^ 31 - 1) 32 hd hr (by norm_num) (by norm_num)
            (by norm_num) (by norm_num) hok⟩
    · exact ⟨27, 2 ^ 63 - 1, Or.inr (Or.inr (Or.inr ⟨rfl, rfl⟩)), by norm_num, by norm_num,
        by norm_num, by rw [h64], fun hok => by
          rw [h64]
          exact (get_int_generic cfg mem k it 0 27 (2 ^ 63 - 1) hd hr (by norm_num)
            (by norm_num)).2.2.2.2.2 hok.1 hok.2.1 hok.2.2.1 hok.2.2.2.1 hok.2.2.2.2⟩
  obtain ⟨c1, c2, c3⟩ := get_int_claim cfg mem k it max bound
    (nanocbor_get_int N cfg mem (k + 2) it) hd hr hmax hb hM
  have hacc := int_accepted_iff N max mem it hpair
  rw [← hbd] at hacc
  refine ⟨fun ha => ⟨hS (hacc.mp ha), ?_⟩, fun hno => c1 (fun h => hno (hacc.mpr h)),
    fun hne hm hwd hend hgt => c2 hne hm ((width_iff N max _ hpair hi32).mp hwd) hend
      (by rw [hbd]; exact hgt), c3⟩
  have hle : head_arg mem it.cur ≤ 2 ^ (N - 1) - 1 := ha.2.2.2.2
  exact int_value_range (2 ^ (N - 1)) (head_arg mem it.cur) (byteAt mem it.cur / 32) hp1 hle

/-- Witness of C13: `nanocbor_get_int8` on `38 7F` stores -128, the smallest `int8_t`. -/
theorem C13_get_int_witness :
    _packed_enabled (nanocbor_decoder_init defaultConfig (stack_value defaultConfig) 16 2) = false ∧
    defaultConfig.NANOCBOR_RECURSION_MAX % 256 ≠ 0 ∧
    IntAccepted 8 (mem_of 16 [0x38, 0x7F])
      (nanocbor_decoder_init defaultConfig (stack_value defaultConfig) 16 2) ∧
    nanocbor_get_int8 defaultConfig (mem_of 16 [0x38, 0x7F]) 4
        (nanocbor_decoder_init defaultConfig (stack_value defaultConfig) 16 2) =
      some (2, _advance (nanocbor_decoder_init defaultConfig (stack_value defaultConfig) 16 2) 2,
        -128) := by
  have hacc : IntAccepted 8 (mem_of 16 [0x38, 0x7F])
      (nanocbor_decoder_init defaultConfig (stack_value defaultConfig) 16 2) := by
    unfold IntAccepted
    decide
  refine ⟨by decide, by decide, hacc, ?_⟩
  have h := ((C13_get_int defaultConfig (mem_of 16 [0x38, 0x7F]) 4
    (nanocbor_decoder_init defaultConfig (stack_value defaultConfig) 16 2) 8 (Or.inl rfl)
    (by decide) (by decide) (by decide)).1 hacc).1
  exact h.trans (by decide)


/-! ## C14, C15, C16: byte and text strings -/

theorem packed_handle_plain (cfg : Config) (mem : Mem) (fuel : Nat) (same : Bool)
    (c t : nanocbor_value_t) (limit : Nat)
    (hl : _packed_enabled c = true → limit ≠ 0)
    (h6 : __get_type mem c ≠ NANOCBOR_TYPE_TAG) (h7 : __get_type mem c ≠ NANOCBOR_TYPE_FLOAT) :
    _packed_handle cfg mem (fuel + 1) same c t limit = some (NANOCBOR_NOT_FOUND, c, t) := by
  rw [_packed_handle]
  by_cases he : _packed_enabled c = true
  · have hne : ¬ (NANOCBOR_NOT_FOUND = NANOCBOR_OK) := by decide
    simp only [he, not_true_eq_false, if_false, hl he, h6, h7, hne]
  · simp [he]

theorem PACKED_HANDLE_plain (cfg : Config) (mem : Mem) (fuel : Nat) (same : Bool)
    (c t : nanocbor_value_t) (limit : Nat) (h0 : limit ≠ 0)
    (hl : _packed_enabled c = true → dec8 limit ≠ 0)
    (h6 : __get_type mem c ≠ NANOCBOR_TYPE_TAG) (h7 : __get_type mem c ≠ NANOCBOR_TYPE_FLOAT) :
    _PACKED_HANDLE cfg mem (fuel + 2) same c t limit = some ⟨none, false, c, t⟩ := by
  rw [_PACKED_HANDLE]
  simp [h0, packed_handle_plain cfg mem fuel same c t _ hl h6 h7, NANOCBOR_NOT_FOUND,
    NANOCBOR_OK]

theorem get_str_plain (cfg : Config) (mem : Mem) (k : Nat) (it : nanocbor_value_t)
    (buf len : Nat) (type : Int) (h0 : cfg.NANOCBOR_RECURSION_MAX % 256 ≠ 0)
    (hl : _packed_enabled it = true → dec8 (cfg.NANOCBOR_RECURSION_MAX % 256) ≠ 0)
    (h6 : __get_type mem it ≠ NANOCBOR_TYPE_TAG) (h7 : __get_type mem it ≠ NANOCBOR_TYPE_FLOAT) :
    _get_str cfg mem (k + 3) it buf len type =
      if it.end_ < it.cur ∨
          it.end_ - it.cur < (_get_uint64 mem it 0 cfg.NANOCBOR_SIZE_SIZET type).2 then
        some (NANOCBOR_ERR_END, it, buf, (_get_uint64 mem it 0 cfg.NANOCBOR_SIZE_SIZET type).2)
      else if (_get_uint64 mem it 0 cfg.NANOCBOR_SIZE_SIZET type).1 ≥ 0 then
        some (NANOCBOR_OK,
          _advance it (((_get_uint64 mem it 0 cfg.NANOCBOR_SIZE_SIZET type).1.toNat +
            (_get_uint64 mem it 0 cfg.NANOCBOR_SIZE_SIZET type).2) % 2 ^ 32),
          it.cur + (_get_uint64 mem it 0 cfg.NANOCBOR_SIZE_SIZET type).1.toNat,
          (_get_uint64 mem it 0 cfg.NANOCBOR_SIZE_SIZET type).2)
      else
        some ((_get_uint64 mem it 0 cfg.NANOCBOR_SIZE_SIZET type).1, it, buf,
          (_get_uint64 mem it 0 cfg.NANOCBOR_SIZE_SIZET type).2) := by
  rw [_get_str, PACKED_HANDLE_plain cfg mem k false it _ _ h0 hl h6 h7]
  simp only [HandleOut.it, Bool.false_eq_true, if_false]

theorem get_str_disabled (cfg : Config) (mem : Mem) (k : Nat) (it : nanocbor_value_t)
    (buf len : Nat) (type : Int) (h0 : cfg.NANOCBOR_RECURSION_MAX % 256 ≠ 0)
    (hd : _packed_enabled it = false) :
    _get_str cfg mem (k + 3) it buf len type =
      if it.end_ < it.cur ∨
          it.end_ - it.cur < (_get_uint64 mem it 0 cfg.NANOCBOR_SIZE_SIZET type).2 then
        some (NANOCBOR_ERR_END, it, buf, (_get_uint64 mem it 0 cfg.NANOCBOR_SIZE_SIZET type).2)
      else if (_get_uint64 mem it 0 cfg.NANOCBOR_SIZE_SIZET type).1 ≥ 0 then
        some (NANOCBOR_OK,
          _advance it (((_get_uint64 mem it 0 cfg.NANOCBOR_SIZE_SIZET type).1.toNat +
            (_get_uint64 mem it 0 cfg.NANOCBOR_SIZE_SIZET type).2) % 2 ^ 32),
          it.cur + (_get_uint64 mem it 0 cfg.NANOCBOR_SIZE_SIZET type).1.toNat,
          (_get_uint64 mem it 0 cfg.NANOCBOR_SIZE_SIZET type).2)
      else
        some ((_get_uint64 mem it 0 cfg.NANOCBOR_SIZE_SIZET type).1, it, buf,
          (_get_uint64 mem it 0 cfg.NANOCBOR_SIZE_SIZET type).2) := by
  rw [_get_str, PACKED_HANDLE_disabled cfg mem k false it _ _ hd h0]
  simp only [HandleOut.it, Bool.false_eq_true, if_false]

theorem get_str_ok (cfg : Config) (mem : Mem) (k : Nat) (it : nanocbor_value_t)
    (buf len major : Nat) (h0 : cfg.NANOCBOR_RECURSION_MAX % 256 ≠ 0)
    (hd : _packed_enabled it = false) (hne : nanocbor_at_end mem it = false)
    (hm : byteAt mem it.cur / 32 = major) (hi : byteAt mem it.cur % 32 ≤ 27)
    (hs : byteAt mem it.cur % 32 ≤ cfg.NANOCBOR_SIZE_SIZET)
    (hend : it.cur + (head_len (byteAt mem it.cur % 32) + head_arg mem it.cur) ≤ it.end_)
    (h32 : head_len (byteAt mem it.cur % 32) + head_arg mem it.cur < 2 ^ 32) :
    _get_str cfg mem (k + 3) it buf len (major : Int) =
      some (NANOCBOR_OK,
        { it with
          cur := it.cur + (head_len (byteAt mem it.cur % 32) + head_arg mem it.cur),
          remaining := dec64 it.remaining },
        it.cur + head_len (byteAt mem it.cur % 32), head_arg mem it.cur) := by
  have hu := get_uint64_head mem it 0 cfg.NANOCBOR_SIZE_SIZET major hne hm hi (fun _ => hs)
    (by omega)
  have hge : ((head_len (byteAt mem it.cur % 32) : Nat) : Int) ≥ 0 := by omega
  have hno : ¬ (it.end_ < it.cur ∨ it.end_ - it.cur < head_arg mem it.cur) := by omega
  rw [get_str_disabled cfg mem k it buf len _ h0 hd, hu]
  simp only [hno, if_false, hge, if_true, Int.toNat_ofNat, Nat.mod_eq_of_lt h32, _advance]

theorem get_str_wrong_type (cfg : Config) (mem : Mem) (k : Nat) (it : nanocbor_value_t)
    (buf len : Nat) (type : Int) (h0 : cfg.NANOCBOR_RECURSION_MAX % 256 ≠ 0)
    (hd : _packed_enabled it = false) (hne : nanocbor_at_end mem it = false)
    (hm : type ≠ ((byteAt mem it.cur / 32 : Nat) : Int)) :
    _get_str cfg mem (k + 3) it buf len type = some (NANOCBOR_ERR_INVALID_TYPE, it, buf, 0) := by
  have hu := get_uint64_wrong_type mem it 0 cfg.NANOCBOR_SIZE_SIZET type hne hm
  have hlt := cur_lt_end_of_not_at_end mem it hne
  have hno : ¬ (it.end_ < it.cur ∨ it.end_ - it.cur < 0) := by omega
  have hneg : ¬ (NANOCBOR_ERR_INVALID_TYPE ≥ 0) := by decide
  rw [get_str_disabled cfg mem k it buf len _ h0 hd, hu]
  simp only [hno, if_false, hneg]

/-- C14 (amended). For a cursor without packed support that is not at its end: on a
definite-length string head of the accessor's own major type (2 for `nanocbor_get_bstr`, 3 for
`nanocbor_get_tstr`) with head length `h` and declared length `L`, the length argument being no
wider than `size_t`, such that `cur + h + L <= end` and `h + L < 2^32`, the accessor returns
`OK`, emits the slice starting at `cur + h` with length `L`, advances `cur` by exactly `h + L`
and decrements `remaining` by one; on an item of any other major type (the other string type
included) it returns `INVALID_TYPE` and leaves the cursor alone. -/
theorem C14_get_str (cfg : Config) (mem : Mem) (fuel : Nat) (it : nanocbor_value_t)
    (buf len : Nat) (hd : _packed_enabled it = false)
    (hr : cfg.NANOCBOR_RECURSION_MAX % 256 ≠ 0) (hne : nanocbor_at_end mem it = false)
    (hf : 3 ≤ fuel) :
    (byteAt mem it.cur / 32 = 2 → byteAt mem it.cur % 32 ≤ 27 →
      byteAt mem it.cur % 32 ≤ cfg.NANOCBOR_SIZE_SIZET →
      it.cur + (head_len (byteAt mem it.cur % 32) + head_arg mem it.cur) ≤ it.end_ →
      head_len (byteAt mem it.cur % 32) + head_arg mem it.cur < 2 ^ 32 →
      nanocbor_get_bstr cfg mem fuel it buf len =
        some (NANOCBOR_OK,
          { it with
            cur := it.cur + (head_len (byteAt mem it.cur % 32) + head_arg mem it.cur),
            remaining := dec64 it.remaining },
          it.cur + head_len (byteAt mem it.cur % 32), head_arg mem it.cur)) ∧
    (byteAt mem it.cur / 32 = 3 → byteAt mem it.cur % 32 ≤ 27 →
      byteAt mem it.cur % 32 ≤ cfg.NANOCBOR_SIZE_SIZET →
      it.cur + (head_len (byteAt mem it.cur % 32) + head_arg mem it.cur) ≤ it.end_ →
      head_len (byteAt mem it.cur % 32) + head_arg mem it.cur < 2 ^ 32 →
      nanocbor_get_tstr cfg mem fuel it buf len =
        some (NANOCBOR_OK,
          { it with
            cur := it.cur + (head_len (byteAt mem it.cur % 32) + head_arg mem it.cur),
            remaining := dec64 it.remaining },
          it.cur + head_len (byteAt mem it.cur % 32), head_arg mem it.cur)) ∧
    (byteAt mem it.cur / 32 ≠ 2 →
      nanocbor_get_bstr cfg mem fuel it buf len =
        some (NANOCBOR_ERR_INVALID_TYPE, it, buf, 0)) ∧
    (byteAt mem it.cur / 32 ≠ 3 →
      nanocbor_get_tstr cfg mem fuel it buf len =
        some (NANOCBOR_ERR_INVALID_TYPE, it, buf, 0)) := by
  obtain ⟨k, rfl⟩ : ∃ k, fuel = k + 3 := ⟨fuel - 3, by omega⟩
  refine ⟨fun hm hi hs hend h32 => ?_, fun hm hi hs hend h32 => ?_, fun hm => ?_, fun hm => ?_⟩
  · exact get_str_ok cfg mem k it buf len 2 hr hd hne hm hi hs hend h32
  · exact get_str_ok cfg mem k it buf len 3 hr hd hne hm hi hs hend h32
  · exact get_str_wrong_type cfg mem k it buf len _ hr hd hne
      (by simp only [NANOCBOR_TYPE_BSTR]; omega)
  · exact get_str_wrong_type cfg mem k it buf len _ hr hd hne
      (by simp only [NANOCBOR_TYPE_TSTR]; omega)

/-- Witness of C14: `nanocbor_get_tstr` on `62 68 69` (the text "hi") emits the slice of
length 2 starting one byte after the head and advances by 3. -/
theorem C14_get_str_witness :
    _packed_enabled (nanocbor_decoder_init defaultConfig (stack_value defaultConfig) 16 3) = false ∧
    nanocbor_at_end (mem_of 16 [0x62, 0x68, 0x69])
      (nanocbor_decoder_init defaultConfig (stack_value defaultConfig) 16 3) = false ∧
    nanocbor_get_tstr defaultConfig (mem_of 16 [0x62, 0x68, 0x69]) 3
      (nanocbor_decoder_init defaultConfig (stack_value defaultConfig) 16 3) 0 0 =
        some (NANOCBOR_OK,
          { nanocbor_decoder_init defaultConfig (stack_value defaultConfig) 16 3 with
            cur := 19, remaining := dec64 0 }, 17, 2) := by
  refine ⟨by decide, by decide, ?_⟩
  exact ((C14_get_str defaultConfig (mem_of 16 [0x62, 0x68, 0x69]) 3
    (nanocbor_decoder_init defaultConfig (stack_value defaultConfig) 16 3) 0 0 (by decide)
    (by decide) (by decide) (by decide)).2.1 (by decide) (by decide) (by decide) (by decide)
    (by decide)).trans (by decide)

/-- Counterexample to C14 as stated: a byte string of `2^32 - 1` bytes (head `5A FF FF FF FF`,
so `h + L = 2^32 + 4`) inside a buffer of `2^32 + 4` bytes is read by `nanocbor_get_bstr` with
`OK`, start `cur + 5` and length `2^32 - 1`, but `cur` advances by 4 bytes only. -/
theorem C14_counterexample :
    nanocbor_get_bstr defaultConfig
      (fun a => if a = 16 then 0x5A else if a ≤ 20 then 0xFF else 0) 3
      (nanocbor_decoder_init defaultConfig (stack_value defaultConfig) 16 (2 ^ 32 + 4)) 0 0 =
        some (NANOCBOR_OK,
          { nanocbor_decoder_init defaultConfig (stack_value defaultConfig) 16 (2 ^ 32 + 4) with
            cur := 16 + 4, remaining := dec64 0 }, 16 + 5, 2 ^ 32 - 1) := by
  decide!

/-- C15 (divergence). On the one-byte buffer `41`, a byte string of declared length 1 whose
payload byte is missing (`cur + h + L = end + 1`), `nanocbor_get_bstr` returns `OK`: it emits
the slice of length 1 starting at `end` and moves `cur` one byte past `end`.  The test made is
`end - cur < L`, without the head length.  The same holds for `nanocbor_get_tstr` on `61`, and
on `42 01` the emitted slice `[cur + 1, cur + 3)` ends one byte past `end`. -/
theorem C15_string_past_end :
    nanocbor_get_bstr defaultConfig (mem_of 16 [0x41]) 3
      (nanocbor_decoder_init defaultConfig (stack_value defaultConfig) 16 1) 0 0 =
        some (NANOCBOR_OK,
          { nanocbor_decoder_init defaultConfig (stack_value defaultConfig) 16 1 with
            cur := 18, remaining := dec64 0 }, 17, 1) ∧
    (nanocbor_decoder_init defaultConfig (stack_value defaultConfig) 16 1).end_ = 17 ∧
    nanocbor_get_tstr defaultConfig (mem_of 16 [0x61]) 3
      (nanocbor_decoder_init defaultConfig (stack_value defaultConfig) 16 1) 0 0 =
        some (NANOCBOR_OK,
          { nanocbor_decoder_init defaultConfig (stack_value defaultConfig) 16 1 with
            cur := 18, remaining := dec64 0 }, 17, 1) ∧
    nanocbor_get_bstr defaultConfig (mem_of 16 [0x42, 0x01]) 3
      (nanocbor_decoder_init defaultConfig (stack_value defaultConfig) 16 2) 0 0 =
        some (NANOCBOR_OK,
          { nanocbor_decoder_init defaultConfig (stack_value defaultConfig) 16 2 with
            cur := 19, remaining := dec64 0 }, 17, 2) := by
  exact ⟨by decide!, by decide, by decide!, by decide!⟩

/-- C16 (amended). For a cursor that is not at its end and stands on an indefinite-length byte
string head `5F` (text string head `7F`), `nanocbor_get_bstr` (`nanocbor_get_tstr`) returns
`OVERFLOW`, stores length 0, and leaves the cursor and `*buf` alone: the additional information
31 exceeds the width allowed for `size_t`.  Packed support may be on or off (with it on, the
limit `NANOCBOR_RECURSION_MAX` of the packed handling must be at least 2). -/
theorem C16_indefinite_string (cfg : Config) (mem : Mem) (fuel : Nat) (it : nanocbor_value_t)
    (buf len : Nat) (hr : cfg.NANOCBOR_RECURSION_MAX % 256 ≠ 0)
    (hl : _packed_enabled it = true → 2 ≤ cfg.NANOCBOR_RECURSION_MAX % 256)
    (hs : cfg.NANOCBOR_SIZE_SIZET ≤ 27) (hne : nanocbor_at_end mem it = false)
    (hf : 3 ≤ fuel) :
    (byteAt mem it.cur = 0x5F →
      nanocbor_get_bstr cfg mem fuel it buf len = some (NANOCBOR_ERR_OVERFLOW, it, buf, 0)) ∧
    (byteAt mem it.cur = 0x7F →
      nanocbor_get_tstr cfg mem fuel it buf len = some (NANOCBOR_ERR_OVERFLOW, it, buf, 0)) := by
  obtain ⟨k, rfl⟩ : ∃ k, fuel = k + 3 := ⟨fuel - 3, by omega⟩
  have hg := get_type_of_not_at_end mem it hne
  have hlt := cur_lt_end_of_not_at_end mem it hne
  have hno : ¬ (it.end_ < it.cur ∨ it.end_ - it.cur < 0) := by omega
  have hneg : ¬ (NANOCBOR_ERR_OVERFLOW ≥ 0) := by decide
  have hmod : cfg.NANOCBOR_RECURSION_MAX % 256 < 256 := Nat.mod_lt _ (by decide)
  have hdec : _packed_enabled it = true → dec8 (cfg.NANOCBOR_RECURSION_MAX % 256) ≠ 0 := by
    intro he
    have := hl he
    rw [dec8_eq _ hr hmod]
    omega
  constructor
  · intro hb
    have hu := get_uint64_head_overflow mem it 0 cfg.NANOCBOR_SIZE_SIZET NANOCBOR_TYPE_BSTR hne
      (by rw [hb]; decide) (by rw [hb]; omega) (by rw [hb]; omega)
    rw [nanocbor_get_bstr, get_str_plain cfg mem k it buf len _ hr hdec
      (by rw [hg, hb]; decide) (by rw [hg, hb]; decide), hu]
    simp only [hno, if_false, hneg]
  · intro hb
    have hu := get_uint64_head_overflow mem it 0 cfg.NANOCBOR_SIZE_SIZET NANOCBOR_TYPE_TSTR hne
      (by rw [hb]; decide) (by rw [hb]; omega) (by rw [hb]; omega)
    rw [nanocbor_get_tstr, get_str_plain cfg mem k it buf len _ hr hdec
      (by rw [hg, hb]; decide) (by rw [hg, hb]; decide), hu]
    simp only [hno, if_false, hneg]

/-- Witness of C16: `nanocbor_get_bstr` on `5F 42 01 02 42 03 04 FF`. -/
theorem C16_indefinite_string_witness :
    defaultConfig.NANOCBOR_RECURSION_MAX % 256 ≠ 0 ∧ defaultConfig.NANOCBOR_SIZE_SIZET ≤ 27 ∧
    nanocbor_at_end (mem_of 16 [0x5F, 0x42, 0x01, 0x02, 0x42, 0x03, 0x04, 0xFF])
      (nanocbor_decoder_init defaultConfig (stack_value defaultConfig) 16 8) = false ∧
    nanocbor_get_bstr defaultConfig (mem_of 16 [0x5F, 0x42, 0x01, 0x02, 0x42, 0x03, 0x04, 0xFF])
      3 (nanocbor_decoder_init defaultConfig (stack_value defaultConfig) 16 8) 0 0 =
        some (NANOCBOR_ERR_OVERFLOW,
          nanocbor_decoder_init defaultConfig (stack_value defaultConfig) 16 8, 0, 0) := by
  exact ⟨by decide, by decide, by decide,
    (C16_indefinite_string defaultConfig _ 3 _ 0 0 (by decide) (by decide) (by decide)
      (by decide) (by decide)).1 (by decide)⟩

/-- Counterexample to C16 as stated: on `5F 42 01 02 42 03 04 FF` `nanocbor_get_bstr` returns
`OVERFLOW`, and on `7F 61 61 FF` `nanocbor_get_tstr` returns `OVERFLOW`, not `INVALID_TYPE`,
for cursors from `nanocbor_decoder_init` and from `nanocbor_decoder_init_packed`. -/
theorem C16_counterexample :
    (nanocbor_get_bstr defaultConfig (mem_of 16 [0x5F, 0x42, 0x01, 0x02, 0x42, 0x03, 0x04, 0xFF])
      4 (nanocbor_decoder_init defaultConfig (stack_value defaultConfig) 16 8) 0 0).map
        (fun r => (r.1, r.2.1.cur)) = some (NANOCBOR_ERR_OVERFLOW, 16) ∧
    (nanocbor_get_tstr defaultConfig (mem_of 16 [0x7F, 0x61, 0x61, 0xFF])
      4 (nanocbor_decoder_init defaultConfig (stack_value defaultConfig) 16 4) 0 0).map
        (fun r => (r.1, r.2.1.cur)) = some (NANOCBOR_ERR_OVERFLOW, 16) ∧
    (nanocbor_get_bstr defaultConfig (mem_of 16 [0x5F, 0x42, 0x01, 0x02, 0x42, 0x03, 0x04, 0xFF])
      4 (nanocbor_decoder_init_packed defaultConfig (stack_value defaultConfig) 16 8) 0 0).map
        (fun r => (r.1, r.2.1.cur)) = some (NANOCBOR_ERR_OVERFLOW, 16) ∧
    NANOCBOR_ERR_OVERFLOW ≠ NANOCBOR_ERR_INVALID_TYPE := by
  exact ⟨by decide!, by decide!, by decide!, by decide⟩


/-! ## C18: a key that is not in the map -/

/-- C18 (divergence). On the body of `A2 61 61 01 61 62 02`, the map `{"a": 1, "b": 2}`,
`nanocbor_get_key_tstr` with the key `"c"` returns `OK` (the result of the last
`nanocbor_skip`), with the value cursor at the end of the body, not `NOT_FOUND`; on the body of
the empty map `A0` it returns `NOT_FOUND`. -/
theorem C18_missing_key :
    ((nanocbor_enter_map defaultConfig (mem_of 16 [0xA2, 0x61, 0x61, 0x01, 0x61, 0x62, 0x02]) 12
      (nanocbor_decoder_init defaultConfig (stack_value defaultConfig) 16 7)
      (stack_value defaultConfig)).bind fun b =>
      (nanocbor_get_key_tstr defaultConfig
        (mem_of 16 [0xA2, 0x61, 0x61, 0x01, 0x61, 0x62, 0x02]) 12 b.2 [0x63]).map
        fun r => (b.1, b.2.cur, b.2.remaining, r.1, r.2.cur, r.2.remaining)) =
      some (NANOCBOR_OK, 17, 4, NANOCBOR_OK, 23, 0) ∧
    ((nanocbor_enter_map defaultConfig (mem_of 16 [0xA0]) 12
      (nanocbor_decoder_init defaultConfig (stack_value defaultConfig) 16 1)
      (stack_value defaultConfig)).bind fun b =>
      (nanocbor_get_key_tstr defaultConfig (mem_of 16 [0xA0]) 12 b.2 [0x63]).map
        fun r => (b.1, r.1)) = some (NANOCBOR_OK, NANOCBOR_NOT_FOUND) ∧
    NANOCBOR_OK ≠ NANOCBOR_NOT_FOUND := by
  exact ⟨by decide!, by decide!, by decide⟩

/-! ## C19: the span emitted by `nanocbor_get_subcbor` -/

/-- C19 (divergence). On `DB 00 00 00 01 00 00 00 00 00`, the item `4294967296(0)`, with a
cursor from `nanocbor_decoder_init`: `nanocbor_skip` returns `OK`, and `nanocbor_get_subcbor`
returns `OK` with `start` the old `cur` and length 0, the span the skip consumed; a fresh
cursor over that empty slice is at its end and `nanocbor_skip` on it returns `END`.  On the
well-formed `82 01 02` the emitted span is the 3 bytes of the item and the skip of a fresh
cursor over it returns `OK` at its end. -/
theorem C19_subcbor_empty_span :
    (nanocbor_skip defaultConfig (mem_of 16 [0xDB, 0, 0, 0, 1, 0, 0, 0, 0, 0]) 12
      (nanocbor_decoder_init defaultConfig (stack_value defaultConfig) 16 10)).map
        (fun r => (r.1, r.2.cur)) = some (NANOCBOR_OK, 16) ∧
    (nanocbor_get_subcbor defaultConfig (mem_of 16 [0xDB, 0, 0, 0, 1, 0, 0, 0, 0, 0]) 12
      (nanocbor_decoder_init defaultConfig (stack_value defaultConfig) 16 10)).map
        (fun r => (r.1, r.2.1.cur, r.2.2)) = some (NANOCBOR_OK, 16, 16, 0) ∧
    (nanocbor_skip defaultConfig (mem_of 16 [0xDB, 0, 0, 0, 1, 0, 0, 0, 0, 0]) 12
      (nanocbor_decoder_init defaultConfig (stack_value defaultConfig) 16 0)).map
        (fun r => r.1) = some NANOCBOR_ERR_END ∧
    (nanocbor_get_subcbor defaultConfig (mem_of 16 [0x82, 1, 2]) 12
      (nanocbor_decoder_init defaultConfig (stack_value defaultConfig) 16 3)).map
        (fun r => (r.1, r.2.1.cur, r.2.2)) = some (NANOCBOR_OK, 19, 16, 3) ∧
    (nanocbor_skip defaultConfig (mem_of 16 [0x82, 1, 2]) 12
      (nanocbor_decoder_init defaultConfig (stack_value defaultConfig) 16 3)).map
        (fun r => (r.1, r.2.cur, nanocbor_at_end (mem_of 16 [0x82, 1, 2]) r.2)) =
      some (NANOCBOR_OK, 19, true) := by
  exact ⟨by decide!, by decide!, by decide!, by decide!, by decide!⟩


/-! ## C20: decimal fractions -/

theorem get_tag_disabled (cfg : Config) (mem : Mem) (k : Nat) (it : nanocbor_value_t)
    (tag : Nat) (hd : _packed_enabled it = false) (hr : cfg.NANOCBOR_RECURSION_MAX % 256 ≠ 0) :
    nanocbor_get_tag cfg mem (k + 2) it tag =
      if (_get_uint64 mem it 0 NANOCBOR_SIZE_WORD NANOCBOR_TYPE_TAG).1 ≥ 0 then
        some (NANOCBOR_OK,
          { it with
            cur := it.cur + (_get_uint64 mem it 0 NANOCBOR_SIZE_WORD NANOCBOR_TYPE_TAG).1.toNat },
          (_get_uint64 mem it 0 NANOCBOR_SIZE_WORD NANOCBOR_TYPE_TAG).2 % 2 ^ 32)
      else
        some ((_get_uint64 mem it 0 NANOCBOR_SIZE_WORD NANOCBOR_TYPE_TAG).1, it,
          (_get_uint64 mem it 0 NANOCBOR_SIZE_WORD NANOCBOR_TYPE_TAG).2 % 2 ^ 32) := by
  rw [nanocbor_get_tag, PACKED_HANDLE_LIMITED_disabled cfg mem k it hd hr]
  simp only [HandleOut.it, Bool.false_eq_true, if_false]

theorem get_uint64_code (mem : Mem) (it : nanocbor_value_t) (v max : Nat) (type : Int) :
    (_get_uint64 mem it v max type).1 < 0 ∨
      (nanocbor_at_end mem it = false ∧ type = ((byteAt mem it.cur / 32 : Nat) : Int) ∧
        (24 ≤ byteAt mem it.cur % 32 → byteAt mem it.cur % 32 ≤ max) ∧
        (24 ≤ byteAt mem it.cur % 32 →
          it.cur + (1 + 2 ^ (byteAt mem it.cur % 32 - 24)) ≤ it.end_)) := by
  by_cases hne : nanocbor_at_end mem it = false
  · have hg := get_type_of_not_at_end mem it hne
    by_cases hty : type = ((byteAt mem it.cur / 32 : Nat) : Int)
    · by_cases h24 : 24 ≤ byteAt mem it.cur % 32
      · by_cases hmax : byteAt mem it.cur % 32 ≤ max
        · rw [get_uint64_long mem it v max type hne hty h24 hmax]
          by_cases hend : it.cur + 2 ^ (byteAt mem it.cur % 32 - 24) ≥ it.end_
          · left
            rw [if_pos hend]
            exact (by decide : NANOCBOR_ERR_END < 0)
          · right
            exact ⟨hne, hty, fun _ => hmax, fun _ => by omega⟩
        · left
          rw [get_uint64_head_overflow mem it v max type hne hty h24 (by omega)]
          exact (by decide : NANOCBOR_ERR_OVERFLOW < 0)
      · right
        exact ⟨hne, hty, fun h => absurd h h24, fun h => absurd h h24⟩
    · left
      rw [get_uint64_wrong_type mem it v max type hne hty]
      exact (by decide : NANOCBOR_ERR_INVALID_TYPE < 0)
  · left
    have he : nanocbor_at_end mem it = true := by simpa using hne
    have hlt : NANOCBOR_ERR_END < 0 := by decide
    simp [_get_uint64, __get_type, he, hlt]

theorem head_arg_lt_word (mem : Mem) (a : Nat) (hi : byteAt mem a % 32 ≤ 26) :
    head_arg mem a < 2 ^ 32 := by
  unfold head_arg
  split
  · omega
  · have hlt := be_uint_lt mem (a + 1) (2 ^ (byteAt mem a % 32 - 24))
    have hk : byteAt mem a % 32 - 24 ≤ 2 := by omega
    have hp : 256 ^ (2 ^ (byteAt mem a % 32 - 24)) ≤ 2 ^ 32 := by
      generalize byteAt mem a % 32 - 24 = k at hk
      interval_cases k <;> norm_num
    omega

theorem get_int32_ok (cfg : Config) (mem : Mem) (k : Nat) (c : nanocbor_value_t)
    (hd : _packed_enabled c = false) (hr : cfg.NANOCBOR_RECURSION_MAX % 256 ≠ 0)
    (h : IntAccepted 32 mem c) :
    nanocbor_get_int32 cfg mem (k + 2) c =
      some (((head_len (byteAt mem c.cur % 32) : Nat) : Int),
        _advance c (head_len (byteAt mem c.cur % 32)), int_item_value mem c) := by
  have h1 := (get_int_map cfg mem (k + 2) c).2.2.1
  simp only [nanocbor_get_int, show ¬ ((32 : Nat) = 8) by decide,
    show ¬ ((32 : Nat) = 16) by decide, if_false, if_true] at h1
  rw [h1]
  exact get_int_ok cfg mem k c 26 (2 ^ 31 - 1) 32 hd hr (by norm_num) (by norm_num)
    (by norm_num) (by norm_num)
    ((int_accepted_iff 32 26 mem c (Or.inr (Or.inr (Or.inl ⟨rfl, rfl⟩)))).mp h)

theorem get_int32_fail (cfg : Config) (mem : Mem) (k : Nat) (c : nanocbor_value_t)
    (hd : _packed_enabled c = false) (hr : cfg.NANOCBOR_RECURSION_MAX % 256 ≠ 0)
    (h : ¬ IntAccepted 32 mem c) :
    ∃ res v, res < 0 ∧ nanocbor_get_int32 cfg mem (k + 2) c = some (res, c, v) := by
  have h1 := (get_int_map cfg mem (k + 2) c).2.2.1
  simp only [nanocbor_get_int, show ¬ ((32 : Nat) = 8) by decide,
    show ¬ ((32 : Nat) = 16) by decide, if_false, if_true] at h1
  obtain ⟨res, hres, hm⟩ := get_int_fail cfg mem k c 26 (2 ^ 31 - 1) hd hr (by norm_num)
    (by norm_num)
    (fun hc => h ((int_accepted_iff 32 26 mem c (Or.inr (Or.inr (Or.inl ⟨rfl, rfl⟩)))).mpr hc))
  rw [h1]
  cases hG : _get_and_advance_int64 cfg mem (k + 2) c 0 26 (2 ^ 31 - 1) with
  | none =>
    rw [hG] at hm
    exact absurd hm (by simp)
  | some r =>
    obtain ⟨r1, r2, r3⟩ := r
    rw [hG] at hm
    simp only [Option.map_some', Option.some.injEq, Prod.mk.injEq] at hm
    obtain ⟨rfl, rfl⟩ := hm
    exact ⟨r1, to_signed 32 r3, hres, rfl⟩

theorem leave_some (cfg : Config) (mem : Mem) (k : Nat) (it c : nanocbor_value_t)
    (hf : c.flags = 1 ∨ c.flags = 3) :
    ∃ r, nanocbor_leave_container cfg mem (k + 2) it c = some r := by
  have hs : ¬ (c.flags &&& NANOCBOR_DECODER_FLAG_SHARED ≠ 0) := by
    rcases hf with h | h <;> rw [h] <;> decide
  rw [nanocbor_leave_container, _leave_container]
  simp only [hs, if_false]
  split
  · exact ⟨_, rfl⟩
  · split
    · exact ⟨_, rfl⟩
    · split <;> exact ⟨_, rfl⟩

theorem dec_frac_array_flags (cfg : Config) (mem : Mem) (it : nanocbor_value_t) :
    (dec_frac_array cfg mem it).flags = 1 ∨ (dec_frac_array cfg mem it).flags = 3 := by
  unfold dec_frac_array
  split
  · exact Or.inr rfl
  · exact Or.inl rfl

theorem decimal_frac_enter (cfg : Config) (mem : Mem) (k : Nat) (it : nanocbor_value_t)
    (hd : _packed_enabled it = false) (hne : nanocbor_at_end mem it = false)
    (hlt : it.cur + head_len (byteAt mem it.cur % 32) < it.end_)
    (harr : byteAt mem (it.cur + head_len (byteAt mem it.cur % 32)) = 0x9F ∨
      (byteAt mem (it.cur + head_len (byteAt mem it.cur % 32)) / 32 = 4 ∧
        byteAt mem (it.cur + head_len (byteAt mem it.cur % 32)) % 32 ≤ 27 ∧
        it.cur + head_len (byteAt mem it.cur % 32) +
          head_len (byteAt mem (it.cur + head_len (byteAt mem it.cur % 32)) % 32) ≤ it.end_)) :
    nanocbor_enter_array cfg mem (k + 2)
        { it with cur := it.cur + head_len (byteAt mem it.cur % 32) } (stack_value cfg) =
      some (NANOCBOR_OK, dec_frac_array cfg mem it) := by
  have hb := byteAt_lt mem (it.cur + head_len (byteAt mem it.cur % 32))
  have hne1 : nanocbor_at_end mem { it with cur := it.cur + head_len (byteAt mem it.cur % 32) }
      = false :=
    at_end_move mem it _ hne hlt (by rcases harr with h | ⟨h, _, _⟩ <;> omega)
  rcases harr with h9 | ⟨h4, hi, hend⟩
  · rw [(enter_disabled cfg mem k
      { it with cur := it.cur + head_len (byteAt mem it.cur % 32) } (stack_value cfg) hd hne1).1 h9]
    simp [dec_frac_array, h9]
  · have h9 : byteAt mem (it.cur + head_len (byteAt mem it.cur % 32)) ≠ 0x9F := by omega
    rw [(enter_disabled cfg mem k
      { it with cur := it.cur + head_len (byteAt mem it.cur % 32) } (stack_value cfg) hd
      hne1).2.2.1 ⟨h4, hi, hend⟩]
    simp [dec_frac_array, h9]

theorem decimal_frac_ok (cfg : Config) (mem : Mem) (k : Nat) (it : nanocbor_value_t) (e m : Int)
    (hd : _packed_enabled it = false) (hr : cfg.NANOCBOR_RECURSION_MAX % 256 ≠ 0)
    (hA : DecFracAccepted cfg mem it) :
    ∃ r, nanocbor_leave_container cfg mem (k + 2)
        { it with cur := it.cur + head_len (byteAt mem it.cur % 32) }
        (_advance (_advance (dec_frac_array cfg mem it)
          (head_len (byteAt mem (dec_frac_array cfg mem it).cur % 32)))
          (head_len (byteAt mem ((dec_frac_array cfg mem it).cur +
            head_len (byteAt mem (dec_frac_array cfg mem it).cur % 32)) % 32))) = some r ∧
      nanocbor_get_decimal_frac cfg mem (k + 2) it e m =
        some (NANOCBOR_OK, r.2, int_item_value mem (dec_frac_array cfg mem it),
          int_item_value mem (_advance (dec_frac_array cfg mem it)
            (head_len (byteAt mem (dec_frac_array cfg mem it).cur % 32)))) := by
  obtain ⟨hne, hm, hi, hlt, htag, harr, hi1, hi2⟩ := hA
  have hu := get_uint64_head mem it 0 NANOCBOR_SIZE_WORD 6 hne hm (by omega)
    (fun _ => by simpa [NANOCBOR_SIZE_WORD] using hi) (by omega)
  simp only [Nat.cast_ofNat] at hu
  have hge : ((head_len (byteAt mem it.cur % 32) : Nat) : Int) ≥ 0 := by omega
  have hent := decimal_frac_enter cfg mem k it hd hne hlt harr
  have hfl := dec_frac_array_flags cfg mem it
  have hd1 := packed_disabled_of_flags _ hfl
  have hg1 := get_int32_ok cfg mem k _ hd1 hr hi1
  have hfl2 : (_advance (dec_frac_array cfg mem it)
      (head_len (byteAt mem (dec_frac_array cfg mem it).cur % 32))).flags = 1 ∨
      (_advance (dec_frac_array cfg mem it)
      (head_len (byteAt mem (dec_frac_array cfg mem it).cur % 32))).flags = 3 := hfl
  have hg2 := get_int32_ok cfg mem k _ (packed_disabled_of_flags _ hfl2) hr hi2
  obtain ⟨r, hleave⟩ := leave_some cfg mem k
    { it with cur := it.cur + head_len (byteAt mem it.cur % 32) }
    (_advance (_advance (dec_frac_array cfg mem it)
      (head_len (byteAt mem (dec_frac_array cfg mem it).cur % 32)))
      (head_len (byteAt mem ((dec_frac_array cfg mem it).cur +
        head_len (byteAt mem (dec_frac_array cfg mem it).cur % 32)) % 32))) hfl
  refine ⟨r, hleave, ?_⟩
  have h4 : head_arg mem it.cur % 2 ^ 32 = NANOCBOR_TAG_DEC_FRAC := by
    rw [htag]
    decide
  have hp1 := head_len_pos (byteAt mem (dec_frac_array cfg mem it).cur % 32)
  have hp2 := head_len_pos (byteAt mem ((dec_frac_array cfg mem it).cur +
        head_len (byteAt mem (dec_frac_array cfg mem it).cur % 32)) % 32)
  have hq1 : ((head_len (byteAt mem (dec_frac_array cfg mem it).cur % 32) : Nat) : Int) ≥ 0 := by
    omega
  have hq2 : ((head_len (byteAt mem ((dec_frac_array cfg mem it).cur +
        head_len (byteAt mem (dec_frac_array cfg mem it).cur % 32)) % 32) : Nat) : Int) ≥ 0 := by
    omega
  have hcur2 : (_advance (dec_frac_array cfg mem it)
      (head_len (byteAt mem (dec_frac_array cfg mem it).cur % 32))).cur =
      (dec_frac_array cfg mem it).cur +
        head_len (byteAt mem (dec_frac_array cfg mem it).cur % 32) := rfl
  rw [hcur2] at hg2
  rw [nanocbor_get_decimal_frac, get_tag_disabled cfg mem k it _ hd hr, NANOCBOR_TYPE_TAG, hu]
  simp only [hge, if_true, Int.toNat_ofNat, h4, and_self, hent, hg1, hq1, hg2, hq2, hleave]

theorem enter_array_fail (cfg : Config) (mem : Mem) (k : Nat) (c : nanocbor_value_t)
    (hd : _packed_enabled c = false)
    (h : ¬ (c.cur < c.end_ ∧ (byteAt mem c.cur = 0x9F ∨
      (byteAt mem c.cur / 32 = 4 ∧ byteAt mem c.cur % 32 ≤ 27 ∧
        c.cur + head_len (byteAt mem c.cur % 32) ≤ c.end_)))) :
    ∃ res ch, res < 0 ∧
      nanocbor_enter_array cfg mem (k + 2) c (stack_value cfg) = some (res, ch) := by
  have e4 : (NANOCBOR_TYPE_ARR.toNat <<< NANOCBOR_TYPE_OFFSET ||| NANOCBOR_SIZE_INDEFINITE) % 256
      = 0x9F := by decide
  rw [nanocbor_enter_array, enter_container_disabled cfg mem k c _ _ _ hd, e4]
  by_cases h1 : ¬ _over_end c = true ∧ byteAt mem c.cur = 0x9F
  · exfalso
    apply h
    have : c.cur < c.end_ := by
      have := h1.1
      simp only [_over_end, decide_eq_true_eq, not_le, ge_iff_le] at this
      exact this
    exact ⟨this, Or.inl h1.2⟩
  · rw [if_neg h1]
    rcases get_uint64_code mem c 0 NANOCBOR_SIZE_LONG NANOCBOR_TYPE_ARR with hneg | hok
    · rw [if_pos hneg]
      exact ⟨_, _, hneg, rfl⟩
    · exfalso
      apply h
      obtain ⟨hne, hty, hw, hin⟩ := hok
      have hlt := cur_lt_end_of_not_at_end mem c hne
      simp only [NANOCBOR_TYPE_ARR, NANOCBOR_SIZE_LONG] at hty hw
      refine ⟨hlt, Or.inr ⟨by omega, ?_, ?_⟩⟩
      · by_cases h24 : 24 ≤ byteAt mem c.cur % 32
        · exact hw h24
        · omega
      · by_cases h24 : 24 ≤ byteAt mem c.cur % 32
        · have := hin h24
          simp only [head_len, show ¬ (byteAt mem c.cur % 32 < 24) by omega, if_false]
          exact this
        · simp only [head_len, show (byteAt mem c.cur % 32 < 24) by omega, if_true]
          omega

theorem decimal_frac_fail (cfg : Config) (mem : Mem) (k : Nat) (it : nanocbor_value_t)
    (e m : Int) (hd : _packed_enabled it = false)
    (hr : cfg.NANOCBOR_RECURSION_MAX % 256 ≠ 0) (hA : ¬ DecFracAccepted cfg mem it) :
    ∃ res r, res < 0 ∧ nanocbor_get_decimal_frac cfg mem (k + 2) it e m = some (res, r) := by
  have hNF : NANOCBOR_NOT_FOUND < 0 := by decide
  rw [nanocbor_get_decimal_frac, get_tag_disabled cfg mem k it _ hd hr]
  rcases get_uint64_code mem it 0 NANOCBOR_SIZE_WORD NANOCBOR_TYPE_TAG with hneg | hok
  · have h1 : ¬ ((_get_uint64 mem it 0 NANOCBOR_SIZE_WORD NANOCBOR_TYPE_TAG).1 ≥ 0) := by omega
    have h2 : ¬ ((_get_uint64 mem it 0 NANOCBOR_SIZE_WORD NANOCBOR_TYPE_TAG).1 = NANOCBOR_OK ∧
        (_get_uint64 mem it 0 NANOCBOR_SIZE_WORD NANOCBOR_TYPE_TAG).2 % 2 ^ 32 =
          NANOCBOR_TAG_DEC_FRAC) := by
      intro hc
      rw [hc.1] at hneg
      exact absurd hneg (by decide)
    simp only [h1, if_false, h2]
    exact ⟨_, _, hNF, rfl⟩
  · obtain ⟨hne, hty, hw, hin⟩ := hok
    simp only [NANOCBOR_TYPE_TAG, NANOCBOR_SIZE_WORD] at hty hw
    have hm : byteAt mem it.cur / 32 = 6 := by omega
    have hlt0 := cur_lt_end_of_not_at_end mem it hne
    have hi : byteAt mem it.cur % 32 ≤ 26 := by
      by_cases h24 : 24 ≤ byteAt mem it.cur % 32
      · exact hw h24
      · omega
    have hend : it.cur + head_len (byteAt mem it.cur % 32) ≤ it.end_ := by
      by_cases h24 : 24 ≤ byteAt mem it.cur % 32
      · have := hin h24
        simp only [head_len, show ¬ (byteAt mem it.cur % 32 < 24) by omega, if_false]
        exact this
      · simp only [head_len, show (byteAt mem it.cur % 32 < 24) by omega, if_true]
        omega
    have hu := get_uint64_head mem it 0 NANOCBOR_SIZE_WORD 6 hne hm (by omega)
      (fun _ => by simpa [NANOCBOR_SIZE_WORD] using hi) hend
    simp only [Nat.cast_ofNat] at hu
    have hge : ((head_len (byteAt mem it.cur % 32) : Nat) : Int) ≥ 0 := by omega
    rw [NANOCBOR_TYPE_TAG, hu]
    simp only [hge, if_true, Int.toNat_ofNat, true_and]
    by_cases htag : head_arg mem it.cur % 2 ^ 32 = NANOCBOR_TAG_DEC_FRAC
    · rw [if_pos htag]
      have htag4 : head_arg mem it.cur = 4 := by
        have := head_arg_lt_word mem it.cur hi
        rw [Nat.mod_eq_of_lt this] at htag
        exact htag
      by_cases harr : it.cur + head_len (byteAt mem it.cur % 32) < it.end_ ∧
          (byteAt mem (it.cur + head_len (byteAt mem it.cur % 32)) = 0x9F ∨
          (byteAt mem (it.cur + head_len (byteAt mem it.cur % 32)) / 32 = 4 ∧
            byteAt mem (it.cur + head_len (byteAt mem it.cur % 32)) % 32 ≤ 27 ∧
            it.cur + head_len (byteAt mem it.cur % 32) +
              head_len (byteAt mem (it.cur + head_len (byteAt mem it.cur % 32)) % 32) ≤
                it.end_))
      · rw [decimal_frac_enter cfg mem k it hd hne harr.1 harr.2]
        simp only [if_true]
        have hfl := dec_frac_array_flags cfg mem it
        have hd1 := packed_disabled_of_flags _ hfl
        by_cases hi1 : IntAccepted 32 mem (dec_frac_array cfg mem it)
        · have hi2 : ¬ IntAccepted 32 mem (_advance (dec_frac_array cfg mem it)
              (head_len (byteAt mem (dec_frac_array cfg mem it).cur % 32))) :=
            fun hc => hA ⟨hne, hm, hi, harr.1, htag4, harr.2, hi1, hc⟩
          have hfl2 : (_advance (dec_frac_array cfg mem it)
              (head_len (byteAt mem (dec_frac_array cfg mem it).cur % 32))).flags = 1 ∨
              (_advance (dec_frac_array cfg mem it)
              (head_len (byteAt mem (dec_frac_array cfg mem it).cur % 32))).flags = 3 := hfl
          obtain ⟨res, v, hres, hg2⟩ := get_int32_fail cfg mem k _
            (packed_disabled_of_flags _ hfl2) hr hi2
          obtain ⟨r, hleave⟩ := leave_some cfg mem k
            { it with cur := it.cur + head_len (byteAt mem it.cur % 32) }
            (_advance (dec_frac_array cfg mem it)
              (head_len (byteAt mem (dec_frac_array cfg mem it).cur % 32))) hfl2
          have hq1 : ((head_len (byteAt mem (dec_frac_array cfg mem it).cur % 32) : Nat) : Int)
              ≥ 0 := by omega
          have hnr : ¬ (res ≥ 0) := by omega
          rw [get_int32_ok cfg mem k _ hd1 hr hi1]
          simp only [hq1, if_true, hg2, hnr, if_false, hleave]
          exact ⟨_, _, hres, rfl⟩
        · obtain ⟨res, v, hres, hg1⟩ := get_int32_fail cfg mem k _ hd1 hr hi1
          obtain ⟨r, hleave⟩ := leave_some cfg mem k
            { it with cur := it.cur + head_len (byteAt mem it.cur % 32) }
            (dec_frac_array cfg mem it) hfl
          have hnr : ¬ (res ≥ 0) := by omega
          rw [hg1]
          simp only [hnr, if_false, hleave]
          exact ⟨_, _, hres, rfl⟩
      · obtain ⟨res, ch, hres, hent⟩ := enter_array_fail cfg mem k
          { it with cur := it.cur + head_len (byteAt mem it.cur % 32) } hd harr
        have hno : ¬ (res = NANOCBOR_OK) := by
          intro hc
          rw [hc] at hres
          exact absurd hres (by decide)
        rw [hent]
        simp only [hno, if_false]
        exact ⟨_, _, hNF, rfl⟩
    · rw [if_neg htag]
      exact ⟨_, _, hNF, rfl⟩

/-- C20 (amended). For a cursor without packed support: when the item at the cursor is a tag 4,
its number encoded in at most four bytes, wrapping an array whose first two elements are
integers `e`, `m` that `nanocbor_get_int32` accepts (major type 0 or 1, at most four argument
bytes, inside the buffer, argument at most `INT32_MAX`) and the array holds exactly these two
(`DecFracAccepted`, `DecFracExact`), `nanocbor_get_decimal_frac` returns `OK`, stores `e` and
`m`, and leaves the cursor behind the whole tagged item (behind the second integer, and behind
the `FF` of an indefinite array), `remaining` counted down when it was not zero.  When the item
is not such a tag, or what it wraps is not an array, or one of the first two elements is not
such an integer, the result is negative. -/
theorem C20_decimal_frac (cfg : Config) (mem : Mem) (fuel : Nat) (it : nanocbor_value_t)
    (e m : Int) (hd : _packed_enabled it = false)
    (hr : cfg.NANOCBOR_RECURSION_MAX % 256 ≠ 0) (hf : 2 ≤ fuel) :
    (DecFracAccepted cfg mem it → DecFracExact cfg mem it →
      nanocbor_get_decimal_frac cfg mem fuel it e m =
        some (NANOCBOR_OK,
          { it with
            cur := (dec_frac_array cfg mem it).cur +
              head_len (byteAt mem (dec_frac_array cfg mem it).cur % 32) +
              head_len (byteAt mem ((dec_frac_array cfg mem it).cur +
                head_len (byteAt mem (dec_frac_array cfg mem it).cur % 32)) % 32) +
              (if (dec_frac_array cfg mem it).flags = 3 then 1 else 0),
            remaining := if it.remaining ≠ 0 then dec64 it.remaining else it.remaining },
          int_item_value mem (dec_frac_array cfg mem it),
          int_item_value mem (_advance (dec_frac_array cfg mem it)
            (head_len (byteAt mem (dec_frac_array cfg mem it).cur % 32))))) ∧
    (¬ DecFracAccepted cfg mem it →
      ∃ res r, res < 0 ∧ nanocbor_get_decimal_frac cfg mem fuel it e m = some (res, r)) := by
  obtain ⟨k, rfl⟩ : ∃ k, fuel = k + 2 := ⟨fuel - 2, by omega⟩
  refine ⟨fun hA hE => ?_, fun hA => decimal_frac_fail cfg mem k it e m hd hr hA⟩
  obtain ⟨r, hleave, hR⟩ := decimal_frac_ok cfg mem k it e m hd hr hA
  obtain ⟨hne, hm, hi, hlt, htag, harr, hi1, hi2⟩ := hA
  have hfl := dec_frac_array_flags cfg mem it
  have hp0 := head_len_pos (byteAt mem it.cur % 32)
  have hp1 := head_len_pos (byteAt mem (dec_frac_array cfg mem it).cur % 32)
  have hacur : it.cur + head_len (byteAt mem it.cur % 32) < (dec_frac_array cfg mem it).cur := by
    unfold dec_frac_array
    split
    · simp only
      omega
    · have := head_len_pos (byteAt mem (it.cur + head_len (byteAt mem it.cur % 32)) % 32)
      simp only
      omega
  have haend : (dec_frac_array cfg mem it).end_ = it.end_ := by
    unfold dec_frac_array
    split <;> rfl
  have h2end := hi2.2.2.2.1
  simp only [_advance] at h2end
  rw [haend] at h2end
  have he : nanocbor_at_end mem (_advance (_advance (dec_frac_array cfg mem it)
      (head_len (byteAt mem (dec_frac_array cfg mem it).cur % 32)))
      (head_len (byteAt mem ((dec_frac_array cfg mem it).cur +
        head_len (byteAt mem (dec_frac_array cfg mem it).cur % 32)) % 32))) = true := by
    rcases hfl with h1 | h3
    · rw [at_end_definite mem (_advance (_advance (dec_frac_array cfg mem it)
        (head_len (byteAt mem (dec_frac_array cfg mem it).cur % 32)))
        (head_len (byteAt mem ((dec_frac_array cfg mem it).cur +
          head_len (byteAt mem (dec_frac_array cfg mem it).cur % 32)) % 32))) h1]
      right
      have := hE.1 h1
      simp only [_advance, this]
      decide
    · rw [at_end_indefinite mem (_advance (_advance (dec_frac_array cfg mem it)
        (head_len (byteAt mem (dec_frac_array cfg mem it).cur % 32)))
        (head_len (byteAt mem ((dec_frac_array cfg mem it).cur +
          head_len (byteAt mem (dec_frac_array cfg mem it).cur % 32)) % 32))) h3]
      right
      exact (hE.2 h3).1
  have hl := leave_after_skip cfg mem k
    { it with cur := it.cur + head_len (byteAt mem it.cur % 32) }
    (_advance (_advance (dec_frac_array cfg mem it)
        (head_len (byteAt mem (dec_frac_array cfg mem it).cur % 32)))
        (head_len (byteAt mem ((dec_frac_array cfg mem it).cur +
          head_len (byteAt mem (dec_frac_array cfg mem it).cur % 32)) % 32))) hfl he
    (by simp only [_advance]; omega)
    (by
      simp only [_advance]
      rcases hfl with h1 | h3
      · rw [if_neg (by rw [h1]; decide)]
        omega
      · have := (hE.2 h3).2
        rw [if_pos h3]
        omega)
  rw [hl] at hleave
  have hr2 := Option.some.inj hleave
  rw [hR, ← hr2]
  rfl

/-- Witness of C20: `C4 82 21 19 6A B3`, the decimal fraction `273.15 = 27315 * 10^-2`. -/
theorem C20_decimal_frac_witness :
    _packed_enabled (nanocbor_decoder_init defaultConfig (stack_value defaultConfig) 16 6) = false ∧
    DecFracAccepted defaultConfig (mem_of 16 [0xC4, 0x82, 0x21, 0x19, 0x6A, 0xB3])
      (nanocbor_decoder_init defaultConfig (stack_value defaultConfig) 16 6) ∧
    DecFracExact defaultConfig (mem_of 16 [0xC4, 0x82, 0x21, 0x19, 0x6A, 0xB3])
      (nanocbor_decoder_init defaultConfig (stack_value defaultConfig) 16 6) ∧
    nanocbor_get_decimal_frac defaultConfig (mem_of 16 [0xC4, 0x82, 0x21, 0x19, 0x6A, 0xB3]) 2
      (nanocbor_decoder_init defaultConfig (stack_value defaultConfig) 16 6) 0 0 =
        some (NANOCBOR_OK,
          { nanocbor_decoder_init defaultConfig (stack_value defaultConfig) 16 6 with cur := 22 },
          -2, 27315) := by
  have hA : DecFracAccepted defaultConfig (mem_of 16 [0xC4, 0x82, 0x21, 0x19, 0x6A, 0xB3])
      (nanocbor_decoder_init defaultConfig (stack_value defaultConfig) 16 6) := by
    unfold DecFracAccepted IntAccepted
    decide
  have hE : DecFracExact defaultConfig (mem_of 16 [0xC4, 0x82, 0x21, 0x19, 0x6A, 0xB3])
      (nanocbor_decoder_init defaultConfig (stack_value defaultConfig) 16 6) := by
    unfold DecFracExact
    decide
  exact ⟨by decide, hA, hE,
    ((C20_decimal_frac defaultConfig (mem_of 16 [0xC4, 0x82, 0x21, 0x19, 0x6A, 0xB3]) 2
      (nanocbor_decoder_init defaultConfig (stack_value defaultConfig) 16 6) 0 0 (by decide)
      (by decide) (by decide)).1 hA hE).trans (by decide)⟩

/-- Counterexample to C20 as stated: `C4 82 1B 00 00 00 00 00 00 00 01 02` is the
decimal-fraction tag wrapping the array `[1, 2]` of two integers that fit in 32 bits, the first
one encoded with eight argument bytes: `nanocbor_get_decimal_frac` returns `OVERFLOW`.
`DB 00 00 00 00 00 00 00 04 82 01 02`, the same tag with an eight-byte number, gives
`NOT_FOUND`. -/
theorem C20_counterexample :
    (nanocbor_get_decimal_frac defaultConfig
      (mem_of 16 [0xC4, 0x82, 0x1B, 0, 0, 0, 0, 0, 0, 0, 1, 0x02]) 4
      (nanocbor_decoder_init defaultConfig (stack_value defaultConfig) 16 12) 0 0).map
        (fun r => r.1) = some NANOCBOR_ERR_OVERFLOW ∧
    (nanocbor_get_decimal_frac defaultConfig
      (mem_of 16 [0xDB, 0, 0, 0, 0, 0, 0, 0, 4, 0x82, 0x01, 0x02]) 4
      (nanocbor_decoder_init defaultConfig (stack_value defaultConfig) 16 12) 0 0).map
        (fun r => r.1) = some NANOCBOR_NOT_FOUND ∧
    NANOCBOR_ERR_OVERFLOW ≠ NANOCBOR_OK ∧ NANOCBOR_NOT_FOUND ≠ NANOCBOR_OK := by
  exact ⟨by decide!, by decide!, by decide, by decide⟩


/-! ## C23, C24: what `nanocbor_skip` reports for tags -/

/-- At a tag head, with a limit that is not zero, `_skip_limited` reports `OK` whenever it
returns: the result of the tag head and of the skip of the tagged item are assigned to an inner
`res`, and the returned outer `res` still holds the major type 6. -/
theorem skip_limited_tag_code (cfg : Config) (mem : Mem) (fuel : Nat) (it : nanocbor_value_t)
    (limit : Nat) (r : Int × nanocbor_value_t) (hl : limit ≠ 0)
    (ht : __get_type mem it = NANOCBOR_TYPE_TAG)
    (h : _skip_limited cfg mem fuel it limit = some r) : r.1 = NANOCBOR_OK := by
  cases fuel with
  | zero => rw [_skip_limited] at h; exact absurd h (by simp)
  | succ k =>
    have h1 : ¬ (NANOCBOR_TYPE_TAG = NANOCBOR_TYPE_ARR ∨ NANOCBOR_TYPE_TAG = NANOCBOR_TYPE_MAP) := by
      decide
    have h3 : ¬ (NANOCBOR_TYPE_TAG < 0) := by decide
    rw [_skip_limited] at h
    simp only [hl, ht, h1, h3, if_false, if_true] at h
    split at h
    · cases hs : _skip_limited cfg mem k
          { it with cur := it.cur +
            (_get_uint64 mem it 0 NANOCBOR_SIZE_WORD NANOCBOR_TYPE_TAG).1.toNat } (dec8 limit) with
      | none => rw [hs] at h; exact absurd h (by simp)
      | some p =>
        rw [hs] at h
        have := Option.some.inj h
        rw [← this]
    · have := Option.some.inj h
      rw [← this]

/-- C23 (divergence). With the recursion bound 10: on ten nested one-item arrays around `00`
and on ten nested one-pair maps around `00`, `nanocbor_skip` returns `RECURSION` and leaves the
cursor where it was; on ten nested tags `C1` around `00` it returns `OK`, with the cursor
behind the tenth tag head and in front of the `00` that was never skipped.  The innermost call
does return `RECURSION`, but the tag branch stores it in an inner `res` that shadows the `res`
returned. -/
theorem C23_tag_chain_recursion :
    (nanocbor_skip defaultConfig (mem_of 16 ([0x81, 0x81, 0x81, 0x81, 0x81, 0x81, 0x81, 0x81, 0x81, 0x81, 0])) 40
      (nanocbor_decoder_init defaultConfig (stack_value defaultConfig) 16 11)).map
        (fun r => (r.1, r.2.cur)) = some (NANOCBOR_ERR_RECURSION, 16) ∧
    (nanocbor_skip defaultConfig (mem_of 16 ([0xA1, 0xA1, 0xA1, 0xA1, 0xA1, 0xA1, 0xA1, 0xA1, 0xA1, 0xA1,
        0, 0, 0, 0, 0, 0, 0, 0, 0, 0, 0])) 40
      (nanocbor_decoder_init defaultConfig (stack_value defaultConfig) 16 21)).map
        (fun r => (r.1, r.2.cur)) = some (NANOCBOR_ERR_RECURSION, 16) ∧
    (nanocbor_skip defaultConfig (mem_of 16 ([0xC1, 0xC1, 0xC1, 0xC1, 0xC1, 0xC1, 0xC1, 0xC1, 0xC1, 0xC1, 0])) 40
      (nanocbor_decoder_init defaultConfig (stack_value defaultConfig) 16 11)).map
        (fun r => (r.1, r.2.cur, r.2.end_)) = some (NANOCBOR_OK, 26, 27) ∧
    _skip_limited defaultConfig (mem_of 16 ([0xC1, 0xC1, 0xC1, 0xC1, 0xC1, 0xC1, 0xC1, 0xC1, 0xC1, 0xC1, 0])) 40
      { nanocbor_decoder_init defaultConfig (stack_value defaultConfig) 16 11 with cur := 26 } 0 =
      some (NANOCBOR_ERR_RECURSION,
        { nanocbor_decoder_init defaultConfig (stack_value defaultConfig) 16 11 with cur := 26 }) ∧
    defaultConfig.NANOCBOR_RECURSION_MAX = 10 := by
  exact ⟨by decide!, by decide!, by decide!, by decide!, by decide!⟩

/-- C24 (divergence). On the one-byte buffer `C1`, a tag head with nothing behind it,
`nanocbor_skip` returns `OK` with the cursor at the end of the buffer, although the skip of the
tagged item, made on the cursor behind the tag head, returns `END`.  On `C1 5A FF FF FF FF`, a
tag in front of a byte string that runs past the buffer, it returns `OK` as well, the skip of
the string returning `END`. -/
theorem C24_tag_without_content :
    (nanocbor_skip defaultConfig (mem_of 16 [0xC1]) 12
      (nanocbor_decoder_init defaultConfig (stack_value defaultConfig) 16 1)).map
        (fun r => (r.1, r.2.cur, r.2.end_)) = some (NANOCBOR_OK, 17, 17) ∧
    (_skip_limited defaultConfig (mem_of 16 [0xC1]) 12
      { nanocbor_decoder_init defaultConfig (stack_value defaultConfig) 16 1 with cur := 17 }
      9).map (fun r => r.1) = some NANOCBOR_ERR_END ∧
    (nanocbor_skip defaultConfig (mem_of 16 [0xC1, 0x5A, 0xFF, 0xFF, 0xFF, 0xFF]) 12
      (nanocbor_decoder_init defaultConfig (stack_value defaultConfig) 16 6)).map
        (fun r => (r.1, r.2.cur)) = some (NANOCBOR_OK, 17) ∧
    (_skip_limited defaultConfig (mem_of 16 [0xC1, 0x5A, 0xFF, 0xFF, 0xFF, 0xFF]) 12
      { nanocbor_decoder_init defaultConfig (stack_value defaultConfig) 16 6 with cur := 17 }
      9).map (fun r => r.1) = some NANOCBOR_ERR_END := by
  exact ⟨by decide!, by decide!, by decide!, by decide!⟩

/-! ## C29: the invariant `cur <= end` -/

/-- C29 (divergence). Two public operations return `OK` and leave a cursor with `cur > end`,
starting from a cursor with `cur <= end`.  On the one-byte buffer `41`, `nanocbor_get_bstr`
returns `OK` with `cur = end + 1` (the test `end - cur < len` leaves the head length out), and
so does `nanocbor_skip`.  On the one-byte buffer `9F`, an indefinite array whose break byte is
missing, `nanocbor_enter_array` returns `OK` with a child at its end (`cur = end`), and
`nanocbor_leave_container` then returns `OK` and sets the parent to `cur = end + 1`, stepping
over a break byte that is not there; `nanocbor_skip` on that buffer does the same. -/
theorem C29_cursor_past_end :
    (nanocbor_decoder_init defaultConfig (stack_value defaultConfig) 16 1).cur ≤
      (nanocbor_decoder_init defaultConfig (stack_value defaultConfig) 16 1).end_ ∧
    (nanocbor_get_bstr defaultConfig (mem_of 16 [0x41]) 12
      (nanocbor_decoder_init defaultConfig (stack_value defaultConfig) 16 1) 0 0).map
        (fun r => (r.1, r.2.1.cur, r.2.1.end_)) = some (NANOCBOR_OK, 18, 17) ∧
    (nanocbor_skip defaultConfig (mem_of 16 [0x41]) 12
      (nanocbor_decoder_init defaultConfig (stack_value defaultConfig) 16 1)).map
        (fun r => (r.1, r.2.cur, r.2.end_)) = some (NANOCBOR_OK, 18, 17) ∧
    ((nanocbor_enter_array defaultConfig (mem_of 16 [0x9F]) 12
      (nanocbor_decoder_init defaultConfig (stack_value defaultConfig) 16 1)
      (stack_value defaultConfig)).bind fun a =>
      (nanocbor_leave_container defaultConfig (mem_of 16 [0x9F]) 12
        (nanocbor_decoder_init defaultConfig (stack_value defaultConfig) 16 1) a.2).map
        fun r => (a.1, a.2.cur, a.2.end_, r.1, r.2.cur, r.2.end_)) =
      some (NANOCBOR_OK, 17, 17, NANOCBOR_OK, 18, 17) ∧
    (nanocbor_skip defaultConfig (mem_of 16 [0x9F]) 12
      (nanocbor_decoder_init defaultConfig (stack_value defaultConfig) 16 1)).map
        (fun r => (r.1, r.2.cur, r.2.end_)) = some (NANOCBOR_OK, 18, 17) := by
  exact ⟨by decide!, by decide!, by decide!, by decide!, by decide!⟩


/-! ## C22: a child that is at its end right after entry -/

theorem enter_container_child (cfg : Config) (mem : Mem) (k : Nat) (it c child : nanocbor_value_t)
    (major : Nat) (hm : major = 4 ∨ major = 5)
    (limit : Nat) (x : nanocbor_value_t) (hd : _packed_enabled it = false)
    (h : _enter_container cfg mem (k + 1) it c (major : Int) limit =
      some (NANOCBOR_OK, x, child)) :
    child.end_ = it.end_ ∧ child.cur ≤ it.end_ ∧
    ((byteAt mem it.cur = major * 32 + 31 ∧ child.cur = it.cur + 1 ∧ child.flags = 3) ∨
      (byteAt mem it.cur / 32 = major ∧ byteAt mem it.cur % 32 ≤ 27 ∧ child.flags = 1 ∧
        child.remaining = head_arg mem it.cur)) := by
  have e : ((major : Int).toNat <<< NANOCBOR_TYPE_OFFSET ||| NANOCBOR_SIZE_INDEFINITE) % 256 =
      major * 32 + 31 := by
    rcases hm with rfl | rfl <;> decide
  rw [enter_container_disabled cfg mem k it c _ _ hd, e] at h
  split at h
  · rename_i hc
    have hoe : it.cur < it.end_ := by simpa [_over_end] using hc.1
    have hh := (Prod.mk.inj (Prod.mk.inj (Option.some.inj h)).2).2
    subst hh
    exact ⟨rfl, by show it.cur + 1 ≤ it.end_; omega, Or.inl ⟨hc.2, rfl, rfl⟩⟩
  · split at h
    · rename_i hneg
      have h1 := (Prod.mk.inj (Option.some.inj h)).1
      rw [h1] at hneg
      exact absurd hneg (by decide)
    · rename_i hc hneg
      have hh := (Prod.mk.inj (Prod.mk.inj (Option.some.inj h)).2).2
      rcases get_uint64_code mem it 0 NANOCBOR_SIZE_LONG (major : Int) with hx | ⟨hne, hty, hmax, hend⟩
      · exact absurd hx hneg
      · have hty2 : byteAt mem it.cur / 32 = major := by exact_mod_cast hty.symm
        have hlt := cur_lt_end_of_not_at_end mem it hne
        have hb := byteAt_lt mem it.cur
        have hi : byteAt mem it.cur % 32 ≤ 27 := by
          by_cases h24 : 24 ≤ byteAt mem it.cur % 32
          · exact hmax h24
          · omega
        have hle : it.cur + head_len (byteAt mem it.cur % 32) ≤ it.end_ := by
          unfold head_len
          split
          · omega
          · exact hend (by omega)
        have hg := get_uint64_head mem it 0 NANOCBOR_SIZE_LONG major hne hty2 hi hmax hle
        rw [hg] at hh
        subst hh
        exact ⟨rfl, by simpa using hle, Or.inr ⟨hty2, hi, rfl, rfl⟩⟩

theorem at_end_of_flags (mem : Mem) (c : nanocbor_value_t) (hle : c.cur ≤ c.end_) :
    (c.flags = 3 → (nanocbor_at_end mem c = true ↔ (c.cur = c.end_ ∨ byteAt mem c.cur = 0xFF))) ∧
    (c.flags = 1 → (nanocbor_at_end mem c = true ↔ (c.cur = c.end_ ∨ c.remaining = 0))) := by
  constructor
  · intro hf
    have h1 : nanocbor_container_indefinite c = true := by
      simp [nanocbor_container_indefinite, hf, NANOCBOR_DECODER_FLAG_INDEFINITE]
    have e : (NANOCBOR_TYPE_FLOAT.toNat <<< NANOCBOR_TYPE_OFFSET ||| NANOCBOR_VALUE_MASK) = 0xFF := by
      decide
    simp only [nanocbor_at_end, h1, e, _over_end]
    simp
    constructor
    · rintro (h | h)
      · left; omega
      · right; exact h
    · rintro (h | h)
      · left; omega
      · right; exact h
  · intro hf
    have h1 : nanocbor_container_indefinite c = false := by
      simp [nanocbor_container_indefinite, hf, NANOCBOR_DECODER_FLAG_INDEFINITE]
    have h2 : nanocbor_in_container c = true := by
      simp [nanocbor_in_container, hf, NANOCBOR_DECODER_FLAG_CONTAINER]
    simp only [nanocbor_at_end, h1, h2, _over_end]
    simp
    constructor
    · rintro (h | h)
      · left; omega
      · right; exact h
    · rintro (h | h)
      · left; omega
      · right; exact h

/-- C22 (amended). For every buffer on which `nanocbor_decoder_init` followed by
`nanocbor_enter_array` (`nanocbor_enter_map`) returns `OK`, the child cursor is at its end
right after entry if and only if the buffer encodes an empty array (map), that is a definite
head with count 0 or the indefinite head followed by `FF`, or the buffer ends with the
container head, so that the child starts at the end of the buffer. -/
theorem C22_child_at_end (cfg : Config) (mem : Mem) (fuel : Nat) (v c child : nanocbor_value_t)
    (buf len : Nat) :
    (nanocbor_enter_array cfg mem fuel (nanocbor_decoder_init cfg v buf len) c =
        some (NANOCBOR_OK, child) →
      (nanocbor_at_end mem child = true ↔
        (EmptyContainerAt mem buf 4 ∨ child.cur = buf + len))) ∧
    (nanocbor_enter_map cfg mem fuel (nanocbor_decoder_init cfg v buf len) c =
        some (NANOCBOR_OK, child) →
      (nanocbor_at_end mem child = true ↔
        (EmptyContainerAt mem buf 5 ∨ child.cur = buf + len))) := by
  have hd : _packed_enabled (nanocbor_decoder_init cfg v buf len) = false := by
    simp [_packed_enabled, nanocbor_decoder_init]
  have hcur : (nanocbor_decoder_init cfg v buf len).cur = buf := rfl
  have hend : (nanocbor_decoder_init cfg v buf len).end_ = buf + len := rfl
  generalize nanocbor_decoder_init cfg v buf len = it at hd hcur hend
  constructor
  · intro h
    cases fuel with
    | zero => rw [nanocbor_enter_array] at h; exact absurd h (by simp)
    | succ k =>
      cases k with
      | zero =>
        rw [nanocbor_enter_array, _enter_container] at h; exact absurd h (by simp)
      | succ k =>
        rw [nanocbor_enter_array] at h
        cases he : _enter_container cfg mem (k + 1) it c NANOCBOR_TYPE_ARR
            (u8 ((cfg.NANOCBOR_RECURSION_MAX : Int) - 1)) with
        | none => rw [he] at h; exact absurd h (by simp)
        | some p =>
          obtain ⟨res, x, arr⟩ := p
          rw [he] at h
          have h1 := (Prod.mk.inj (Option.some.inj h)).1
          have h2 := (Prod.mk.inj (Option.some.inj h)).2
          simp only at h1 h2
          subst h1 h2
          obtain ⟨f1, f2, f3⟩ := enter_container_child cfg mem k it c arr 4 (Or.inl rfl) _ x hd he
          rw [hcur] at f3
          rw [hend] at f1 f2
          have ha := at_end_of_flags mem arr (by omega)
          unfold EmptyContainerAt
          rcases f3 with ⟨g1, g2, g3⟩ | ⟨g1, g2, g3, g4⟩
          · rw [ha.1 g3, f1, g2]
            have : ¬ byteAt mem buf % 32 ≤ 27 := by omega
            constructor
            · rintro (h | h)
              · right; omega
              · left; right; exact ⟨g1, h⟩
            · rintro ((⟨_, h, _⟩ | ⟨_, h⟩) | h)
              · exact absurd h this
              · right; exact h
              · left; omega
          · rw [ha.2 g3, f1, g4]
            have : byteAt mem buf ≠ 4 * 32 + 31 := by omega
            constructor
            · rintro (h | h)
              · right; exact h
              · left; left; exact ⟨g1, g2, h⟩
            · rintro ((⟨_, _, h⟩ | ⟨h, _⟩) | h)
              · right; exact h
              · exact absurd h this
              · left; exact h
  · intro h
    cases fuel with
    | zero => rw [nanocbor_enter_map] at h; exact absurd h (by simp)
    | succ k =>
      cases k with
      | zero =>
        rw [nanocbor_enter_map, _enter_container] at h; exact absurd h (by simp)
      | succ k =>
        rw [nanocbor_enter_map] at h
        cases he : _enter_container cfg mem (k + 1) it c NANOCBOR_TYPE_MAP
            (u8 ((cfg.NANOCBOR_RECURSION_MAX : Int) - 1)) with
        | none => rw [he] at h; exact absurd h (by simp)
        | some p =>
          obtain ⟨res, x, arr⟩ := p
          rw [he] at h
          simp only at h
          split at h
          · have h1 := (Prod.mk.inj (Option.some.inj h)).1
            exact absurd h1 (by decide)
          · have h1 := (Prod.mk.inj (Option.some.inj h)).1
            have h2 := (Prod.mk.inj (Option.some.inj h)).2
            simp only at h1 h2
            subst h1 h2
            obtain ⟨f1, f2, f3⟩ :=
              enter_container_child cfg mem k it c arr 5 (Or.inr rfl) _ x hd he
            rw [hcur] at f3
            rw [hend] at f1 f2
            have ha := at_end_of_flags mem { arr with remaining := arr.remaining * 2 }
              (by show arr.cur ≤ arr.end_; omega)
            unfold EmptyContainerAt
            rcases f3 with ⟨g1, g2, g3⟩ | ⟨g1, g2, g3, g4⟩
            · rw [ha.1 g3]
              show (arr.cur = arr.end_ ∨ byteAt mem arr.cur = 0xFF) ↔ _
              rw [f1, g2]
              have : ¬ byteAt mem buf % 32 ≤ 27 := by omega
              constructor
              · rintro (h | h)
                · right; omega
                · left; right; exact ⟨g1, h⟩
              · rintro ((⟨_, h, _⟩ | ⟨_, h⟩) | h)
                · exact absurd h this
                · right; exact h
                · left; omega
            · rw [ha.2 g3]
              show (arr.cur = arr.end_ ∨ arr.remaining * 2 = 0) ↔ _
              rw [f1, g4]
              have : byteAt mem buf ≠ 5 * 32 + 31 := by omega
              constructor
              · rintro (h | h)
                · right; exact h
                · left; left; exact ⟨g1, g2, by omega⟩
              · rintro ((⟨_, _, h⟩ | ⟨h, _⟩) | h)
                · right; omega
                · exact absurd h this
                · left; exact h

/-- Witness of C22: on the one-byte buffer `80` the child is at its end and the buffer encodes
an empty array. -/
theorem C22_child_at_end_witness :
    nanocbor_enter_array defaultConfig (mem_of 16 [0x80]) 3
      (nanocbor_decoder_init defaultConfig (stack_value defaultConfig) 16 1)
      (stack_value defaultConfig) =
        some (NANOCBOR_OK, ⟨17, 17, 0, 1, zero_tables defaultConfig, 0⟩) ∧
    (nanocbor_at_end (mem_of 16 [0x80]) ⟨17, 17, 0, 1, zero_tables defaultConfig, 0⟩ = true ↔
      (EmptyContainerAt (mem_of 16 [0x80]) 16 4 ∨
        (⟨17, 17, 0, 1, zero_tables defaultConfig, 0⟩ : nanocbor_value_t).cur = 16 + 1)) :=
  ⟨by decide!, (C22_child_at_end defaultConfig (mem_of 16 [0x80]) 3 (stack_value defaultConfig)
    (stack_value defaultConfig) ⟨17, 17, 0, 1, zero_tables defaultConfig, 0⟩ 16 1).1
      (by decide!)⟩

/-- Counterexample to C22 as stated: on the one-byte buffer `81`, the head of a one-item array
whose item is missing, `nanocbor_enter_array` returns `OK`, the child (`remaining = 1`) is at
its end right after entry because it starts at the end of the buffer, and the buffer does not
encode an empty container. -/
theorem C22_counterexample :
    nanocbor_enter_array defaultConfig (mem_of 16 [0x81]) 3
      (nanocbor_decoder_init defaultConfig (stack_value defaultConfig) 16 1)
      (stack_value defaultConfig) =
        some (NANOCBOR_OK, ⟨17, 17, 1, 1, zero_tables defaultConfig, 0⟩) ∧
    nanocbor_at_end (mem_of 16 [0x81]) ⟨17, 17, 1, 1, zero_tables defaultConfig, 0⟩ = true ∧
    ¬ EmptyContainerAt (mem_of 16 [0x81]) 16 4 := by
  exact ⟨by decide!, by decide!, by decide!⟩


/-! ## C21: the parent's `remaining` after a leave -/

theorem get_uint64_pos (mem : Mem) (it : nanocbor_value_t) (v max : Nat) (type : Int) :
    (_get_uint64 mem it v max type).1 < 0 ∨ 0 < (_get_uint64 mem it v max type).1 := by
  rcases get_uint64_code mem it v max type with hx | ⟨hne, hty, hmax, hend⟩
  · exact Or.inl hx
  · right
    have hb := byteAt_lt mem it.cur
    have hi : byteAt mem it.cur % 32 ≤ 27 ∨ 24 ≤ byteAt mem it.cur % 32 := by omega
    by_cases h24 : byteAt mem it.cur % 32 < 24
    · rw [get_uint64_short mem it v max type hne hty h24]
      exact Int.one_pos
    · rw [get_uint64_long mem it v max type hne hty (by omega) (hmax (by omega))]
      have := hend (by omega)
      have hlt : ¬ (it.cur + 2 ^ (byteAt mem it.cur % 32 - 24) ≥ it.end_) := by
        generalize 2 ^ (byteAt mem it.cur % 32 - 24) = p at this
        omega
      rw [if_neg hlt]
      have hp : 0 < 1 + 2 ^ (byteAt mem it.cur % 32 - 24) := by
        generalize 2 ^ (byteAt mem it.cur % 32 - 24) = p
        omega
      show (0 : Int) < ((1 + 2 ^ (byteAt mem it.cur % 32 - 24) : Nat) : Int)
      exact_mod_cast hp

theorem dec64_pos (n : Nat) (h0 : n ≠ 0) (hn : n < 2 ^ 64) : dec64 n + 1 = n := by
  unfold dec64
  omega

/-- C21 (amended). Let `nanocbor_leave_container(parent, child)` return `OK` (so the child is a
container at its end).  For a child that is not marked shared-origin, that is one entered
directly and not through a packed reference or table definition, the parent's `remaining` is
exactly one less than before when it was not zero, and is still zero when it was zero.  For a
shared-origin child whose parent stands on a short-form reference (an item of major type 7)
the leave is a skip of that item: `remaining` is one less when it was not zero and wraps to
`2^64 - 1` when it was zero. -/
theorem C21_leave_remaining (cfg : Config) (mem : Mem) (fuel : Nat)
    (it child it2 : nanocbor_value_t) (hr : it.remaining < 2 ^ 64)
    (h : nanocbor_leave_container cfg mem fuel it child = some (NANOCBOR_OK, it2)) :
    (child.flags &&& NANOCBOR_DECODER_FLAG_SHARED = 0 →
      (it.remaining ≠ 0 → it2.remaining + 1 = it.remaining) ∧
      (it.remaining = 0 → it2.remaining = 0)) ∧
    (child.flags &&& NANOCBOR_DECODER_FLAG_SHARED ≠ 0 →
      __get_type mem it = NANOCBOR_TYPE_FLOAT →
      (it.remaining ≠ 0 → it2.remaining + 1 = it.remaining) ∧
      (it.remaining = 0 → it2.remaining = 2 ^ 64 - 1)) := by
  cases fuel with
  | zero => rw [nanocbor_leave_container] at h; exact absurd h (by simp)
  | succ k =>
  cases k with
  | zero => rw [nanocbor_leave_container, _leave_container] at h; exact absurd h (by simp)
  | succ k =>
  rw [nanocbor_leave_container, _leave_container] at h
  split at h
  · exact absurd (Prod.mk.inj (Option.some.inj h)).1 (by decide)
  · constructor
    · intro hns
      rw [if_neg (by simpa using hns)] at h
      split at h
      · exact absurd (Prod.mk.inj (Option.some.inj h)).1 (by decide)
      · have hrem : it2.remaining =
            if it.remaining ≠ 0 then dec64 it.remaining else it.remaining := by
          by_cases h0 : it.remaining = 0 <;> cases hci : nanocbor_container_indefinite child <;>
            simp [h0, hci] at h <;> simp [← h, h0]
        constructor
        · intro h0
          rw [hrem, if_pos h0]
          exact dec64_pos _ h0 hr
        · intro h0
          rw [hrem, if_neg (by simpa using h0)]
          exact h0
    · intro hs ht
      rw [if_pos hs] at h
      cases k with
      | zero => rw [_skip_limited] at h; exact absurd h (by simp)
      | succ k =>
      rw [_skip_limited] at h
      split at h
      · exact absurd (Prod.mk.inj (Option.some.inj h)).1 (by decide)
      · have h1 : ¬ (NANOCBOR_TYPE_FLOAT = NANOCBOR_TYPE_ARR ∨
            NANOCBOR_TYPE_FLOAT = NANOCBOR_TYPE_MAP) := by decide
        have h2 : ¬ (NANOCBOR_TYPE_FLOAT = NANOCBOR_TYPE_TAG) := by decide
        have h3 : NANOCBOR_TYPE_FLOAT ≥ 0 := by decide
        simp only [ht, h1, h2, h3, if_false, if_true] at h
        cases k with
        | zero => rw [_skip_simple] at h; exact absurd h (by simp)
        | succ k =>
        rw [_skip_simple] at h
        have h4 : ¬ (NANOCBOR_TYPE_FLOAT = NANOCBOR_TYPE_BSTR ∨
            NANOCBOR_TYPE_FLOAT = NANOCBOR_TYPE_TSTR) := by decide
        simp only [ht, h4, if_false] at h
        have hc := (Prod.mk.inj (Option.some.inj h)).1
        have hv := (Prod.mk.inj (Option.some.inj h)).2
        rcases get_uint64_pos mem it 0 NANOCBOR_SIZE_LONG NANOCBOR_TYPE_FLOAT with hx | hx
        · have hx2 : ¬ (_get_uint64 mem it 0 NANOCBOR_SIZE_LONG NANOCBOR_TYPE_FLOAT).1 > 0 := by
            omega
          simp only [hx2, if_false, hx, if_true] at hc
          rw [hc] at hx
          exact absurd hx (by decide)
        · simp only [_advance_if, hx, gt_iff_lt, if_true, _advance] at hv
          rw [← hv]
          constructor
          · intro h0
            exact dec64_pos _ h0 hr
          · intro h0
            show dec64 it.remaining = _
            rw [h0]
            rfl

/-- Witness of C21: in `82 80 01` the body of the outer array has two items left; entering
and leaving the empty inner array `80` leaves one. -/
theorem C21_leave_remaining_witness :
    (⟨17, 19, 2, 1, zero_tables defaultConfig, 0⟩ : nanocbor_value_t).remaining < 2 ^ 64 ∧
    nanocbor_enter_array defaultConfig (mem_of 16 [0x82, 0x80, 0x01]) 3
      ⟨17, 19, 2, 1, zero_tables defaultConfig, 0⟩ (stack_value defaultConfig) =
        some (NANOCBOR_OK, ⟨18, 19, 0, 1, zero_tables defaultConfig, 0⟩) ∧
    nanocbor_leave_container defaultConfig (mem_of 16 [0x82, 0x80, 0x01]) 3
      ⟨17, 19, 2, 1, zero_tables defaultConfig, 0⟩ ⟨18, 19, 0, 1, zero_tables defaultConfig, 0⟩ =
        some (NANOCBOR_OK, ⟨18, 19, 1, 1, zero_tables defaultConfig, 0⟩) ∧
    (⟨18, 19, 1, 1, zero_tables defaultConfig, 0⟩ : nanocbor_value_t).remaining + 1 =
      (⟨17, 19, 2, 1, zero_tables defaultConfig, 0⟩ : nanocbor_value_t).remaining :=
  ⟨by decide, by decide!, by decide!,
    ((C21_leave_remaining defaultConfig (mem_of 16 [0x82, 0x80, 0x01]) 3
      ⟨17, 19, 2, 1, zero_tables defaultConfig, 0⟩ ⟨18, 19, 0, 1, zero_tables defaultConfig, 0⟩
      ⟨18, 19, 1, 1, zero_tables defaultConfig, 0⟩ (by decide) (by decide!)).1 (by decide)).1
      (by decide)⟩

/-- Counterexample to C21 as stated: on the one-byte buffer `80` with a cursor from
`nanocbor_decoder_init` whose `remaining` is 0, `nanocbor_enter_array` returns `OK`, the child
is at its end, `nanocbor_leave_container` returns `OK`, and the parent's `remaining` is 0 as
before, not one less.  With the short-form reference `E0` at address 32 and the table `[[]]`
at address 16, a parent whose `remaining` is 0 enters the (shared-origin) empty array, the
leave returns `OK`, and the parent's `remaining` is `2^64 - 1`. -/
theorem C21_counterexample :
    ((nanocbor_enter_array defaultConfig (mem_of 16 [0x80]) 3
      { nanocbor_decoder_init defaultConfig (stack_value defaultConfig) 16 1 with remaining := 0 }
      (stack_value defaultConfig)).bind fun a =>
      (nanocbor_leave_container defaultConfig (mem_of 16 [0x80]) 3
        { nanocbor_decoder_init defaultConfig (stack_value defaultConfig) 16 1 with
          remaining := 0 } a.2).map
        fun r => (a.1, nanocbor_at_end (mem_of 16 [0x80]) a.2, r.1,
          decide (r.2.remaining + 1 = 0))) =
      some (NANOCBOR_OK, true, NANOCBOR_OK, false) ∧
    ((nanocbor_enter_array defaultConfig
      (mem_of 16 [0x81, 0x80, 0, 0, 0, 0, 0, 0, 0, 0, 0, 0, 0, 0, 0, 0, 0xE0]) 12
      (nanocbor_decoder_init_packed_table defaultConfig (stack_value defaultConfig) 32 1 16 2)
      (stack_value defaultConfig)).bind fun a =>
      (nanocbor_leave_container defaultConfig
        (mem_of 16 [0x81, 0x80, 0, 0, 0, 0, 0, 0, 0, 0, 0, 0, 0, 0, 0, 0, 0xE0]) 12
        (nanocbor_decoder_init_packed_table defaultConfig (stack_value defaultConfig) 32 1 16 2)
        a.2).map
        fun r => (a.1,
          nanocbor_at_end
            (mem_of 16 [0x81, 0x80, 0, 0, 0, 0, 0, 0, 0, 0, 0, 0, 0, 0, 0, 0, 0xE0]) a.2,
          (nanocbor_decoder_init_packed_table defaultConfig (stack_value defaultConfig)
            32 1 16 2).remaining, r.1, r.2.remaining)) =
      some (NANOCBOR_OK, true, 0, NANOCBOR_OK, 2 ^ 64 - 1) := by
  exact ⟨by decide!, by decide!⟩


/-! ## C30: a probe that answers `INVALID_TYPE` -/

theorem packed_handle_no_item (cfg : Config) (mem : Mem) (fuel : Nat)
    (it t : nanocbor_value_t) (limit : Nat)
    (hp : _packed_enabled it = true → ¬ PackedItemAt cfg mem it)
    (r : Int × nanocbor_value_t × nanocbor_value_t)
    (h : _packed_handle cfg mem fuel false it t limit = some r) :
    r.2.1 = it ∧ r.2.2 = t ∧ (r.1 = NANOCBOR_NOT_FOUND ∨ r.1 = NANOCBOR_ERR_RECURSION) := by
  cases fuel with
  | zero => rw [_packed_handle] at h; exact absurd h (by simp)
  | succ k =>
    rw [_packed_handle] at h
    by_cases he : _packed_enabled it = true
    · have hn := hp he
      unfold PackedItemAt at hn
      simp only [he, not_true_eq_false, if_false] at h
      by_cases hl : limit = 0
      · simp only [hl, if_true] at h
        rw [← Option.some.inj h]
        exact ⟨rfl, rfl, Or.inr rfl⟩
      · simp only [hl, if_false] at h
        by_cases ht : __get_type mem it = NANOCBOR_TYPE_TAG
        · simp only [ht, if_true] at h
          by_cases hneg : (_get_uint64 mem it 0 NANOCBOR_SIZE_WORD NANOCBOR_TYPE_TAG).1 < 0
          · simp only [hneg, if_true] at h
            rw [← Option.some.inj h]
            exact ⟨rfl, rfl, Or.inl rfl⟩
          · have hge : (_get_uint64 mem it 0 NANOCBOR_SIZE_WORD NANOCBOR_TYPE_TAG).1 ≥ 0 := by
              omega
            have h1 : ¬ (_get_uint64 mem it 0 NANOCBOR_SIZE_WORD NANOCBOR_TYPE_TAG).2 =
                cfg.NANOCBOR_TAG_PACKED_TABLE := fun hx => hn (Or.inl ⟨ht, hge, Or.inl hx⟩)
            have h2 : ¬ (_get_uint64 mem it 0 NANOCBOR_SIZE_WORD NANOCBOR_TYPE_TAG).2 =
                cfg.NANOCBOR_TAG_PACKED_REF_SHARED := fun hx => hn (Or.inl ⟨ht, hge, Or.inr hx⟩)
            simp only [hneg, h1, h2, if_false] at h
            rw [← Option.some.inj h]
            exact ⟨rfl, rfl, Or.inl rfl⟩
        · simp only [ht, if_false] at h
          by_cases hf : __get_type mem it = NANOCBOR_TYPE_FLOAT
          · have h1 : ¬ (byteAt mem it.cur &&& NANOCBOR_VALUE_MASK < 16) :=
              fun hx => hn (Or.inr ⟨hf, hx⟩)
            simp only [hf, h1, if_true, if_false] at h
            rw [← Option.some.inj h]
            exact ⟨rfl, rfl, Or.inl rfl⟩
          · have h0 : ¬ (NANOCBOR_NOT_FOUND = NANOCBOR_OK) := by decide
            simp only [hf, if_false, h0] at h
            rw [← Option.some.inj h]
            exact ⟨rfl, rfl, Or.inl rfl⟩
    · simp only [he, not_false_eq_true, if_true] at h
      rw [← Option.some.inj h]
      exact ⟨rfl, rfl, Or.inl rfl⟩

theorem PACKED_HANDLE_no_item (cfg : Config) (mem : Mem) (fuel : Nat)
    (it t : nanocbor_value_t) (limit : Nat)
    (hp : _packed_enabled it = true → ¬ PackedItemAt cfg mem it)
    (h : HandleOut) (hh : _PACKED_HANDLE cfg mem fuel false it t limit = some h) :
    h.cvalue = it ∧ h.it = it ∧ h.redirected = false ∧
      (h.ret = none ∨ h.ret = some NANOCBOR_ERR_RECURSION) := by
  cases fuel with
  | zero => rw [_PACKED_HANDLE] at hh; exact absurd hh (by simp)
  | succ k =>
    rw [_PACKED_HANDLE] at hh
    split at hh
    · rw [← Option.some.inj hh]
      exact ⟨rfl, rfl, rfl, Or.inr rfl⟩
    · cases hr : _packed_handle cfg mem k false it t (dec8 limit) with
      | none => rw [hr] at hh; exact absurd hh (by simp)
      | some r =>
        obtain ⟨f1, f2, f3⟩ := packed_handle_no_item cfg mem k it t (dec8 limit) hp r hr
        obtain ⟨res, c, tt⟩ := r
        simp only at f1 f2 f3
        subst f1 f2
        rw [hr] at hh
        rcases f3 with rfl | rfl
        · have h0 : ¬ (NANOCBOR_NOT_FOUND = NANOCBOR_OK) := by decide
          simp only [h0, if_false, ne_eq, not_true_eq_false] at hh
          rw [← Option.some.inj hh]
          exact ⟨rfl, rfl, rfl, Or.inl rfl⟩
        · have h0 : ¬ (NANOCBOR_ERR_RECURSION = NANOCBOR_OK) := by decide
          have h1 : NANOCBOR_ERR_RECURSION ≠ NANOCBOR_NOT_FOUND := by decide
          simp only [h0, if_false, ne_eq, h1, not_false_eq_true, if_true] at hh
          rw [← Option.some.inj hh]
          exact ⟨rfl, rfl, rfl, Or.inr rfl⟩

theorem advance_if_nonpos (it : nanocbor_value_t) (res : Int) (h : res ≤ 0) :
    _advance_if it res = it := by
  unfold _advance_if
  rw [if_neg (by omega)]

theorem handle_limited_no_item (cfg : Config) (mem : Mem) (fuel : Nat) (it : nanocbor_value_t)
    (hp : _packed_enabled it = true → ¬ PackedItemAt cfg mem it)
    (h : HandleOut) (hh : _PACKED_HANDLE_LIMITED cfg mem fuel it = some h) :
    h.cvalue = it ∧ h.it = it ∧ h.redirected = false ∧
      (h.ret = none ∨ h.ret = some NANOCBOR_ERR_RECURSION) :=
  PACKED_HANDLE_no_item cfg mem fuel it _ _ hp h hh

theorem probe_uint8 (cfg : Config) (mem : Mem) (fuel : Nat) (it : nanocbor_value_t)
    (v : Nat) (type : Int) (hp : _packed_enabled it = true → ¬ PackedItemAt cfg mem it)
    (r : Int × nanocbor_value_t × Nat)
    (h : _get_and_advance_uint8 cfg mem fuel it v type = some r) (hc : r.1 ≤ 0) :
    r.2.1 = it := by
  unfold _get_and_advance_uint8 at h
  cases hh : _PACKED_HANDLE_LIMITED cfg mem fuel it with
  | none => rw [hh] at h; exact absurd h (by simp)
  | some ho =>
    obtain ⟨f1, f2, f3, f4⟩ := handle_limited_no_item cfg mem fuel it hp ho hh
    rw [hh] at h
    rcases f4 with f4 | f4 <;> simp only [f4, f1, f2, f3] at h <;> rw [← Option.some.inj h] at hc ⊢
    · simp only [Bool.false_eq_true, if_false]
      exact advance_if_nonpos _ _ hc

theorem probe_uint64 (cfg : Config) (mem : Mem) (fuel : Nat) (it : nanocbor_value_t)
    (v max : Nat) (hp : _packed_enabled it = true → ¬ PackedItemAt cfg mem it)
    (r : Int × nanocbor_value_t × Nat)
    (h : _get_and_advance_uint64 cfg mem fuel it v max = some r) (hc : r.1 ≤ 0) :
    r.2.1 = it := by
  unfold _get_and_advance_uint64 at h
  cases hh : _PACKED_HANDLE_LIMITED cfg mem fuel it with
  | none => rw [hh] at h; exact absurd h (by simp)
  | some ho =>
    obtain ⟨f1, f2, f3, f4⟩ := handle_limited_no_item cfg mem fuel it hp ho hh
    rw [hh] at h
    rcases f4 with f4 | f4 <;> simp only [f4, f1, f2, f3] at h <;> rw [← Option.some.inj h] at hc ⊢
    · simp only [Bool.false_eq_true, if_false]
      exact advance_if_nonpos _ _ hc

theorem probe_int64 (cfg : Config) (mem : Mem) (fuel : Nat) (it : nanocbor_value_t)
    (v : Int) (max bound : Nat) (hp : _packed_enabled it = true → ¬ PackedItemAt cfg mem it)
    (r : Int × nanocbor_value_t × Int)
    (h : _get_and_advance_int64 cfg mem fuel it v max bound = some r) (hc : r.1 ≤ 0) :
    r.2.1 = it := by
  unfold _get_and_advance_int64 at h
  cases hh : _PACKED_HANDLE_LIMITED cfg mem fuel it with
  | none => rw [hh] at h; exact absurd h (by simp)
  | some ho =>
    obtain ⟨f1, f2, f3, f4⟩ := handle_limited_no_item cfg mem fuel it hp ho hh
    rw [hh] at h
    rcases f4 with f4 | f4 <;> simp only [f4, f1, f2, f3] at h
    · split at h
      · rw [← Option.some.inj h]
      · split at h
        · rw [← Option.some.inj h] at hc ⊢
          simp only [Bool.false_eq_true, if_false]
          exact advance_if_nonpos _ _ hc
        · rw [← Option.some.inj h]
    · rw [← Option.some.inj h]

theorem probe_str (cfg : Config) (mem : Mem) (fuel : Nat) (it : nanocbor_value_t)
    (buf len : Nat) (type : Int) (hp : _packed_enabled it = true → ¬ PackedItemAt cfg mem it)
    (r : Int × nanocbor_value_t × Nat × Nat)
    (h : _get_str cfg mem fuel it buf len type = some r) (hc : r.1 ≠ NANOCBOR_OK) :
    r.2.1 = it := by
  cases fuel with
  | zero => rw [_get_str] at h; exact absurd h (by simp)
  | succ k =>
    rw [_get_str] at h
    cases hh : _PACKED_HANDLE cfg mem k false it (stack_value cfg)
        (cfg.NANOCBOR_RECURSION_MAX % 256) with
    | none => rw [hh] at h; exact absurd h (by simp)
    | some ho =>
      obtain ⟨f1, f2, f3, f4⟩ := PACKED_HANDLE_no_item cfg mem k it _ _ hp ho hh
      rw [hh] at h
      rcases f4 with f4 | f4 <;> simp only [f4, f1, f2, f3] at h
      · split at h
        · rw [← Option.some.inj h]
        · split at h
          · rw [← Option.some.inj h] at hc
            exact absurd rfl hc
          · rw [← Option.some.inj h]
      · rw [← Option.some.inj h]

theorem probe_tag (cfg : Config) (mem : Mem) (fuel : Nat) (it : nanocbor_value_t)
    (tag : Nat) (hp : _packed_enabled it = true → ¬ PackedItemAt cfg mem it)
    (r : Int × nanocbor_value_t × Nat)
    (h : nanocbor_get_tag cfg mem fuel it tag = some r) (hc : r.1 ≠ NANOCBOR_OK) :
    r.2.1 = it := by
  unfold nanocbor_get_tag at h
  cases hh : _PACKED_HANDLE_LIMITED cfg mem fuel it with
  | none => rw [hh] at h; exact absurd h (by simp)
  | some ho =>
    obtain ⟨f1, f2, f3, f4⟩ := handle_limited_no_item cfg mem fuel it hp ho hh
    rw [hh] at h
    rcases f4 with f4 | f4 <;> simp only [f4, f1, f2, f3] at h
    · split at h
      · rw [← Option.some.inj h] at hc
        exact absurd rfl hc
      · rw [← Option.some.inj h]
    · rw [← Option.some.inj h]

theorem value_match_exact_cursor (mem : Mem) (it : nanocbor_value_t) (val : Nat)
    (hc : (_value_match_exact mem it val).1 ≠ NANOCBOR_OK) :
    (_value_match_exact mem it val).2 = it := by
  unfold _value_match_exact at hc ⊢
  split
  · rfl
  · split
    · rename_i h1 h2
      rw [if_neg h1, if_pos h2] at hc
      exact absurd rfl hc
    · rfl

theorem probe_simple_exact (cfg : Config) (mem : Mem) (fuel : Nat) (it : nanocbor_value_t)
    (val : Nat) (hp : _packed_enabled it = true → ¬ PackedItemAt cfg mem it)
    (r : Int × nanocbor_value_t)
    (h : _get_simple_exact cfg mem fuel it val = some r) (hc : r.1 ≠ NANOCBOR_OK) :
    r.2 = it := by
  unfold _get_simple_exact at h
  cases hh : _PACKED_HANDLE_LIMITED cfg mem fuel it with
  | none => rw [hh] at h; exact absurd h (by simp)
  | some ho =>
    obtain ⟨f1, f2, f3, f4⟩ := handle_limited_no_item cfg mem fuel it hp ho hh
    rw [hh] at h
    rcases f4 with f4 | f4 <;> simp only [f4, f1, f2, f3] at h <;> rw [← Option.some.inj h] at hc ⊢
    · simp only [Bool.false_eq_true, if_false]
      exact value_match_exact_cursor mem it val hc

theorem probe_bool (cfg : Config) (mem : Mem) (fuel : Nat) (it : nanocbor_value_t)
    (value : Bool) (hp : _packed_enabled it = true → ¬ PackedItemAt cfg mem it)
    (r : Int × nanocbor_value_t × Bool)
    (h : nanocbor_get_bool cfg mem fuel it value = some r) (hc : r.1 < 0) :
    r.2.1 = it := by
  unfold nanocbor_get_bool at h
  cases hh : _PACKED_HANDLE_LIMITED cfg mem fuel it with
  | none => rw [hh] at h; exact absurd h (by simp)
  | some ho =>
    obtain ⟨f1, f2, f3, f4⟩ := handle_limited_no_item cfg mem fuel it hp ho hh
    rw [hh] at h
    rcases f4 with f4 | f4 <;> simp only [f4, f1, f2, f3] at h
    · split at h
      · rename_i hge
        rw [← Option.some.inj h] at hc
        simp only at hc
        have : NANOCBOR_OK = 0 := rfl
        omega
      · rename_i hge
        have e1 := value_match_exact_cursor mem it
          (NANOCBOR_MASK_FLOAT ||| NANOCBOR_SIMPLE_FALSE)
          (fun hx => hge (by rw [hx]))
        rw [e1] at h
        rw [← Option.some.inj h] at hc ⊢
        simp only [Bool.false_eq_true, if_false] at hc ⊢
        exact value_match_exact_cursor mem it _ (fun hx => by rw [hx] at hc; exact absurd hc (by decide))
    · rw [← Option.some.inj h]

theorem decode_float_cursor (mem : Mem) (it : nanocbor_value_t) :
    ((_decode_half_float mem it).1 ≤ 0 → (_decode_half_float mem it).2 = it) ∧
    ((_decode_float mem it).1 ≤ 0 → (_decode_float mem it).2 = it) := by
  constructor
  · unfold _decode_half_float
    intro h
    dsimp only at h ⊢
    split
    · rename_i h3
      rw [if_pos h3] at h
      simp only at h
      omega
    · rfl
  · unfold _decode_float
    intro h
    dsimp only at h ⊢
    split
    · rename_i h3
      rw [if_pos h3] at h
      simp only at h
      omega
    · rfl

theorem probe_float (cfg : Config) (mem : Mem) (fuel : Nat) (it : nanocbor_value_t)
    (hp : _packed_enabled it = true → ¬ PackedItemAt cfg mem it)
    (r : Int × nanocbor_value_t)
    (h : nanocbor_get_float cfg mem fuel it = some r) (hc : r.1 < 0) :
    r.2 = it := by
  unfold nanocbor_get_float at h
  cases hh : _PACKED_HANDLE_LIMITED cfg mem fuel it with
  | none => rw [hh] at h; exact absurd h (by simp)
  | some ho =>
    obtain ⟨f1, f2, f3, f4⟩ := handle_limited_no_item cfg mem fuel it hp ho hh
    rw [hh] at h
    rcases f4 with f4 | f4 <;> simp only [f4, f1, f2, f3] at h <;> rw [← Option.some.inj h] at hc ⊢
    · simp only [Bool.false_eq_true, if_false] at hc ⊢
      by_cases hneg : (_decode_half_float mem it).1 < 0
      · rw [if_pos hneg] at hc ⊢
        rw [(decode_float_cursor mem it).1 (by omega)] at hc ⊢
        exact (decode_float_cursor mem it).2 (by omega)
      · rw [if_neg hneg] at hc
        exact absurd hc hneg

/-- Where the probe of C30 is non-destructive.  For every cursor that does not stand on a
packed item under packed support (a table-definition tag, a shared-reference tag or a simple
value `0..15`), in particular for every cursor without packed support, and for every accessor
among `nanocbor_get_uint8/16/32/64`,
`nanocbor_get_int8/16/32/64`, `nanocbor_get_bstr`, `nanocbor_get_tstr`, `nanocbor_get_tag`,
`nanocbor_get_null`, `nanocbor_get_undefined`, `nanocbor_get_bool`, `nanocbor_get_simple` and
`nanocbor_get_float`: if the accessor returns `INVALID_TYPE`, the caller's cursor (`cur`,
`end`, `remaining`, `flags` and tables) is unchanged. -/
theorem C30_probe (cfg : Config) (mem : Mem) (fuel : Nat) (it : nanocbor_value_t)
    (hp : _packed_enabled it = true → ¬ PackedItemAt cfg mem it) :
    (∀ v r, nanocbor_get_uint8 cfg mem fuel it v = some r →
      r.1 = NANOCBOR_ERR_INVALID_TYPE → r.2.1 = it) ∧
    (∀ r, nanocbor_get_uint16 cfg mem fuel it = some r →
      r.1 = NANOCBOR_ERR_INVALID_TYPE → r.2.1 = it) ∧
    (∀ r, nanocbor_get_uint32 cfg mem fuel it = some r →
      r.1 = NANOCBOR_ERR_INVALID_TYPE → r.2.1 = it) ∧
    (∀ r, nanocbor_get_uint64 cfg mem fuel it = some r →
      r.1 = NANOCBOR_ERR_INVALID_TYPE → r.2.1 = it) ∧
    (∀ r, nanocbor_get_int8 cfg mem fuel it = some r →
      r.1 = NANOCBOR_ERR_INVALID_TYPE → r.2.1 = it) ∧
    (∀ r, nanocbor_get_int16 cfg mem fuel it = some r →
      r.1 = NANOCBOR_ERR_INVALID_TYPE → r.2.1 = it) ∧
    (∀ r, nanocbor_get_int32 cfg mem fuel it = some r →
      r.1 = NANOCBOR_ERR_INVALID_TYPE → r.2.1 = it) ∧
    (∀ v r, nanocbor_get_int64 cfg mem fuel it v = some r →
      r.1 = NANOCBOR_ERR_INVALID_TYPE → r.2.1 = it) ∧
    (∀ buf len r, nanocbor_get_bstr cfg mem fuel it buf len = some r →
      r.1 = NANOCBOR_ERR_INVALID_TYPE → r.2.1 = it) ∧
    (∀ buf len r, nanocbor_get_tstr cfg mem fuel it buf len = some r →
      r.1 = NANOCBOR_ERR_INVALID_TYPE → r.2.1 = it) ∧
    (∀ tag r, nanocbor_get_tag cfg mem fuel it tag = some r →
      r.1 = NANOCBOR_ERR_INVALID_TYPE → r.2.1 = it) ∧
    (∀ r, nanocbor_get_null cfg mem fuel it = some r →
      r.1 = NANOCBOR_ERR_INVALID_TYPE → r.2 = it) ∧
    (∀ r, nanocbor_get_undefined cfg mem fuel it = some r →
      r.1 = NANOCBOR_ERR_INVALID_TYPE → r.2 = it) ∧
    (∀ v r, nanocbor_get_bool cfg mem fuel it v = some r →
      r.1 = NANOCBOR_ERR_INVALID_TYPE → r.2.1 = it) ∧
    (∀ v r, nanocbor_get_simple cfg mem fuel it v = some r →
      r.1 = NANOCBOR_ERR_INVALID_TYPE → r.2.1 = it) ∧
    (∀ r, nanocbor_get_float cfg mem fuel it = some r →
      r.1 = NANOCBOR_ERR_INVALID_TYPE → r.2 = it) := by
  have hle : NANOCBOR_ERR_INVALID_TYPE ≤ 0 := by decide
  have hne : NANOCBOR_ERR_INVALID_TYPE ≠ NANOCBOR_OK := by decide
  have hlt : NANOCBOR_ERR_INVALID_TYPE < 0 := by decide
  refine ⟨?_, ?_, ?_, ?_, ?_, ?_, ?_, ?_, ?_, ?_, ?_, ?_, ?_, ?_, ?_, ?_⟩
  · intro v r h hc
    exact probe_uint8 cfg mem fuel it v _ hp r h (by rw [hc]; exact hle)
  · intro r h hc
    unfold nanocbor_get_uint16 at h
    cases hq : _get_and_advance_uint64 cfg mem fuel it 0 NANOCBOR_SIZE_SHORT with
    | none => rw [hq] at h; exact absurd h (by simp)
    | some q =>
      obtain ⟨res, c, tmp⟩ := q
      rw [hq] at h
      rw [← Option.some.inj h] at hc ⊢
      simp only at hc
      exact probe_uint64 cfg mem fuel it _ _ hp (res, c, tmp) hq
        (by show res ≤ 0; rw [hc]; exact hle)
  · intro r h hc
    unfold nanocbor_get_uint32 at h
    cases hq : _get_and_advance_uint64 cfg mem fuel it 0 NANOCBOR_SIZE_WORD with
    | none => rw [hq] at h; exact absurd h (by simp)
    | some q =>
      obtain ⟨res, c, tmp⟩ := q
      rw [hq] at h
      rw [← Option.some.inj h] at hc ⊢
      simp only at hc
      exact probe_uint64 cfg mem fuel it _ _ hp (res, c, tmp) hq
        (by show res ≤ 0; rw [hc]; exact hle)
  · intro r h hc
    unfold nanocbor_get_uint64 at h
    cases hq : _get_and_advance_uint64 cfg mem fuel it 0 NANOCBOR_SIZE_LONG with
    | none => rw [hq] at h; exact absurd h (by simp)
    | some q =>
      obtain ⟨res, c, tmp⟩ := q
      rw [hq] at h
      rw [← Option.some.inj h] at hc ⊢
      simp only at hc
      exact probe_uint64 cfg mem fuel it _ _ hp (res, c, tmp) hq
        (by show res ≤ 0; rw [hc]; exact hle)
  · intro r h hc
    unfold nanocbor_get_int8 at h
    cases hq : _get_and_advance_int64 cfg mem fuel it 0 NANOCBOR_SIZE_BYTE (2 ^ 7 - 1) with
    | none => rw [hq] at h; exact absurd h (by simp)
    | some q =>
      obtain ⟨res, c, tmp⟩ := q
      rw [hq] at h
      rw [← Option.some.inj h] at hc ⊢
      simp only at hc
      exact probe_int64 cfg mem fuel it _ _ _ hp (res, c, tmp) hq
        (by show res ≤ 0; rw [hc]; exact hle)
  · intro r h hc
    unfold nanocbor_get_int16 at h
    cases hq : _get_and_advance_int64 cfg mem fuel it 0 NANOCBOR_SIZE_SHORT (2 ^ 15 - 1) with
    | none => rw [hq] at h; exact absurd h (by simp)
    | some q =>
      obtain ⟨res, c, tmp⟩ := q
      rw [hq] at h
      rw [← Option.some.inj h] at hc ⊢
      simp only at hc
      exact probe_int64 cfg mem fuel it _ _ _ hp (res, c, tmp) hq
        (by show res ≤ 0; rw [hc]; exact hle)
  · intro r h hc
    unfold nanocbor_get_int32 at h
    cases hq : _get_and_advance_int64 cfg mem fuel it 0 NANOCBOR_SIZE_WORD (2 ^ 31 - 1) with
    | none => rw [hq] at h; exact absurd h (by simp)
    | some q =>
      obtain ⟨res, c, tmp⟩ := q
      rw [hq] at h
      rw [← Option.some.inj h] at hc ⊢
      simp only at hc
      exact probe_int64 cfg mem fuel it _ _ _ hp (res, c, tmp) hq
        (by show res ≤ 0; rw [hc]; exact hle)
  · intro v r h hc
    exact probe_int64 cfg mem fuel it _ _ _ hp r h (by rw [hc]; exact hle)
  · intro buf len r h hc
    exact probe_str cfg mem fuel it buf len _ hp r h (by rw [hc]; exact hne)
  · intro buf len r h hc
    exact probe_str cfg mem fuel it buf len _ hp r h (by rw [hc]; exact hne)
  · intro tag r h hc
    exact probe_tag cfg mem fuel it tag hp r h (by rw [hc]; exact hne)
  · intro r h hc
    exact probe_simple_exact cfg mem fuel it _ hp r h (by rw [hc]; exact hne)
  · intro r h hc
    exact probe_simple_exact cfg mem fuel it _ hp r h (by rw [hc]; exact hne)
  · intro v r h hc
    exact probe_bool cfg mem fuel it v hp r h (by rw [hc]; exact hlt)
  · intro v r h hc
    unfold nanocbor_get_simple at h
    cases hq : _get_and_advance_uint8 cfg mem fuel it v NANOCBOR_TYPE_FLOAT with
    | none => rw [hq] at h; exact absurd h (by simp)
    | some q =>
      obtain ⟨res, c, tmp⟩ := q
      rw [hq] at h
      rw [← Option.some.inj h] at hc ⊢
      simp only at hc ⊢
      refine probe_uint8 cfg mem fuel it v _ hp _ hq ?_
      show res ≤ 0
      by_contra hpos
      have h1 : res ≠ NANOCBOR_ERR_OVERFLOW := by
        intro hx; rw [hx] at hpos; exact hpos (by decide)
      rw [if_neg h1, if_pos (by omega)] at hc
      exact absurd hc.symm hne
  · intro r h hc
    exact probe_float cfg mem fuel it hp r h (by rw [hc]; exact hlt)

/-- An instance of `C30_probe`: on the text string `61 61` a cursor with packed support
answers `nanocbor_get_uint8` with `INVALID_TYPE` and is left as it was. -/
theorem C30_probe_witness :
    (_packed_enabled (nanocbor_decoder_init_packed defaultConfig (stack_value defaultConfig)
        16 2) = true →
      ¬ PackedItemAt defaultConfig (mem_of 16 [0x61, 0x61])
        (nanocbor_decoder_init_packed defaultConfig (stack_value defaultConfig) 16 2)) ∧
    nanocbor_get_uint8 defaultConfig (mem_of 16 [0x61, 0x61]) 4
      (nanocbor_decoder_init_packed defaultConfig (stack_value defaultConfig) 16 2) 0 =
      some (NANOCBOR_ERR_INVALID_TYPE,
        nanocbor_decoder_init_packed defaultConfig (stack_value defaultConfig) 16 2, 0) ∧
    (NANOCBOR_ERR_INVALID_TYPE,
      nanocbor_decoder_init_packed defaultConfig (stack_value defaultConfig) 16 2, 0).2.1 =
      nanocbor_decoder_init_packed defaultConfig (stack_value defaultConfig) 16 2 :=
  ⟨fun _ => by decide!, by decide!,
    (C30_probe defaultConfig (mem_of 16 [0x61, 0x61]) 4
      (nanocbor_decoder_init_packed defaultConfig (stack_value defaultConfig) 16 2)
      (fun _ => by decide!)).1 0 _ (by decide!) rfl⟩

/-- C30 (divergence). On a packed item the caller's cursor is moved before the type of the
resolved item is known, and it is not moved back when the accessor answers `INVALID_TYPE`.

* In `113([[null], [simple(0), 5]])`, bytes `D8 71 82 81 F6 82 E0 05`, the body of the rump
  array stands on the reference `simple(0)` to `null` (`cur` 22, `remaining` 2).
  `nanocbor_get_bool` returns `INVALID_TYPE` and leaves the cursor behind the reference
  (`cur` 23, `remaining` 1); the `nanocbor_get_null` that follows sees the `05` and returns
  `INVALID_TYPE` too, so the `null` is lost, although `nanocbor_get_null` on the body as it
  was returns `OK`.
* On the same items without packing, `82 F6 05`, `nanocbor_get_bool` returns `INVALID_TYPE`
  with the cursor unchanged, and `nanocbor_get_null` then returns `OK`.
* On `D8 71 82 80 61 61`, the table definition `113([[], "a"])`, `nanocbor_get_uint8` returns
  `INVALID_TYPE` and the cursor has moved from the table tag at 16 to the end of the buffer.
* In `113([["a"], [simple(0), 5]])`, bytes `D8 71 82 81 61 61 82 E0 05`, `nanocbor_get_uint8`
  on the body of the rump array returns `INVALID_TYPE` and the cursor has stepped over the
  reference (`cur` 23 to 24, `remaining` 2 to 1). -/
theorem C30_probe_moves_cursor :
    ((nanocbor_enter_array defaultConfig
      (mem_of 16 [0xD8, 0x71, 0x82, 0x81, 0xF6, 0x82, 0xE0, 0x05]) 14
      (nanocbor_decoder_init_packed defaultConfig (stack_value defaultConfig) 16 8)
      (stack_value defaultConfig)).bind fun a =>
      (nanocbor_get_bool defaultConfig
        (mem_of 16 [0xD8, 0x71, 0x82, 0x81, 0xF6, 0x82, 0xE0, 0x05]) 14 a.2 false).bind
        fun r =>
        (nanocbor_get_null defaultConfig
          (mem_of 16 [0xD8, 0x71, 0x82, 0x81, 0xF6, 0x82, 0xE0, 0x05]) 14 r.2.1).map
          fun q => (a.2.cur, a.2.remaining, r.1, r.2.1.cur, r.2.1.remaining, q.1)) =
      some (22, 2, NANOCBOR_ERR_INVALID_TYPE, 23, 1, NANOCBOR_ERR_INVALID_TYPE) ∧
    ((nanocbor_enter_array defaultConfig
      (mem_of 16 [0xD8, 0x71, 0x82, 0x81, 0xF6, 0x82, 0xE0, 0x05]) 14
      (nanocbor_decoder_init_packed defaultConfig (stack_value defaultConfig) 16 8)
      (stack_value defaultConfig)).bind fun a =>
      (nanocbor_get_null defaultConfig
        (mem_of 16 [0xD8, 0x71, 0x82, 0x81, 0xF6, 0x82, 0xE0, 0x05]) 14 a.2).map
        fun q => (a.2.cur, q.1, q.2.cur)) = some (22, NANOCBOR_OK, 23) ∧
    ((nanocbor_enter_array defaultConfig (mem_of 16 [0x82, 0xF6, 0x05]) 14
      (nanocbor_decoder_init defaultConfig (stack_value defaultConfig) 16 3)
      (stack_value defaultConfig)).bind fun a =>
      (nanocbor_get_bool defaultConfig (mem_of 16 [0x82, 0xF6, 0x05]) 14 a.2 false).bind
        fun r =>
        (nanocbor_get_null defaultConfig (mem_of 16 [0x82, 0xF6, 0x05]) 14 r.2.1).map
          fun q => (a.2.cur, r.1, decide (r.2.1 = a.2), q.1, q.2.cur)) =
      some (17, NANOCBOR_ERR_INVALID_TYPE, true, NANOCBOR_OK, 18) ∧
    (nanocbor_get_uint8 defaultConfig (mem_of 16 [0xD8, 0x71, 0x82, 0x80, 0x61, 0x61]) 14
      (nanocbor_decoder_init_packed defaultConfig (stack_value defaultConfig) 16 6) 0).map
        (fun r => (r.1, r.2.1.cur,
          decide (r.2.1 =
            nanocbor_decoder_init_packed defaultConfig (stack_value defaultConfig) 16 6))) =
      some (NANOCBOR_ERR_INVALID_TYPE, 22, false) ∧
    (nanocbor_decoder_init_packed defaultConfig (stack_value defaultConfig) 16 6).cur = 16 ∧
    ((nanocbor_enter_array defaultConfig
      (mem_of 16 [0xD8, 0x71, 0x82, 0x81, 0x61, 0x61, 0x82, 0xE0, 0x05]) 14
      (nanocbor_decoder_init_packed defaultConfig (stack_value defaultConfig) 16 9)
      (stack_value defaultConfig)).bind fun a =>
      (nanocbor_get_uint8 defaultConfig
        (mem_of 16 [0xD8, 0x71, 0x82, 0x81, 0x61, 0x61, 0x82, 0xE0, 0x05]) 14 a.2 0).map
        fun r => (a.1, a.2.cur, a.2.remaining, r.1, r.2.1.cur, r.2.1.remaining)) =
      some (NANOCBOR_OK, 23, 2, NANOCBOR_ERR_INVALID_TYPE, 24, 1) := by
  exact ⟨by decide!, by decide!, by decide!, by decide!, by decide!, by decide!⟩


/-! ## Skipping on a cursor with packed support -/

theorem enter_container_enabled (cfg : Config) (mem : Mem) (k : Nat)
    (it container : nanocbor_value_t) (type : Int) (limit : Nat)
    (he : _packed_enabled it = true) (h0 : limit ≠ 0) (h1 : dec8 limit ≠ 0)
    (h6 : __get_type mem it ≠ NANOCBOR_TYPE_TAG) (h7 : __get_type mem it ≠ NANOCBOR_TYPE_FLOAT) :
    _enter_container cfg mem (k + 3) it container type limit =
      if ¬ _over_end it ∧
          byteAt mem it.cur =
            (type.toNat <<< NANOCBOR_TYPE_OFFSET ||| NANOCBOR_SIZE_INDEFINITE) % 256 then
        some (NANOCBOR_OK, it,
          { container with
            shared_item_tables := it.shared_item_tables,
            num_active_tables := it.num_active_tables,
            flags := 7, end_ := it.end_, remaining := 0, cur := it.cur + 1 })
      else if (_get_uint64 mem it 0 NANOCBOR_SIZE_LONG type).1 < 0 then
        some ((_get_uint64 mem it 0 NANOCBOR_SIZE_LONG type).1, it,
          { container with
            shared_item_tables := it.shared_item_tables,
            num_active_tables := it.num_active_tables,
            flags := 4, end_ := it.end_,
            remaining := (_get_uint64 mem it 0 NANOCBOR_SIZE_LONG type).2 })
      else
        some (NANOCBOR_OK, it,
          { container with
            shared_item_tables := it.shared_item_tables,
            num_active_tables := it.num_active_tables,
            flags := 5, end_ := it.end_,
            remaining := (_get_uint64 mem it 0 NANOCBOR_SIZE_LONG type).2,
            cur := it.cur + (_get_uint64 mem it 0 NANOCBOR_SIZE_LONG type).1.toNat }) := by
  rw [_enter_container]
  simp only [he, if_true, PACKED_HANDLE_plain cfg mem k false it _ limit h0 (fun _ => h1) h6 h7,
    HandleOut.it, Bool.false_eq_true, if_false, _packed_copy_tables]
  split <;> [skip; split] <;>
    simp [NANOCBOR_DECODER_FLAG_INDEFINITE, NANOCBOR_DECODER_FLAG_CONTAINER,
      NANOCBOR_DECODER_FLAG_PACKED_SUPPORT, *]

theorem skip_limited_str_any (cfg : Config) (mem : Mem) (fuel : Nat) (it : nanocbor_value_t)
    (limit : Nat) (hl : limit ≠ 0) (hr : 2 ≤ cfg.NANOCBOR_RECURSION_MAX % 256)
    (hne : nanocbor_at_end mem it = false)
    (hm : byteAt mem it.cur / 32 = 2 ∨ byteAt mem it.cur / 32 = 3)
    (hi : byteAt mem it.cur % 32 ≤ 27)
    (hs : byteAt mem it.cur % 32 ≤ cfg.NANOCBOR_SIZE_SIZET)
    (h32 : head_len (byteAt mem it.cur % 32) + head_arg mem it.cur < 2 ^ 32)
    (hend : it.cur + (head_len (byteAt mem it.cur % 32) + head_arg mem it.cur) ≤ it.end_) :
    _skip_limited cfg mem (fuel + 5) it limit =
      some (NANOCBOR_OK,
        _advance it (head_len (byteAt mem it.cur % 32) + head_arg mem it.cur)) := by
  have hg := get_type_of_not_at_end mem it hne
  have hb := byteAt_lt mem it.cur
  have hu := get_uint64_head mem it 0 cfg.NANOCBOR_SIZE_SIZET (byteAt mem it.cur / 32) hne rfl hi
    (fun _ => hs) (by omega)
  have h1 : ¬ ((((byteAt mem it.cur / 32 : Nat) : Int) = NANOCBOR_TYPE_ARR) ∨
      (((byteAt mem it.cur / 32 : Nat) : Int) = NANOCBOR_TYPE_MAP)) := by
    simp only [NANOCBOR_TYPE_ARR, NANOCBOR_TYPE_MAP]
    omega
  have h2 : ¬ (((byteAt mem it.cur / 32 : Nat) : Int) = NANOCBOR_TYPE_TAG) := by
    simp only [NANOCBOR_TYPE_TAG]
    omega
  have h3 : (((byteAt mem it.cur / 32 : Nat) : Int) ≥ 0) := by omega
  have hs1 : ((((byteAt mem it.cur / 32 : Nat) : Int) = NANOCBOR_TYPE_BSTR) ∨
      (((byteAt mem it.cur / 32 : Nat) : Int) = NANOCBOR_TYPE_TSTR)) := by
    simp only [NANOCBOR_TYPE_BSTR, NANOCBOR_TYPE_TSTR]
    omega
  have hu8 : ((u8 ((byteAt mem it.cur / 32 : Nat) : Int) : Nat) : Int) =
      ((byteAt mem it.cur / 32 : Nat) : Int) := by
    unfold u8
    omega
  have hge : ((head_len (byteAt mem it.cur % 32) : Nat) : Int) ≥ 0 := by omega
  have hno : ¬ (it.end_ < it.cur ∨ it.end_ - it.cur < head_arg mem it.cur) := by omega
  rw [_skip_limited]
  simp only [hl, hg, h1, h2, h3, if_false, if_true]
  rw [_skip_simple]
  simp only [hg, hs1, if_true, hu8]
  have hr256 : cfg.NANOCBOR_RECURSION_MAX % 256 < 256 := Nat.mod_lt _ (by decide)
  have h6 : __get_type mem it ≠ NANOCBOR_TYPE_TAG := by
    rw [hg]; simp only [NANOCBOR_TYPE_TAG]; omega
  have h7 : __get_type mem it ≠ NANOCBOR_TYPE_FLOAT := by
    rw [hg]; simp only [NANOCBOR_TYPE_FLOAT]; omega
  rw [_get_str, PACKED_HANDLE_plain cfg mem fuel false it _ _ (by omega)
    (fun _ => by rw [dec8_eq _ (by omega) hr256]; omega) h6 h7]
  simp only [HandleOut.it, Bool.false_eq_true, if_false, hu, hno, hge, if_true, Int.toNat_ofNat,
    Nat.mod_eq_of_lt h32]
  simp [NANOCBOR_OK]

theorem skips_simple_any (cfg : Config) (mem : Mem) (d a len : Nat)
    (hr : 2 ≤ cfg.NANOCBOR_RECURSION_MAX % 256) (h : SimpleItemAt cfg mem a len) :
    SkipsOverAny cfg mem d a len := by
  intro it limit hdl _ hcur hne hend
  subst hcur
  refine ⟨dec64 it.remaining, fun _ => rfl, 5, fun fuel hf => ?_⟩
  obtain ⟨k, rfl⟩ : ∃ k, fuel = k + 5 := ⟨fuel - 5, by omega⟩
  obtain ⟨hi, h⟩ := h
  rcases h with ⟨hm, rfl⟩ | ⟨hm, hs, rfl, h32⟩
  · rw [skip_limited_prim cfg mem (k + 3) it limit (by omega) hne hm hi hend]
    rfl
  · rw [skip_limited_str_any cfg mem k it limit (by omega) hr hne hm hi hs h32 hend]
    rfl

theorem skips_tag_any (cfg : Config) (mem : Mem) (d a l : Nat)
    (hm : byteAt mem a / 32 = 6) (hi : byteAt mem a % 32 ≤ 26)
    (hl1 : 1 ≤ l) (hff : byteAt mem (a + head_len (byteAt mem a % 32)) ≠ 0xFF)
    (hs : SkipsOverAny cfg mem d (a + head_len (byteAt mem a % 32)) l) :
    SkipsOverAny cfg mem (d + 1) a (head_len (byteAt mem a % 32) + l) := by
  intro it limit hdl hl256 hcur hne hend
  subst hcur
  have hne1 : nanocbor_at_end mem { it with cur := it.cur + head_len (byteAt mem it.cur % 32) }
      = false := at_end_move mem it _ hne (by omega) hff
  obtain ⟨r, hr, N, hN⟩ := hs { it with cur := it.cur + head_len (byteAt mem it.cur % 32) }
    (dec8 limit) (by rw [dec8_eq limit (by omega) hl256]; omega)
    (by rw [dec8_eq limit (by omega) hl256]; omega) rfl hne1 (by simp only; omega)
  dsimp only at hr hN
  refine ⟨r, hr, N + 1, fun fuel hf => ?_⟩
  obtain ⟨k, rfl⟩ : ∃ k, fuel = k + 1 := ⟨fuel - 1, by omega⟩
  have hg := get_type_of_not_at_end mem it hne
  have hu := get_uint64_head mem it 0 NANOCBOR_SIZE_WORD 6 hne hm (by omega)
    (fun _ => by simpa [NANOCBOR_SIZE_WORD] using hi) (by omega)
  have h1 : ¬ ((((byteAt mem it.cur / 32 : Nat) : Int) = NANOCBOR_TYPE_ARR) ∨
      (((byteAt mem it.cur / 32 : Nat) : Int) = NANOCBOR_TYPE_MAP)) := by
    simp only [NANOCBOR_TYPE_ARR, NANOCBOR_TYPE_MAP]
    omega
  have h2 : (((byteAt mem it.cur / 32 : Nat) : Int) = NANOCBOR_TYPE_TAG) := by
    simp only [NANOCBOR_TYPE_TAG]
    omega
  have hge : ((head_len (byteAt mem it.cur % 32) : Nat) : Int) ≥ 0 := by omega
  have hnn : ¬ (((byteAt mem it.cur / 32 : Nat) : Int) < 0) := by omega
  rw [_skip_limited]
  simp only [show limit ≠ 0 by omega, hg, h1, hnn, if_false, if_true]
  rw [if_pos h2]
  simp only [Nat.cast_ofNat] at hu
  simp only [NANOCBOR_TYPE_TAG, Nat.cast_ofNat, hu, hge, if_true, Int.toNat_ofNat,
    hN k (by omega)]
  simp [Nat.add_assoc]

theorem enter_enabled (cfg : Config) (mem : Mem) (k : Nat)
    (it child : nanocbor_value_t) (he : _packed_enabled it = true)
    (hr : 3 ≤ cfg.NANOCBOR_RECURSION_MAX % 256)
    (hne : nanocbor_at_end mem it = false) :
    (byteAt mem it.cur = 0x9F →
      nanocbor_enter_array cfg mem (k + 4) it child = some (NANOCBOR_OK,
        { child with
          shared_item_tables := it.shared_item_tables,
          num_active_tables := it.num_active_tables,
          flags := 7, end_ := it.end_, remaining := 0, cur := it.cur + 1 })) ∧
    (byteAt mem it.cur = 0xBF →
      nanocbor_enter_map cfg mem (k + 4) it child = some (NANOCBOR_OK,
        { child with
          shared_item_tables := it.shared_item_tables,
          num_active_tables := it.num_active_tables,
          flags := 7, end_ := it.end_, remaining := 0, cur := it.cur + 1 })) ∧
    (DefiniteHead mem it 4 →
      nanocbor_enter_array cfg mem (k + 4) it child = some (NANOCBOR_OK,
        { child with
          shared_item_tables := it.shared_item_tables,
          num_active_tables := it.num_active_tables,
          flags := 5, end_ := it.end_, remaining := head_arg mem it.cur,
          cur := it.cur + head_len (byteAt mem it.cur % 32) })) ∧
    (DefiniteHead mem it 5 → head_arg mem it.cur < 2 ^ 63 →
      nanocbor_enter_map cfg mem (k + 4) it child = some (NANOCBOR_OK,
        { child with
          shared_item_tables := it.shared_item_tables,
          num_active_tables := it.num_active_tables,
          flags := 5, end_ := it.end_, remaining := 2 * head_arg mem it.cur,
          cur := it.cur + head_len (byteAt mem it.cur % 32) })) := by
  have hoe := not_over_end_of_not_at_end mem it hne
  have e4 : (NANOCBOR_TYPE_ARR.toNat <<< NANOCBOR_TYPE_OFFSET ||| NANOCBOR_SIZE_INDEFINITE) % 256
      = 0x9F := by decide
  have e5 : (NANOCBOR_TYPE_MAP.toNat <<< NANOCBOR_TYPE_OFFSET ||| NANOCBOR_SIZE_INDEFINITE) % 256
      = 0xBF := by decide
  have hb := byteAt_lt mem it.cur
  have hl : ¬ (((head_len (byteAt mem it.cur % 32) : Nat) : Int) < 0) := by omega
  have hg := get_type_of_not_at_end mem it hne
  have hm256 : cfg.NANOCBOR_RECURSION_MAX % 256 < 256 := Nat.mod_lt _ (by decide)
  have hu : u8 ((cfg.NANOCBOR_RECURSION_MAX : Int) - 1) = cfg.NANOCBOR_RECURSION_MAX % 256 - 1 := by
    unfold u8
    omega
  have h0 : u8 ((cfg.NANOCBOR_RECURSION_MAX : Int) - 1) ≠ 0 := by rw [hu]; omega
  have h1 : dec8 (u8 ((cfg.NANOCBOR_RECURSION_MAX : Int) - 1)) ≠ 0 := by
    rw [hu, dec8_eq _ (by omega) (by omega)]; omega
  have key : ∀ type : Int, (byteAt mem it.cur / 32 = 4 ∨ byteAt mem it.cur / 32 = 5) →
      _enter_container cfg mem (k + 3) it child type (u8 ((cfg.NANOCBOR_RECURSION_MAX : Int) - 1)) =
      _ := fun type hty =>
    enter_container_enabled cfg mem k it child type _ he h0 h1
      (by rw [hg]; simp only [NANOCBOR_TYPE_TAG]; omega)
      (by rw [hg]; simp only [NANOCBOR_TYPE_FLOAT]; omega)
  refine ⟨?_, ?_, ?_, ?_⟩
  · intro h
    rw [nanocbor_enter_array, key _ (by omega), e4]
    simp [hoe, h]
  · intro h
    rw [nanocbor_enter_map, key _ (by omega), e5]
    simp [hoe, h]
  · intro h
    have h9 : byteAt mem it.cur ≠ 0x9F := by
      obtain ⟨h1, h2, _⟩ := h; omega
    have hg := get_uint64_definite mem it 4 hne h
    simp only [Nat.cast_ofNat] at hg
    rw [nanocbor_enter_array, key _ (Or.inl h.1), e4]
    simp [hoe, h9, NANOCBOR_TYPE_ARR, hg, hl]
  · intro h hn
    have h9 : byteAt mem it.cur ≠ 0xBF := by
      obtain ⟨h1, h2, _⟩ := h; omega
    have hg := get_uint64_definite mem it 5 hne h
    simp only [Nat.cast_ofNat] at hg
    have : ¬ 9223372036854775807 < head_arg mem it.cur := by omega
    rw [nanocbor_enter_map, key _ (Or.inr h.1), e5]
    simp [hoe, h9, NANOCBOR_TYPE_MAP, hg, hl, this, Nat.mul_comm]

theorem leave_after_skip_any (cfg : Config) (mem : Mem) (k : Nat) (it c : nanocbor_value_t)
    (p : Nat) (hp : p = 0 ∨ p = 4)
    (hf : c.flags = 1 + p ∨ c.flags = 3 + p) (he : nanocbor_at_end mem c = true)
    (h1 : it.cur < c.cur) (h2 : c.cur + (if c.flags = 3 + p then 1 else 0) ≤ it.end_) :
    nanocbor_leave_container cfg mem (k + 2) it c =
      some (NANOCBOR_OK,
        { it with
          cur := c.cur + (if c.flags = 3 + p then 1 else 0),
          remaining := if it.remaining ≠ 0 then dec64 it.remaining else it.remaining }) := by
  have hc : nanocbor_in_container c = true := by
    rcases hp with rfl | rfl <;> rcases hf with h | h <;>
      simp [nanocbor_in_container, h, NANOCBOR_DECODER_FLAG_CONTAINER]
  have hs : ¬ (c.flags &&& NANOCBOR_DECODER_FLAG_SHARED ≠ 0) := by
    rcases hp with rfl | rfl <;> rcases hf with h | h <;> rw [h] <;> decide
  have hr : ¬ (c.cur ≤ it.cur ∨ c.cur > it.end_) := by
    split at h2 <;> omega
  rw [nanocbor_leave_container, _leave_container]
  simp only [hc, he, hs, hr, not_true_eq_false, or_self, if_false]
  have e1 : (1 : Nat) &&& 2 = 0 := by decide
  have e2 : (1 : Nat) &&& 1 = 1 := by decide
  have e3 : (3 : Nat) &&& 2 = 2 := by decide
  have e5 : (5 : Nat) &&& 2 = 0 := by decide
  have e6 : (5 : Nat) &&& 1 = 1 := by decide
  have e7 : (7 : Nat) &&& 2 = 2 := by decide
  have e8 : (7 : Nat) &&& 1 = 1 := by decide
  by_cases hrem : it.remaining = 0 <;> rcases hp with rfl | rfl <;> rcases hf with h | h <;>
    simp [nanocbor_container_indefinite, h, NANOCBOR_DECODER_FLAG_INDEFINITE, hrem, e1, e3, e5,
      e7]

theorem at_end_definite_any (mem : Mem) (c : nanocbor_value_t) (p : Nat) (hp : p = 0 ∨ p = 4)
    (hf : c.flags = 1 + p) :
    nanocbor_at_end mem c = true ↔ (c.end_ ≤ c.cur ∨ c.remaining = 0) := by
  have e1 : (1 : Nat) &&& 2 = 0 := by decide
  have e2 : (1 : Nat) &&& 1 = 1 := by decide
  have e3 : (3 : Nat) &&& 2 = 2 := by decide
  have e5 : (5 : Nat) &&& 2 = 0 := by decide
  have e6 : (5 : Nat) &&& 1 = 1 := by decide
  have e7 : (7 : Nat) &&& 2 = 2 := by decide
  have e8 : (7 : Nat) &&& 1 = 1 := by decide
  rcases hp with rfl | rfl <;>
    simp [nanocbor_at_end, nanocbor_container_indefinite, nanocbor_in_container, hf, _over_end,
      NANOCBOR_DECODER_FLAG_INDEFINITE, NANOCBOR_DECODER_FLAG_CONTAINER, e1, e2, e5, e6]

theorem at_end_indefinite_any (mem : Mem) (c : nanocbor_value_t) (p : Nat) (hp : p = 0 ∨ p = 4)
    (hf : c.flags = 3 + p) :
    nanocbor_at_end mem c = true ↔ (c.end_ ≤ c.cur ∨ byteAt mem c.cur = 0xFF) := by
  have hff : (NANOCBOR_TYPE_FLOAT.toNat <<< NANOCBOR_TYPE_OFFSET ||| NANOCBOR_VALUE_MASK) = 0xFF := by
    decide
  have e1 : (1 : Nat) &&& 2 = 0 := by decide
  have e2 : (1 : Nat) &&& 1 = 1 := by decide
  have e3 : (3 : Nat) &&& 2 = 2 := by decide
  have e5 : (5 : Nat) &&& 2 = 0 := by decide
  have e6 : (5 : Nat) &&& 1 = 1 := by decide
  have e7 : (7 : Nat) &&& 2 = 2 := by decide
  have e8 : (7 : Nat) &&& 1 = 1 := by decide
  rcases hp with rfl | rfl <;>
    simp [nanocbor_at_end, nanocbor_container_indefinite, nanocbor_in_container, hf, _over_end,
      NANOCBOR_DECODER_FLAG_INDEFINITE, NANOCBOR_DECODER_FLAG_CONTAINER, hff, e3, e7]

theorem skip_loop_any (cfg : Config) (mem : Mem) (d limit : Nat) (hdl : d + 1 < limit)
    (hl2 : limit < 256) (p : Nat) (hp : p = 0 ∨ p = 4)
    (ih : ∀ a l, ItemAt cfg mem d a l → 1 ≤ l ∧ byteAt mem a ≠ 0xFF ∧ SkipsOverAny cfg mem d a l) :
    ∀ (ls : List Nat) (c : nanocbor_value_t) (res : Int),
      ItemsAt (ItemAt cfg mem d) c.cur ls →
      ((c.flags = 1 + p ∧ c.remaining = ls.length ∧ ls.length < 2 ^ 64 ∧ c.cur + ls.sum ≤ c.end_) ∨
        (c.flags = 3 + p ∧ c.cur + ls.sum < c.end_ ∧ byteAt mem (c.cur + ls.sum) = 0xFF)) →
      0 ≤ res →
      ∃ (r : Nat) (res2 : Int), 0 ≤ res2 ∧ (c.flags = 1 + p → r = 0) ∧ ∃ N, ∀ fuel, N ≤ fuel →
        _skip_limited_loop cfg mem fuel c limit res =
          some (res2, { c with cur := c.cur + ls.sum, remaining := r }) := by
  intro ls
  induction ls with
  | nil =>
    intro c res _ hc hres
    have he : nanocbor_at_end mem c = true := by
      rcases hc with ⟨hf, hr, _, _⟩ | ⟨hf, _, hb⟩
      · rw [at_end_definite_any mem c p hp hf]
        right
        simpa using hr
      · rw [at_end_indefinite_any mem c p hp hf]
        right
        simpa using hb
    refine ⟨c.remaining, res, hres, ?_, 1, fun fuel hf => ?_⟩
    · intro hf
      rcases hc with ⟨_, hr, _, _⟩ | ⟨hf3, _, _⟩
      · simpa using hr
      · omega
    · obtain ⟨k, rfl⟩ : ∃ k, fuel = k + 1 := ⟨fuel - 1, by omega⟩
      rw [_skip_limited_loop]
      simp [he]
  | cons l ls ihl =>
    intro c res hitems hc hres
    obtain ⟨hitem, hrest⟩ := hitems
    obtain ⟨hl1, hff, hskip⟩ := ih c.cur l hitem
    have hflags : c.flags = 1 + p ∨ c.flags = 3 + p := by
      rcases hc with h | h
      · exact Or.inl h.1
      · exact Or.inr h.1
    simp only [List.sum_cons, List.length_cons] at hc
    have hne : nanocbor_at_end mem c = false := by
      rw [Bool.eq_false_iff]
      rcases hc with ⟨hf, hr, hlen, hend⟩ | ⟨hf, hend, hb⟩
      · rw [Ne, at_end_definite_any mem c p hp hf]
        omega
      · rw [Ne, at_end_indefinite_any mem c p hp hf]
        omega
    have hdec := dec8_eq limit (by omega) hl2
    obtain ⟨r1, hr1, N1, hN1⟩ := hskip c (dec8 limit) (by omega) (by omega) rfl
      hne (by rcases hc with h | h <;> omega)
    obtain ⟨r, res2, hres2, hr0, N2, hN2⟩ :=
      ihl { c with cur := c.cur + l, remaining := r1 } NANOCBOR_OK hrest
        (by
          rcases hc with ⟨hf, hr, hlen, hend⟩ | ⟨hf, hend, hb⟩
          · left
            refine ⟨hf, ?_, by omega, by simp only; omega⟩
            simp only
            rw [hr1 (by omega), hr, dec64_succ _ hlen]
          · right
            exact ⟨hf, by simp only; omega, by simpa [Nat.add_assoc] using hb⟩)
        (by decide)
    refine ⟨r, res2, hres2, hr0, max N1 N2 + 1, fun fuel hf => ?_⟩
    obtain ⟨k, rfl⟩ : ∃ k, fuel = k + 1 := ⟨fuel - 1, by omega⟩
    have hk1 : N1 ≤ k := by omega
    have hk2 : N2 ≤ k := by omega
    have hnn : ¬ (NANOCBOR_OK < 0) := by decide
    rw [_skip_limited_loop]
    simp only [hne, Bool.false_eq_true, not_false_eq_true, if_true, hN1 k hk1, hnn, if_false,
      hN2 k hk2, List.sum_cons, Nat.add_assoc]

theorem skip_limited_container_any (cfg : Config) (mem : Mem) (d limit : Nat)
    (it child : nanocbor_value_t) (ls : List Nat) (hdl : d + 1 < limit) (hl2 : limit < 256)
    (p : Nat) (hp : p = 0 ∨ p = 4)
    (ih : ∀ a l, ItemAt cfg mem d a l → 1 ≤ l ∧ byteAt mem a ≠ 0xFF ∧ SkipsOverAny cfg mem d a l)
    (hne : nanocbor_at_end mem it = false)
    (hmaj : byteAt mem it.cur / 32 = 4 ∨ byteAt mem it.cur / 32 = 5)
    (hent : ∀ k,
      (if ((byteAt mem it.cur / 32 : Nat) : Int) = NANOCBOR_TYPE_MAP then
        nanocbor_enter_map cfg mem (k + 4) it (stack_value cfg)
      else nanocbor_enter_array cfg mem (k + 4) it (stack_value cfg)) =
        some (NANOCBOR_OK, child))
    (hcur : it.cur < child.cur) (hitems : ItemsAt (ItemAt cfg mem d) child.cur ls)
    (hc : (child.flags = 1 + p ∧ child.remaining = ls.length ∧ ls.length < 2 ^ 64 ∧
        child.cur + ls.sum ≤ child.end_) ∨
      (child.flags = 3 + p ∧ child.cur + ls.sum < child.end_ ∧
        byteAt mem (child.cur + ls.sum) = 0xFF))
    (hend : child.end_ = it.end_) :
    ∃ N, ∀ fuel, N ≤ fuel →
      _skip_limited cfg mem fuel it limit =
        some (NANOCBOR_OK,
          { it with
            cur := child.cur + ls.sum + (if child.flags = 3 + p then 1 else 0),
            remaining := if it.remaining ≠ 0 then dec64 it.remaining else it.remaining }) := by
  obtain ⟨r, res2, hres2, hr0, N, hN⟩ :=
    skip_loop_any cfg mem d limit hdl hl2 p hp ih ls child NANOCBOR_OK hitems hc (by decide)
  have hflags : child.flags = 1 + p ∨ child.flags = 3 + p := by
    rcases hc with h | h
    · exact Or.inl h.1
    · exact Or.inr h.1
  have he : nanocbor_at_end mem { child with cur := child.cur + ls.sum, remaining := r } = true := by
    rcases hc with ⟨hf, _, _, _⟩ | ⟨hf, _, hb⟩
    · rw [at_end_definite_any mem { child with cur := child.cur + ls.sum, remaining := r } p hp hf]
      right
      exact hr0 hf
    · rw [at_end_indefinite_any mem { child with cur := child.cur + ls.sum, remaining := r } p hp hf]
      right
      exact hb
  refine ⟨N + 5, fun fuel hf => ?_⟩
  obtain ⟨j, rfl⟩ : ∃ j, fuel = j + 4 + 1 := ⟨fuel - 5, by omega⟩
  have hg := get_type_of_not_at_end mem it hne
  have h1 : ((((byteAt mem it.cur / 32 : Nat) : Int) = NANOCBOR_TYPE_ARR) ∨
      (((byteAt mem it.cur / 32 : Nat) : Int) = NANOCBOR_TYPE_MAP)) := by
    simp only [NANOCBOR_TYPE_ARR, NANOCBOR_TYPE_MAP]
    omega
  have hleave := leave_after_skip_any cfg mem (j + 2) it
    { child with cur := child.cur + ls.sum, remaining := r } p hp hflags he
    (by simp only; omega)
    (by
      simp only
      rcases hc with ⟨hf, _, _, h⟩ | ⟨hf, h, _⟩
      · rw [hf]
        simp only [show ¬ (1 + p = 3 + p) by omega, if_false]
        omega
      · rw [hf]
        simp only [if_true]
        omega)
  have hnn : ¬ (res2 < 0) := by omega
  rw [_skip_limited]
  simp only [show limit ≠ 0 by omega, hg, h1, if_false, if_true, hent j, hN (j + 4) (by omega),
    hleave, hnn]

theorem item_skips_any (cfg : Config) (mem : Mem) (hr : 3 ≤ cfg.NANOCBOR_RECURSION_MAX % 256) :
    ∀ d a len, ItemAt cfg mem d a len →
      1 ≤ len ∧ byteAt mem a ≠ 0xFF ∧ SkipsOverAny cfg mem d a len := by
  intro d
  induction d with
  | zero =>
    intro a len h
    have h : SimpleItemAt cfg mem a len := h
    exact ⟨(simple_item_facts cfg mem a len h).1, (simple_item_facts cfg mem a len h).2,
      skips_simple_any cfg mem 0 a len (by omega) h⟩
  | succ d ih =>
    intro a len h
    have hb := byteAt_lt mem a
    have hp := head_len_pos (byteAt mem a % 32)
    rw [ItemAt] at h
    rcases h with h | ⟨hm, hi, l, hl, rfl⟩ | ⟨hm, hi, ls, hlen, hitems, rfl⟩ |
      ⟨hm, hi, hn, ls, hlen, hitems, rfl⟩ | ⟨hm, ls, _, hitems, hff, rfl⟩
    · exact ⟨(simple_item_facts cfg mem a len h).1, (simple_item_facts cfg mem a len h).2,
        skips_simple_any cfg mem (d + 1) a len (by omega) h⟩
    · obtain ⟨hl1, hff, hs⟩ := ih _ l hl
      exact ⟨by omega, by omega, skips_tag_any cfg mem d a l hm hi hl1 hff hs⟩
    · refine ⟨by omega, by omega, ?_⟩
      intro it limit hdl hl256 hcur hne hend
      subst hcur
      have hD : DefiniteHead mem it 4 := ⟨hm, hi, by omega⟩
      have hnm : ¬ (((byteAt mem it.cur / 32 : Nat) : Int) = NANOCBOR_TYPE_MAP) := by
        simp only [NANOCBOR_TYPE_MAP]
        omega
      have hl64 : ls.length < 2 ^ 64 := by rw [hlen]; exact head_arg_lt mem it.cur hi
      obtain ⟨N, hN⟩ : ∃ N, ∀ fuel, N ≤ fuel → _skip_limited cfg mem fuel it limit =
          some (NANOCBOR_OK,
            { it with
              cur := it.cur + head_len (byteAt mem it.cur % 32) + ls.sum,
              remaining := if it.remaining ≠ 0 then dec64 it.remaining else it.remaining }) := by
        by_cases he : _packed_enabled it = true
        · obtain ⟨N, hN⟩ := skip_limited_container_any cfg mem d limit it
            { stack_value cfg with
              shared_item_tables := it.shared_item_tables,
              num_active_tables := it.num_active_tables,
              flags := 5, end_ := it.end_, remaining := head_arg mem it.cur,
              cur := it.cur + head_len (byteAt mem it.cur % 32) } ls hdl hl256 4 (Or.inr rfl)
            ih hne (Or.inl hm)
            (fun k => by
              rw [if_neg hnm]
              exact (enter_enabled cfg mem k it _ he hr hne).2.2.1 hD)
            (by simp only; omega) hitems
            (Or.inl ⟨rfl, hlen.symm, hl64, by simp only; omega⟩) rfl
          exact ⟨N, fun fuel hf => by rw [hN fuel hf]; simp⟩
        · obtain ⟨N, hN⟩ := skip_limited_container_any cfg mem d limit it
            { stack_value cfg with
              flags := 1, end_ := it.end_, remaining := head_arg mem it.cur,
              cur := it.cur + head_len (byteAt mem it.cur % 32) } ls hdl hl256 0 (Or.inl rfl)
            ih hne (Or.inl hm)
            (fun k => by
              rw [if_neg hnm]
              exact (enter_disabled cfg mem (k + 2) it _ (by simpa using he) hne).2.2.1 hD)
            (by simp only; omega) hitems
            (Or.inl ⟨rfl, hlen.symm, hl64, by simp only; omega⟩) rfl
          exact ⟨N, fun fuel hf => by rw [hN fuel hf]; simp⟩
      refine ⟨if it.remaining ≠ 0 then dec64 it.remaining else it.remaining,
        fun h => by simp [h], N, fun fuel hf => ?_⟩
      rw [hN fuel hf]
      simp [Nat.add_assoc]
    · refine ⟨by omega, by omega, ?_⟩
      intro it limit hdl hl256 hcur hne hend
      subst hcur
      have hD : DefiniteHead mem it 5 := ⟨hm, hi, by omega⟩
      have hnm : (((byteAt mem it.cur / 32 : Nat) : Int) = NANOCBOR_TYPE_MAP) := by
        simp only [NANOCBOR_TYPE_MAP]
        omega
      have hl64 : ls.length < 2 ^ 64 := by rw [hlen]; omega
      obtain ⟨N, hN⟩ : ∃ N, ∀ fuel, N ≤ fuel → _skip_limited cfg mem fuel it limit =
          some (NANOCBOR_OK,
            { it with
              cur := it.cur + head_len (byteAt mem it.cur % 32) + ls.sum,
              remaining := if it.remaining ≠ 0 then dec64 it.remaining else it.remaining }) := by
        by_cases he : _packed_enabled it = true
        · obtain ⟨N, hN⟩ := skip_limited_container_any cfg mem d limit it
            { stack_value cfg with
              shared_item_tables := it.shared_item_tables,
              num_active_tables := it.num_active_tables,
              flags := 5, end_ := it.end_, remaining := 2 * head_arg mem it.cur,
              cur := it.cur + head_len (byteAt mem it.cur % 32) } ls hdl hl256 4 (Or.inr rfl)
            ih hne (Or.inr hm)
            (fun k => by
              rw [if_pos hnm]
              exact (enter_enabled cfg mem k it _ he hr hne).2.2.2 hD hn)
            (by simp only; omega) hitems
            (Or.inl ⟨rfl, hlen.symm, hl64, by simp only; omega⟩) rfl
          exact ⟨N, fun fuel hf => by rw [hN fuel hf]; simp⟩
        · obtain ⟨N, hN⟩ := skip_limited_container_any cfg mem d limit it
            { stack_value cfg with
              flags := 1, end_ := it.end_, remaining := 2 * head_arg mem it.cur,
              cur := it.cur + head_len (byteAt mem it.cur % 32) } ls hdl hl256 0 (Or.inl rfl)
            ih hne (Or.inr hm)
            (fun k => by
              rw [if_pos hnm]
              exact (enter_disabled cfg mem (k + 2) it _ (by simpa using he) hne).2.2.2 hD hn)
            (by simp only; omega) hitems
            (Or.inl ⟨rfl, hlen.symm, hl64, by simp only; omega⟩) rfl
          exact ⟨N, fun fuel hf => by rw [hN fuel hf]; simp⟩
      refine ⟨if it.remaining ≠ 0 then dec64 it.remaining else it.remaining,
        fun h => by simp [h], N, fun fuel hf => ?_⟩
      rw [hN fuel hf]
      simp [Nat.add_assoc]
    · refine ⟨by omega, by omega, ?_⟩
      intro it limit hdl hl256 hcur hne hend
      subst hcur
      have hmaj : byteAt mem it.cur / 32 = 4 ∨ byteAt mem it.cur / 32 = 5 := by omega
      obtain ⟨N, hN⟩ : ∃ N, ∀ fuel, N ≤ fuel → _skip_limited cfg mem fuel it limit =
          some (NANOCBOR_OK,
            { it with
              cur := it.cur + 1 + ls.sum + 1,
              remaining := if it.remaining ≠ 0 then dec64 it.remaining else it.remaining }) := by
        by_cases he : _packed_enabled it = true
        · obtain ⟨N, hN⟩ := skip_limited_container_any cfg mem d limit it
            { stack_value cfg with
              shared_item_tables := it.shared_item_tables,
              num_active_tables := it.num_active_tables,
              flags := 7, end_ := it.end_, remaining := 0, cur := it.cur + 1 }
            ls hdl hl256 4 (Or.inr rfl) ih hne hmaj
            (fun k => by
              rcases hm with h | h
              · rw [if_neg (by simp only [NANOCBOR_TYPE_MAP]; omega)]
                exact (enter_enabled cfg mem k it _ he hr hne).1 h
              · rw [if_pos (by simp only [NANOCBOR_TYPE_MAP]; omega)]
                exact (enter_enabled cfg mem k it _ he hr hne).2.1 h)
            (by simp only; omega) hitems
            (Or.inr ⟨rfl, by simp only; omega, hff⟩) rfl
          exact ⟨N, fun fuel hf => by rw [hN fuel hf]; simp⟩
        · obtain ⟨N, hN⟩ := skip_limited_container_any cfg mem d limit it
            { stack_value cfg with flags := 3, end_ := it.end_, remaining := 0, cur := it.cur + 1 }
            ls hdl hl256 0 (Or.inl rfl) ih hne hmaj
            (fun k => by
              rcases hm with h | h
              · rw [if_neg (by simp only [NANOCBOR_TYPE_MAP]; omega)]
                exact (enter_disabled cfg mem (k + 2) it _ (by simpa using he) hne).1 h
              · rw [if_pos (by simp only [NANOCBOR_TYPE_MAP]; omega)]
                exact (enter_disabled cfg mem (k + 2) it _ (by simpa using he) hne).2.1 h)
            (by simp only; omega) hitems
            (Or.inr ⟨rfl, by simp only; omega, hff⟩) rfl
          exact ⟨N, fun fuel hf => by rw [hN fuel hf]; simp⟩
      refine ⟨if it.remaining ≠ 0 then dec64 it.remaining else it.remaining,
        fun h => by simp [h], N, fun fuel hf => ?_⟩
      rw [hN fuel hf]
      simp [Nat.add_assoc]


/-! ## C17: finding a key in a map body -/

theorem strncmp_eq_spec (mem : Mem) :
    ∀ (key : List Nat) (s : Nat), (∀ c ∈ key, c ≠ 0) →
      (strncmp_eq mem key s key.length = true ↔ bytes_at mem s key.length = key) := by
  intro key
  induction key with
  | nil => intro s _; simp [strncmp_eq, bytes_at]
  | cons c cs ih =>
    intro s hk
    have hc : c ≠ 0 := hk c (List.mem_cons_self c cs)
    have ih2 := ih (s + 1) (fun x hx => hk x (List.mem_cons_of_mem c hx))
    rw [List.length_cons, strncmp_eq, bytes_at]
    simp only [List.headD_cons, List.tail_cons, hc, if_false]
    by_cases hb : c = byteAt mem s
    · simp only [hb, ne_eq, not_true_eq_false, if_false] 
      rw [← hb, ih2]
      simp
    · simp only [ne_eq, hb, not_false_eq_true, if_true]
      simp
      intro h
      exact absurd h.symm hb

theorem strlen_of_no_nul (key : List Nat) (hk : ∀ c ∈ key, c ≠ 0) : strlen key = key.length := by
  unfold strlen
  rw [List.takeWhile_eq_self_iff.mpr]
  intro c hc
  simpa using hk c hc

theorem bytes_at_length (mem : Mem) : ∀ n s, (bytes_at mem s n).length = n := by
  intro n
  induction n with
  | zero => intro s; rfl
  | succ n ih => intro s; simp [bytes_at, ih]

theorem key_test_iff (mem : Mem) (key : List Nat) (a : Nat) (hk : ∀ c ∈ key, c ≠ 0) :
    (head_arg mem a = strlen key ∧
      strncmp_eq mem key (a + head_len (byteAt mem a % 32)) (strlen key) = true) ↔
      KeyIs mem a key := by
  rw [strlen_of_no_nul key hk]
  unfold KeyIs
  constructor
  · rintro ⟨h1, h2⟩
    rw [h1]
    exact (strncmp_eq_spec mem key _ hk).mp h2
  · intro h
    have hl : head_arg mem a = key.length := by
      have := congrArg List.length h
      rw [bytes_at_length] at this
      exact this
    refine ⟨hl, ?_⟩
    rw [hl] at h
    exact (strncmp_eq_spec mem key _ hk).mpr h

theorem at_end_false_of (mem : Mem) (c : nanocbor_value_t) (hlt : c.cur < c.end_)
    (hi : nanocbor_container_indefinite c = true → byteAt mem c.cur ≠ 0xFF)
    (hr : nanocbor_container_indefinite c = false → c.remaining ≠ 0) :
    nanocbor_at_end mem c = false := by
  have hff : (NANOCBOR_TYPE_FLOAT.toNat <<< NANOCBOR_TYPE_OFFSET ||| NANOCBOR_VALUE_MASK) = 0xFF := by
    decide
  have ho : _over_end c = false := by simp [_over_end, hlt]
  cases hc : nanocbor_container_indefinite c with
  | true =>
    have := hi hc
    simp [nanocbor_at_end, ho, hc, hff, this]
  | false =>
    have := hr hc
    simp [nanocbor_at_end, ho, hc, this]

theorem get_tstr_key (cfg : Config) (mem : Mem) (k : Nat) (v : nanocbor_value_t) (kl : Nat)
    (hr : 2 ≤ cfg.NANOCBOR_RECURSION_MAX % 256) (hne : nanocbor_at_end mem v = false)
    (hm : byteAt mem v.cur / 32 = 3) (h : SimpleItemAt cfg mem v.cur kl)
    (hend : v.cur + kl ≤ v.end_) :
    nanocbor_get_tstr cfg mem (k + 3) v 0 0 =
      some (NANOCBOR_OK, { v with cur := v.cur + kl, remaining := dec64 v.remaining },
        v.cur + head_len (byteAt mem v.cur % 32), head_arg mem v.cur) := by
  obtain ⟨hi, h⟩ := h
  rcases h with ⟨hm2, _⟩ | ⟨_, hs, rfl, h32⟩
  · omega
  · have hg := get_type_of_not_at_end mem v hne
    have hr256 : cfg.NANOCBOR_RECURSION_MAX % 256 < 256 := Nat.mod_lt _ (by decide)
    have h6 : __get_type mem v ≠ NANOCBOR_TYPE_TAG := by
      rw [hg]; simp only [NANOCBOR_TYPE_TAG]; omega
    have h7 : __get_type mem v ≠ NANOCBOR_TYPE_FLOAT := by
      rw [hg]; simp only [NANOCBOR_TYPE_FLOAT]; omega
    have hu := get_uint64_head mem v 0 cfg.NANOCBOR_SIZE_SIZET 3 hne hm hi (fun _ => hs)
      (by omega)
    simp only [Nat.cast_ofNat] at hu
    have hge : ((head_len (byteAt mem v.cur % 32) : Nat) : Int) ≥ 0 := by omega
    have hno : ¬ (v.end_ < v.cur ∨ v.end_ - v.cur < head_arg mem v.cur) := by omega
    rw [nanocbor_get_tstr, get_str_plain cfg mem k v 0 0 _ (by omega)
      (fun _ => by rw [dec8_eq _ (by omega) hr256]; omega) h6 h7]
    simp only [NANOCBOR_TYPE_TSTR, hu, hno, if_false, hge, if_true, Int.toNat_ofNat,
      Nat.mod_eq_of_lt h32, _advance]

theorem key_loop (cfg : Config) (mem : Mem) (key : List Nat) (d : Nat)
    (hk : ∀ c ∈ key, c ≠ 0) (hmax : cfg.NANOCBOR_RECURSION_MAX < 256)
    (h3 : 3 ≤ cfg.NANOCBOR_RECURSION_MAX) (hd : d < cfg.NANOCBOR_RECURSION_MAX) :
    ∀ (pre : List (Nat × Nat)) (a : Nat) (v : nanocbor_value_t) (res : Int)
      (kl vl n total : Nat), v.cur = a →
      PairsAt cfg mem d (fun x => ¬ KeyIs mem x key) a pre →
      byteAt mem (a + pairs_len pre) / 32 = 3 →
      SimpleItemAt cfg mem (a + pairs_len pre) kl →
      KeyIs mem (a + pairs_len pre) key →
      MapBody mem v (pre.length + 1 + n) (pairs_len pre + kl + vl + total) →
      ∃ r N, ∀ fuel, N ≤ fuel →
        nanocbor_get_key_tstr_loop cfg mem key (strlen key) fuel v res =
          some (NANOCBOR_OK, { v with cur := a + pairs_len pre + kl, remaining := r }) := by
  have hmod : cfg.NANOCBOR_RECURSION_MAX % 256 = cfg.NANOCBOR_RECURSION_MAX :=
    Nat.mod_eq_of_lt hmax
  intro pre
  induction pre with
  | nil =>
    intro a v res kl vl n total hcur _ hm hs hkey hbody
    subst hcur
    simp only [pairs_len, List.map_nil, List.sum_nil, Nat.add_zero, List.length_nil,
      Nat.zero_add] at hm hs hkey hbody ⊢
    obtain ⟨hl1, hff⟩ := simple_item_facts cfg mem v.cur kl hs
    obtain ⟨hc, hb⟩ := hbody
    have hne : nanocbor_at_end mem v = false := by
      apply at_end_false_of mem v
      · rcases hb with ⟨_, _, _, h⟩ | ⟨_, h, _⟩ <;> omega
      · intro _; exact hff
      · intro hi
        rcases hb with ⟨_, h, _, _⟩ | ⟨h, _, _⟩
        · omega
        · rw [h] at hi; exact absurd hi (by decide)
    have hend : v.cur + kl ≤ v.end_ := by
      rcases hb with ⟨_, _, _, h⟩ | ⟨_, h, _⟩ <;> omega
    have htest := (key_test_iff mem key v.cur hk).mpr hkey
    refine ⟨dec64 v.remaining, 4, fun fuel hf => ?_⟩
    obtain ⟨j, rfl⟩ : ∃ j, fuel = j + 3 + 1 := ⟨fuel - 4, by omega⟩
    have hnn : ¬ (NANOCBOR_OK < 0) := by decide
    rw [nanocbor_get_key_tstr_loop]
    simp only [hne, Bool.false_eq_true, not_false_eq_true, if_true,
      get_tstr_key cfg mem j v kl (by omega) hne hm hs hend, hnn, if_false, htest, and_self]
  | cons p pre ih =>
    intro a v res kl vl n total hcur hpairs hm hs hkey hbody
    subst hcur
    obtain ⟨hm0, hs0, hK0, hv0, hrest⟩ := hpairs
    have e : v.cur + pairs_len (p :: pre) = v.cur + p.1 + p.2 + pairs_len pre := by
      simp only [pairs_len, List.map_cons, List.sum_cons]
      omega
    have e2 : pairs_len (p :: pre) = p.1 + p.2 + pairs_len pre := by
      simp only [pairs_len, List.map_cons, List.sum_cons]
    rw [e] at hm hs hkey
    rw [e2, List.length_cons] at hbody
    obtain ⟨hl1, hff⟩ := simple_item_facts cfg mem v.cur p.1 hs0
    obtain ⟨hvl1, hvff, hskip⟩ := item_skips_any cfg mem (by omega) d _ _ hv0
    obtain ⟨hkl1, _⟩ := simple_item_facts cfg mem _ kl hs
    obtain ⟨hc, hb⟩ := hbody
    have hne : nanocbor_at_end mem v = false := by
      apply at_end_false_of mem v
      · rcases hb with ⟨_, _, _, h⟩ | ⟨_, h, _⟩ <;> omega
      · intro _; exact hff
      · intro hi
        rcases hb with ⟨_, h, _, _⟩ | ⟨h, _, _⟩
        · omega
        · rw [h] at hi; exact absurd hi (by decide)
    have hend : v.cur + p.1 ≤ v.end_ := by
      rcases hb with ⟨_, _, _, h⟩ | ⟨_, h, _⟩ <;> omega
    have htest : ¬ (head_arg mem v.cur = strlen key ∧
        strncmp_eq mem key (v.cur + head_len (byteAt mem v.cur % 32)) (strlen key) = true) :=
      fun h => hK0 ((key_test_iff mem key v.cur hk).mp h)
    have hrem1 : nanocbor_container_indefinite v = false →
        dec64 v.remaining = 2 * (pre.length + 1 + n) + 1 := by
      intro hi
      rcases hb with ⟨_, h, h64, _⟩ | ⟨h, _, _⟩
      · rw [h]
        unfold dec64
        omega
      · rw [h] at hi; exact absurd hi (by decide)
    have hne1 : nanocbor_at_end mem
        { v with cur := v.cur + p.1, remaining := dec64 v.remaining } = false := by
      apply at_end_false_of
      · show v.cur + p.1 < v.end_
        rcases hb with ⟨_, _, _, h⟩ | ⟨_, h, _⟩ <;> omega
      · intro _; exact hvff
      · intro hi
        show dec64 v.remaining ≠ 0
        rw [hrem1 hi]
        omega
    obtain ⟨r1, hr1, N1, hN1⟩ := hskip
      { v with cur := v.cur + p.1, remaining := dec64 v.remaining }
      (cfg.NANOCBOR_RECURSION_MAX % 256) (by omega) (by omega) rfl hne1
      (by
        show v.cur + p.1 + p.2 ≤ v.end_
        rcases hb with ⟨_, _, _, h⟩ | ⟨_, h, _⟩ <;> omega)
    dsimp only at hr1 hN1
    obtain ⟨r, N2, hN2⟩ := ih (v.cur + p.1 + p.2)
      { v with cur := v.cur + p.1 + p.2, remaining := r1 } NANOCBOR_OK kl vl n total rfl
      hrest hm hs hkey
      ⟨hc, by
        rcases hb with ⟨hi, h, h64, hle⟩ | ⟨hi, hlt, hby⟩
        · left
          refine ⟨hi, ?_, by omega, by show v.cur + p.1 + p.2 + _ ≤ v.end_; omega⟩
          show r1 = _
          rw [hr1 (by rw [hrem1 hi]; omega), hrem1 hi]
          unfold dec64
          omega
        · right
          refine ⟨hi, by show v.cur + p.1 + p.2 + _ < v.end_; omega, ?_⟩
          show byteAt mem (v.cur + p.1 + p.2 + _) = 0xFF
          rw [← hby]
          congr 1
          omega⟩
    dsimp only at hN2
    refine ⟨r, max N1 N2 + 4, fun fuel hf => ?_⟩
    obtain ⟨j, rfl⟩ : ∃ j, fuel = j + 3 + 1 := ⟨fuel - 4, by omega⟩
    have hnn : ¬ (NANOCBOR_OK < 0) := by decide
    rw [nanocbor_get_key_tstr_loop]
    simp only [hne, Bool.false_eq_true, not_false_eq_true, if_true,
      get_tstr_key cfg mem j v p.1 (by omega) hne hm0 hs0 hend, hnn, if_false, htest,
      nanocbor_skip, hN1 (j + 3) (by omega), hN2 (j + 3) (by omega), e]

/-- C17 (amended). Let the recursion bound be at least 3 and below 256, and let `v` be the
body of a map (definite or indefinite, with or without packed support) that starts with the
pairs `pre`, whose keys are definite-length text strings different from `key` and whose values
are well-formed items nested less deep than the recursion bound, followed by a pair whose key
is the text string `key`, byte for byte (`key` has no NUL byte, being a C string).  Then
`nanocbor_get_key_tstr` returns `OK`, given enough fuel, with the value cursor at the first byte
of the value paired with that first matching key; apart from `cur` only `remaining` differs from
the start cursor, which the function only reads. -/
theorem C17_get_key_tstr (cfg : Config) (mem : Mem) (key : List Nat) (d : Nat)
    (pre : List (Nat × Nat)) (v : nanocbor_value_t) (kl vl n total : Nat)
    (hk : ∀ c ∈ key, c ≠ 0) (hmax : cfg.NANOCBOR_RECURSION_MAX < 256)
    (h3 : 3 ≤ cfg.NANOCBOR_RECURSION_MAX) (hd : d < cfg.NANOCBOR_RECURSION_MAX)
    (hpairs : PairsAt cfg mem d (fun x => ¬ KeyIs mem x key) v.cur pre)
    (hm : byteAt mem (v.cur + pairs_len pre) / 32 = 3)
    (hs : SimpleItemAt cfg mem (v.cur + pairs_len pre) kl)
    (hkey : KeyIs mem (v.cur + pairs_len pre) key)
    (hbody : MapBody mem v (pre.length + 1 + n) (pairs_len pre + kl + vl + total)) :
    ∃ r N, ∀ fuel, N ≤ fuel →
      nanocbor_get_key_tstr cfg mem fuel v key =
        some (NANOCBOR_OK, { v with cur := v.cur + pairs_len pre + kl, remaining := r }) := by
  obtain ⟨r, N, hN⟩ := key_loop cfg mem key d hk hmax h3 hd pre v.cur v NANOCBOR_NOT_FOUND
    kl vl n total rfl hpairs hm hs hkey hbody
  exact ⟨r, N, fun fuel hf => by rw [nanocbor_get_key_tstr, hN fuel hf]⟩

/-- Witness of C17: on the body of `A2 61 61 01 61 62 02`, the map `{"a": 1, "b": 2}`,
`nanocbor_get_key_tstr` with the key `"b"` returns `OK` with the value cursor on the `02`, and
`nanocbor_get_uint8` on the value cursor yields 2. -/
theorem C17_get_key_tstr_witness :
    (∃ r N, ∀ fuel, N ≤ fuel →
      nanocbor_get_key_tstr defaultConfig (mem_of 16 [0xA2, 0x61, 0x61, 0x01, 0x61, 0x62, 0x02])
          fuel ⟨17, 23, 4, 1, zero_tables defaultConfig, 0⟩ [0x62] =
        some (NANOCBOR_OK,
          { (⟨17, 23, 4, 1, zero_tables defaultConfig, 0⟩ : nanocbor_value_t) with
            cur := 17 + pairs_len [(2, 1)] + 2, remaining := r })) ∧
    ((nanocbor_enter_map defaultConfig (mem_of 16 [0xA2, 0x61, 0x61, 0x01, 0x61, 0x62, 0x02]) 12
      (nanocbor_decoder_init defaultConfig (stack_value defaultConfig) 16 7)
      (stack_value defaultConfig)).bind fun b =>
      (nanocbor_get_key_tstr defaultConfig
        (mem_of 16 [0xA2, 0x61, 0x61, 0x01, 0x61, 0x62, 0x02]) 12 b.2 [0x62]).bind fun r =>
      (nanocbor_get_uint8 defaultConfig
        (mem_of 16 [0xA2, 0x61, 0x61, 0x01, 0x61, 0x62, 0x02]) 12 r.2 0).map
        fun u => (b.1, b.2.cur, b.2.remaining, r.1, r.2.cur, u.2.2)) =
      some (NANOCBOR_OK, 17, 4, NANOCBOR_OK, 22, 2) :=
  ⟨C17_get_key_tstr defaultConfig (mem_of 16 [0xA2, 0x61, 0x61, 0x01, 0x61, 0x62, 0x02])
      [0x62] 0 [(2, 1)] ⟨17, 23, 4, 1, zero_tables defaultConfig, 0⟩ 2 1 0 0
      (by decide) (by decide) (by decide) (by decide)
      ⟨by decide, by unfold SimpleItemAt; decide, by unfold KeyIs; decide,
        by unfold ItemAt SimpleItemAt; decide, trivial⟩
      (by decide) (by unfold SimpleItemAt; decide) (by unfold KeyIs; decide)
      (by unfold MapBody; decide),
    by decide!⟩

/-- Counterexample to C17 as stated: `A2 61 61 81 81 81 81 81 81 81 81 81 81 00 61 62 02` is
the well-formed map `{"a": [[[[[[[[[[0]]]]]]]]]], "b": 2}` with text-string keys, and the key
`"b"` is in it; with the recursion bound 10, `nanocbor_get_key_tstr` with the key `"b"` on its
body returns `RECURSION`, the code of the skip of the value of `"a"`, and not `OK`. -/
theorem C17_counterexample :
    ((nanocbor_enter_map defaultConfig
      (mem_of 16 [0xA2, 0x61, 0x61, 0x81, 0x81, 0x81, 0x81, 0x81, 0x81, 0x81, 0x81, 0x81, 0x81,
        0, 0x61, 0x62, 0x02]) 40
      (nanocbor_decoder_init defaultConfig (stack_value defaultConfig) 16 17)
      (stack_value defaultConfig)).bind fun b =>
      (nanocbor_get_key_tstr defaultConfig
        (mem_of 16 [0xA2, 0x61, 0x61, 0x81, 0x81, 0x81, 0x81, 0x81, 0x81, 0x81, 0x81, 0x81, 0x81,
          0, 0x61, 0x62, 0x02]) 40 b.2 [0x62]).map
        fun r => (b.1, b.2.cur, b.2.remaining, r.1)) =
      some (NANOCBOR_OK, 17, 4, NANOCBOR_ERR_RECURSION) ∧
    KeyIs (mem_of 16 [0xA2, 0x61, 0x61, 0x81, 0x81, 0x81, 0x81, 0x81, 0x81, 0x81, 0x81, 0x81,
      0x81, 0, 0x61, 0x62, 0x02]) 30 [0x62] ∧
    NANOCBOR_ERR_RECURSION ≠ NANOCBOR_OK ∧
    defaultConfig.NANOCBOR_RECURSION_MAX = 10 := by
  exact ⟨by decide!, by unfold KeyIs; decide, by decide, by decide⟩


/-! ## C2, C28: following a reference into the active tables -/

theorem items_at_append (P : Nat → Nat → Prop) :
    ∀ (pre post : List Nat) (a : Nat), ItemsAt P a (pre ++ post) →
      ItemsAt P (a + pre.sum) post := by
  intro pre
  induction pre with
  | nil => intro post a h; simpa using h
  | cons l pre ih =>
    intro post a h
    obtain ⟨_, h2⟩ := h
    have := ih post (a + l) h2
    simpa [Nat.add_assoc] using this

theorem follow_skip (cfg : Config) (mem : Mem) (d limit idx : Nat)
    (hr : 3 ≤ cfg.NANOCBOR_RECURSION_MAX % 256)
    (hd : d < limit) (h256 : limit < 256) (hidx : idx < 2 ^ 64) :
    ∀ (pre post : List Nat) (c : nanocbor_value_t) (j : Nat),
      ItemsAt (ItemAt cfg mem d) c.cur (pre ++ post) → c.flags = 5 →
      c.remaining = (pre ++ post).length → (pre ++ post).length < 2 ^ 64 →
      c.cur + (pre ++ post).sum ≤ c.end_ → j + pre.length = idx →
      ∃ N, ∀ fuel, N ≤ fuel →
        _packed_follow_reference_skip cfg mem fuel c idx limit j =
          some (NANOCBOR_OK, { c with cur := c.cur + pre.sum, remaining := post.length },
            idx) := by
  intro pre
  induction pre with
  | nil =>
    intro post c j _ _ hrem _ _ hj
    simp only [List.length_nil, Nat.add_zero] at hj
    subst hj
    refine ⟨1, fun fuel hf => ?_⟩
    obtain ⟨k, rfl⟩ : ∃ k, fuel = k + 1 := ⟨fuel - 1, by omega⟩
    rw [_packed_follow_reference_skip]
    simp only [Nat.lt_irrefl, false_and, if_false, List.sum_nil, Nat.add_zero, List.nil_append]
      at hrem ⊢
    rw [← hrem]
  | cons l pre ih =>
    intro post c j hitems hf hrem h64 hend hj
    obtain ⟨hitem, hrest⟩ := hitems
    obtain ⟨hl1, hff, hskip⟩ := item_skips_any cfg mem hr d _ _ hitem
    simp only [List.cons_append, List.length_cons, List.sum_cons] at hrem h64 hend hj
    have hne : nanocbor_at_end mem c = false := by
      rw [Bool.eq_false_iff, Ne, at_end_definite_any mem c 4 (Or.inr rfl) hf]
      omega
    obtain ⟨r1, hr1, N1, hN1⟩ := hskip c limit hd h256 rfl hne (by omega)
    have hr1v : r1 = (pre ++ post).length := by
      rw [hr1 (by omega), hrem, dec64_succ _ h64]
    subst hr1v
    obtain ⟨N2, hN2⟩ := ih post { c with cur := c.cur + l, remaining := (pre ++ post).length }
      (j + 1) hrest hf rfl (by omega) (by simp only; omega) (by omega)
    dsimp only at hN2
    refine ⟨max N1 N2 + 1, fun fuel hfu => ?_⟩
    obtain ⟨k, rfl⟩ : ∃ k, fuel = k + 1 := ⟨fuel - 1, by omega⟩
    have hjlt : j < idx := by omega
    have hnn : ¬ (NANOCBOR_OK < 0) := by decide
    have hmod : (j + 1) % 2 ^ 64 = j + 1 := Nat.mod_eq_of_lt (by omega)
    rw [_packed_follow_reference_skip]
    simp only [hjlt, hne, Bool.false_eq_true, not_false_eq_true, and_self, if_true,
      hN1 k (by omega), hnn, if_false, hmod, hN2 k (by omega), List.sum_cons, Nat.add_assoc]

theorem tables_from_cons (cfg : Config) (mem : Mem) (d : Nat) (tb : List nanocbor_packed_table)
    (num i : Nat) (x : nanocbor_packed_table × List Nat)
    (rest : List (nanocbor_packed_table × List Nat))
    (h : TablesFrom cfg mem d tb num i (x :: rest)) :
    i < num ∧ tb.getD (num - 1 - i) ⟨0, 0⟩ = x.1 ∧ TableAt cfg mem d x.1 x.2 ∧
      TablesFrom cfg mem d tb num (i + 1) rest := by
  obtain ⟨h1, h2⟩ := h
  simp only [List.length_cons] at h1
  have h0 := h2 0 x rfl
  refine ⟨by omega, by simpa using h0.1, h0.2, by omega, ?_⟩
  intro j y hy
  have := h2 (j + 1) y (by simpa using hy)
  have e : i + (j + 1) = i + 1 + j := by omega
  rw [e] at this
  exact this

theorem follow_enter_table (cfg : Config) (mem : Mem) (d : Nat) (k : Nat)
    (t : nanocbor_packed_table) (ls : List Nat) (cvalue target : nanocbor_value_t)
    (limit : Nat) (h3 : 3 ≤ limit) (h256 : limit < 256) (ht : TableAt cfg mem d t ls) :
    _enter_container cfg mem (k + 3)
      (_packed_copy_tables (nanocbor_decoder_init_packed cfg (stack_value cfg) t.start t.len)
        cvalue) target NANOCBOR_TYPE_ARR (dec8 limit) =
      some (NANOCBOR_OK,
        _packed_copy_tables (nanocbor_decoder_init_packed cfg (stack_value cfg) t.start t.len)
          cvalue,
        ⟨t.start + head_len (byteAt mem t.start % 32), t.start + t.len, ls.length, 5,
          cvalue.shared_item_tables, cvalue.num_active_tables⟩) := by
  obtain ⟨h0, hm, hi, harg, h32, _, hlen⟩ := ht
  have hp := head_len_pos (byteAt mem t.start % 32)
  have hb := byteAt_lt mem t.start
  have hcur : (_packed_copy_tables (nanocbor_decoder_init_packed cfg (stack_value cfg)
      t.start t.len) cvalue).cur = t.start := rfl
  have hend : (_packed_copy_tables (nanocbor_decoder_init_packed cfg (stack_value cfg)
      t.start t.len) cvalue).end_ = t.start + t.len := rfl
  have hfl : (_packed_copy_tables (nanocbor_decoder_init_packed cfg (stack_value cfg)
      t.start t.len) cvalue).flags = 4 := rfl
  have htb : (_packed_copy_tables (nanocbor_decoder_init_packed cfg (stack_value cfg)
      t.start t.len) cvalue).shared_item_tables = cvalue.shared_item_tables := rfl
  have hnum : (_packed_copy_tables (nanocbor_decoder_init_packed cfg (stack_value cfg)
      t.start t.len) cvalue).num_active_tables = cvalue.num_active_tables := rfl
  generalize _packed_copy_tables (nanocbor_decoder_init_packed cfg (stack_value cfg)
      t.start t.len) cvalue = table at hcur hend hfl htb hnum
  have he : _packed_enabled table = true := by
    simp [_packed_enabled, hfl, NANOCBOR_DECODER_FLAG_PACKED_SUPPORT]
  have hoe : _over_end table = false := by
    simp only [_over_end, hcur, hend, decide_eq_false_iff_not]
    omega
  have e42 : (4 : Nat) &&& 2 = 0 := by decide
  have e41 : (4 : Nat) &&& 1 = 0 := by decide
  have hne : nanocbor_at_end mem table = false := by
    simp [nanocbor_at_end, hoe, nanocbor_container_indefinite, nanocbor_in_container, hfl,
      NANOCBOR_DECODER_FLAG_INDEFINITE, NANOCBOR_DECODER_FLAG_CONTAINER, e42, e41]
  have hg := get_type_of_not_at_end mem table hne
  rw [hcur] at hg
  have hd1 : dec8 limit = limit - 1 := dec8_eq limit (by omega) h256
  have hd2 : dec8 (dec8 limit) = limit - 2 := by
    rw [hd1, dec8_eq _ (by omega) (by omega)]
    omega
  have hD : DefiniteHead mem table 4 := by
    unfold DefiniteHead
    rw [hcur, hend]
    exact ⟨hm, hi, by omega⟩
  have hu := get_uint64_definite mem table 4 hne hD
  simp only [Nat.cast_ofNat] at hu
  rw [hcur] at hu
  have e4 : (NANOCBOR_TYPE_ARR.toNat <<< NANOCBOR_TYPE_OFFSET ||| NANOCBOR_SIZE_INDEFINITE) % 256
      = 0x9F := by decide
  have h9 : byteAt mem t.start ≠ 0x9F := by omega
  have hl : ¬ (((head_len (byteAt mem t.start % 32) : Nat) : Int) < 0) := by omega
  rw [enter_container_enabled cfg mem k table target _ _ he (by omega) (by omega)
    (by rw [hg]; simp only [NANOCBOR_TYPE_TAG]; omega)
    (by rw [hg]; simp only [NANOCBOR_TYPE_FLOAT]; omega), e4, hcur, hend, htb, hnum]
  simp [hoe, h9, NANOCBOR_TYPE_ARR, hu, hl, harg]

theorem list_take_drop_facts (ls : List Nat) (r : Nat) (h : r < ls.length) :
    (ls.take r ++ ls.drop r = ls) ∧ (ls.take r).length = r ∧ ls.drop r ≠ [] := by
  refine ⟨List.take_append_drop r ls, by simp [List.length_take]; omega, ?_⟩
  intro hx
  have := congrArg List.length hx
  simp at this
  omega

theorem follow_loop (cfg : Config) (mem : Mem) (d limit : Nat) (same : Bool)
    (tb : List nanocbor_packed_table) (num : Nat)
    (hr : 3 ≤ cfg.NANOCBOR_RECURSION_MAX % 256)
    (h3 : 3 ≤ limit) (h256 : limit < 256) (hd : d < limit) :
    ∀ (ts : List (nanocbor_packed_table × List Nat)) (i idx : Nat)
      (cvalue target : nanocbor_value_t),
      cvalue.shared_item_tables = tb → TablesFrom cfg mem d tb num i ts →
      (∀ j a, entry_pos mem ts idx = some (j, a) →
        ∃ (t2 : nanocbor_value_t) (N : Nat),
          t2.cur = a ∧ t2.num_active_tables = (num - (i + j)) % 256 ∧
          t2.shared_item_tables = tb ∧ t2.flags = 5 ∧
          nanocbor_at_end mem t2 = false ∧ (∃ e, ItemAt cfg mem d a e ∧ a + e ≤ t2.end_) ∧
          ∀ fuel, N ≤ fuel →
            _packed_follow_reference_loop cfg mem fuel same cvalue target idx limit num i =
              some (NANOCBOR_OK, if same then t2 else cvalue, t2)) ∧
      (entry_pos mem ts idx = none →
        ∃ (c2 t2 : nanocbor_value_t) (N : Nat), (same = false → c2 = cvalue) ∧
          ∀ fuel, N ≤ fuel →
            _packed_follow_reference_loop cfg mem fuel same cvalue target idx limit num i =
              some (NANOCBOR_ERR_PACKED_UNDEFINED_REFERENCE, c2, t2)) := by
  intro ts
  induction ts with
  | nil =>
    intro i idx cvalue target _ hts
    obtain ⟨hnum, _⟩ := hts
    simp only [List.length_nil, Nat.add_zero] at hnum
    refine ⟨fun j a h => by simp [entry_pos] at h, fun _ => ?_⟩
    refine ⟨cvalue, target, 1, fun _ => rfl, fun fuel hf => ?_⟩
    obtain ⟨k, rfl⟩ : ∃ k, fuel = k + 1 := ⟨fuel - 1, by omega⟩
    rw [_packed_follow_reference_loop]
    simp [hnum]
  | cons x rest ih =>
    intro i idx cvalue target htb hts
    obtain ⟨hi, hget, htab, hrest⟩ := tables_from_cons cfg mem d tb num i x rest hts
    have hent := fun k => follow_enter_table cfg mem d k x.1 x.2 cvalue target limit h3 h256 htab
    obtain ⟨h0, hm, hinfo, harg, h32, hitems, hlen⟩ := htab
    have hgt : get_table cvalue (num - 1 - i) = x.1 := by
      unfold get_table
      rw [htb]
      exact hget
    have hnn : ¬ (NANOCBOR_OK < 0) := by decide
    have e52 : (5 : Nat) &&& 2 = 0 := by decide
    have hsize : ∀ (c : nanocbor_value_t), c.flags = 5 → c.remaining = x.2.length →
        (if nanocbor_container_indefinite c = true then 2 ^ 32 - 1
          else nanocbor_array_items_remaining c % 2 ^ 32) = x.2.length := by
      intro c hf hrem
      have : nanocbor_container_indefinite c = false := by
        simp [nanocbor_container_indefinite, hf, NANOCBOR_DECODER_FLAG_INDEFINITE, e52]
      rw [this]
      simp only [Bool.false_eq_true, if_false, nanocbor_array_items_remaining, hrem]
      exact Nat.mod_eq_of_lt h32
    by_cases hlt : idx < x.2.length
    · -- the entry lies in this table
      obtain ⟨htd, htl, hdn⟩ := list_take_drop_facts x.2 idx hlt
      have hitems2 : ItemsAt (ItemAt cfg mem d)
          (x.1.start + head_len (byteAt mem x.1.start % 32)) (x.2.take idx ++ x.2.drop idx) := by
        rw [htd]; exact hitems
      obtain ⟨Ns, hNs⟩ := follow_skip cfg mem d limit idx hr hd h256 (by omega)
        (x.2.take idx) (x.2.drop idx)
        ⟨x.1.start + head_len (byteAt mem x.1.start % 32), x.1.start + x.1.len, x.2.length, 5,
          cvalue.shared_item_tables, cvalue.num_active_tables⟩ 0 hitems2 rfl
        (by rw [htd]) (by rw [htd]; omega)
        (by rw [htd]; show x.1.start + head_len (byteAt mem x.1.start % 32) + x.2.sum ≤
          x.1.start + x.1.len; omega) (by omega)
      dsimp only at hNs
      have hpost := items_at_append _ _ _ _ hitems2
      obtain ⟨e, post, hpe⟩ : ∃ e post, x.2.drop idx = e :: post := by
        cases hx : x.2.drop idx with
        | nil => exact absurd hx hdn
        | cons e post => exact ⟨e, post, rfl⟩
      rw [hpe] at hpost
      obtain ⟨he1, _, _⟩ := item_skips_any cfg mem hr d _ _ hpost.1
      have hsum : (x.2.take idx).sum + e + post.sum = x.2.sum := by
        have := congrArg List.sum htd
        rw [List.sum_append, hpe, List.sum_cons] at this
        omega
      have hne2 : nanocbor_at_end mem
          ⟨x.1.start + head_len (byteAt mem x.1.start % 32) + (x.2.take idx).sum,
            x.1.start + x.1.len, (x.2.drop idx).length, 5,
            cvalue.shared_item_tables, cvalue.num_active_tables⟩ = false := by
        rw [Bool.eq_false_iff, Ne, at_end_definite_any mem _ 4 (Or.inr rfl) rfl]
        simp only [hpe, List.length_cons]
        omega
      refine ⟨fun j a hja => ?_, fun hnone => ?_⟩
      · simp only [entry_pos, hlt, if_true, Option.some.injEq, Prod.mk.injEq] at hja
        obtain ⟨rfl, rfl⟩ := hja
        refine ⟨⟨x.1.start + head_len (byteAt mem x.1.start % 32) + (x.2.take idx).sum,
            x.1.start + x.1.len, (x.2.drop idx).length, 5,
            tb, (num - i) % 256⟩, Ns + 4, rfl, by simp, rfl, rfl, ?_, ⟨e, hpost.1, ?_⟩,
            fun fuel hf => ?_⟩
        · rw [Bool.eq_false_iff, Ne, at_end_definite_any mem _ 4 (Or.inr rfl) rfl]
          simp only [hpe, List.length_cons]
          omega
        · show x.1.start + head_len (byteAt mem x.1.start % 32) + (x.2.take idx).sum + e ≤
            x.1.start + x.1.len
          omega
        obtain ⟨k, rfl⟩ : ∃ k, fuel = k + 3 + 1 := ⟨fuel - 4, by omega⟩
        rw [_packed_follow_reference_loop]
        simp only [hi, if_true, hgt, h0, if_false, hent k, hnn]
        rw [hsize _ rfl rfl]
        simp only [hlt, if_true, hNs (k + 3) (by omega), hnn, if_false, hne2,
          Bool.false_eq_true]
        cases same <;> simp [_packed_copy_tables, htb]
      · simp [entry_pos, hlt] at hnone
    · -- the entry lies in a later table
      have hcv : (if same then
          (⟨x.1.start + head_len (byteAt mem x.1.start % 32), x.1.start + x.1.len, x.2.length, 5,
            cvalue.shared_item_tables, cvalue.num_active_tables⟩ : nanocbor_value_t)
          else cvalue).shared_item_tables = tb := by
        cases same <;> simp [htb]
      obtain ⟨ih1, ih2⟩ := ih (i + 1) (idx - x.2.length)
        (if same then
          (⟨x.1.start + head_len (byteAt mem x.1.start % 32), x.1.start + x.1.len, x.2.length, 5,
            cvalue.shared_item_tables, cvalue.num_active_tables⟩ : nanocbor_value_t)
          else cvalue)
        ⟨x.1.start + head_len (byteAt mem x.1.start % 32), x.1.start + x.1.len, x.2.length, 5,
          cvalue.shared_item_tables, cvalue.num_active_tables⟩ hcv hrest
      have hstep : ∀ k,
          _packed_follow_reference_loop cfg mem (k + 3 + 1) same cvalue target idx limit num i =
          _packed_follow_reference_loop cfg mem (k + 3) same
            (if same then
              (⟨x.1.start + head_len (byteAt mem x.1.start % 32), x.1.start + x.1.len,
                x.2.length, 5, cvalue.shared_item_tables, cvalue.num_active_tables⟩ :
                nanocbor_value_t)
              else cvalue)
            ⟨x.1.start + head_len (byteAt mem x.1.start % 32), x.1.start + x.1.len, x.2.length, 5,
              cvalue.shared_item_tables, cvalue.num_active_tables⟩
            (idx - x.2.length) limit num (i + 1) := by
        intro k
        rw [_packed_follow_reference_loop]
        simp only [hi, if_true, hgt, h0, if_false, hent k, hnn]
        rw [hsize _ rfl rfl]
        simp only [hlt, if_false]
      refine ⟨fun j a hja => ?_, fun hnone => ?_⟩
      · simp only [entry_pos, hlt, if_false, Option.map_eq_some', Prod.mk.injEq] at hja
        obtain ⟨p, hp, rfl, rfl⟩ := hja
        obtain ⟨t2, N, f1, f2, f3, f4, f5, f6, hN⟩ := ih1 p.1 p.2 hp
        refine ⟨t2, N + 4, f1, by rw [f2]; congr 2; omega, f3, f4, f5, f6, fun fuel hf => ?_⟩
        obtain ⟨k, rfl⟩ : ∃ k, fuel = k + 3 + 1 := ⟨fuel - 4, by omega⟩
        rw [hstep k, hN (k + 3) (by omega)]
        cases same <;> simp
      · simp only [entry_pos, hlt, if_false, Option.map_eq_none'] at hnone
        obtain ⟨c2, t2, N, hc, hN⟩ := ih2 hnone
        refine ⟨c2, t2, N + 4, fun hs => by rw [hc hs, hs]; rfl, fun fuel hf => ?_⟩
        obtain ⟨k, rfl⟩ : ∃ k, fuel = k + 3 + 1 := ⟨fuel - 4, by omega⟩
        rw [hstep k, hN (k + 3) (by omega)]

theorem entry_pos_none_iff (mem : Mem) :
    ∀ (ts : List (nanocbor_packed_table × List Nat)) (r : Nat),
      entry_pos mem ts r = none ↔ (ts.map fun x => x.2.length).sum ≤ r := by
  intro ts
  induction ts with
  | nil => intro r; simp [entry_pos]
  | cons x rest ih =>
    intro r
    rw [entry_pos]
    by_cases h : r < x.2.length
    · simp only [h, if_true, List.map_cons, List.sum_cons]
      constructor
      · intro hx; exact absurd hx (by simp)
      · intro hx; omega
    · simp only [h, if_false, Option.map_eq_none', ih, List.map_cons, List.sum_cons]
      omega

theorem tables_from_drop (cfg : Config) (mem : Mem) (d : Nat) (tb : List nanocbor_packed_table)
    (num : Nat) (ts : List (nanocbor_packed_table × List Nat)) (j : Nat) (hj : j ≤ ts.length)
    (h : TablesFrom cfg mem d tb num 0 ts) :
    TablesFrom cfg mem d tb (num - j) 0 (ts.drop j) := by
  obtain ⟨h1, h2⟩ := h
  refine ⟨by simp only [List.length_drop]; omega, ?_⟩
  intro m x hx
  have hx2 : ts.get? (j + m) = some x := by
    simpa [List.getElem?_drop] using hx
  have := h2 (j + m) x hx2
  have e : num - 1 - (0 + (j + m)) = num - j - 1 - (0 + m) := by omega
  rw [e] at this
  exact this

theorem entry_pos_lt (mem : Mem) :
    ∀ (ts : List (nanocbor_packed_table × List Nat)) (r j a : Nat),
      entry_pos mem ts r = some (j, a) → j < ts.length := by
  intro ts
  induction ts with
  | nil => intro r j a h; simp [entry_pos] at h
  | cons x rest ih =>
    intro r j a h
    rw [entry_pos] at h
    by_cases hlt : r < x.2.length
    · simp only [hlt, if_true, Option.some.injEq, Prod.mk.injEq] at h
      simp only [List.length_cons]
      omega
    · simp only [hlt, if_false, Option.map_eq_some', Prod.mk.injEq] at h
      obtain ⟨p, hp, rfl, rfl⟩ := h
      have := ih _ p.1 p.2 hp
      simp only [List.length_cons]
      omega

/-- C2 (amended). Let the active tables of `cvalue` be the well-formed definite-length arrays
`ts` (given innermost first) with fewer than `2^32` entries each, the entries being well-formed
items nested less deep than the recursion limit `limit` passed to the call, and let
`3 <= limit < 256` and `3 <= NANOCBOR_RECURSION_MAX % 256`.  For an index `r` below the total
number of entries, `_packed_follow_reference` returns `OK` (given enough fuel) with the target
positioned at the first byte of entry `r` of the concatenation `Tk ++ ... ++ T0` (the innermost
table is searched first and the size of each exhausted table is subtracted from the index); for
`r` at or above the total, in particular when there is no active table, it returns
`PACKED_UNDEFINED_REFERENCE`.  When `cvalue` and `target` are distinct objects, `cvalue` is left
as it was. -/
theorem C2_follow_reference (cfg : Config) (mem : Mem) (d limit : Nat) (same : Bool)
    (ts : List (nanocbor_packed_table × List Nat)) (cvalue target : nanocbor_value_t) (r : Nat)
    (hr : 3 ≤ cfg.NANOCBOR_RECURSION_MAX % 256)
    (h3 : 3 ≤ limit) (h256 : limit < 256) (hd : d < limit)
    (hts : TablesFrom cfg mem d cvalue.shared_item_tables cvalue.num_active_tables 0 ts) :
    (r < (ts.map fun x => x.2.length).sum →
      ∃ (j a : Nat) (t2 : nanocbor_value_t) (N : Nat),
        entry_pos mem ts r = some (j, a) ∧ t2.cur = a ∧
        ∀ fuel, N ≤ fuel →
          _packed_follow_reference cfg mem fuel same cvalue target r limit =
            some (NANOCBOR_OK, if same then t2 else cvalue, t2)) ∧
    ((ts.map fun x => x.2.length).sum ≤ r →
      ∃ (c2 t2 : nanocbor_value_t) (N : Nat), (same = false → c2 = cvalue) ∧
        ∀ fuel, N ≤ fuel →
          _packed_follow_reference cfg mem fuel same cvalue target r limit =
            some (NANOCBOR_ERR_PACKED_UNDEFINED_REFERENCE, c2, t2)) := by
  obtain ⟨f1, f2⟩ := follow_loop cfg mem d limit same cvalue.shared_item_tables
    cvalue.num_active_tables hr h3 h256 hd ts 0 r cvalue target rfl hts
  constructor
  · intro hlt
    cases hp : entry_pos mem ts r with
    | none => exact absurd ((entry_pos_none_iff mem ts r).mp hp) (by omega)
    | some p =>
      obtain ⟨j, a⟩ := p
      obtain ⟨t2, N, g1, _, _, _, _, _, hN⟩ := f1 j a hp
      refine ⟨j, a, t2, N + 1, rfl, g1, fun fuel hf => ?_⟩
      obtain ⟨k, rfl⟩ : ∃ k, fuel = k + 1 := ⟨fuel - 1, by omega⟩
      rw [_packed_follow_reference, hN k (by omega)]
  · intro hge
    obtain ⟨c2, t2, N, hc, hN⟩ := f2 ((entry_pos_none_iff mem ts r).mpr hge)
    refine ⟨c2, t2, N + 1, hc, fun fuel hf => ?_⟩
    obtain ⟨k, rfl⟩ : ∃ k, fuel = k + 1 := ⟨fuel - 1, by omega⟩
    rw [_packed_follow_reference, hN k (by omega)]

theorem tables_from_example :
    TablesFrom defaultConfig
      (mem_of 16 [0xD8, 0x71, 0x82, 0x81, 0xE1, 0xD8, 0x71, 0x82, 0x82, 0x07, 0x08, 0x82, 0xE2,
        0xE1]) 0 [⟨19, 2⟩, ⟨24, 3⟩, ⟨0, 0⟩, ⟨0, 0⟩] 2 0
      [(⟨24, 3⟩, [1, 1]), (⟨19, 2⟩, [1])] := by
  refine ⟨rfl, ?_⟩
  intro j x hx
  match j, hx with
  | 0, hx =>
    simp only [List.get?_cons_zero, Option.some.injEq] at hx
    subst hx
    exact ⟨by decide, by decide, by decide, by decide, by decide, by decide,
      ⟨by unfold ItemAt SimpleItemAt; decide, by unfold ItemAt SimpleItemAt; decide, trivial⟩,
      by decide⟩
  | 1, hx =>
    simp only [List.get?_cons_succ, List.get?_cons_zero, Option.some.injEq] at hx
    subst hx
    exact ⟨by decide, by decide, by decide, by decide, by decide, by decide,
      ⟨by unfold ItemAt SimpleItemAt; decide, trivial⟩, by decide⟩
  | j + 2, hx => simp at hx

/-- Witness of C2: in `113([[simple(1)], 113([[7, 8], [simple(2), simple(1)]])])` at address 16
the body of the rump array has the inner table `[7, 8]` and the outer table `[simple(1)]`
active; index 2 is entry 0 of the outer table, at address 20. -/
theorem C2_follow_reference_witness :
    3 ≤ defaultConfig.NANOCBOR_RECURSION_MAX % 256 ∧ (2 : Nat) < ([2, 1] : List Nat).sum ∧
    ∃ (j a : Nat) (t2 : nanocbor_value_t) (N : Nat),
      entry_pos (mem_of 16 [0xD8, 0x71, 0x82, 0x81, 0xE1, 0xD8, 0x71, 0x82, 0x82, 0x07, 0x08,
        0x82, 0xE2, 0xE1]) [(⟨24, 3⟩, [1, 1]), (⟨19, 2⟩, [1])] 2 = some (j, a) ∧ t2.cur = a ∧
      ∀ fuel, N ≤ fuel →
        _packed_follow_reference defaultConfig
          (mem_of 16 [0xD8, 0x71, 0x82, 0x81, 0xE1, 0xD8, 0x71, 0x82, 0x82, 0x07, 0x08, 0x82,
            0xE2, 0xE1]) fuel false
          ⟨28, 30, 2, 13, [⟨19, 2⟩, ⟨24, 3⟩, ⟨0, 0⟩, ⟨0, 0⟩], 2⟩ (stack_value defaultConfig) 2 9 =
          some (NANOCBOR_OK,
            if false then t2 else ⟨28, 30, 2, 13, [⟨19, 2⟩, ⟨24, 3⟩, ⟨0, 0⟩, ⟨0, 0⟩], 2⟩, t2) :=
  ⟨by decide, by decide,
    (C2_follow_reference defaultConfig
      (mem_of 16 [0xD8, 0x71, 0x82, 0x81, 0xE1, 0xD8, 0x71, 0x82, 0x82, 0x07, 0x08, 0x82, 0xE2,
        0xE1]) 0 9 false [(⟨24, 3⟩, [1, 1]), (⟨19, 2⟩, [1])]
      ⟨28, 30, 2, 13, [⟨19, 2⟩, ⟨24, 3⟩, ⟨0, 0⟩, ⟨0, 0⟩], 2⟩ (stack_value defaultConfig) 2
      (by decide) (by decide) (by decide) (by decide) tables_from_example).1 (by decide)⟩

/-- Counterexample to C2 as stated: with the same cursor and tables (three entries in all) and
index 1, a call with the recursion limit 2 returns `RECURSION`, not `OK`; with the limit 3 it
returns `OK` with the target at address 26, entry 1 of the inner table.  (`_packed_handle` runs
the call with the limit it was given, which shrinks by one for each reference that a table
entry chains to.) -/
theorem C2_counterexample :
    (_packed_follow_reference defaultConfig
      (mem_of 16 [0xD8, 0x71, 0x82, 0x81, 0xE1, 0xD8, 0x71, 0x82, 0x82, 0x07, 0x08, 0x82, 0xE2,
        0xE1]) 12 false
      ⟨28, 30, 2, 13, [⟨19, 2⟩, ⟨24, 3⟩, ⟨0, 0⟩, ⟨0, 0⟩], 2⟩ (stack_value defaultConfig) 1 2).map
        (fun r => r.1) = some NANOCBOR_ERR_RECURSION ∧
    (_packed_follow_reference defaultConfig
      (mem_of 16 [0xD8, 0x71, 0x82, 0x81, 0xE1, 0xD8, 0x71, 0x82, 0x82, 0x07, 0x08, 0x82, 0xE2,
        0xE1]) 12 false
      ⟨28, 30, 2, 13, [⟨19, 2⟩, ⟨24, 3⟩, ⟨0, 0⟩, ⟨0, 0⟩], 2⟩ (stack_value defaultConfig) 1 3).map
        (fun r => (r.1, r.2.2.cur)) = some (NANOCBOR_OK, 26) ∧
    entry_pos (mem_of 16 [0xD8, 0x71, 0x82, 0x81, 0xE1, 0xD8, 0x71, 0x82, 0x82, 0x07, 0x08,
      0x82, 0xE2, 0xE1]) [(⟨24, 3⟩, [1, 1]), (⟨19, 2⟩, [1])] 1 = some (0, 26) ∧
    ((nanocbor_enter_array defaultConfig
      (mem_of 16 [0xD8, 0x71, 0x82, 0x81, 0xE1, 0xD8, 0x71, 0x82, 0x82, 0x07, 0x08, 0x82, 0xE2,
        0xE1]) 14
      (nanocbor_decoder_init_packed defaultConfig (stack_value defaultConfig) 16 14)
      (stack_value defaultConfig)) =
      some (NANOCBOR_OK, ⟨28, 30, 2, 13, [⟨19, 2⟩, ⟨24, 3⟩, ⟨0, 0⟩, ⟨0, 0⟩], 2⟩)) ∧
    NANOCBOR_ERR_RECURSION ≠ NANOCBOR_OK := by
  exact ⟨by decide!, by decide!, by decide, by decide!, by decide⟩

/-- C28. Let the active tables of `cvalue` be the well-formed definite-length arrays `ts`
(innermost first; list position `j` is position `k = num - 1 - j` counted from the outermost
table), and let entry `r` of their concatenation lie in the table at list position `j`.  Then
`_packed_follow_reference` returns `OK` with a target whose table array is that of `cvalue` and
whose count of active tables is `num - j = k + 1`: its active set is `ts.drop j`, the tables at
positions `0..k`, and none defined later.  Consequently every index that these tables do not
cover is answered with `PACKED_UNDEFINED_REFERENCE` when it is followed from the target, also
when one of the `j` tables defined later would cover it. -/
theorem C28_target_tables (cfg : Config) (mem : Mem) (d limit : Nat) (same : Bool)
    (ts : List (nanocbor_packed_table × List Nat)) (cvalue target : nanocbor_value_t)
    (r j a : Nat) (hr : 3 ≤ cfg.NANOCBOR_RECURSION_MAX % 256)
    (h3 : 3 ≤ limit) (h256 : limit < 256) (hd : d < limit)
    (hnum : cvalue.num_active_tables < 256)
    (hts : TablesFrom cfg mem d cvalue.shared_item_tables cvalue.num_active_tables 0 ts)
    (hhit : entry_pos mem ts r = some (j, a)) :
    ∃ (t2 : nanocbor_value_t) (N : Nat),
      (∀ fuel, N ≤ fuel →
        _packed_follow_reference cfg mem fuel same cvalue target r limit =
          some (NANOCBOR_OK, if same then t2 else cvalue, t2)) ∧
      t2.cur = a ∧ t2.shared_item_tables = cvalue.shared_item_tables ∧
      t2.num_active_tables = cvalue.num_active_tables - j ∧
      TablesFrom cfg mem d t2.shared_item_tables t2.num_active_tables 0 (ts.drop j) ∧
      ∀ (s limit2 : Nat) (same2 : Bool) (target2 : nanocbor_value_t),
        3 ≤ limit2 → limit2 < 256 → d < limit2 →
        ((ts.drop j).map fun x => x.2.length).sum ≤ s →
        ∃ (c3 t3 : nanocbor_value_t) (N2 : Nat), ∀ fuel, N2 ≤ fuel →
          _packed_follow_reference cfg mem fuel same2 t2 target2 s limit2 =
            some (NANOCBOR_ERR_PACKED_UNDEFINED_REFERENCE, c3, t3) := by
  obtain ⟨f1, _⟩ := follow_loop cfg mem d limit same cvalue.shared_item_tables
    cvalue.num_active_tables hr h3 h256 hd ts 0 r cvalue target rfl hts
  obtain ⟨t2, N, g1, g2, g3, _, _, _, hN⟩ := f1 j a hhit
  have hj := entry_pos_lt mem ts r j a hhit
  have g2b : t2.num_active_tables = cvalue.num_active_tables - j := by
    rw [g2, Nat.zero_add]
    exact Nat.mod_eq_of_lt (by omega)
  have hts2 : TablesFrom cfg mem d t2.shared_item_tables t2.num_active_tables 0 (ts.drop j) := by
    rw [g3, g2b]
    exact tables_from_drop cfg mem d _ _ ts j (by omega) hts
  refine ⟨t2, N + 1, fun fuel hf => ?_, g1, g3, g2b, hts2, ?_⟩
  · obtain ⟨k, rfl⟩ : ∃ k, fuel = k + 1 := ⟨fuel - 1, by omega⟩
    rw [_packed_follow_reference, hN k (by omega)]
  · intro s limit2 same2 target2 k3 k256 kd hs
    obtain ⟨_, f2⟩ := follow_loop cfg mem d limit2 same2 t2.shared_item_tables
      t2.num_active_tables hr k3 k256 kd (ts.drop j) 0 s t2 target2 rfl hts2
    obtain ⟨c3, t3, N2, _, hN2⟩ := f2 ((entry_pos_none_iff mem _ s).mpr hs)
    refine ⟨c3, t3, N2 + 1, fun fuel hf => ?_⟩
    obtain ⟨k, rfl⟩ : ∃ k, fuel = k + 1 := ⟨fuel - 1, by omega⟩
    rw [_packed_follow_reference, hN2 k (by omega)]

/-- Witness of C28: in `113([[simple(1)], 113([[7, 8], [simple(2), simple(1)]])])` index 2 is
entry 0 of the outer table (list position 1), so the target keeps one active table.  Read
through the document: `nanocbor_get_uint8` on `simple(2)`, whose entry `simple(1)` is not
covered by the outer table alone, returns `PACKED_UNDEFINED_REFERENCE`, while on `simple(1)`
itself it yields 8, entry 1 of the inner table. -/
theorem C28_target_tables_witness :
    entry_pos (mem_of 16 [0xD8, 0x71, 0x82, 0x81, 0xE1, 0xD8, 0x71, 0x82, 0x82, 0x07, 0x08,
      0x82, 0xE2, 0xE1]) [(⟨24, 3⟩, [1, 1]), (⟨19, 2⟩, [1])] 2 = some (1, 20) ∧
    (∃ (t2 : nanocbor_value_t) (N : Nat),
      (∀ fuel, N ≤ fuel →
        _packed_follow_reference defaultConfig
          (mem_of 16 [0xD8, 0x71, 0x82, 0x81, 0xE1, 0xD8, 0x71, 0x82, 0x82, 0x07, 0x08, 0x82,
            0xE2, 0xE1]) fuel false
          ⟨28, 30, 2, 13, [⟨19, 2⟩, ⟨24, 3⟩, ⟨0, 0⟩, ⟨0, 0⟩], 2⟩ (stack_value defaultConfig) 2 9 =
          some (NANOCBOR_OK,
            if false then t2 else ⟨28, 30, 2, 13, [⟨19, 2⟩, ⟨24, 3⟩, ⟨0, 0⟩, ⟨0, 0⟩], 2⟩, t2)) ∧
      t2.cur = 20 ∧ t2.num_active_tables = 2 - 1) ∧
    ((nanocbor_enter_array defaultConfig
      (mem_of 16 [0xD8, 0x71, 0x82, 0x81, 0xE1, 0xD8, 0x71, 0x82, 0x82, 0x07, 0x08, 0x82, 0xE2,
        0xE1]) 20
      (nanocbor_decoder_init_packed defaultConfig (stack_value defaultConfig) 16 14)
      (stack_value defaultConfig)).bind fun b =>
      (nanocbor_get_uint8 defaultConfig
        (mem_of 16 [0xD8, 0x71, 0x82, 0x81, 0xE1, 0xD8, 0x71, 0x82, 0x82, 0x07, 0x08, 0x82,
          0xE2, 0xE1]) 20 b.2 0).bind fun u =>
      (nanocbor_get_uint8 defaultConfig
        (mem_of 16 [0xD8, 0x71, 0x82, 0x81, 0xE1, 0xD8, 0x71, 0x82, 0x82, 0x07, 0x08, 0x82,
          0xE2, 0xE1]) 20 u.2.1 0).map
        fun w => (b.1, b.2.cur, u.1, u.2.1.cur, w.1, w.2.2)) =
      some (NANOCBOR_OK, 28, NANOCBOR_ERR_PACKED_UNDEFINED_REFERENCE, 29, 1, 8) := by
  obtain ⟨t2, N, h1, h2, _, h4, _⟩ := C28_target_tables defaultConfig
    (mem_of 16 [0xD8, 0x71, 0x82, 0x81, 0xE1, 0xD8, 0x71, 0x82, 0x82, 0x07, 0x08, 0x82, 0xE2,
      0xE1]) 0 9 false [(⟨24, 3⟩, [1, 1]), (⟨19, 2⟩, [1])]
    ⟨28, 30, 2, 13, [⟨19, 2⟩, ⟨24, 3⟩, ⟨0, 0⟩, ⟨0, 0⟩], 2⟩ (stack_value defaultConfig) 2 1 20
    (by decide) (by decide) (by decide) (by decide) (by decide) tables_from_example (by decide)
  exact ⟨by decide, ⟨t2, N, h1, h2, h4⟩, by decide!⟩


/-! ## C26, C27: consuming a table definition -/

theorem body_at_end (mem : Mem) (c : nanocbor_value_t) (h : ArrayBody mem c []) :
    nanocbor_at_end mem c = true := by
  rcases h with ⟨hf, hr, _, _⟩ | ⟨hf, _, hb⟩
  · rw [at_end_definite_any mem c 4 (Or.inr rfl) hf]
    right
    simpa using hr
  · rw [at_end_indefinite_any mem c 4 (Or.inr rfl) hf]
    right
    simpa using hb

theorem body_step (cfg : Config) (mem : Mem) (d limit : Nat) (c : nanocbor_value_t)
    (l : Nat) (rest : List Nat) (hr : 3 ≤ cfg.NANOCBOR_RECURSION_MAX % 256)
    (hd : d < limit) (h256 : limit < 256)
    (hb : ArrayBody mem c (l :: rest)) (hitem : ItemAt cfg mem d c.cur l) :
    nanocbor_at_end mem c = false ∧ 1 ≤ l ∧
    ∃ (r N : Nat), ArrayBody mem { c with cur := c.cur + l, remaining := r } rest ∧
      ∀ fuel, N ≤ fuel →
        _skip_limited cfg mem fuel c limit =
          some (NANOCBOR_OK, { c with cur := c.cur + l, remaining := r }) := by
  obtain ⟨hl1, hff, hskip⟩ := item_skips_any cfg mem hr d _ _ hitem
  simp only [ArrayBody, List.length_cons, List.sum_cons] at hb
  have hne : nanocbor_at_end mem c = false := by
    rw [Bool.eq_false_iff]
    rcases hb with ⟨hf, hrem, hlen, hend⟩ | ⟨hf, hend, hby⟩
    · rw [Ne, at_end_definite_any mem c 4 (Or.inr rfl) hf]
      omega
    · rw [Ne, at_end_indefinite_any mem c 4 (Or.inr rfl) hf]
      omega
  obtain ⟨r1, hr1, N1, hN1⟩ := hskip c limit hd h256 rfl hne
    (by rcases hb with h | h <;> omega)
  refine ⟨hne, hl1, r1, N1, ?_, hN1⟩
  rcases hb with ⟨hf, hrem, hlen, hend⟩ | ⟨hf, hend, hby⟩
  · left
    refine ⟨hf, ?_, by omega, by show c.cur + l + rest.sum ≤ c.end_; omega⟩
    show r1 = rest.length
    rw [hr1 (by omega), hrem, dec64_succ _ hlen]
  · right
    exact ⟨hf, by show c.cur + l + rest.sum < c.end_; omega,
      by show byteAt mem (c.cur + l + rest.sum) = 0xFF; rw [← hby]; congr 1; omega⟩

theorem skip_at_end (cfg : Config) (mem : Mem) (k : Nat) (c : nanocbor_value_t) (limit : Nat)
    (hl : limit ≠ 0) (he : nanocbor_at_end mem c = true) :
    _skip_limited cfg mem (k + 1) c limit = some (NANOCBOR_ERR_END, c) := by
  have ht : __get_type mem c = NANOCBOR_ERR_END := by simp [__get_type, he]
  have h1 : ¬ (NANOCBOR_ERR_END = NANOCBOR_TYPE_ARR ∨ NANOCBOR_ERR_END = NANOCBOR_TYPE_MAP) := by
    decide
  have h2 : ¬ (NANOCBOR_ERR_END = NANOCBOR_TYPE_TAG) := by decide
  have h3 : ¬ (NANOCBOR_ERR_END ≥ 0) := by decide
  have h4 : NANOCBOR_ERR_END < 0 := by decide
  rw [_skip_limited]
  simp only [hl, ht, h1, h2, h3, h4, if_false, if_true]

theorem consume_memory (cfg : Config) (mem : Mem) (limit : Nat)
    (c target arr : nanocbor_value_t)
    (hent : ∀ k, _enter_container cfg mem (k + 3) c (stack_value cfg) NANOCBOR_TYPE_ARR
      (dec8 limit) = some (NANOCBOR_OK, c, arr))
    (hfull : cfg.NANOCBOR_DECODE_PACKED_NESTED_TABLES_MAX ≤ arr.num_active_tables) (k : Nat) :
    _packed_consume_table cfg mem (k + 4) false c target limit =
      some (NANOCBOR_ERR_PACKED_MEMORY, c,
        _packed_copy_tables
          (nanocbor_decoder_init_packed cfg target arr.cur (arr.end_ - arr.cur)) arr) := by
  have hnn : ¬ (NANOCBOR_OK < 0) := by decide
  have hn : (_packed_copy_tables
      (nanocbor_decoder_init_packed cfg target arr.cur (arr.end_ - arr.cur))
      arr).num_active_tables = arr.num_active_tables := rfl
  rw [_packed_consume_table]
  simp only [hent k, hnn, if_false, Bool.false_eq_true, hn, ge_iff_le, hfull, if_true]

theorem consume_format_type (cfg : Config) (mem : Mem) (limit : Nat)
    (c target arr : nanocbor_value_t)
    (hent : ∀ k, _enter_container cfg mem (k + 3) c (stack_value cfg) NANOCBOR_TYPE_ARR
      (dec8 limit) = some (NANOCBOR_OK, c, arr))
    (hroom : arr.num_active_tables < cfg.NANOCBOR_DECODE_PACKED_NESTED_TABLES_MAX)
    (hty : __get_type mem arr ≠ NANOCBOR_TYPE_ARR)
    (hrec : __get_type mem arr ≠ NANOCBOR_ERR_RECURSION) (k : Nat) :
    _packed_consume_table cfg mem (k + 4) false c target limit =
      some (NANOCBOR_ERR_PACKED_FORMAT, c,
        _packed_copy_tables
          (nanocbor_decoder_init_packed cfg target arr.cur (arr.end_ - arr.cur)) arr) := by
  have hnn : ¬ (NANOCBOR_OK < 0) := by decide
  have hn : (_packed_copy_tables
      (nanocbor_decoder_init_packed cfg target arr.cur (arr.end_ - arr.cur))
      arr).num_active_tables = arr.num_active_tables := rfl
  have hroom2 : ¬ (cfg.NANOCBOR_DECODE_PACKED_NESTED_TABLES_MAX ≤ arr.num_active_tables) := by
    omega
  rw [_packed_consume_table]
  simp only [hent k, hnn, if_false, Bool.false_eq_true, hn, ge_iff_le, hroom2, ne_eq, hty,
    not_false_eq_true, if_true, recursion_or_format, hrec]

theorem get_type_codes (mem : Mem) (c : nanocbor_value_t) :
    __get_type mem c ≠ NANOCBOR_ERR_RECURSION := by
  unfold __get_type
  split
  · decide
  · intro h
    have h0 := Int.ofNat_nonneg
      ((byteAt mem c.cur &&& NANOCBOR_TYPE_MASK) >>> NANOCBOR_TYPE_OFFSET)
    rw [h] at h0
    exact absurd h0 (by decide)

theorem consume_one (cfg : Config) (mem : Mem) (d limit : Nat)
    (c target arr : nanocbor_value_t) (l0 : Nat)
    (hr : 3 ≤ cfg.NANOCBOR_RECURSION_MAX % 256) (h256 : limit < 256) (hd : d + 1 < limit)
    (hent : ∀ k, _enter_container cfg mem (k + 3) c (stack_value cfg) NANOCBOR_TYPE_ARR
      (dec8 limit) = some (NANOCBOR_OK, c, arr))
    (hroom : arr.num_active_tables < cfg.NANOCBOR_DECODE_PACKED_NESTED_TABLES_MAX)
    (hbody : ArrayBody mem arr [l0]) (hitems : ItemsAt (ItemAt cfg mem d) arr.cur [l0])
    (hm : byteAt mem arr.cur / 32 = 4) :
    ∃ N : Nat, ∀ fuel, N ≤ fuel →
      (_packed_consume_table cfg mem fuel false c target limit).map (fun r => (r.1, r.2.1)) =
        some (NANOCBOR_ERR_END, c) := by
  have hdec := dec8_eq limit (by omega) h256
  obtain ⟨hne, _, r1, N1, hb1, hN1⟩ := body_step cfg mem d (dec8 limit) arr l0 [] hr
    (by omega) (by omega) hbody hitems.1
  have he1 := body_at_end mem _ hb1
  have hty : __get_type mem arr = NANOCBOR_TYPE_ARR := by
    rw [get_type_of_not_at_end mem arr hne, hm]; rfl
  have hnn : ¬ (NANOCBOR_OK < 0) := by decide
  have hne2 : ¬ (NANOCBOR_ERR_END = NANOCBOR_OK) := by decide
  have hroom2 : ¬ (cfg.NANOCBOR_DECODE_PACKED_NESTED_TABLES_MAX ≤ arr.num_active_tables) := by
    omega
  have hn : (_packed_copy_tables
      (nanocbor_decoder_init_packed cfg target arr.cur (arr.end_ - arr.cur))
      arr).num_active_tables = arr.num_active_tables := rfl
  refine ⟨N1 + 4, fun fuel hf => ?_⟩
  obtain ⟨k, rfl⟩ : ∃ k, fuel = k + 3 + 1 := ⟨fuel - 4, by omega⟩
  rw [_packed_consume_table]
  simp only [hent k, hnn, if_false, Bool.false_eq_true, hn, ge_iff_le, hroom2, ne_eq, hty,
    not_true_eq_false, hN1 (k + 3) (by omega),
    skip_at_end cfg mem (k + 2) _ (dec8 limit) (by omega) he1, hne2, not_false_eq_true, if_true,
    Option.map_some']

theorem leave_container_any (cfg : Config) (mem : Mem) (k : Nat) (it c : nanocbor_value_t)
    (limit : Nat) (hf : c.flags = 5 ∨ c.flags = 7) (he : nanocbor_at_end mem c = true)
    (h1 : it.cur < c.cur) (h2 : c.cur + (if c.flags = 7 then 1 else 0) ≤ it.end_) :
    _leave_container cfg mem (k + 1) it c limit =
      some (NANOCBOR_OK,
        { it with
          cur := c.cur + (if c.flags = 7 then 1 else 0),
          remaining := if it.remaining ≠ 0 then dec64 it.remaining else it.remaining }) := by
  have e5 : (5 : Nat) &&& 2 = 0 := by decide
  have e7 : (7 : Nat) &&& 2 = 2 := by decide
  have hc : nanocbor_in_container c = true := by
    rcases hf with h | h <;> simp [nanocbor_in_container, h, NANOCBOR_DECODER_FLAG_CONTAINER]
  have hs : ¬ (c.flags &&& NANOCBOR_DECODER_FLAG_SHARED ≠ 0) := by
    rcases hf with h | h <;> rw [h] <;> decide
  have hr : ¬ (c.cur ≤ it.cur ∨ c.cur > it.end_) := by
    split at h2 <;> omega
  rw [_leave_container]
  simp only [hc, he, hs, hr, not_true_eq_false, or_self, if_false]
  by_cases hrem : it.remaining = 0 <;> rcases hf with h | h <;>
    simp [nanocbor_container_indefinite, h, NANOCBOR_DECODER_FLAG_INDEFINITE, hrem, e5, e7]

theorem consume_three (cfg : Config) (mem : Mem) (d limit : Nat)
    (c target arr : nanocbor_value_t) (l0 l1 l2 : Nat) (rest : List Nat)
    (hr : 3 ≤ cfg.NANOCBOR_RECURSION_MAX % 256) (h256 : limit < 256) (hd : d + 1 < limit)
    (hent : ∀ k, _enter_container cfg mem (k + 3) c (stack_value cfg) NANOCBOR_TYPE_ARR
      (dec8 limit) = some (NANOCBOR_OK, c, arr))
    (hroom : arr.num_active_tables < cfg.NANOCBOR_DECODE_PACKED_NESTED_TABLES_MAX)
    (hbody : ArrayBody mem arr (l0 :: l1 :: l2 :: rest))
    (hitems : ItemsAt (ItemAt cfg mem d) arr.cur (l0 :: l1 :: l2 :: rest))
    (hm : byteAt mem arr.cur / 32 = 4) :
    ∃ N : Nat, ∀ fuel, N ≤ fuel →
      (_packed_consume_table cfg mem fuel false c target limit).map (fun r => (r.1, r.2.1)) =
        some (NANOCBOR_ERR_PACKED_FORMAT, c) := by
  have hdec := dec8_eq limit (by omega) h256
  obtain ⟨hne, _, r1, N1, hb1, hN1⟩ := body_step cfg mem d (dec8 limit) arr l0 _ hr
    (by omega) (by omega) hbody hitems.1
  obtain ⟨_, _, r2, N2, hb2, hN2⟩ := body_step cfg mem d (dec8 limit) _ l1 _ hr
    (by omega) (by omega) hb1 hitems.2.1
  obtain ⟨hne3, _, _⟩ := body_step cfg mem d (dec8 limit) _ l2 _ hr
    (by omega) (by omega) hb2 hitems.2.2.1
  dsimp only at hN2 hne3
  have hty : __get_type mem arr = NANOCBOR_TYPE_ARR := by
    rw [get_type_of_not_at_end mem arr hne, hm]; rfl
  have hnn : ¬ (NANOCBOR_OK < 0) := by decide
  have hne2 : ¬ (NANOCBOR_ERR_INVALID_TYPE = NANOCBOR_OK) := by decide
  have hne4 : ¬ (NANOCBOR_ERR_INVALID_TYPE = NANOCBOR_ERR_RECURSION) := by decide
  have hroom2 : ¬ (cfg.NANOCBOR_DECODE_PACKED_NESTED_TABLES_MAX ≤ arr.num_active_tables) := by
    omega
  have hn : (_packed_copy_tables
      (nanocbor_decoder_init_packed cfg target arr.cur (arr.end_ - arr.cur))
      arr).num_active_tables = arr.num_active_tables := rfl
  refine ⟨max N1 N2 + 4, fun fuel hf => ?_⟩
  obtain ⟨k, rfl⟩ : ∃ k, fuel = k + 3 + 1 := ⟨fuel - 4, by omega⟩
  rw [_packed_consume_table]
  simp only [hent k, hnn, if_false, Bool.false_eq_true, hn, ge_iff_le, hroom2, ne_eq, hty,
    not_true_eq_false, hN1 (k + 3) (by omega), hN2 (k + 3) (by omega)]
  rw [_leave_container]
  simp only [hne3, Bool.false_eq_true, not_false_eq_true, or_true, if_true, hne2,
    recursion_or_format, hne4, if_false, Option.map_some']

theorem consume_two (cfg : Config) (mem : Mem) (d limit : Nat)
    (c target arr : nanocbor_value_t) (l0 l1 : Nat)
    (hr : 3 ≤ cfg.NANOCBOR_RECURSION_MAX % 256) (h256 : limit < 256) (hd : d + 1 < limit)
    (hent : ∀ k, _enter_container cfg mem (k + 3) c (stack_value cfg) NANOCBOR_TYPE_ARR
      (dec8 limit) = some (NANOCBOR_OK, c, arr))
    (hroom : arr.num_active_tables < cfg.NANOCBOR_DECODE_PACKED_NESTED_TABLES_MAX)
    (hlen : arr.num_active_tables < arr.shared_item_tables.length)
    (hbody : ArrayBody mem arr [l0, l1])
    (hitems : ItemsAt (ItemAt cfg mem d) arr.cur [l0, l1])
    (hm : byteAt mem arr.cur / 32 = 4) (hcur : c.cur < arr.cur) (hend : arr.end_ = c.end_) :
    ∃ N : Nat, ∀ fuel, N ≤ fuel →
      _packed_consume_table cfg mem fuel false c target limit =
        some (NANOCBOR_OK,
          { c with
            cur := arr.cur + l0 + l1 + (if arr.flags = 7 then 1 else 0),
            remaining := if c.remaining ≠ 0 then dec64 c.remaining else c.remaining },
          ⟨arr.cur + l0, arr.cur + l0 + l1, target.remaining, 4,
            arr.shared_item_tables.set arr.num_active_tables ⟨arr.cur, l0⟩,
            (arr.num_active_tables + 1) % 256⟩) := by
  have hdec := dec8_eq limit (by omega) h256
  obtain ⟨hne, _, r1, N1, hb1, hN1⟩ := body_step cfg mem d (dec8 limit) arr l0 _ hr
    (by omega) (by omega) hbody hitems.1
  obtain ⟨_, _, r2, N2, hb2, hN2⟩ := body_step cfg mem d (dec8 limit) _ l1 _ hr
    (by omega) (by omega) hb1 hitems.2.1
  dsimp only at hN2 hb2
  have he2 := body_at_end mem _ hb2
  have hfl : arr.flags = 5 ∨ arr.flags = 7 := by
    rcases hbody with h | h
    · exact Or.inl h.1
    · exact Or.inr h.1
  have hleave := fun k => leave_container_any cfg mem k c
    { arr with cur := arr.cur + l0 + l1, remaining := r2 } (dec8 limit) hfl he2
    (by show c.cur < arr.cur + l0 + l1; omega)
    (by
      show arr.cur + l0 + l1 + (if arr.flags = 7 then 1 else 0) ≤ c.end_
      rw [← hend]
      rcases hbody with ⟨hf, _, _, h⟩ | ⟨hf, h, _⟩
      · rw [hf]
        simp only [List.sum_cons, List.sum_nil] at h
        simp only [show ¬ ((5 : Nat) = 7) by decide, if_false]
        omega
      · rw [hf]
        simp only [List.sum_cons, List.sum_nil] at h
        simp only [if_true]
        omega)
  dsimp only at hleave
  have hty : __get_type mem arr = NANOCBOR_TYPE_ARR := by
    rw [get_type_of_not_at_end mem arr hne, hm]; rfl
  have hnn : ¬ (NANOCBOR_OK < 0) := by decide
  have hroom2 : ¬ (cfg.NANOCBOR_DECODE_PACKED_NESTED_TABLES_MAX ≤ arr.num_active_tables) := by
    omega
  have hn : (_packed_copy_tables
      (nanocbor_decoder_init_packed cfg target arr.cur (arr.end_ - arr.cur))
      arr).num_active_tables = arr.num_active_tables := rfl
  refine ⟨max N1 N2 + 4, fun fuel hf => ?_⟩
  obtain ⟨k, rfl⟩ : ∃ k, fuel = k + 3 + 1 := ⟨fuel - 4, by omega⟩
  rw [_packed_consume_table]
  simp only [hent k, hnn, if_false, Bool.false_eq_true, hn, ge_iff_le, hroom2, ne_eq, hty,
    not_true_eq_false, hN1 (k + 3) (by omega), hN2 (k + 3) (by omega), hleave (k + 2)]
  simp [set_table, get_table, _packed_copy_tables, nanocbor_decoder_init_packed,
    nanocbor_decoder_init, hlen, Nat.add_assoc, NANOCBOR_DECODER_FLAG_PACKED_SUPPORT]

theorem accessors_of_handle (cfg : Config) (mem : Mem) (it : nanocbor_value_t) (res : Int)
    (hov : res ≠ NANOCBOR_ERR_OVERFLOW) (hneg : res ≤ 0) (N : Nat)
    (hh : ∀ fuel, N ≤ fuel → ∃ h, _PACKED_HANDLE_LIMITED cfg mem fuel it = some h ∧
      h.ret = some res) :
    ∀ fuel, N + 1 ≤ fuel → AccessorsReturn cfg mem fuel it res := by
  intro fuel hf
  obtain ⟨h, hh1, hh2⟩ := hh fuel (by omega)
  obtain ⟨k, rfl⟩ : ∃ k, fuel = k + 1 := ⟨fuel - 1, by omega⟩
  obtain ⟨h', hk1, hk2⟩ := hh k (by omega)
  have hk1b : _PACKED_HANDLE cfg mem k false it (stack_value cfg)
      (cfg.NANOCBOR_RECURSION_MAX % 256) = some h' := hk1
  have hpos : ¬ (res > 0) := by omega
  unfold AccessorsReturn
  refine ⟨?_, ?_, ?_, ?_, ?_, ?_, ?_, ?_, ?_, ?_, ?_, ?_, ?_, ?_, ?_, ?_⟩
  · simp [nanocbor_get_uint8, _get_and_advance_uint8, hh1, hh2]
  · simp [nanocbor_get_uint16, _get_and_advance_uint64, hh1, hh2]
  · simp [nanocbor_get_uint32, _get_and_advance_uint64, hh1, hh2]
  · simp [nanocbor_get_uint64, _get_and_advance_uint64, hh1, hh2]
  · simp [nanocbor_get_int8, _get_and_advance_int64, hh1, hh2]
  · simp [nanocbor_get_int16, _get_and_advance_int64, hh1, hh2]
  · simp [nanocbor_get_int32, _get_and_advance_int64, hh1, hh2]
  · simp [nanocbor_get_int64, _get_and_advance_int64, hh1, hh2]
  · rw [nanocbor_get_bstr, _get_str]
    simp [hk1b, hk2]
  · rw [nanocbor_get_tstr, _get_str]
    simp [hk1b, hk2]
  · simp [nanocbor_get_tag, hh1, hh2]
  · simp [nanocbor_get_null, _get_simple_exact, hh1, hh2]
  · simp [nanocbor_get_undefined, _get_simple_exact, hh1, hh2]
  · simp [nanocbor_get_bool, hh1, hh2]
  · simp [nanocbor_get_simple, _get_and_advance_uint8, hh1, hh2, hov, hpos]
  · simp [nanocbor_get_float, hh1, hh2]

theorem handle_table_error (cfg : Config) (mem : Mem) (it t : nanocbor_value_t)
    (limit : Nat) (ret : Int) (c2 : nanocbor_value_t) (N : Nat)
    (he : _packed_enabled it = true) (htag : TableTagAt cfg mem it)
    (h0 : limit ≠ 0) (h1 : dec8 limit ≠ 0)
    (hok : ret ≠ NANOCBOR_OK) (hnf : ret ≠ NANOCBOR_NOT_FOUND)
    (hcons : ∀ fuel, N ≤ fuel →
      (_packed_consume_table cfg mem fuel false
        { it with cur := it.cur + head_len (byteAt mem it.cur % 32) } t (dec8 limit)).map
        (fun r => (r.1, r.2.1)) = some (ret, c2)) :
    ∀ fuel, N + 2 ≤ fuel →
      ∃ h, _PACKED_HANDLE cfg mem fuel false it t limit = some h ∧ h.ret = some ret := by
  intro fuel hf
  obtain ⟨k, rfl⟩ : ∃ k, fuel = k + 1 + 1 := ⟨fuel - 2, by omega⟩
  obtain ⟨hne, hm, hi, hend, harg⟩ := htag
  have hg := get_type_of_not_at_end mem it hne
  have hty : __get_type mem it = NANOCBOR_TYPE_TAG := by rw [hg, hm]; rfl
  have hu := get_uint64_head mem it 0 NANOCBOR_SIZE_WORD 6 hne hm (by omega)
    (fun _ => by simpa [NANOCBOR_SIZE_WORD] using hi) hend
  simp only [Nat.cast_ofNat] at hu
  have hu2 : _get_uint64 mem it 0 NANOCBOR_SIZE_WORD NANOCBOR_TYPE_TAG =
      (((head_len (byteAt mem it.cur % 32) : Nat) : Int), head_arg mem it.cur) := hu
  have hge : ¬ (((head_len (byteAt mem it.cur % 32) : Nat) : Int) < 0) := by omega
  have hc := hcons k (by omega)
  cases hr : _packed_consume_table cfg mem k false
      { it with cur := it.cur + head_len (byteAt mem it.cur % 32) } t (dec8 limit) with
  | none => rw [hr] at hc; exact absurd hc (by simp)
  | some r =>
    obtain ⟨r1, rc, rt⟩ := r
    rw [hr] at hc
    simp only [Option.map_some', Option.some.injEq, Prod.mk.injEq] at hc
    obtain ⟨rfl, rfl⟩ := hc
    refine ⟨⟨some r1, false, rc, rt⟩, ?_, rfl⟩
    rw [_PACKED_HANDLE]
    simp only [h0, if_false]
    rw [_packed_handle]
    simp only [he, not_true_eq_false, if_false, h1, hty, if_true, hu2, hge, harg,
      Int.toNat_ofNat, Bool.false_eq_true, hr, hok, ne_eq, hnf, not_false_eq_true]

theorem packed_handle_no_item_total (cfg : Config) (mem : Mem) (k : Nat)
    (it t : nanocbor_value_t) (limit : Nat) (hl : limit ≠ 0)
    (hp : ¬ PackedItemAt cfg mem it) :
    _packed_handle cfg mem (k + 1) false it t limit = some (NANOCBOR_NOT_FOUND, it, t) := by
  rw [_packed_handle]
  unfold PackedItemAt at hp
  by_cases he : _packed_enabled it = true
  · simp only [he, not_true_eq_false, if_false, hl]
    by_cases ht : __get_type mem it = NANOCBOR_TYPE_TAG
    · simp only [ht, if_true]
      by_cases hneg : (_get_uint64 mem it 0 NANOCBOR_SIZE_WORD NANOCBOR_TYPE_TAG).1 < 0
      · simp only [hneg, if_true]
      · have hge : (_get_uint64 mem it 0 NANOCBOR_SIZE_WORD NANOCBOR_TYPE_TAG).1 ≥ 0 := by
          omega
        have h1 : ¬ (_get_uint64 mem it 0 NANOCBOR_SIZE_WORD NANOCBOR_TYPE_TAG).2 =
            cfg.NANOCBOR_TAG_PACKED_TABLE := fun hx => hp (Or.inl ⟨ht, hge, Or.inl hx⟩)
        have h2 : ¬ (_get_uint64 mem it 0 NANOCBOR_SIZE_WORD NANOCBOR_TYPE_TAG).2 =
            cfg.NANOCBOR_TAG_PACKED_REF_SHARED := fun hx => hp (Or.inl ⟨ht, hge, Or.inr hx⟩)
        simp only [hneg, h1, h2, if_false]
    · simp only [ht, if_false]
      by_cases hf : __get_type mem it = NANOCBOR_TYPE_FLOAT
      · have h1 : ¬ (byteAt mem it.cur &&& NANOCBOR_VALUE_MASK < 16) :=
          fun hx => hp (Or.inr ⟨hf, hx⟩)
        simp only [hf, h1, if_true, if_false]
      · have h0 : ¬ (NANOCBOR_NOT_FOUND = NANOCBOR_OK) := by decide
        simp only [hf, if_false, h0]
  · simp [he]

theorem PACKED_HANDLE_no_item_total (cfg : Config) (mem : Mem) (k : Nat)
    (it t : nanocbor_value_t) (limit : Nat) (h0 : limit ≠ 0) (h1 : dec8 limit ≠ 0)
    (hp : ¬ PackedItemAt cfg mem it) :
    _PACKED_HANDLE cfg mem (k + 2) false it t limit = some ⟨none, false, it, t⟩ := by
  rw [_PACKED_HANDLE]
  simp [h0, packed_handle_no_item_total cfg mem k it t _ h1 hp, NANOCBOR_NOT_FOUND, NANOCBOR_OK]

theorem get_uint64_ne_recursion (mem : Mem) (it : nanocbor_value_t) (v max : Nat) (type : Int) :
    (_get_uint64 mem it v max type).1 ≠ NANOCBOR_ERR_RECURSION := by
  unfold _get_uint64
  dsimp only
  split
  · exact get_type_codes mem it
  · split
    · exact (by decide : NANOCBOR_ERR_INVALID_TYPE ≠ NANOCBOR_ERR_RECURSION)
    · split
      · exact (by decide : (1 : Int) ≠ NANOCBOR_ERR_RECURSION)
      · split
        · exact (by decide : NANOCBOR_ERR_OVERFLOW ≠ NANOCBOR_ERR_RECURSION)
        · split
          · exact (by decide : NANOCBOR_ERR_END ≠ NANOCBOR_ERR_RECURSION)
          · intro hx
            have hx2 : ((1 + 1 <<< ((byteAt mem it.cur &&& NANOCBOR_VALUE_MASK) -
                NANOCBOR_SIZE_BYTE) : Nat) : Int) = NANOCBOR_ERR_RECURSION := hx
            have h0 : (0 : Int) ≤ NANOCBOR_ERR_RECURSION := by
              rw [← hx2]
              exact Int.ofNat_nonneg _
            exact absurd h0 (by decide)

theorem content_not_array (cfg : Config) (mem : Mem) (c t : nanocbor_value_t) (limit : Nat)
    (he : _packed_enabled c = true) (h3 : 3 ≤ limit) (h256 : limit < 256)
    (hp : ¬ PackedItemAt cfg mem c)
    (hna : _over_end c = true ∨ byteAt mem c.cur / 32 ≠ 4) (k : Nat) :
    (_packed_consume_table cfg mem (k + 4) false c t limit).map (fun r => (r.1, r.2.1)) =
      some (NANOCBOR_ERR_PACKED_FORMAT, c) := by
  have hd1 : dec8 limit = limit - 1 := dec8_eq limit (by omega) h256
  have hd2 : dec8 (dec8 limit) = limit - 2 := by
    rw [hd1, dec8_eq _ (by omega) (by omega)]
    omega
  have hb := byteAt_lt mem c.cur
  have e4 : (NANOCBOR_TYPE_ARR.toNat <<< NANOCBOR_TYPE_OFFSET ||| NANOCBOR_SIZE_INDEFINITE) % 256
      = 0x9F := by decide
  have hfirst : ¬ (¬ _over_end c = true ∧ byteAt mem c.cur = 0x9F) := by
    rintro ⟨h1, h2⟩
    rcases hna with h | h
    · exact h1 h
    · omega
  have hneg : (_get_uint64 mem c 0 NANOCBOR_SIZE_LONG NANOCBOR_TYPE_ARR).1 < 0 := by
    rcases get_uint64_code mem c 0 NANOCBOR_SIZE_LONG NANOCBOR_TYPE_ARR with h | ⟨hne, hty, _, _⟩
    · exact h
    · exfalso
      rcases hna with h | h
      · have := not_over_end_of_not_at_end mem c hne
        rw [this] at h
        exact absurd h (by decide)
      · apply h
        have : ((4 : Nat) : Int) = ((byteAt mem c.cur / 32 : Nat) : Int) := hty
        omega
  have hrec := get_uint64_ne_recursion mem c 0 NANOCBOR_SIZE_LONG NANOCBOR_TYPE_ARR
  rw [_packed_consume_table, _enter_container]
  simp only [he, if_true, PACKED_HANDLE_no_item_total cfg mem k c _ _ (show dec8 limit ≠ 0 by omega)
      (show dec8 (dec8 limit) ≠ 0 by omega) hp,
    HandleOut.it, Bool.false_eq_true, if_false, e4, hfirst, hneg, recursion_or_format, hrec,
    Option.map_some']

theorem content_enter (cfg : Config) (mem : Mem) (d : Nat) (c : nanocbor_value_t)
    (ls : List Nat) (limit : Nat) (he : _packed_enabled c = true)
    (h3 : 3 ≤ limit) (h256 : limit < 256) (hc : ContentArray cfg mem d c ls) :
    ∃ arr : nanocbor_value_t,
      (∀ k, _enter_container cfg mem (k + 3) c (stack_value cfg) NANOCBOR_TYPE_ARR
        (dec8 limit) = some (NANOCBOR_OK, c, arr)) ∧
      ArrayBody mem arr ls ∧ arr.cur = content_start mem c ∧ arr.end_ = c.end_ ∧
      arr.num_active_tables = c.num_active_tables ∧
      arr.shared_item_tables = c.shared_item_tables ∧
      (arr.flags = 7 ↔ byteAt mem c.cur = 0x9F) := by
  obtain ⟨hne, hitems, hshape⟩ := hc
  have hd1 : dec8 limit = limit - 1 := dec8_eq limit (by omega) h256
  have hd2 : dec8 (dec8 limit) = limit - 2 := by
    rw [hd1, dec8_eq _ (by omega) (by omega)]
    omega
  have hb := byteAt_lt mem c.cur
  have hoe := not_over_end_of_not_at_end mem c hne
  have hg := get_type_of_not_at_end mem c hne
  have e4 : (NANOCBOR_TYPE_ARR.toNat <<< NANOCBOR_TYPE_OFFSET ||| NANOCBOR_SIZE_INDEFINITE) % 256
      = 0x9F := by decide
  have hmaj : byteAt mem c.cur / 32 = 4 := by
    rcases hshape with h | h
    · exact h.1
    · rw [h.1]
  have key := fun k => enter_container_enabled cfg mem k c (stack_value cfg) NANOCBOR_TYPE_ARR
    (dec8 limit) he (show dec8 limit ≠ 0 by omega) (show dec8 (dec8 limit) ≠ 0 by omega)
    (by rw [hg]; simp only [NANOCBOR_TYPE_TAG]; omega)
    (by rw [hg]; simp only [NANOCBOR_TYPE_FLOAT]; omega)
  rcases hshape with ⟨hm, hi, harg, hend⟩ | ⟨h9, hend, hff⟩
  · have hn9 : byteAt mem c.cur ≠ 0x9F := by omega
    have hcs : content_start mem c = c.cur + head_len (byteAt mem c.cur % 32) := by
      simp [content_start, hn9]
    rw [hcs] at hend
    have hD : DefiniteHead mem c 4 := ⟨hm, hi, by omega⟩
    have hu := get_uint64_definite mem c 4 hne hD
    simp only [Nat.cast_ofNat] at hu
    have hl : ¬ (((head_len (byteAt mem c.cur % 32) : Nat) : Int) < 0) := by omega
    refine ⟨{ stack_value cfg with
        shared_item_tables := c.shared_item_tables,
        num_active_tables := c.num_active_tables,
        flags := 5, end_ := c.end_, remaining := head_arg mem c.cur,
        cur := c.cur + head_len (byteAt mem c.cur % 32) }, fun k => ?_, ?_, hcs.symm, rfl, rfl,
      rfl, ?_⟩
    · rw [key k, e4]
      simp [hoe, hn9, NANOCBOR_TYPE_ARR, hu, hl]
    · left
      refine ⟨rfl, harg, ?_, hend⟩
      rw [← harg]
      exact head_arg_lt mem c.cur hi
    · constructor
      · intro h; exact absurd (show (5 : Nat) = 7 from h) (by decide)
      · intro h; exact absurd h hn9
  · have hcs : content_start mem c = c.cur + 1 := by
      simp [content_start, h9]
    rw [hcs] at hend hff
    refine ⟨{ stack_value cfg with
        shared_item_tables := c.shared_item_tables,
        num_active_tables := c.num_active_tables,
        flags := 7, end_ := c.end_, remaining := 0, cur := c.cur + 1 }, fun k => ?_, ?_,
      hcs.symm, rfl, rfl, rfl, ?_⟩
    · rw [key k, e4]
      simp [hoe, h9]
    · right
      exact ⟨rfl, hend, hff⟩
    · exact ⟨fun _ => h9, fun _ => rfl⟩

theorem table_error_accessors (cfg : Config) (mem : Mem) (it c2 : nanocbor_value_t)
    (ret : Int) (N : Nat) (he : _packed_enabled it = true) (htag : TableTagAt cfg mem it)
    (hmax : 4 ≤ cfg.NANOCBOR_RECURSION_MAX % 256)
    (hret : ret = NANOCBOR_ERR_PACKED_FORMAT ∨ ret = NANOCBOR_ERR_PACKED_MEMORY)
    (hcons : ∀ fuel, N ≤ fuel →
      (_packed_consume_table cfg mem fuel false
        { it with cur := it.cur + head_len (byteAt mem it.cur % 32) } (stack_value cfg)
        (dec8 (cfg.NANOCBOR_RECURSION_MAX % 256))).map
        (fun r => (r.1, r.2.1)) = some (ret, c2)) :
    ∀ fuel, N + 3 ≤ fuel → AccessorsReturn cfg mem fuel it ret := by
  have hm256 : cfg.NANOCBOR_RECURSION_MAX % 256 < 256 := Nat.mod_lt _ (by decide)
  have hd1 := dec8_eq (cfg.NANOCBOR_RECURSION_MAX % 256) (by omega) hm256
  have h1 : ret ≠ NANOCBOR_OK := by rcases hret with rfl | rfl <;> decide
  have h2 : ret ≠ NANOCBOR_NOT_FOUND := by rcases hret with rfl | rfl <;> decide
  have h3 : ret ≠ NANOCBOR_ERR_OVERFLOW := by rcases hret with rfl | rfl <;> decide
  have h4 : ret ≤ 0 := by rcases hret with rfl | rfl <;> decide
  have hh := handle_table_error cfg mem it (stack_value cfg) (cfg.NANOCBOR_RECURSION_MAX % 256)
    ret c2 N he htag (by omega) (by omega) h1 h2 hcons
  intro fuel hf
  exact accessors_of_handle cfg mem it ret h3 h4 (N + 2) hh fuel (by omega)

/-- C26 (amended). Let `it` be a cursor with packed support that stands on the table tag and
has fewer than `NANOCBOR_DECODE_PACKED_NESTED_TABLES_MAX` active tables, with a recursion bound
of at least 4 that exceeds `d + 2`, and let `c` be the cursor behind the tag head.  Every value
accessor returns `PACKED_FORMAT` (given enough fuel) when the tag's content is not an array
(the buffer ends, or the item there has another major type and is not itself a packed item),
when it is an array without items, when its first item is not an array, and when it is an
array of three or more well-formed items of nesting depth at most `d`. -/
theorem C26_table_shape (cfg : Config) (mem : Mem) (d : Nat) (it c : nanocbor_value_t)
    (he : _packed_enabled it = true) (htag : TableTagAt cfg mem it)
    (hc : c = { it with cur := it.cur + head_len (byteAt mem it.cur % 32) })
    (hmax : 4 ≤ cfg.NANOCBOR_RECURSION_MAX % 256)
    (hd : d + 2 < cfg.NANOCBOR_RECURSION_MAX % 256)
    (hroom : it.num_active_tables < cfg.NANOCBOR_DECODE_PACKED_NESTED_TABLES_MAX) :
    (¬ PackedItemAt cfg mem c → (_over_end c = true ∨ byteAt mem c.cur / 32 ≠ 4) →
      ∃ N, ∀ fuel, N ≤ fuel → AccessorsReturn cfg mem fuel it NANOCBOR_ERR_PACKED_FORMAT) ∧
    (ContentArray cfg mem d c [] →
      ∃ N, ∀ fuel, N ≤ fuel → AccessorsReturn cfg mem fuel it NANOCBOR_ERR_PACKED_FORMAT) ∧
    (∀ ls, ContentArray cfg mem d c ls → ls ≠ [] →
      byteAt mem (content_start mem c) / 32 ≠ 4 →
      ∃ N, ∀ fuel, N ≤ fuel → AccessorsReturn cfg mem fuel it NANOCBOR_ERR_PACKED_FORMAT) ∧
    (∀ ls, ContentArray cfg mem d c ls → 3 ≤ ls.length →
      byteAt mem (content_start mem c) / 32 = 4 →
      ∃ N, ∀ fuel, N ≤ fuel → AccessorsReturn cfg mem fuel it NANOCBOR_ERR_PACKED_FORMAT) := by
  have hm256 : cfg.NANOCBOR_RECURSION_MAX % 256 < 256 := Nat.mod_lt _ (by decide)
  have hd1 := dec8_eq (cfg.NANOCBOR_RECURSION_MAX % 256) (by omega) hm256
  have hec : _packed_enabled c = true := by rw [hc]; exact he
  have hnum : c.num_active_tables = it.num_active_tables := by rw [hc]
  refine ⟨?_, ?_, ?_, ?_⟩
  · intro hp hna
    refine ⟨4 + 3, table_error_accessors cfg mem it c _ 4 he htag hmax (Or.inl rfl) ?_⟩
    intro fuel hf
    obtain ⟨k, rfl⟩ : ∃ k, fuel = k + 4 := ⟨fuel - 4, by omega⟩
    rw [← hc]
    exact content_not_array cfg mem c _ _ hec (by omega) (by omega) hp hna k
  · intro hca
    obtain ⟨arr, hent, hbody, _, _, hn, _, _⟩ := content_enter cfg mem d c []
      (dec8 (cfg.NANOCBOR_RECURSION_MAX % 256)) hec (by omega) (by omega) hca
    refine ⟨4 + 3, table_error_accessors cfg mem it c _ 4 he htag hmax (Or.inl rfl) ?_⟩
    intro fuel hf
    obtain ⟨k, rfl⟩ : ∃ k, fuel = k + 4 := ⟨fuel - 4, by omega⟩
    have hty : __get_type mem arr = NANOCBOR_ERR_END := by
      simp [__get_type, body_at_end mem arr hbody]
    rw [← hc, consume_format_type cfg mem _ c _ arr hent (by omega)
      (by rw [hty]; decide) (get_type_codes mem arr) k]
    rfl
  · intro ls hca hne hfirst
    obtain ⟨arr, hent, hbody, hcur, _, hn, _, _⟩ := content_enter cfg mem d c ls
      (dec8 (cfg.NANOCBOR_RECURSION_MAX % 256)) hec (by omega) (by omega) hca
    obtain ⟨l, rest, rfl⟩ : ∃ l rest, ls = l :: rest := by
      cases ls with
      | nil => exact absurd rfl hne
      | cons l rest => exact ⟨l, rest, rfl⟩
    have hitems := hca.2.1
    rw [← hcur] at hitems hfirst
    obtain ⟨hnae, _, _⟩ := body_step cfg mem d (dec8 (cfg.NANOCBOR_RECURSION_MAX % 256)) arr l
      rest (by omega) (by omega) (by omega) hbody hitems.1
    refine ⟨4 + 3, table_error_accessors cfg mem it c _ 4 he htag hmax (Or.inl rfl) ?_⟩
    intro fuel hf
    obtain ⟨k, rfl⟩ : ∃ k, fuel = k + 4 := ⟨fuel - 4, by omega⟩
    have hty : __get_type mem arr ≠ NANOCBOR_TYPE_ARR := by
      rw [get_type_of_not_at_end mem arr hnae]
      simp only [NANOCBOR_TYPE_ARR]
      omega
    rw [← hc, consume_format_type cfg mem _ c _ arr hent (by omega) hty
      (get_type_codes mem arr) k]
    rfl
  · intro ls hca hlen hfirst
    obtain ⟨arr, hent, hbody, hcur, _, hn, _, _⟩ := content_enter cfg mem d c ls
      (dec8 (cfg.NANOCBOR_RECURSION_MAX % 256)) hec (by omega) (by omega) hca
    obtain ⟨l0, l1, l2, rest, rfl⟩ : ∃ l0 l1 l2 rest, ls = l0 :: l1 :: l2 :: rest := by
      match ls, hlen with
      | l0 :: l1 :: l2 :: rest, _ => exact ⟨l0, l1, l2, rest, rfl⟩
    have hitems := hca.2.1
    rw [← hcur] at hitems hfirst
    obtain ⟨N, hN⟩ := consume_three cfg mem d (dec8 (cfg.NANOCBOR_RECURSION_MAX % 256)) c
      (stack_value cfg) arr l0 l1 l2 rest (by omega) (by omega) (by omega) hent (by omega)
      hbody hitems hfirst
    refine ⟨N + 3, table_error_accessors cfg mem it c _ N he htag hmax (Or.inl rfl) ?_⟩
    intro fuel hf
    rw [← hc]
    exact hN fuel hf

/-- Witness of C26: on `D8 71 80`, a table tag whose content is an array without items, every
value accessor returns `PACKED_FORMAT`. -/
theorem C26_table_shape_witness :
    _packed_enabled (nanocbor_decoder_init_packed defaultConfig (stack_value defaultConfig)
      16 3) = true ∧
    TableTagAt defaultConfig (mem_of 16 [0xD8, 0x71, 0x80])
      (nanocbor_decoder_init_packed defaultConfig (stack_value defaultConfig) 16 3) ∧
    ContentArray defaultConfig (mem_of 16 [0xD8, 0x71, 0x80]) 0
      ⟨18, 19, 0, 4, zero_tables defaultConfig, 0⟩ [] ∧
    (∃ N, ∀ fuel, N ≤ fuel →
      AccessorsReturn defaultConfig (mem_of 16 [0xD8, 0x71, 0x80]) fuel
        (nanocbor_decoder_init_packed defaultConfig (stack_value defaultConfig) 16 3)
        NANOCBOR_ERR_PACKED_FORMAT) ∧
    (nanocbor_get_uint8 defaultConfig (mem_of 16 [0xD8, 0x71, 0x80]) 12
      (nanocbor_decoder_init_packed defaultConfig (stack_value defaultConfig) 16 3) 0).map
        Prod.fst = some NANOCBOR_ERR_PACKED_FORMAT :=
  ⟨by decide, by unfold TableTagAt; decide,
    ⟨by decide, trivial, Or.inl (by decide)⟩,
    (C26_table_shape defaultConfig (mem_of 16 [0xD8, 0x71, 0x80]) 0
      (nanocbor_decoder_init_packed defaultConfig (stack_value defaultConfig) 16 3)
      ⟨18, 19, 0, 4, zero_tables defaultConfig, 0⟩ (by decide) (by unfold TableTagAt; decide)
      (by decide) (by decide) (by decide) (by decide)).2.1
      ⟨by decide, trivial, Or.inl (by decide)⟩,
    by decide!⟩

/-- Counterexample to C26 as stated.  In
`113([[], 113([[], 113([[], 113([[], [113([])]])])])])` the body of the innermost rump array
has four active tables, the capacity of the table set, and stands on a table tag whose content
is an array without items: `nanocbor_get_uint8` returns `PACKED_MEMORY`, not `PACKED_FORMAT`,
the capacity being tested before the shape.  On `D8 71 81 80`, a table tag whose content is an
array of one item, `nanocbor_get_uint8` returns `END`, the code of the skip of the missing
rump, not `PACKED_FORMAT`. -/
theorem C26_counterexample :
    ((nanocbor_enter_array defaultConfig
      (mem_of 16 [0xD8, 0x71, 0x82, 0x80, 0xD8, 0x71, 0x82, 0x80, 0xD8, 0x71, 0x82, 0x80, 0xD8,
        0x71, 0x82, 0x80, 0x81, 0xD8, 0x71, 0x80]) 30
      (nanocbor_decoder_init_packed defaultConfig (stack_value defaultConfig) 16 20)
      (stack_value defaultConfig)).bind fun a =>
      (nanocbor_get_uint8 defaultConfig
        (mem_of 16 [0xD8, 0x71, 0x82, 0x80, 0xD8, 0x71, 0x82, 0x80, 0xD8, 0x71, 0x82, 0x80, 0xD8,
          0x71, 0x82, 0x80, 0x81, 0xD8, 0x71, 0x80]) 30 a.2 0).map
        fun r => (a.1, a.2.cur, a.2.num_active_tables, _packed_enabled a.2, r.1)) =
      some (NANOCBOR_OK, 33, 4, true, NANOCBOR_ERR_PACKED_MEMORY) ∧
    defaultConfig.NANOCBOR_DECODE_PACKED_NESTED_TABLES_MAX = 4 ∧
    NANOCBOR_ERR_PACKED_MEMORY ≠ NANOCBOR_ERR_PACKED_FORMAT ∧
    (nanocbor_get_uint8 defaultConfig (mem_of 16 [0xD8, 0x71, 0x81, 0x80]) 12
      (nanocbor_decoder_init_packed defaultConfig (stack_value defaultConfig) 16 4) 0).map
        Prod.fst = some NANOCBOR_ERR_END := by
  exact ⟨by decide!, by decide, by decide, by decide!⟩


/-! ## C27: the capacity of the table set -/

theorem enter_small_fuel (cfg : Config) (mem : Mem) (c t : nanocbor_value_t) (type : Int)
    (limit fuel : Nat) (he : _packed_enabled c = true) (h0 : limit ≠ 0) (hf : fuel < 3) :
    _enter_container cfg mem fuel c t type limit = none := by
  match fuel, hf with
  | 0, _ => rw [_enter_container]
  | 1, _ =>
    rw [_enter_container]
    simp only [he, if_true]
    rw [_PACKED_HANDLE]
  | 2, _ =>
    rw [_enter_container]
    simp only [he, if_true]
    rw [_PACKED_HANDLE]
    simp only [h0, if_false]
    rw [_packed_handle]

theorem recursion_or_format_ne_ok (r : Int) : recursion_or_format r ≠ NANOCBOR_OK := by
  unfold recursion_or_format
  split
  · rename_i h
    rw [h]
    decide
  · decide

theorem consume_ok_tables (cfg : Config) (mem : Mem) (limit : Nat)
    (c target arr : nanocbor_value_t)
    (hent : ∀ k, _enter_container cfg mem (k + 3) c (stack_value cfg) NANOCBOR_TYPE_ARR
      (dec8 limit) = some (NANOCBOR_OK, c, arr))
    (hsmall : ∀ f, f < 3 → _enter_container cfg mem f c (stack_value cfg) NANOCBOR_TYPE_ARR
      (dec8 limit) = none)
    (fuel : Nat) (c2 t2 : nanocbor_value_t)
    (h : _packed_consume_table cfg mem fuel false c target limit = some (NANOCBOR_OK, c2, t2)) :
    arr.num_active_tables < cfg.NANOCBOR_DECODE_PACKED_NESTED_TABLES_MAX ∧
      t2.num_active_tables = (arr.num_active_tables + 1) % 256 ∧
      t2.shared_item_tables =
        arr.shared_item_tables.set arr.num_active_tables ⟨arr.cur, t2.cur - arr.cur⟩ := by
  have hnn : ¬ (NANOCBOR_OK < 0) := by decide
  have hn : (_packed_copy_tables
      (nanocbor_decoder_init_packed cfg target arr.cur (arr.end_ - arr.cur))
      arr).num_active_tables = arr.num_active_tables := rfl
  cases fuel with
  | zero => rw [_packed_consume_table] at h; exact absurd h (by simp)
  | succ f =>
    rw [_packed_consume_table] at h
    by_cases hf : f < 3
    · rw [hsmall f hf] at h
      exact absurd h (by simp)
    · obtain ⟨k, rfl⟩ : ∃ k, f = k + 3 := ⟨f - 3, by omega⟩
      simp only [hent k, hnn, if_false, Bool.false_eq_true, hn, ge_iff_le] at h
      by_cases hfull : cfg.NANOCBOR_DECODE_PACKED_NESTED_TABLES_MAX ≤ arr.num_active_tables
      · simp only [hfull, if_true] at h
        simp only [Option.some.injEq, Prod.mk.injEq] at h
        exact absurd h.1 (by decide)
      · simp only [hfull, if_false] at h
        refine ⟨by omega, ?_⟩
        by_cases hty : __get_type mem arr = NANOCBOR_TYPE_ARR
        swap
        · simp only [ne_eq, hty, not_false_eq_true, if_true, Option.some.injEq,
            Prod.mk.injEq] at h
          exact absurd h.1 (recursion_or_format_ne_ok _)
        simp only [ne_eq, hty, not_true_eq_false, if_false] at h
        cases hs1 : _skip_limited cfg mem (k + 3) arr (dec8 limit) with
        | none => rw [hs1] at h; exact absurd h (by simp)
        | some p1 =>
          obtain ⟨r1, a1⟩ := p1
          simp only [hs1] at h
          by_cases hr1 : r1 = NANOCBOR_OK
          swap
          · simp only [hr1, not_false_eq_true, if_true, Option.some.injEq, Prod.mk.injEq] at h
            exact h.1.elim
          simp only [hr1, not_true_eq_false, if_false] at h
          cases hs2 : _skip_limited cfg mem (k + 3) a1 (dec8 limit) with
          | none => rw [hs2] at h; exact absurd h (by simp)
          | some p2 =>
            obtain ⟨r2, a2⟩ := p2
            simp only [hs2] at h
            by_cases hr2 : r2 = NANOCBOR_OK
            swap
            · simp only [hr2, not_false_eq_true, if_true, Option.some.injEq,
                Prod.mk.injEq] at h
              exact h.1.elim
            simp only [hr2, not_true_eq_false, if_false] at h
            cases hl : _leave_container cfg mem (k + 3) c a2 (dec8 limit) with
            | none => rw [hl] at h; exact absurd h (by simp)
            | some p3 =>
              obtain ⟨r3, c3⟩ := p3
              simp only [hl] at h
              by_cases hr3 : r3 = NANOCBOR_OK
              swap
              · simp only [hr3, not_false_eq_true, if_true, Option.some.injEq,
                  Prod.mk.injEq] at h
                exact absurd h.1 (recursion_or_format_ne_ok _)
              simp only [hr3, not_true_eq_false, if_false, Option.some.injEq,
                Prod.mk.injEq, true_and] at h
              rw [← h.2]
              by_cases hlen : arr.num_active_tables < arr.shared_item_tables.length
              · simp [set_table, get_table, _packed_copy_tables, nanocbor_decoder_init_packed,
                  nanocbor_decoder_init, hlen]
              · simp [set_table, get_table, _packed_copy_tables, nanocbor_decoder_init_packed,
                  nanocbor_decoder_init, hlen, List.set_eq_of_length_le (Nat.le_of_not_lt hlen)]

/-- C27 (amended). Let `it` be a cursor with packed support that stands on the table tag, `c`
the cursor behind the tag head, and let the tag's content, found at `c`, be an array literal
(definite or indefinite) of well-formed items of the encoded lengths `ls`, with a recursion
bound of at least 4 and a table capacity below 256.

* If the number of active tables of `it` has reached `NANOCBOR_DECODE_PACKED_NESTED_TABLES_MAX`,
  every value accessor returns `PACKED_MEMORY` (given enough fuel).
* Whenever `_packed_consume_table`, called on `c` with a limit of at least 3, returns `OK`, the
  outgoing cursor has exactly one more active table than `it`, at most
  `NANOCBOR_DECODE_PACKED_NESTED_TABLES_MAX`, and its table set is that of `it` with the entry
  of the index `it.num_active_tables` replaced by the span from the first item of the array to
  the outgoing `cur`.
* If the array has two items, the first of them an array, and `it` has room for a table, the
  call does return `OK` (given enough fuel), the outgoing cursor spans the second item and the
  new table is the byte span of the first item. -/
theorem C27_table_capacity (cfg : Config) (mem : Mem) (d : Nat) (it c : nanocbor_value_t)
    (ls : List Nat) (he : _packed_enabled it = true) (htag : TableTagAt cfg mem it)
    (hc : c = { it with cur := it.cur + head_len (byteAt mem it.cur % 32) })
    (hmax : 4 ≤ cfg.NANOCBOR_RECURSION_MAX % 256)
    (hT : cfg.NANOCBOR_DECODE_PACKED_NESTED_TABLES_MAX < 256)
    (hca : ContentArray cfg mem d c ls) :
    (cfg.NANOCBOR_DECODE_PACKED_NESTED_TABLES_MAX ≤ it.num_active_tables →
      ∃ N, ∀ fuel, N ≤ fuel → AccessorsReturn cfg mem fuel it NANOCBOR_ERR_PACKED_MEMORY) ∧
    (∀ (limit fuel : Nat) (target c2 t2 : nanocbor_value_t), 3 ≤ limit → limit < 256 →
      _packed_consume_table cfg mem fuel false c target limit = some (NANOCBOR_OK, c2, t2) →
      t2.num_active_tables = it.num_active_tables + 1 ∧
        t2.num_active_tables ≤ cfg.NANOCBOR_DECODE_PACKED_NESTED_TABLES_MAX ∧
        t2.shared_item_tables = it.shared_item_tables.set it.num_active_tables
          ⟨content_start mem c, t2.cur - content_start mem c⟩) ∧
    (∀ (l0 l1 limit : Nat) (target : nanocbor_value_t), ls = [l0, l1] →
      byteAt mem (content_start mem c) / 32 = 4 → 3 ≤ limit → limit < 256 → d + 1 < limit →
      it.num_active_tables < cfg.NANOCBOR_DECODE_PACKED_NESTED_TABLES_MAX →
      it.num_active_tables < it.shared_item_tables.length →
      ∃ N, ∀ fuel, N ≤ fuel →
        (_packed_consume_table cfg mem fuel false c target limit).map
            (fun r => (r.1, r.2.2)) =
          some (NANOCBOR_OK,
            ⟨content_start mem c + l0, content_start mem c + l0 + l1, target.remaining, 4,
              it.shared_item_tables.set it.num_active_tables ⟨content_start mem c, l0⟩,
              it.num_active_tables + 1⟩)) := by
  have hm256 : cfg.NANOCBOR_RECURSION_MAX % 256 < 256 := Nat.mod_lt _ (by decide)
  have hd1 := dec8_eq (cfg.NANOCBOR_RECURSION_MAX % 256) (by omega) hm256
  have hec : _packed_enabled c = true := by rw [hc]; exact he
  have hnum : c.num_active_tables = it.num_active_tables := by rw [hc]
  have htb : c.shared_item_tables = it.shared_item_tables := by rw [hc]
  refine ⟨?_, ?_, ?_⟩
  · intro hfull
    obtain ⟨arr, hent, _, _, _, hn, _, _⟩ := content_enter cfg mem d c ls
      (dec8 (cfg.NANOCBOR_RECURSION_MAX % 256)) hec (by omega) (by omega) hca
    refine ⟨4 + 3, table_error_accessors cfg mem it c _ 4 he htag hmax (Or.inr rfl) ?_⟩
    intro fuel hf
    obtain ⟨k, rfl⟩ : ∃ k, fuel = k + 4 := ⟨fuel - 4, by omega⟩
    rw [← hc, consume_memory cfg mem _ c _ arr hent (by omega) k]
    rfl
  · intro limit fuel target c2 t2 h3 h256 h
    have hdl := dec8_eq limit (by omega) h256
    obtain ⟨arr, hent, _, hcur, _, hn, ht, _⟩ := content_enter cfg mem d c ls limit hec h3
      h256 hca
    obtain ⟨hroom, h1, h2⟩ := consume_ok_tables cfg mem limit c target arr hent
      (fun f hf => enter_small_fuel cfg mem c _ _ _ f hec (by omega) hf) fuel c2 t2 h
    rw [hn, hnum] at hroom h1
    rw [hn, hnum, ht, htb, hcur] at h2
    have e : (it.num_active_tables + 1) % 256 = it.num_active_tables + 1 :=
      Nat.mod_eq_of_lt (by omega)
    rw [e] at h1
    exact ⟨h1, by omega, h2⟩
  · intro l0 l1 limit target hls hfirst h3 h256 hd hroom hlen
    subst hls
    obtain ⟨arr, hent, hbody, hcur, hend, hn, ht, _⟩ := content_enter cfg mem d c [l0, l1]
      limit hec h3 h256 hca
    have hitems := hca.2.1
    rw [← hcur] at hitems hfirst
    have hlt : c.cur < arr.cur := by
      rw [hcur]
      unfold content_start
      split
      · omega
      · have := head_len_pos (byteAt mem c.cur % 32)
        omega
    obtain ⟨N, hN⟩ := consume_two cfg mem d limit c target arr l0 l1 (by omega) h256 hd hent
      (by rw [hn, hnum]; exact hroom) (by rw [hn, hnum, ht, htb]; exact hlen) hbody hitems hfirst hlt hend
    refine ⟨N, fun fuel hf => ?_⟩
    have e : (it.num_active_tables + 1) % 256 = it.num_active_tables + 1 :=
      Nat.mod_eq_of_lt (by omega)
    rw [hN fuel hf, hn, hnum, ht, htb, hcur, e]
    rfl

/-- Witness of C27.  On `D8 71 80`, a cursor standing on the table tag with four active
tables, the capacity, makes every value accessor return `PACKED_MEMORY`.  On
`D8 71 82 80 05`, with no active table, `_packed_consume_table` returns `OK` and the outgoing
cursor spans the rump `05` and has the one table `80`, the first item of the array. -/
theorem C27_table_capacity_witness :
    TableTagAt defaultConfig (mem_of 16 [0xD8, 0x71, 0x80])
      ⟨16, 19, 0, 4, zero_tables defaultConfig, 4⟩ ∧
    ContentArray defaultConfig (mem_of 16 [0xD8, 0x71, 0x80]) 0
      ⟨18, 19, 0, 4, zero_tables defaultConfig, 4⟩ [] ∧
    (∃ N, ∀ fuel, N ≤ fuel →
      AccessorsReturn defaultConfig (mem_of 16 [0xD8, 0x71, 0x80]) fuel
        ⟨16, 19, 0, 4, zero_tables defaultConfig, 4⟩ NANOCBOR_ERR_PACKED_MEMORY) ∧
    TableTagAt defaultConfig (mem_of 16 [0xD8, 0x71, 0x82, 0x80, 0x05])
      ⟨16, 21, 0, 4, zero_tables defaultConfig, 0⟩ ∧
    ContentArray defaultConfig (mem_of 16 [0xD8, 0x71, 0x82, 0x80, 0x05]) 1
      ⟨18, 21, 0, 4, zero_tables defaultConfig, 0⟩ [1, 1] ∧
    (∃ N, ∀ fuel, N ≤ fuel →
      (_packed_consume_table defaultConfig (mem_of 16 [0xD8, 0x71, 0x82, 0x80, 0x05]) fuel
        false ⟨18, 21, 0, 4, zero_tables defaultConfig, 0⟩ (stack_value defaultConfig) 9).map
          (fun r => (r.1, r.2.2)) =
        some (NANOCBOR_OK,
          ⟨20, 21, 0, 4, (zero_tables defaultConfig).set 0 ⟨19, 1⟩, 1⟩)) :=
  ⟨by unfold TableTagAt; decide,
    ⟨by decide, trivial, Or.inl (by decide)⟩,
    (C27_table_capacity defaultConfig (mem_of 16 [0xD8, 0x71, 0x80]) 0
      ⟨16, 19, 0, 4, zero_tables defaultConfig, 4⟩
      ⟨18, 19, 0, 4, zero_tables defaultConfig, 4⟩ [] (by decide)
      (by unfold TableTagAt; decide) (by decide) (by decide) (by decide)
      ⟨by decide, trivial, Or.inl (by decide)⟩).1 (by decide),
    by unfold TableTagAt; decide,
    ⟨by decide,
      ⟨Or.inr (Or.inr (Or.inl ⟨by decide, by decide, [], by decide, trivial, by decide⟩)),
        Or.inl ⟨by decide, Or.inl ⟨by decide, by decide⟩⟩, trivial⟩,
      Or.inl (by decide)⟩,
    (C27_table_capacity defaultConfig (mem_of 16 [0xD8, 0x71, 0x82, 0x80, 0x05]) 1
      ⟨16, 21, 0, 4, zero_tables defaultConfig, 0⟩
      ⟨18, 21, 0, 4, zero_tables defaultConfig, 0⟩ [1, 1] (by decide)
      (by unfold TableTagAt; decide) (by decide) (by decide) (by decide)
      ⟨by decide,
        ⟨Or.inr (Or.inr (Or.inl ⟨by decide, by decide, [], by decide, trivial, by decide⟩)),
          Or.inl ⟨by decide, Or.inl ⟨by decide, by decide⟩⟩, trivial⟩,
        Or.inl (by decide)⟩).2.2 1 1 9 (stack_value defaultConfig) rfl (by decide) (by decide)
      (by decide) (by decide) (by decide) (by decide)⟩

/-- Counterexample to C27 as stated.  In `113([[[[], 7]], 113([[], [113(simple(0)), 5]])])`
the body of the rump array has two active tables and stands on a table tag whose content is
the reference `simple(0)`, which resolves to the entry `[[], 7]` of the outer table, where
only the outer table is active.  `_packed_consume_table`, called on the content, returns `OK`
and the outgoing cursor, spanning the `07` at the bytes 22 to 23, has two active tables, as
many as the incoming cursor and not one more. -/
theorem C27_counterexample :
    ((nanocbor_enter_array defaultConfig
      (mem_of 16 [0xD8, 0x71, 0x82, 0x81, 0x82, 0x80, 0x07, 0xD8, 0x71, 0x82, 0x80, 0x82, 0xD8,
        0x71, 0xE0, 0x05]) 30
      (nanocbor_decoder_init_packed defaultConfig (stack_value defaultConfig) 16 16)
      (stack_value defaultConfig)).bind fun a =>
      (_packed_consume_table defaultConfig
        (mem_of 16 [0xD8, 0x71, 0x82, 0x81, 0x82, 0x80, 0x07, 0xD8, 0x71, 0x82, 0x80, 0x82, 0xD8,
          0x71, 0xE0, 0x05]) 30 false { a.2 with cur := a.2.cur + 2 }
        (stack_value defaultConfig) 9).map
        fun r => (a.2.cur, a.2.num_active_tables, r.1, r.2.2.num_active_tables, r.2.2.cur,
          r.2.2.end_)) =
      some (28, 2, NANOCBOR_OK, 2, 22, 23) := by
  decide!


/-! ## C25: references that refer to themselves, and the termination of the packed engine -/

theorem stuck_skip (cfg : Config) (mem : Mem) (it : nanocbor_value_t) (limit : Nat)
    (hl : limit ≠ 0) (ht : __get_type mem it = NANOCBOR_TYPE_TAG)
    (hneg : (_get_uint64 mem it 0 NANOCBOR_SIZE_WORD NANOCBOR_TYPE_TAG).1 < 0) (fuel : Nat) :
    _skip_limited cfg mem fuel it limit = none ∨
      _skip_limited cfg mem fuel it limit = some (NANOCBOR_OK, it) := by
  cases fuel with
  | zero => left; rw [_skip_limited]
  | succ k =>
    right
    have h1 : ¬ (NANOCBOR_TYPE_TAG = NANOCBOR_TYPE_ARR ∨ NANOCBOR_TYPE_TAG = NANOCBOR_TYPE_MAP) := by
      decide
    have h3 : ¬ (NANOCBOR_TYPE_TAG < 0) := by decide
    have h4 : ¬ ((_get_uint64 mem it 0 NANOCBOR_SIZE_WORD NANOCBOR_TYPE_TAG).1 ≥ 0) := by omega
    rw [_skip_limited]
    simp only [hl, ht, h1, h3, h4, if_false, if_true]

theorem stuck_loop (cfg : Config) (mem : Mem) (it : nanocbor_value_t) (limit : Nat)
    (hl : dec8 limit ≠ 0) (hne : nanocbor_at_end mem it = false)
    (ht : __get_type mem it = NANOCBOR_TYPE_TAG)
    (hneg : (_get_uint64 mem it 0 NANOCBOR_SIZE_WORD NANOCBOR_TYPE_TAG).1 < 0) :
    ∀ (fuel : Nat) (res : Int), _skip_limited_loop cfg mem fuel it limit res = none := by
  intro fuel
  induction fuel with
  | zero => intro res; rw [_skip_limited_loop]
  | succ k ih =>
    intro res
    have hnn : ¬ (NANOCBOR_OK < 0) := by decide
    rw [_skip_limited_loop]
    simp only [hne, Bool.false_eq_true, not_false_eq_true, if_true]
    rcases stuck_skip cfg mem it (dec8 limit) hl ht hneg k with h | h
    · rw [h]
    · rw [h]
      simp only [hnn, if_false]
      exact ih _

theorem stuck_skip_array (cfg : Config) (mem : Mem) (a r : nanocbor_value_t) (limit : Nat)
    (hl : limit ≠ 0) (hty : __get_type mem a = NANOCBOR_TYPE_ARR)
    (hent : ∀ fuel, nanocbor_enter_array cfg mem fuel a (stack_value cfg) = none ∨
      nanocbor_enter_array cfg mem fuel a (stack_value cfg) = some (NANOCBOR_OK, r))
    (hloop : ∀ (fuel : Nat) (res : Int), _skip_limited_loop cfg mem fuel r limit res = none)
    (fuel : Nat) : _skip_limited cfg mem fuel a limit = none := by
  cases fuel with
  | zero => rw [_skip_limited]
  | succ k =>
    have h1 : ¬ (NANOCBOR_TYPE_ARR = NANOCBOR_TYPE_MAP) := by decide
    rw [_skip_limited]
    simp only [hl, hty, h1, if_false, true_or, if_true]
    rcases hent k with h | h
    · rw [h]
    · rw [h]
      simp only [if_true, hloop k]

theorem stuck_consume (cfg : Config) (mem : Mem) (c arr : nanocbor_value_t) (limit : Nat)
    (hent : ∀ fuel, _enter_container cfg mem fuel c (stack_value cfg) NANOCBOR_TYPE_ARR
        (dec8 limit) = none ∨
      _enter_container cfg mem fuel c (stack_value cfg) NANOCBOR_TYPE_ARR (dec8 limit) =
        some (NANOCBOR_OK, c, arr))
    (hroom : arr.num_active_tables < cfg.NANOCBOR_DECODE_PACKED_NESTED_TABLES_MAX)
    (hty : __get_type mem arr = NANOCBOR_TYPE_ARR)
    (hskip : ∀ fuel, _skip_limited cfg mem fuel arr (dec8 limit) = none)
    (fuel : Nat) (target : nanocbor_value_t) :
    _packed_consume_table cfg mem fuel false c target limit = none := by
  cases fuel with
  | zero => rw [_packed_consume_table]
  | succ k =>
    have hnn : ¬ (NANOCBOR_OK < 0) := by decide
    have hn : (_packed_copy_tables
        (nanocbor_decoder_init_packed cfg target arr.cur (arr.end_ - arr.cur))
        arr).num_active_tables = arr.num_active_tables := rfl
    have hroom2 : ¬ (cfg.NANOCBOR_DECODE_PACKED_NESTED_TABLES_MAX ≤ arr.num_active_tables) := by
      omega
    rw [_packed_consume_table]
    rcases hent k with h | h
    · rw [h]
    · rw [h]
      simp only [hnn, if_false, Bool.false_eq_true, hn, ge_iff_le, hroom2, ne_eq, hty,
        not_true_eq_false, hskip k]

theorem stuck_packed_handle (cfg : Config) (mem : Mem) (it : nanocbor_value_t) (limit : Nat)
    (he : _packed_enabled it = true) (hl : limit ≠ 0)
    (ht : __get_type mem it = NANOCBOR_TYPE_TAG)
    (hpos : ¬ ((_get_uint64 mem it 0 NANOCBOR_SIZE_WORD NANOCBOR_TYPE_TAG).1 < 0))
    (htag : (_get_uint64 mem it 0 NANOCBOR_SIZE_WORD NANOCBOR_TYPE_TAG).2 =
      cfg.NANOCBOR_TAG_PACKED_TABLE)
    (hcons : ∀ fuel target, _packed_consume_table cfg mem fuel false
      { it with cur := it.cur +
        (_get_uint64 mem it 0 NANOCBOR_SIZE_WORD NANOCBOR_TYPE_TAG).1.toNat } target
      limit = none)
    (fuel : Nat) (t : nanocbor_value_t) :
    _packed_handle cfg mem fuel false it t limit = none := by
  cases fuel with
  | zero => rw [_packed_handle]
  | succ j =>
    rw [_packed_handle]
    simp only [he, not_true_eq_false, if_false, hl, ht, if_true, hpos, htag,
      Bool.false_eq_true, hcons j]

theorem stuck_handle (cfg : Config) (mem : Mem) (it : nanocbor_value_t) (limit : Nat)
    (hl : limit ≠ 0)
    (hh : ∀ fuel t, _packed_handle cfg mem fuel false it t (dec8 limit) = none)
    (fuel : Nat) (t : nanocbor_value_t) :
    _PACKED_HANDLE cfg mem fuel false it t limit = none := by
  cases fuel with
  | zero => rw [_PACKED_HANDLE]
  | succ k =>
    rw [_PACKED_HANDLE]
    simp only [hl, if_false, hh k]

theorem accessors_stuck (cfg : Config) (mem : Mem) (it : nanocbor_value_t)
    (hh : ∀ fuel, _PACKED_HANDLE_LIMITED cfg mem fuel it = none) (fuel : Nat) :
    AccessorsStuck cfg mem fuel it := by
  have hh1 := hh fuel
  have hk : ∀ k, _PACKED_HANDLE cfg mem k false it (stack_value cfg)
      (cfg.NANOCBOR_RECURSION_MAX % 256) = none := hh
  unfold AccessorsStuck
  refine ⟨?_, ?_, ?_, ?_, ?_, ?_, ?_, ?_, ?_, ?_, ?_, ?_, ?_, ?_, ?_, ?_⟩
  · simp [nanocbor_get_uint8, _get_and_advance_uint8, hh1]
  · simp [nanocbor_get_uint16, _get_and_advance_uint64, hh1]
  · simp [nanocbor_get_uint32, _get_and_advance_uint64, hh1]
  · simp [nanocbor_get_uint64, _get_and_advance_uint64, hh1]
  · simp [nanocbor_get_int8, _get_and_advance_int64, hh1]
  · simp [nanocbor_get_int16, _get_and_advance_int64, hh1]
  · simp [nanocbor_get_int32, _get_and_advance_int64, hh1]
  · simp [nanocbor_get_int64, _get_and_advance_int64, hh1]
  · cases fuel with
    | zero => rw [nanocbor_get_bstr, _get_str]
    | succ k =>
      rw [nanocbor_get_bstr, _get_str]
      simp [hk k]
  · cases fuel with
    | zero => rw [nanocbor_get_tstr, _get_str]
    | succ k =>
      rw [nanocbor_get_tstr, _get_str]
      simp [hk k]
  · simp [nanocbor_get_tag, hh1]
  · simp [nanocbor_get_null, _get_simple_exact, hh1]
  · simp [nanocbor_get_undefined, _get_simple_exact, hh1]
  · simp [nanocbor_get_bool, hh1]
  · simp [nanocbor_get_simple, _get_and_advance_uint8, hh1]
  · simp [nanocbor_get_float, hh1]

theorem cyclic_doc_enter (limit fuel : Nat) (c : nanocbor_value_t)
    (hc : c = ⟨18, 32, 0, 4, zero_tables defaultConfig, 0⟩ ∨
      c = ⟨19, 32, 2, 5, zero_tables defaultConfig, 0⟩)
    (h0 : limit ≠ 0) (h1 : dec8 limit ≠ 0) :
    _enter_container defaultConfig cyclic_doc fuel c (stack_value defaultConfig)
        NANOCBOR_TYPE_ARR limit = none ∨
      _enter_container defaultConfig cyclic_doc fuel c (stack_value defaultConfig)
        NANOCBOR_TYPE_ARR limit =
        some (NANOCBOR_OK, c, ⟨c.cur + 1, 32, 2, 5, zero_tables defaultConfig, 0⟩) := by
  by_cases hf : fuel < 3
  · left
    refine enter_small_fuel defaultConfig cyclic_doc c _ _ limit fuel ?_ h0 hf
    rcases hc with rfl | rfl <;> decide
  · right
    obtain ⟨k, rfl⟩ : ∃ k, fuel = k + 3 := ⟨fuel - 3, by omega⟩
    rcases hc with rfl | rfl
    · rw [enter_container_enabled defaultConfig cyclic_doc k _ _ _ limit (by decide) h0 h1
        (by decide) (by decide)]
      rfl
    · rw [enter_container_enabled defaultConfig cyclic_doc k _ _ _ limit (by decide) h0 h1
        (by decide) (by decide)]
      rfl

theorem cyclic_doc_handle (fuel : Nat) (target : nanocbor_value_t) :
    _packed_handle defaultConfig cyclic_doc fuel false
      (nanocbor_decoder_init_packed defaultConfig (stack_value defaultConfig) 16 16) target 9 =
      none := by
  have hloop := stuck_loop defaultConfig cyclic_doc
    ⟨20, 32, 2, 5, zero_tables defaultConfig, 0⟩ 8 (by decide) (by decide) (by decide)
    (by decide)
  have hskip := stuck_skip_array defaultConfig cyclic_doc
    ⟨19, 32, 2, 5, zero_tables defaultConfig, 0⟩ ⟨20, 32, 2, 5, zero_tables defaultConfig, 0⟩ 8
    (by decide) (by decide)
    (fun fuel => by
      cases fuel with
      | zero => left; rw [nanocbor_enter_array]
      | succ k =>
        rw [nanocbor_enter_array]
        rcases cyclic_doc_enter (u8 ((defaultConfig.NANOCBOR_RECURSION_MAX : Int) - 1)) k
          ⟨19, 32, 2, 5, zero_tables defaultConfig, 0⟩ (Or.inr rfl) (by decide) (by decide)
          with h | h
        · left; rw [h]
        · right; rw [h])
    hloop
  have hcons := stuck_consume defaultConfig cyclic_doc
    ⟨18, 32, 0, 4, zero_tables defaultConfig, 0⟩ ⟨19, 32, 2, 5, zero_tables defaultConfig, 0⟩ 9
    (fun fuel => cyclic_doc_enter (dec8 9) fuel _ (Or.inl rfl) (by decide) (by decide))
    (by decide) (by decide) hskip
  exact stuck_packed_handle defaultConfig cyclic_doc
    (nanocbor_decoder_init_packed defaultConfig (stack_value defaultConfig) 16 16) 9
    (by decide) (by decide) (by decide) (by decide) (by decide) hcons fuel target

/-- C25, evaluated.  On `113([[simple(0)], simple(0)])`, whose table entry 0 is a reference to
entry 0, every value accessor applied at the start of the document returns `RECURSION`.  On
`113([[4294967296(0), simple(1)], simple(1)])`, whose table entry 1 is a reference to entry 1,
no value accessor returns, whatever the fuel: `_packed_consume_table` skips the table, the
skip of entry 0 returns `OK` without moving the cursor, and the loop of `_skip_limited` over
the items of the table runs for ever.  So `_packed_handle` is not total. -/
theorem C25_cyclic_reference :
    AccessorsReturn defaultConfig (mem_of 16 [0xD8, 0x71, 0x82, 0x81, 0xE0, 0xE0]) 30
      (nanocbor_decoder_init_packed defaultConfig (stack_value defaultConfig) 16 6)
      NANOCBOR_ERR_RECURSION ∧
    (∀ fuel, AccessorsStuck defaultConfig cyclic_doc fuel
      (nanocbor_decoder_init_packed defaultConfig (stack_value defaultConfig) 16 16)) ∧
    (∀ fuel target, _packed_handle defaultConfig cyclic_doc fuel false
      (nanocbor_decoder_init_packed defaultConfig (stack_value defaultConfig) 16 16) target 9 =
        none) := by
  exact ⟨by unfold AccessorsReturn; decide!,
    accessors_stuck _ _ _
      (fun fuel => stuck_handle defaultConfig cyclic_doc _ 10 (by decide) cyclic_doc_handle
        fuel _),
    cyclic_doc_handle⟩


/-! ## C33: accessors on a cursor that is at its end -/

theorem get_type_at_end (mem : Mem) (it : nanocbor_value_t)
    (he : nanocbor_at_end mem it = true) : __get_type mem it = NANOCBOR_ERR_END := by
  simp [__get_type, he]

theorem get_uint64_at_end (mem : Mem) (it : nanocbor_value_t) (v max : Nat) (type : Int)
    (he : nanocbor_at_end mem it = true) :
    _get_uint64 mem it v max type = (NANOCBOR_ERR_END, v) := by
  have h : NANOCBOR_ERR_END < 0 := by decide
  simp only [_get_uint64, get_type_at_end mem it he, h, if_true]

theorem at_end_accessors (cfg : Config) (mem : Mem) (it : nanocbor_value_t)
    (hd : _packed_enabled it = false) (hr : cfg.NANOCBOR_RECURSION_MAX % 256 ≠ 0)
    (he : nanocbor_at_end mem it = true) (k : Nat) :
    (nanocbor_get_uint8 cfg mem (k + 3) it 0).map (fun r => (r.1, r.2.1)) =
      some (NANOCBOR_ERR_END, it) ∧
    (nanocbor_get_uint16 cfg mem (k + 3) it).map (fun r => (r.1, r.2.1)) =
      some (NANOCBOR_ERR_END, it) ∧
    (nanocbor_get_uint32 cfg mem (k + 3) it).map (fun r => (r.1, r.2.1)) =
      some (NANOCBOR_ERR_END, it) ∧
    (nanocbor_get_uint64 cfg mem (k + 3) it).map (fun r => (r.1, r.2.1)) =
      some (NANOCBOR_ERR_END, it) ∧
    (nanocbor_get_int8 cfg mem (k + 3) it).map (fun r => (r.1, r.2.1)) =
      some (NANOCBOR_ERR_END, it) ∧
    (nanocbor_get_int16 cfg mem (k + 3) it).map (fun r => (r.1, r.2.1)) =
      some (NANOCBOR_ERR_END, it) ∧
    (nanocbor_get_int32 cfg mem (k + 3) it).map (fun r => (r.1, r.2.1)) =
      some (NANOCBOR_ERR_END, it) ∧
    (nanocbor_get_int64 cfg mem (k + 3) it 0).map (fun r => (r.1, r.2.1)) =
      some (NANOCBOR_ERR_END, it) ∧
    (nanocbor_get_bstr cfg mem (k + 3) it 0 0).map (fun r => (r.1, r.2.1)) =
      some (NANOCBOR_ERR_END, it) ∧
    (nanocbor_get_tstr cfg mem (k + 3) it 0 0).map (fun r => (r.1, r.2.1)) =
      some (NANOCBOR_ERR_END, it) ∧
    (nanocbor_get_tag cfg mem (k + 3) it 0).map (fun r => (r.1, r.2.1)) =
      some (NANOCBOR_ERR_END, it) ∧
    (nanocbor_get_simple cfg mem (k + 3) it 0).map (fun r => (r.1, r.2.1)) =
      some (NANOCBOR_ERR_END, it) ∧
    nanocbor_get_float cfg mem (k + 3) it = some (NANOCBOR_ERR_END, it) ∧
    nanocbor_skip cfg mem (k + 3) it = some (NANOCBOR_ERR_END, it) := by
  have hh := PACKED_HANDLE_LIMITED_disabled cfg mem (k + 1) it hd hr
  have hg := get_uint64_at_end mem it
  have ht := get_type_at_end mem it he
  have hneg : NANOCBOR_ERR_END < 0 := by decide
  have hn0 : ¬ (NANOCBOR_ERR_END ≥ 0) := by decide
  have hn1 : ¬ (NANOCBOR_ERR_END > 0) := by decide
  have hov : NANOCBOR_ERR_END ≠ NANOCBOR_ERR_OVERFLOW := by decide
  refine ⟨?_, ?_, ?_, ?_, ?_, ?_, ?_, ?_, ?_, ?_, ?_, ?_, ?_, ?_⟩
  · simp [nanocbor_get_uint8, _get_and_advance_uint8, hh, HandleOut.it, hg _ _ _ he,
      _advance_if, hn1]
  · simp [nanocbor_get_uint16, _get_and_advance_uint64, hh, HandleOut.it, hg _ _ _ he,
      _advance_if, hn1]
  · simp [nanocbor_get_uint32, _get_and_advance_uint64, hh, HandleOut.it, hg _ _ _ he,
      _advance_if, hn1]
  · simp [nanocbor_get_uint64, _get_and_advance_uint64, hh, HandleOut.it, hg _ _ _ he,
      _advance_if, hn1]
  · simp [nanocbor_get_int8, _get_and_advance_int64, hh, HandleOut.it, ht, hneg]
  · simp [nanocbor_get_int16, _get_and_advance_int64, hh, HandleOut.it, ht, hneg]
  · simp [nanocbor_get_int32, _get_and_advance_int64, hh, HandleOut.it, ht, hneg]
  · simp [nanocbor_get_int64, _get_and_advance_int64, hh, HandleOut.it, ht, hneg]
  · rw [nanocbor_get_bstr, get_str_disabled cfg mem k it 0 0 _ hr hd]
    simp [hg _ _ _ he, hn0]
  · rw [nanocbor_get_tstr, get_str_disabled cfg mem k it 0 0 _ hr hd]
    simp [hg _ _ _ he, hn0]
  · rw [get_tag_disabled cfg mem (k + 1) it 0 hd hr]
    simp [hg _ _ _ he, hn0]
  · simp [nanocbor_get_simple, _get_and_advance_uint8, hh, HandleOut.it, hg _ _ _ he,
      _advance_if, hn1, hov]
  · have h3 : ¬ (NANOCBOR_ERR_END = 1 + 2) := by decide
    have h5 : ¬ (NANOCBOR_ERR_END = 1 + 4) := by decide
    simp only [nanocbor_get_float, hh, HandleOut.it, _decode_half_float, _decode_float,
      hg _ _ _ he, hn1, hneg, h3, h5, if_false, if_true, Bool.false_eq_true]
  · have h1 : ¬ (NANOCBOR_ERR_END = NANOCBOR_TYPE_ARR ∨ NANOCBOR_ERR_END = NANOCBOR_TYPE_MAP) := by
      decide
    have h2 : ¬ (NANOCBOR_ERR_END = NANOCBOR_TYPE_TAG) := by decide
    rw [nanocbor_skip, _skip_limited]
    simp only [hr, ht, h1, h2, hn0, hneg, if_false, if_true]

theorem at_end_exact (cfg : Config) (mem : Mem) (it : nanocbor_value_t)
    (hd : _packed_enabled it = false) (hr : cfg.NANOCBOR_RECURSION_MAX % 256 ≠ 0)
    (ho : _over_end it = true) (k : Nat) :
    nanocbor_get_null cfg mem (k + 3) it = some (NANOCBOR_ERR_END, it) ∧
    nanocbor_get_undefined cfg mem (k + 3) it = some (NANOCBOR_ERR_END, it) ∧
    (nanocbor_get_bool cfg mem (k + 3) it false).map (fun r => (r.1, r.2.1)) =
      some (NANOCBOR_ERR_END, it) := by
  have hh := PACKED_HANDLE_LIMITED_disabled cfg mem (k + 1) it hd hr
  have hn0 : ¬ (NANOCBOR_ERR_END ≥ NANOCBOR_OK) := by decide
  refine ⟨?_, ?_, ?_⟩
  · simp [nanocbor_get_null, _get_simple_exact, hh, HandleOut.it, _value_match_exact, ho]
  · simp [nanocbor_get_undefined, _get_simple_exact, hh, HandleOut.it, _value_match_exact, ho]
  · simp only [nanocbor_get_bool, hh, HandleOut.it, _value_match_exact, ho, if_true, hn0,
      if_false, Bool.false_eq_true, Option.map_some']

/-- C33, as far as the code goes.  Let `it` be a cursor without packed support for which
`nanocbor_at_end` holds, with a recursion bound that is not zero.  The accessors
`nanocbor_get_uint8/16/32/64`, `nanocbor_get_int8/16/32/64`, `nanocbor_get_bstr`,
`nanocbor_get_tstr`, `nanocbor_get_tag`, `nanocbor_get_simple`, `nanocbor_get_float` and
`nanocbor_skip` return `END` and leave the cursor as it was.  `nanocbor_get_null`,
`nanocbor_get_undefined` and `nanocbor_get_bool` do so when the buffer is exhausted; but they
test `_over_end` only: in the body of the array `81 F6` followed by a second `F6`, after the
one item is read `nanocbor_at_end` holds, and `nanocbor_get_null` still returns `OK` and moves
the cursor over the byte behind the array; in the body of `9F FF`, standing on the break
byte, it returns `INVALID_TYPE`. -/
theorem C33_at_end_accessors (cfg : Config) (mem : Mem) (it : nanocbor_value_t)
    (hd : _packed_enabled it = false) (hr : cfg.NANOCBOR_RECURSION_MAX % 256 ≠ 0)
    (he : nanocbor_at_end mem it = true) :
    (∀ k,
      (nanocbor_get_uint8 cfg mem (k + 3) it 0).map (fun r => (r.1, r.2.1)) =
        some (NANOCBOR_ERR_END, it) ∧
      (nanocbor_get_uint16 cfg mem (k + 3) it).map (fun r => (r.1, r.2.1)) =
        some (NANOCBOR_ERR_END, it) ∧
      (nanocbor_get_uint32 cfg mem (k + 3) it).map (fun r => (r.1, r.2.1)) =
        some (NANOCBOR_ERR_END, it) ∧
      (nanocbor_get_uint64 cfg mem (k + 3) it).map (fun r => (r.1, r.2.1)) =
        some (NANOCBOR_ERR_END, it) ∧
      (nanocbor_get_int8 cfg mem (k + 3) it).map (fun r => (r.1, r.2.1)) =
        some (NANOCBOR_ERR_END, it) ∧
      (nanocbor_get_int16 cfg mem (k + 3) it).map (fun r => (r.1, r.2.1)) =
        some (NANOCBOR_ERR_END, it) ∧
      (nanocbor_get_int32 cfg mem (k + 3) it).map (fun r => (r.1, r.2.1)) =
        some (NANOCBOR_ERR_END, it) ∧
      (nanocbor_get_int64 cfg mem (k + 3) it 0).map (fun r => (r.1, r.2.1)) =
        some (NANOCBOR_ERR_END, it) ∧
      (nanocbor_get_bstr cfg mem (k + 3) it 0 0).map (fun r => (r.1, r.2.1)) =
        some (NANOCBOR_ERR_END, it) ∧
      (nanocbor_get_tstr cfg mem (k + 3) it 0 0).map (fun r => (r.1, r.2.1)) =
        some (NANOCBOR_ERR_END, it) ∧
      (nanocbor_get_tag cfg mem (k + 3) it 0).map (fun r => (r.1, r.2.1)) =
        some (NANOCBOR_ERR_END, it) ∧
      (nanocbor_get_simple cfg mem (k + 3) it 0).map (fun r => (r.1, r.2.1)) =
        some (NANOCBOR_ERR_END, it) ∧
      nanocbor_get_float cfg mem (k + 3) it = some (NANOCBOR_ERR_END, it) ∧
      nanocbor_skip cfg mem (k + 3) it = some (NANOCBOR_ERR_END, it)) ∧
    (_over_end it = true → ∀ k,
      nanocbor_get_null cfg mem (k + 3) it = some (NANOCBOR_ERR_END, it) ∧
      nanocbor_get_undefined cfg mem (k + 3) it = some (NANOCBOR_ERR_END, it) ∧
      (nanocbor_get_bool cfg mem (k + 3) it false).map (fun r => (r.1, r.2.1)) =
        some (NANOCBOR_ERR_END, it)) ∧
    (_packed_enabled (⟨18, 19, 0, 1, zero_tables defaultConfig, 0⟩ : nanocbor_value_t) = false ∧
      nanocbor_at_end (mem_of 16 [0x81, 0xF6, 0xF6])
        ⟨18, 19, 0, 1, zero_tables defaultConfig, 0⟩ = true ∧
      nanocbor_get_null defaultConfig (mem_of 16 [0x81, 0xF6, 0xF6]) 3
          ⟨18, 19, 0, 1, zero_tables defaultConfig, 0⟩ =
        some (NANOCBOR_OK, ⟨19, 19, 2 ^ 64 - 1, 1, zero_tables defaultConfig, 0⟩) ∧
      nanocbor_at_end (mem_of 16 [0x9F, 0xFF])
        ⟨17, 18, 0, 3, zero_tables defaultConfig, 0⟩ = true ∧
      nanocbor_get_null defaultConfig (mem_of 16 [0x9F, 0xFF]) 3
          ⟨17, 18, 0, 3, zero_tables defaultConfig, 0⟩ =
        some (NANOCBOR_ERR_INVALID_TYPE, ⟨17, 18, 0, 3, zero_tables defaultConfig, 0⟩)) :=
  ⟨at_end_accessors cfg mem it hd hr he, at_end_exact cfg mem it hd hr,
    by decide, by decide, by decide, by decide, by decide⟩

/-- Witness of C33: the body of the empty array `80`, followed by the byte `F6`, is a cursor
without packed support that is at its end while a byte is left in the buffer. -/
theorem C33_at_end_accessors_witness :
    nanocbor_at_end (mem_of 16 [0x80, 0xF6]) ⟨17, 18, 0, 1, zero_tables defaultConfig, 0⟩ =
      true ∧
    _over_end (⟨17, 18, 0, 1, zero_tables defaultConfig, 0⟩ : nanocbor_value_t) = false ∧
    nanocbor_get_uint8 defaultConfig (mem_of 16 [0x80, 0xF6]) 3
      ⟨17, 18, 0, 1, zero_tables defaultConfig, 0⟩ 0 =
        some (NANOCBOR_ERR_END, ⟨17, 18, 0, 1, zero_tables defaultConfig, 0⟩, 0) ∧
    nanocbor_skip defaultConfig (mem_of 16 [0x80, 0xF6]) 3
      ⟨17, 18, 0, 1, zero_tables defaultConfig, 0⟩ =
        some (NANOCBOR_ERR_END, ⟨17, 18, 0, 1, zero_tables defaultConfig, 0⟩) ∧
    nanocbor_get_null defaultConfig (mem_of 16 [0x80, 0xF6]) 3
      ⟨17, 18, 0, 1, zero_tables defaultConfig, 0⟩ =
        some (NANOCBOR_OK, ⟨18, 18, 2 ^ 64 - 1, 1, zero_tables defaultConfig, 0⟩) :=
  ⟨by decide, by decide, by decide,
    ((C33_at_end_accessors defaultConfig (mem_of 16 [0x80, 0xF6])
      ⟨17, 18, 0, 1, zero_tables defaultConfig, 0⟩ (by decide) (by decide) (by decide)).1
      0).2.2.2.2.2.2.2.2.2.2.2.2.2,
    by decide⟩

/-- The cursors used above are the ones the decoder produces: `nanocbor_enter_array` on
`80 F6`, and on `81 F6 F6` followed by one `nanocbor_get_null`. -/
theorem C33_cursors :
    nanocbor_enter_array defaultConfig (mem_of 16 [0x80, 0xF6]) 4
        (nanocbor_decoder_init defaultConfig (stack_value defaultConfig) 16 2)
        (stack_value defaultConfig) =
      some (NANOCBOR_OK, ⟨17, 18, 0, 1, zero_tables defaultConfig, 0⟩) ∧
    ((nanocbor_enter_array defaultConfig (mem_of 16 [0x81, 0xF6, 0xF6]) 4
        (nanocbor_decoder_init defaultConfig (stack_value defaultConfig) 16 3)
        (stack_value defaultConfig)).bind fun a =>
      nanocbor_get_null defaultConfig (mem_of 16 [0x81, 0xF6, 0xF6]) 3 a.2) =
      some (NANOCBOR_OK, ⟨18, 19, 0, 1, zero_tables defaultConfig, 0⟩) := by
  decide


/-! ## C31: half-precision floats -/

theorem and_shiftLeft_mask (x m s : Nat) : x &&& (m <<< s) = ((x >>> s) &&& m) <<< s := by
  apply Nat.eq_of_testBit_eq
  intro i
  simp only [Nat.testBit_and, Nat.testBit_shiftLeft, Nat.testBit_shiftRight]
  by_cases h : s ≤ i
  · simp [h, Nat.add_sub_cancel' h]
  · simp [h]

theorem half_fields (x : Nat) (hx : x < 2 ^ 16) :
    x &&& 32768 = x / 2 ^ 15 * 2 ^ 15 ∧ x &&& 31744 = x / 2 ^ 10 % 32 * 2 ^ 10 ∧
      x &&& 1023 = x % 2 ^ 10 := by
  have h1 := and_shiftLeft_mask x 1 15
  have h2 := and_shiftLeft_mask x 31 10
  have a2 := Nat.and_pow_two_sub_one_eq_mod (x >>> 10) 5
  have a3 := Nat.and_pow_two_sub_one_eq_mod x 10
  simp only [Nat.shiftRight_eq_div_pow, Nat.shiftLeft_eq] at h1 h2 a2
  norm_num at h1 h2 a2 a3
  refine ⟨?_, ?_, ?_⟩
  · rw [h1]
    have : x / 32768 < 2 := by omega
    rw [Nat.mod_eq_of_lt this]
    norm_num
  · rw [h2, a2]
    norm_num
  · rw [a3]
    norm_num

theorem half_to_float_bits (x : Nat) (hx : x < 2 ^ 16) (he : x / 2 ^ 10 % 32 ≠ 0) :
    half_to_float x =
      x / 2 ^ 15 * 2 ^ 31 +
        (if x / 2 ^ 10 % 32 = 31 then 255 else x / 2 ^ 10 % 32 + 112) * 2 ^ 23 +
        x % 2 ^ 10 * 2 ^ 13 := by
  obtain ⟨h1, h2, h3⟩ := half_fields x hx
  have hs : x / 2 ^ 15 < 2 := by omega
  have hf : x % 2 ^ 10 < 2 ^ 10 := Nat.mod_lt _ (by norm_num)
  have hE : x / 2 ^ 10 % 32 < 32 := Nat.mod_lt _ (by norm_num)
  unfold half_to_float
  simp only [HALF_SIGN_MASK, HALF_SIGN_POS, FLOAT_SIGN_POS, HALF_FRAC_MASK, HALF_EXP_MASK,
    HALF_EXP_POS, FLOAT_EXP_MASK, HALF_FLOAT_EXP_DIFF, FLOAT_EXP_OFFSET, HALF_EXP_OFFSET,
    HALF_EXP_TO_FLOAT, HALF_FLOAT_EXP_POS_DIFF, FLOAT_EXP_POS]
  norm_num only [Nat.shiftLeft_eq]
  rw [h1, h2, h3]
  generalize x / 2 ^ 15 = s at hs ⊢
  generalize x % 2 ^ 10 = f at hf ⊢
  generalize x / 2 ^ 10 % 32 = e at he hE ⊢
  have e1 : e * 2 ^ 10 % 4294967296 = e * 2 ^ 10 := Nat.mod_eq_of_lt (by omega)
  have e2 : f % 4294967296 = f := Nat.mod_eq_of_lt (by omega)
  have e3 : f * 8192 % 4294967296 = f * 8192 := Nat.mod_eq_of_lt (by omega)
  have e4 : s * 2 ^ 15 * 65536 % 4294967296 = 2 ^ 31 * s := by omega
  have e0 : ¬ (e * 2 ^ 10 = 0) := by omega
  have o1 := Nat.mul_add_lt_is_or (show f * 8192 < 2 ^ 23 by omega)
    (if e = 31 then 255 else e + 112)
  have o2 := Nat.mul_add_lt_is_or
    (show 2 ^ 23 * (if e = 31 then 255 else e + 112) + f * 8192 < 2 ^ 31 by
      split <;> omega) s
  have e5 : ((if e * 2 ^ 10 = 31744 then 146432 else e * 2 ^ 10) + 114688) % 4294967296 *
      8192 % 4294967296 = 2 ^ 23 * (if e = 31 then 255 else e + 112) := by
    by_cases h31 : e = 31
    · subst h31
      norm_num
    · have : ¬ (e * 2 ^ 10 = 31744) := by omega
      rw [if_neg this, if_neg h31]
      omega
  rw [e1, e2, e3, e4, if_neg e0, e5, ← o1, ← o2]
  ring

theorem half_head (mem : Mem) (it : nanocbor_value_t)
    (hne : nanocbor_at_end mem it = false) (hb : byteAt mem it.cur = 0xF9)
    (hin : it.cur + 3 ≤ it.end_) :
    _get_uint64 mem it 0 NANOCBOR_SIZE_SHORT NANOCBOR_TYPE_FLOAT =
      (3, byteAt mem (it.cur + 1) * 256 + byteAt mem (it.cur + 2)) := by
  have h := get_uint64_head mem it 0 NANOCBOR_SIZE_SHORT 7 hne (by rw [hb]) (by rw [hb]; decide)
    (by rw [hb]; decide) (by rw [hb]; exact hin)
  have ha : head_arg mem it.cur = byteAt mem (it.cur + 1) * 256 + byteAt mem (it.cur + 2) := by
    unfold head_arg
    rw [hb]
    simp [be_uint]
  rw [hb, ha] at h
  exact h

theorem half_handle (cfg : Config) (mem : Mem) (it : nanocbor_value_t)
    (hr : cfg.NANOCBOR_RECURSION_MAX % 256 ≠ 0)
    (hr1 : _packed_enabled it = true → cfg.NANOCBOR_RECURSION_MAX % 256 ≠ 1)
    (hp : ¬ PackedItemAt cfg mem it) (k : Nat) :
    _PACKED_HANDLE_LIMITED cfg mem (k + 2) it = some ⟨none, false, it, stack_value cfg⟩ := by
  cases hen : _packed_enabled it with
  | false => exact PACKED_HANDLE_LIMITED_disabled cfg mem k it hen hr
  | true =>
    have hm256 : cfg.NANOCBOR_RECURSION_MAX % 256 < 256 := Nat.mod_lt _ (by decide)
    have hd := dec8_eq (cfg.NANOCBOR_RECURSION_MAX % 256) hr hm256
    have h1 := hr1 hen
    exact PACKED_HANDLE_no_item_total cfg mem k it (stack_value cfg) _ hr (by omega) hp

/-- C31. Let the cursor `it`, not at its end, stand on a half-precision item `F9 hh ll` that
lies inside the buffer, with argument `x = 256 * hh + ll` whose exponent field
`x / 2^10 % 32` is not zero (the recursion bound being at least 1, and at least 2 for a
cursor with packed support).  Then `nanocbor_get_float` returns 3, the number of bytes read,
which is a success; the cursor has advanced by 3 bytes, one item counted off; and the `float`
written has the bits `s * 2^31 + E * 2^23 + f * 2^13` with the sign `s = x / 2^15`, the
bit 15 of `x`, the exponent field `E` equal to 255 when the half exponent is 31 and to the
half exponent plus 112 otherwise, and the fraction `f * 2^13 = (x % 2^10) * 2^13`. -/
theorem C31_half_float (cfg : Config) (mem : Mem) (it : nanocbor_value_t) (value : Nat)
    (hr : cfg.NANOCBOR_RECURSION_MAX % 256 ≠ 0)
    (hr1 : _packed_enabled it = true → cfg.NANOCBOR_RECURSION_MAX % 256 ≠ 1)
    (hne : nanocbor_at_end mem it = false) (hb : byteAt mem it.cur = 0xF9)
    (hin : it.cur + 3 ≤ it.end_)
    (hexp : (byteAt mem (it.cur + 1) * 256 + byteAt mem (it.cur + 2)) / 2 ^ 10 % 32 ≠ 0) :
    ∀ k,
      nanocbor_get_float cfg mem (k + 2) it =
        some (3, { it with cur := it.cur + 3, remaining := dec64 it.remaining }) ∧
      nanocbor_get_float_value cfg mem (k + 2) it value =
        some ((byteAt mem (it.cur + 1) * 256 + byteAt mem (it.cur + 2)) / 2 ^ 15 * 2 ^ 31 +
          (if (byteAt mem (it.cur + 1) * 256 + byteAt mem (it.cur + 2)) / 2 ^ 10 % 32 = 31
            then 255
            else (byteAt mem (it.cur + 1) * 256 + byteAt mem (it.cur + 2)) / 2 ^ 10 % 32 + 112) *
            2 ^ 23 +
          (byteAt mem (it.cur + 1) * 256 + byteAt mem (it.cur + 2)) % 2 ^ 10 * 2 ^ 13) := by
  intro k
  have hty : __get_type mem it = NANOCBOR_TYPE_FLOAT := by
    rw [get_type_of_not_at_end mem it hne, hb]
    rfl
  have hp : ¬ PackedItemAt cfg mem it := by
    unfold PackedItemAt
    rw [hty, hb]
    rintro (h | h)
    · exact absurd h.1 (by decide)
    · exact absurd h.2 (by decide)
  have hh := half_handle cfg mem it hr hr1 hp k
  have hg := half_head mem it hne hb hin
  have hx : byteAt mem (it.cur + 1) * 256 + byteAt mem (it.cur + 2) < 2 ^ 16 := by
    have h1 := byteAt_lt mem (it.cur + 1)
    have h2 := byteAt_lt mem (it.cur + 2)
    omega
  have hdh : _decode_half_float mem it =
      (3, { it with cur := it.cur + 3, remaining := dec64 it.remaining }) := by
    simp [_decode_half_float, hg, _advance_if, _advance]
  refine ⟨?_, ?_⟩
  · simp [nanocbor_get_float, hh, HandleOut.it, hdh]
  · have h3 : ¬ ((3 : Int) < 0) := by decide
    have h12 : (3 : Int) = 1 + 2 := by decide
    simp only [nanocbor_get_float_value, hh, HandleOut.it, Bool.false_eq_true, if_false]
    rw [hdh]
    have h3b : ¬ ((1 : Int) + 2 < 0) := by decide
    simp only [_decode_half_float_value, hg, h3, h3b, if_false, h12, if_true]
    rw [half_to_float_bits _ hx hexp]

/-- Witness of C31: `F9 3C 00` gives the bits `0x3F800000` (1.0), `F9 7C 00` gives
`0x7F800000` (plus infinity) and `F9 FC 00` gives `0xFF800000` (minus infinity); each call
returns 3 and leaves the cursor at the end of the three bytes. -/
theorem C31_half_float_witness :
    (nanocbor_get_float defaultConfig (mem_of 16 [0xF9, 0x3C, 0x00]) 2
        (nanocbor_decoder_init defaultConfig (stack_value defaultConfig) 16 3) =
        some (3, ⟨19, 19, 2 ^ 64 - 1, 0, zero_tables defaultConfig, 0⟩) ∧
      nanocbor_get_float_value defaultConfig (mem_of 16 [0xF9, 0x3C, 0x00]) 2
        (nanocbor_decoder_init defaultConfig (stack_value defaultConfig) 16 3) 0 =
        some 0x3F800000) ∧
    (nanocbor_get_float defaultConfig (mem_of 16 [0xF9, 0x7C, 0x00]) 2
        (nanocbor_decoder_init defaultConfig (stack_value defaultConfig) 16 3) =
        some (3, ⟨19, 19, 2 ^ 64 - 1, 0, zero_tables defaultConfig, 0⟩) ∧
      nanocbor_get_float_value defaultConfig (mem_of 16 [0xF9, 0x7C, 0x00]) 2
        (nanocbor_decoder_init defaultConfig (stack_value defaultConfig) 16 3) 0 =
        some 0x7F800000) ∧
    (nanocbor_get_float defaultConfig (mem_of 16 [0xF9, 0xFC, 0x00]) 2
        (nanocbor_decoder_init defaultConfig (stack_value defaultConfig) 16 3) =
        some (3, ⟨19, 19, 2 ^ 64 - 1, 0, zero_tables defaultConfig, 0⟩) ∧
      nanocbor_get_float_value defaultConfig (mem_of 16 [0xF9, 0xFC, 0x00]) 2
        (nanocbor_decoder_init defaultConfig (stack_value defaultConfig) 16 3) 0 =
        some 0xFF800000) :=
  ⟨C31_half_float defaultConfig (mem_of 16 [0xF9, 0x3C, 0x00])
      (nanocbor_decoder_init defaultConfig (stack_value defaultConfig) 16 3) 0
      (by decide) (by decide) (by decide) (by decide) (by decide) (by decide) 0,
    C31_half_float defaultConfig (mem_of 16 [0xF9, 0x7C, 0x00])
      (nanocbor_decoder_init defaultConfig (stack_value defaultConfig) 16 3) 0
      (by decide) (by decide) (by decide) (by decide) (by decide) (by decide) 0,
    C31_half_float defaultConfig (mem_of 16 [0xF9, 0xFC, 0x00])
      (nanocbor_decoder_init defaultConfig (stack_value defaultConfig) 16 3) 0
      (by decide) (by decide) (by decide) (by decide) (by decide) (by decide) 0⟩

/-- The branch that C31 leaves out, evaluated: for a zero exponent field the sign is dropped.
`F9 00 01` gives `0x33800000` (`2^(-24)`), and `F9 80 01` gives the same bits although the
half-precision value is negative; `F9 80 00` (minus zero) gives `0`. -/
theorem half_float_zero_exponent :
    nanocbor_get_float_value defaultConfig (mem_of 16 [0xF9, 0x00, 0x01]) 2
        (nanocbor_decoder_init defaultConfig (stack_value defaultConfig) 16 3) 0 =
      some 0x33800000 ∧
    nanocbor_get_float_value defaultConfig (mem_of 16 [0xF9, 0x80, 0x01]) 2
        (nanocbor_decoder_init defaultConfig (stack_value defaultConfig) 16 3) 0 =
      some 0x33800000 ∧
    nanocbor_get_float_value defaultConfig (mem_of 16 [0xF9, 0x80, 0x00]) 2
        (nanocbor_decoder_init defaultConfig (stack_value defaultConfig) 16 3) 0 =
      some 0 := by
  decide!


/-! ## C32: reading an unsigned integer through a reference -/

theorem packed_handle_no_item_any (cfg : Config) (mem : Mem) (k : Nat) (same : Bool)
    (it t : nanocbor_value_t) (limit : Nat) (hl : limit ≠ 0)
    (hp : ¬ PackedItemAt cfg mem it) :
    _packed_handle cfg mem (k + 1) same it t limit = some (NANOCBOR_NOT_FOUND, it, t) := by
  rw [_packed_handle]
  unfold PackedItemAt at hp
  by_cases he : _packed_enabled it = true
  · simp only [he, not_true_eq_false, if_false, hl]
    by_cases ht : __get_type mem it = NANOCBOR_TYPE_TAG
    · simp only [ht, if_true]
      by_cases hneg : (_get_uint64 mem it 0 NANOCBOR_SIZE_WORD NANOCBOR_TYPE_TAG).1 < 0
      · simp only [hneg, if_true]
      · have hge : (_get_uint64 mem it 0 NANOCBOR_SIZE_WORD NANOCBOR_TYPE_TAG).1 ≥ 0 := by
          omega
        have h1 : ¬ (_get_uint64 mem it 0 NANOCBOR_SIZE_WORD NANOCBOR_TYPE_TAG).2 =
            cfg.NANOCBOR_TAG_PACKED_TABLE := fun hx => hp (Or.inl ⟨ht, hge, Or.inl hx⟩)
        have h2 : ¬ (_get_uint64 mem it 0 NANOCBOR_SIZE_WORD NANOCBOR_TYPE_TAG).2 =
            cfg.NANOCBOR_TAG_PACKED_REF_SHARED := fun hx => hp (Or.inl ⟨ht, hge, Or.inr hx⟩)
        simp only [hneg, h1, h2, if_false]
    · simp only [ht, if_false]
      by_cases hf : __get_type mem it = NANOCBOR_TYPE_FLOAT
      · have h1 : ¬ (byteAt mem it.cur &&& NANOCBOR_VALUE_MASK < 16) :=
          fun hx => hp (Or.inr ⟨hf, hx⟩)
        simp only [hf, h1, if_true, if_false]
      · have h0 : ¬ (NANOCBOR_NOT_FOUND = NANOCBOR_OK) := by decide
        simp only [hf, if_false, h0]
  · simp [he]

theorem int_not_packed_item (cfg : Config) (mem : Mem) (c : nanocbor_value_t)
    (hne : nanocbor_at_end mem c = false) (hm : byteAt mem c.cur / 32 ≤ 1) :
    ¬ PackedItemAt cfg mem c := by
  have hb := byteAt_lt mem c.cur
  unfold PackedItemAt
  rw [get_type_of_not_at_end mem c hne]
  simp only [NANOCBOR_TYPE_TAG, NANOCBOR_TYPE_FLOAT]
  rintro (h | h)
  · have := h.1
    omega
  · have := h.1
    omega

theorem uint_entry_read (mem : Mem) (t2 : nanocbor_value_t) (e d : Nat) (cfg : Config)
    (hne : nanocbor_at_end mem t2 = false) (hm : byteAt mem t2.cur / 32 = 0)
    (hi : byteAt mem t2.cur % 32 ≤ 24) (hitem : ItemAt cfg mem d t2.cur e)
    (hin : t2.cur + e ≤ t2.end_) :
    _get_uint64 mem t2 0 NANOCBOR_SIZE_BYTE NANOCBOR_TYPE_UINT =
      (((head_len (byteAt mem t2.cur % 32) : Nat) : Int), head_arg mem t2.cur) ∧
    head_arg mem t2.cur < 256 := by
  have hlen : e = head_len (byteAt mem t2.cur % 32) := by
    cases d with
    | zero =>
      obtain ⟨_, h | h⟩ := hitem
      · exact h.2
      · rcases h.1 with h1 | h1 <;> omega
    | succ d =>
      have hb := byteAt_lt mem t2.cur
      rcases hitem with h | h | h | h | h
      · obtain ⟨_, h | h⟩ := h
        · exact h.2
        · rcases h.1 with h1 | h1 <;> omega
      · have := h.1; omega
      · have := h.1; omega
      · have := h.1; omega
      · rcases h.1 with h1 | h1 <;> rw [h1] at hm <;> exact absurd hm (by decide)
  refine ⟨?_, ?_⟩
  · exact get_uint64_head mem t2 0 NANOCBOR_SIZE_BYTE 0 hne hm (by omega)
      (fun _ => by simp only [NANOCBOR_SIZE_BYTE]; omega) (by omega)
  · unfold head_arg
    split
    · omega
    · have h24 : byteAt mem t2.cur % 32 = 24 := by omega
      rw [h24]
      have := byteAt_lt mem (t2.cur + 1)
      simp [be_uint]
      omega

theorem follow_reference_entry (cfg : Config) (mem : Mem) (d limit : Nat)
    (ts : List (nanocbor_packed_table × List Nat)) (cvalue target : nanocbor_value_t)
    (idx j a : Nat) (hr : 3 ≤ cfg.NANOCBOR_RECURSION_MAX % 256)
    (h3 : 3 ≤ limit) (h256 : limit < 256) (hd : d < limit)
    (hts : TablesFrom cfg mem d cvalue.shared_item_tables cvalue.num_active_tables 0 ts)
    (hhit : entry_pos mem ts idx = some (j, a)) :
    ∃ (t2 : nanocbor_value_t) (N : Nat),
      t2.cur = a ∧ t2.flags = 5 ∧ nanocbor_at_end mem t2 = false ∧
      (∃ e, ItemAt cfg mem d a e ∧ a + e ≤ t2.end_) ∧
      ∀ fuel, N ≤ fuel →
        _packed_follow_reference cfg mem fuel false cvalue target idx limit =
          some (NANOCBOR_OK, cvalue, t2) := by
  obtain ⟨f1, _⟩ := follow_loop cfg mem d limit false cvalue.shared_item_tables
    cvalue.num_active_tables hr h3 h256 hd ts 0 idx cvalue target rfl hts
  obtain ⟨t2, N, g1, _, _, g4, g5, g6, hN⟩ := f1 j a hhit
  refine ⟨t2, N + 1, g1, g4, g5, g6, fun fuel hf => ?_⟩
  obtain ⟨k, rfl⟩ : ∃ k, fuel = k + 1 := ⟨fuel - 1, by omega⟩
  rw [_packed_follow_reference, hN k (by omega)]
  rfl

theorem packed_handle_short_ref (cfg : Config) (mem : Mem) (it t t2 : nanocbor_value_t)
    (L n N : Nat) (he : _packed_enabled it = true) (hL : L ≠ 0) (hL1 : dec8 L ≠ 0)
    (hty : __get_type mem it = NANOCBOR_TYPE_FLOAT)
    (hs : byteAt mem it.cur &&& NANOCBOR_VALUE_MASK = n) (hn : n < 16)
    (hfol : ∀ fuel, N ≤ fuel →
      _packed_follow_reference cfg mem fuel false (_advance it 1) t n L =
        some (NANOCBOR_OK, _advance it 1, t2))
    (hp2 : ¬ PackedItemAt cfg mem t2) :
    ∀ fuel, N + 2 ≤ fuel →
      _packed_handle cfg mem fuel false it t L = some (NANOCBOR_OK, _advance it 1, t2) := by
  intro fuel hf
  obtain ⟨k, rfl⟩ : ∃ k, fuel = k + 1 + 1 := ⟨fuel - 2, by omega⟩
  have h1 : ¬ (NANOCBOR_TYPE_FLOAT = NANOCBOR_TYPE_TAG) := by decide
  have h2 : ¬ (NANOCBOR_NOT_FOUND < 0 ∧ NANOCBOR_NOT_FOUND ≠ NANOCBOR_NOT_FOUND) := by decide
  rw [_packed_handle]
  simp only [he, not_true_eq_false, if_false, hL, hty, h1, hs, hn, if_true, Bool.false_eq_true,
    hfol (k + 1) (by omega), packed_handle_no_item_any cfg mem k true t2 t2 _ hL1 hp2, h2]

theorem handle_limited_of_ok (cfg : Config) (mem : Mem) (it c t2 : nanocbor_value_t) (N : Nat)
    (hM : cfg.NANOCBOR_RECURSION_MAX % 256 ≠ 0)
    (h : ∀ fuel, N ≤ fuel →
      _packed_handle cfg mem fuel false it (stack_value cfg)
        (dec8 (cfg.NANOCBOR_RECURSION_MAX % 256)) = some (NANOCBOR_OK, c, t2)) :
    ∀ fuel, N + 1 ≤ fuel →
      _PACKED_HANDLE_LIMITED cfg mem fuel it = some ⟨none, true, c, t2⟩ := by
  intro fuel hf
  obtain ⟨k, rfl⟩ : ∃ k, fuel = k + 1 := ⟨fuel - 1, by omega⟩
  rw [_PACKED_HANDLE_LIMITED, _PACKED_HANDLE]
  simp only [hM, if_false, h k (by omega), if_true]

theorem get_uint8_redirected (cfg : Config) (mem : Mem) (fuel : Nat)
    (it c t2 : nanocbor_value_t) (res : Int) (v : Nat)
    (h : _PACKED_HANDLE_LIMITED cfg mem fuel it = some ⟨none, true, c, t2⟩)
    (hread : _get_uint64 mem t2 0 NANOCBOR_SIZE_BYTE NANOCBOR_TYPE_UINT = (res, v))
    (hv : v < 256) :
    nanocbor_get_uint8 cfg mem fuel it 0 = some (res, c, v) := by
  simp [nanocbor_get_uint8, _get_and_advance_uint8, h, HandleOut.it, hread,
    Nat.mod_eq_of_lt hv]

theorem packed_handle_tag_ref (cfg : Config) (mem : Mem) (it t t2 : nanocbor_value_t)
    (L N hl hl2 n : Nat) (m : Int) (he : _packed_enabled it = true) (hL : L ≠ 0)
    (hL1 : dec8 L ≠ 0) (hty : __get_type mem it = NANOCBOR_TYPE_TAG)
    (htag : _get_uint64 mem it 0 NANOCBOR_SIZE_WORD NANOCBOR_TYPE_TAG =
      ((hl : Int), cfg.NANOCBOR_TAG_PACKED_REF_SHARED))
    (hneq : cfg.NANOCBOR_TAG_PACKED_REF_SHARED ≠ cfg.NANOCBOR_TAG_PACKED_TABLE)
    (hp1 : ¬ PackedItemAt cfg mem { it with cur := it.cur + hl })
    (hct : __get_type mem { it with cur := it.cur + hl } = m)
    (hm : m = NANOCBOR_TYPE_UINT ∨ m = NANOCBOR_TYPE_NINT)
    (hint : _get_uint64 mem { it with cur := it.cur + hl } 0 NANOCBOR_SIZE_LONG m =
      ((hl2 : Int), n))
    (hfol : ∀ fuel, N ≤ fuel →
      _packed_follow_reference cfg mem fuel false (_advance { it with cur := it.cur + hl } hl2)
        t (_packed_handle_idx m n) L =
        some (NANOCBOR_OK, _advance { it with cur := it.cur + hl } hl2, t2))
    (hp2 : ¬ PackedItemAt cfg mem t2) :
    ∀ fuel, N + 3 ≤ fuel →
      _packed_handle cfg mem fuel false it t L =
        some (NANOCBOR_OK, _advance { it with cur := it.cur + hl } hl2, t2) := by
  intro fuel hf
  obtain ⟨k, rfl⟩ : ∃ k, fuel = k + 2 + 1 := ⟨fuel - 3, by omega⟩
  have h2 : ¬ (NANOCBOR_NOT_FOUND < 0 ∧ NANOCBOR_NOT_FOUND ≠ NANOCBOR_NOT_FOUND) := by decide
  have hneg : ¬ (((hl : Nat) : Int) < 0) := by omega
  have hneg2 : ¬ (((hl2 : Nat) : Int) < 0) := by omega
  have hmm : ¬ (m ≠ NANOCBOR_TYPE_UINT ∧ m ≠ NANOCBOR_TYPE_NINT) := by
    rcases hm with h | h <;> simp [h]
  have hnest := PACKED_HANDLE_no_item_total cfg mem k { it with cur := it.cur + hl } t L hL hL1
    hp1
  rw [_packed_handle]
  simp only [he, not_true_eq_false, if_false, hL, hty, if_true, htag, hneg, hneq,
    Int.toNat_ofNat, Bool.false_eq_true, hnest, HandleOut.it, Bool.or_self, hct, hmm, hint,
    hneg2, hfol (k + 2) (by omega),
    packed_handle_no_item_any cfg mem (k + 1) true t2 t2 _ hL1 hp2, h2]

theorem get_uint8_through (cfg : Config) (mem : Mem) (d : Nat) (it c : nanocbor_value_t)
    (ts : List (nanocbor_packed_table × List Nat)) (idx j a : Nat)
    (hmax : 4 ≤ cfg.NANOCBOR_RECURSION_MAX % 256)
    (hd : d + 1 < cfg.NANOCBOR_RECURSION_MAX % 256)
    (hts : TablesFrom cfg mem d c.shared_item_tables c.num_active_tables 0 ts)
    (hhit : entry_pos mem ts idx = some (j, a))
    (hm : byteAt mem a / 32 = 0) (hi : byteAt mem a % 32 ≤ 24)
    (hstep : ∀ (t2 : nanocbor_value_t) (N : Nat), ¬ PackedItemAt cfg mem t2 →
      (∀ fuel, N ≤ fuel →
        _packed_follow_reference cfg mem fuel false c (stack_value cfg) idx
          (dec8 (cfg.NANOCBOR_RECURSION_MAX % 256)) = some (NANOCBOR_OK, c, t2)) →
      ∃ N2, ∀ fuel, N2 ≤ fuel →
        _packed_handle cfg mem fuel false it (stack_value cfg)
          (dec8 (cfg.NANOCBOR_RECURSION_MAX % 256)) = some (NANOCBOR_OK, c, t2)) :
    head_arg mem a < 256 ∧
    ∃ N, ∀ fuel, N ≤ fuel →
      nanocbor_get_uint8 cfg mem fuel it 0 =
        some (((head_len (byteAt mem a % 32) : Nat) : Int), c, head_arg mem a) := by
  have hm256 : cfg.NANOCBOR_RECURSION_MAX % 256 < 256 := Nat.mod_lt _ (by decide)
  have hL := dec8_eq (cfg.NANOCBOR_RECURSION_MAX % 256) (by omega) hm256
  obtain ⟨t2, N, g1, _, g3, ⟨e, ge1, ge2⟩, hN⟩ := follow_reference_entry cfg mem d
    (dec8 (cfg.NANOCBOR_RECURSION_MAX % 256)) ts c (stack_value cfg) idx j a (by omega)
    (by omega) (by omega) (by omega) hts hhit
  rw [← g1] at hm hi ge1 ge2
  have hp2 := int_not_packed_item cfg mem t2 g3 (by omega)
  obtain ⟨hread, hv⟩ := uint_entry_read mem t2 e d cfg g3 hm hi ge1 ge2
  rw [g1] at hread hv
  obtain ⟨N2, hN2⟩ := hstep t2 N hp2 hN
  refine ⟨hv, N2 + 1, fun fuel hf => ?_⟩
  exact get_uint8_redirected cfg mem fuel it c t2 _ _
    (handle_limited_of_ok cfg mem it c t2 N2 (by omega) hN2 fuel hf) hread hv

/-- C32 (amended). Let `it` be a cursor with packed support that is not at its end, whose
active tables are the well-formed definite-length arrays `ts` (innermost first) of items
nested at most `d` deep, with `4 <= NANOCBOR_RECURSION_MAX % 256` and
`d + 1 < NANOCBOR_RECURSION_MAX % 256`, and let the entry the reference designates be an
unsigned integer encoded in at most two bytes (argument in the head or in one byte), found at
address `a`.

* Short form: when `it` stands on `simple(n)`, `n < 16`, and entry `n` exists,
  `nanocbor_get_uint8` returns the head length of the entry (a success), stores the value of
  the entry, which is below 256, and leaves the caller's cursor one byte further.
* Tag form: when `it` stands on a tag, its number the shared-reference tag, in front of an
  integer (major type 0 or 1) inside the buffer, and the entry of the index
  `_packed_handle_idx` computes exists, the same holds with the cursor behind the integer.

In both cases `remaining` is counted down once as a 64-bit number (`dec64`: from 0, as in an
indefinite container, it wraps to `2^64 - 1`) and `end`, `flags` and the table set are as
before. -/
theorem C32_reference_uint8 (cfg : Config) (mem : Mem) (d : Nat) (it : nanocbor_value_t)
    (ts : List (nanocbor_packed_table × List Nat))
    (he : _packed_enabled it = true) (hne : nanocbor_at_end mem it = false)
    (hmax : 4 ≤ cfg.NANOCBOR_RECURSION_MAX % 256)
    (hd : d + 1 < cfg.NANOCBOR_RECURSION_MAX % 256)
    (htags : cfg.NANOCBOR_TAG_PACKED_REF_SHARED ≠ cfg.NANOCBOR_TAG_PACKED_TABLE)
    (hts : TablesFrom cfg mem d it.shared_item_tables it.num_active_tables 0 ts) :
    (∀ n j a, n < 16 → byteAt mem it.cur = 0xE0 + n → entry_pos mem ts n = some (j, a) →
      byteAt mem a / 32 = 0 → byteAt mem a % 32 ≤ 24 →
      head_arg mem a < 256 ∧
      ∃ N, ∀ fuel, N ≤ fuel →
        nanocbor_get_uint8 cfg mem fuel it 0 =
          some (((head_len (byteAt mem a % 32) : Nat) : Int),
            { it with cur := it.cur + 1, remaining := dec64 it.remaining },
            head_arg mem a)) ∧
    (∀ c j a, byteAt mem it.cur / 32 = 6 → byteAt mem it.cur % 32 ≤ 26 →
      head_arg mem it.cur = cfg.NANOCBOR_TAG_PACKED_REF_SHARED →
      c = it.cur + head_len (byteAt mem it.cur % 32) →
      byteAt mem c / 32 ≤ 1 → byteAt mem c % 32 ≤ 27 →
      c + head_len (byteAt mem c % 32) ≤ it.end_ →
      entry_pos mem ts (_packed_handle_idx ((byteAt mem c / 32 : Nat) : Int) (head_arg mem c)) =
        some (j, a) →
      byteAt mem a / 32 = 0 → byteAt mem a % 32 ≤ 24 →
      head_arg mem a < 256 ∧
      ∃ N, ∀ fuel, N ≤ fuel →
        nanocbor_get_uint8 cfg mem fuel it 0 =
          some (((head_len (byteAt mem a % 32) : Nat) : Int),
            { it with cur := c + head_len (byteAt mem c % 32),
                      remaining := dec64 it.remaining },
            head_arg mem a)) := by
  have hm256 : cfg.NANOCBOR_RECURSION_MAX % 256 < 256 := Nat.mod_lt _ (by decide)
  have hL := dec8_eq (cfg.NANOCBOR_RECURSION_MAX % 256) (by omega) hm256
  have hL1 := dec8_eq (dec8 (cfg.NANOCBOR_RECURSION_MAX % 256)) (by omega) (by omega)
  have hb := byteAt_lt mem it.cur
  refine ⟨?_, ?_⟩
  · intro n j a hn hbyte hhit hm hi
    have hty : __get_type mem it = NANOCBOR_TYPE_FLOAT := by
      rw [get_type_of_not_at_end mem it hne, hbyte]
      have : (224 + n) / 32 = 7 := by omega
      rw [this]
      rfl
    have hs : byteAt mem it.cur &&& NANOCBOR_VALUE_MASK = n := by
      rw [and_value_mask, hbyte]
      omega
    exact get_uint8_through cfg mem d it (_advance it 1) ts n j a hmax hd hts hhit hm hi
      (fun t2 N hp2 hN => ⟨N + 2, packed_handle_short_ref cfg mem it (stack_value cfg) t2 _ n N
        he (by omega) (by omega) hty hs hn hN hp2⟩)
  · intro c j a hm6 hi6 harg hc hmc hic hin hhit hm hi
    subst hc
    have hlp := head_len_pos (byteAt mem it.cur % 32)
    have hlp2 := head_len_pos
      (byteAt mem (it.cur + head_len (byteAt mem it.cur % 32)) % 32)
    have hbc := byteAt_lt mem (it.cur + head_len (byteAt mem it.cur % 32))
    have hty : __get_type mem it = NANOCBOR_TYPE_TAG := by
      rw [get_type_of_not_at_end mem it hne, hm6]
      rfl
    have htag := get_uint64_head mem it 0 NANOCBOR_SIZE_WORD 6 hne hm6 (by omega)
      (fun _ => by simp only [NANOCBOR_SIZE_WORD]; omega) (by omega)
    rw [harg] at htag
    have hne1 : nanocbor_at_end mem
        { it with cur := it.cur + head_len (byteAt mem it.cur % 32) } = false :=
      at_end_move mem it _ hne (by omega) (by omega)
    have hp1 := int_not_packed_item cfg mem
      { it with cur := it.cur + head_len (byteAt mem it.cur % 32) } hne1 hmc
    have hct : __get_type mem { it with cur := it.cur + head_len (byteAt mem it.cur % 32) } =
        ((byteAt mem (it.cur + head_len (byteAt mem it.cur % 32)) / 32 : Nat) : Int) :=
      get_type_of_not_at_end mem _ hne1
    have hint := get_uint64_head mem
      { it with cur := it.cur + head_len (byteAt mem it.cur % 32) } 0 NANOCBOR_SIZE_LONG
      (byteAt mem (it.cur + head_len (byteAt mem it.cur % 32)) / 32) hne1 rfl hic
      (fun _ => by simp only [NANOCBOR_SIZE_LONG]; exact hic) hin
    have hmm : ((byteAt mem (it.cur + head_len (byteAt mem it.cur % 32)) / 32 : Nat) : Int) =
          NANOCBOR_TYPE_UINT ∨
        ((byteAt mem (it.cur + head_len (byteAt mem it.cur % 32)) / 32 : Nat) : Int) =
          NANOCBOR_TYPE_NINT := by
      have : byteAt mem (it.cur + head_len (byteAt mem it.cur % 32)) / 32 = 0 ∨
          byteAt mem (it.cur + head_len (byteAt mem it.cur % 32)) / 32 = 1 := by omega
      rcases this with h | h <;> rw [h]
      · left; rfl
      · right; rfl
    exact get_uint8_through cfg mem d it
      (_advance { it with cur := it.cur + head_len (byteAt mem it.cur % 32) }
        (head_len (byteAt mem (it.cur + head_len (byteAt mem it.cur % 32)) % 32))) ts _ j a
      hmax hd hts hhit hm hi
      (fun t2 N hp2 hN => ⟨N + 3, packed_handle_tag_ref cfg mem it (stack_value cfg) t2 _ N
        _ _ _ _ he (by omega) (by omega) hty htag htags hp1 hct hmm hint hN hp2⟩)

theorem reference_tables_example :
    TablesFrom defaultConfig (mem_of 16 [0xD8, 0x71, 0x82, 0x81, 0x18, 0x2A, 0x81, 0xE0]) 0
      [⟨19, 3⟩, ⟨0, 0⟩, ⟨0, 0⟩, ⟨0, 0⟩] 1 0 [(⟨19, 3⟩, [2])] ∧
    TablesFrom defaultConfig
      (mem_of 16 [0xD8, 0x71, 0x82, 0x91, 0, 0, 0, 0, 0, 0, 0, 0, 0, 0, 0, 0, 0, 0, 0, 0, 0x18,
        0x2A, 0x81, 0xC6, 0x00]) 0
      [⟨19, 19⟩, ⟨0, 0⟩, ⟨0, 0⟩, ⟨0, 0⟩] 1 0
      [(⟨19, 19⟩, [1, 1, 1, 1, 1, 1, 1, 1, 1, 1, 1, 1, 1, 1, 1, 1, 2])] := by
  refine ⟨⟨rfl, ?_⟩, ⟨rfl, ?_⟩⟩
  · intro j x hx
    match j, hx with
    | 0, hx =>
      simp only [List.get?_cons_zero, Option.some.injEq] at hx
      subst hx
      exact ⟨by decide, by decide, by decide, by decide, by decide, by decide,
        ⟨by unfold ItemAt SimpleItemAt; decide, trivial⟩, by decide⟩
    | j + 1, hx => simp at hx
  · intro j x hx
    match j, hx with
    | 0, hx =>
      simp only [List.get?_cons_zero, Option.some.injEq] at hx
      subst hx
      refine ⟨by decide, by decide, by decide, by decide, by decide, by decide, ?_, by decide⟩
      simp only [ItemsAt]
      refine ⟨?_, ?_, ?_, ?_, ?_, ?_, ?_, ?_, ?_, ?_, ?_, ?_, ?_, ?_, ?_, ?_, ?_, trivial⟩ <;>
        (unfold ItemAt SimpleItemAt; decide)
    | j + 1, hx => simp at hx

/-- Witness of C32.  In `113([[42], [simple(0)]])` the body of the rump array stands on
`simple(0)`: `nanocbor_get_uint8` returns 2, stores 42 and leaves the cursor one byte further,
at the end of the body.  In `113([[0, ..., 0, 42], [6(0)]])`, a table of 17 entries, the body
of the rump array stands on the tag-form reference `6(0)` to entry 16: the accessor returns 2,
stores 42 and leaves the cursor two bytes further. -/
theorem C32_reference_uint8_witness :
    (∃ N, ∀ fuel, N ≤ fuel →
      nanocbor_get_uint8 defaultConfig
          (mem_of 16 [0xD8, 0x71, 0x82, 0x81, 0x18, 0x2A, 0x81, 0xE0]) fuel
          ⟨23, 24, 1, 13, [⟨19, 3⟩, ⟨0, 0⟩, ⟨0, 0⟩, ⟨0, 0⟩], 1⟩ 0 =
        some (2, ⟨24, 24, 0, 13, [⟨19, 3⟩, ⟨0, 0⟩, ⟨0, 0⟩, ⟨0, 0⟩], 1⟩, 42)) ∧
    (∃ N, ∀ fuel, N ≤ fuel →
      nanocbor_get_uint8 defaultConfig
          (mem_of 16 [0xD8, 0x71, 0x82, 0x91, 0, 0, 0, 0, 0, 0, 0, 0, 0, 0, 0, 0, 0, 0, 0, 0,
            0x18, 0x2A, 0x81, 0xC6, 0x00]) fuel
          ⟨39, 41, 1, 13, [⟨19, 19⟩, ⟨0, 0⟩, ⟨0, 0⟩, ⟨0, 0⟩], 1⟩ 0 =
        some (2, ⟨41, 41, 0, 13, [⟨19, 19⟩, ⟨0, 0⟩, ⟨0, 0⟩, ⟨0, 0⟩], 1⟩, 42)) :=
  ⟨((C32_reference_uint8 defaultConfig
      (mem_of 16 [0xD8, 0x71, 0x82, 0x81, 0x18, 0x2A, 0x81, 0xE0]) 0
      ⟨23, 24, 1, 13, [⟨19, 3⟩, ⟨0, 0⟩, ⟨0, 0⟩, ⟨0, 0⟩], 1⟩ [(⟨19, 3⟩, [2])]
      (by decide) (by decide) (by decide) (by decide) (by decide)
      reference_tables_example.1).1 0 0 20 (by decide) (by decide) (by decide) (by decide)
      (by decide)).2,
    ((C32_reference_uint8 defaultConfig
      (mem_of 16 [0xD8, 0x71, 0x82, 0x91, 0, 0, 0, 0, 0, 0, 0, 0, 0, 0, 0, 0, 0, 0, 0, 0, 0x18,
        0x2A, 0x81, 0xC6, 0x00]) 0
      ⟨39, 41, 1, 13, [⟨19, 19⟩, ⟨0, 0⟩, ⟨0, 0⟩, ⟨0, 0⟩], 1⟩
      [(⟨19, 19⟩, [1, 1, 1, 1, 1, 1, 1, 1, 1, 1, 1, 1, 1, 1, 1, 1, 2])]
      (by decide) (by decide) (by decide) (by decide) (by decide)
      reference_tables_example.2).2 40 0 36 (by decide) (by decide) (by decide) rfl (by decide)
      (by decide) (by decide) (by decide) (by decide) (by decide)).2⟩

/-- Counterexample to C32 as stated.  In `113([[5 encoded as 19 00 05], [simple(0)]])` the
body of the rump array stands on a reference to the existing entry 0, the unsigned integer 5:
`nanocbor_get_uint8` returns `OVERFLOW`, the entry having a two-byte argument (and the
caller's cursor has moved over the reference all the same).  With the table
`[[[[[[[[[[0]]]]]]]]], 5]` given to `nanocbor_decoder_init_packed_table` and the rump
`[simple(1)]`, the body of the rump array stands on a reference to the existing entry 1, the
unsigned integer 5: the accessor returns `RECURSION`, entry 0, which has to be skipped, being
nested as deep as the recursion bound allows. -/
theorem C32_counterexample :
    ((nanocbor_enter_array defaultConfig
      (mem_of 16 [0xD8, 0x71, 0x82, 0x81, 0x19, 0x00, 0x05, 0x81, 0xE0]) 30
      (nanocbor_decoder_init_packed defaultConfig (stack_value defaultConfig) 16 9)
      (stack_value defaultConfig)).bind fun a =>
      (nanocbor_get_uint8 defaultConfig
        (mem_of 16 [0xD8, 0x71, 0x82, 0x81, 0x19, 0x00, 0x05, 0x81, 0xE0]) 30 a.2 0).map
        fun r => (a.1, a.2.cur, a.2.num_active_tables, r.1, r.2.1.cur)) =
      some (NANOCBOR_OK, 24, 1, NANOCBOR_ERR_OVERFLOW, 25) ∧
    ((nanocbor_enter_array defaultConfig
      (mem_of 16 [0x82, 0x81, 0x81, 0x81, 0x81, 0x81, 0x81, 0x81, 0x81, 0x81, 0x00, 0x05, 0x81,
        0xE1]) 30
      (nanocbor_decoder_init_packed_table defaultConfig (stack_value defaultConfig) 28 2 16 12)
      (stack_value defaultConfig)).bind fun a =>
      (nanocbor_get_uint8 defaultConfig
        (mem_of 16 [0x82, 0x81, 0x81, 0x81, 0x81, 0x81, 0x81, 0x81, 0x81, 0x81, 0x00, 0x05, 0x81,
          0xE1]) 30 a.2 0).map
        fun r => (a.1, a.2.cur, a.2.num_active_tables, r.1)) =
      some (NANOCBOR_OK, 29, 1, NANOCBOR_ERR_RECURSION) := by
  exact ⟨by decide!, by decide!⟩

end NanoCBOR
